import Mathlib

/-!
# golang-fhir-client: the resource (de)serialization layer and its callers

A verification development for `pkg/models` (`base.go`, `patient.go`, `mapper.go`),
`pkg/operations/http.go`, `pkg/search` (`parameters.go`, `builder.go`),
`pkg/version/version.go` and `pkg/mapper/mapper.go`.

The repository's code is embedded function by function: `NewPatient`,
`Patient.MarshalJSON`, `Patient.UnmarshalJSON`, `NewResourceMapper`,
`RegisterResource`, `UnmarshalResource`, `MarshalResource`, `UnmarshalBundle`,
`GetTypedResource`, `GetTypedResources`, `Bundle.GetTypedResource`, `doRequest`,
`buildURL` and the operations of `HTTPOperation`, the helpers of `search.Parameters`,
the methods of `search.Builder`, `NewVersionManager`, and `NewMapper`, `MapResource`,
`CanMap` and `GetMappingPath` of the version mapper.  The struct declarations of
`base.go` and `patient.go` are embedded as field tables that repeat each field's Go
name, JSON key and `omitempty` flag.

The Go standard library is not part of the repository.  It is modelled as follows.

* `encoding/json` is modelled on JSON syntax trees (`JSON`): a `[]byte` payload is
  `Bytes.text j` when it scans as the JSON text `j`, and `Bytes.invalid`, `Bytes.empty`
  or `Bytes.null` (the nil slice) otherwise.  Whitespace and the spelling of string
  escapes are therefore not part of a payload.  The reflective encoder and decoder are
  the combinators on `GoType`; they follow `encode.go` and `decode.go`: key matching is
  exact first and case-folded second, a type mismatch is saved and decoding continues,
  an error of an `Unmarshaler` aborts, `omitempty` drops empty values.  A slice value
  has no capacity: an array is decoded into the elements the slice has and into zero
  elements beyond them.  This is what Go does unless one slice is decoded into three
  times, by an object that names one member three times; `JSON.uniqueKeys` says of a
  payload that no object in it repeats a member name.
* `time.Time` is observed through its accessors: the civil reading in its own zone and
  the zone offset.  `time.Parse` and `Time.Format` are modelled for the three layouts
  the program uses.
* `strconv` float conversions are a parameter (`Strconv`) with the round-trip law of
  its documentation; no theorem depends on how a float is rounded.
* `net/http` is a parameter: a client is the outcome of its method `Do` on a request,
  and a response is its status code and the outcome of reading its body.
* `net/url`: a `url.Values` is the list of its keys with their values, and `Encode` is
  modelled on strings that are valid UTF-8.
-/

namespace FhirClient

/-! ## JSON syntax trees -/

/-- A JSON number literal: sign, integer part, fraction digits, exponent. -/
structure JNumber where
  neg : Bool
  int : Nat
  frac : List Nat
  exp : Option Int
deriving DecidableEq, Repr

/-- A JSON text as a syntax tree; object members keep their order and duplicates. -/
inductive JSON where
  | null
  | bool (b : Bool)
  | num (n : JNumber)
  | str (s : String)
  | arr (xs : List JSON)
  | obj (ms : List (String × JSON))
deriving Repr

/-- A byte slice handed to or produced by `encoding/json`. -/
inductive Bytes where
  | null
  | empty
  | invalid
  | text (j : JSON)
deriving Repr

/-- The test `data == nil` on a byte slice. -/
def Bytes.isNil : Bytes → Bool
  | .null => true
  | _ => false

/-- The length test `len(data) == 0` on a byte slice. -/
def Bytes.isEmpty : Bytes → Bool
  | .null => true
  | .empty => true
  | _ => false

/-! ## Errors -/

/-- Go error values, by the place that creates them. -/
inductive Err where
  | syntaxError
  | unmarshalType (value : String) (goType : String)
  | timeParse (layout : String) (value : String)
  | timeNotString
  | unsupportedValue
  | marshaler (goType : String) (msg : String)
  | illTyped
  | errorf (msg : String)
  | wrap (msg : String) (inner : Err)
deriving DecidableEq, Repr

/-! ## Package time -/

namespace time

/-- A `time.Time`: the civil reading in its own zone and the zone offset in seconds. -/
structure Time where
  year : Int
  month : Nat
  day : Nat
  hour : Nat
  minute : Nat
  second : Nat
  nanosecond : Nat
  offset : Int
deriving DecidableEq, Repr

/-- The layouts the program and `Time.MarshalJSON` use. -/
inductive Layout where
  | dateOnly
  | RFC3339
  | RFC3339Nano
deriving DecidableEq, Repr

/-- The layout strings of package time. -/
def Layout.text : Layout → String
  | .dateOnly => "2006-01-02"
  | .RFC3339 => "2006-01-02T15:04:05Z07:00"
  | .RFC3339Nano => "2006-01-02T15:04:05.999999999Z07:00"

/-- The zero `time.Time`, January 1 of year 1, 00:00:00 UTC. -/
def zeroTime : Time := ⟨1, 1, 1, 0, 0, 0, 0, 0⟩

/-- The function `time.Date(y, m, d, 0, 0, 0, 0, time.UTC)` on a valid date. -/
def dateUTC (y : Int) (m d : Nat) : Time := ⟨y, m, d, 0, 0, 0, 0, 0⟩

def isLeap (year : Int) : Bool :=
  year % 4 == 0 && (year % 100 != 0 || year % 400 == 0)

def daysIn (month : Nat) (year : Int) : Nat :=
  if month == 2 && isLeap year then 29
  else match month with
    | 1 => 31 | 2 => 28 | 3 => 31 | 4 => 30 | 5 => 31 | 6 => 30
    | 7 => 31 | 8 => 31 | 9 => 30 | 10 => 31 | 11 => 30 | 12 => 31
    | _ => 0

/-- A `Time` is a reading of a real clock: every field within its calendar range. -/
def Time.valid (t : Time) : Bool :=
  decide (1 ≤ t.month) && decide (t.month ≤ 12) && decide (1 ≤ t.day)
    && decide (t.day ≤ daysIn t.month t.year)
    && decide (t.hour < 24) && decide (t.minute < 60) && decide (t.second < 60)
    && decide (t.nanosecond < 1000000000)

def digitVal (c : Char) : Nat := c.toNat - 48

def digitChar (n : Nat) : Char := Char.ofNat (48 + n % 10)

/-- The value of a run of decimal digits. -/
def digitsVal (ds : List Char) : Nat :=
  ds.foldl (fun acc c => acc * 10 + digitVal c) 0

/-- The function `getnum`: one or two digits, exactly two when `fixed`. -/
def getnum (s : List Char) (fixed : Bool) : Option (Nat × List Char) :=
  match s with
  | c0 :: rest =>
    if !c0.isDigit then none
    else match rest with
      | c1 :: rest1 =>
        if c1.isDigit then some (digitVal c0 * 10 + digitVal c1, rest1)
        else if fixed then none
        else some (digitVal c0, rest)
      | [] => if fixed then none else some (digitVal c0, rest)
  | [] => none

/-- A literal character of the layout must be next in the value. -/
def expect (c : Char) (s : List Char) : Option (List Char) :=
  match s with
  | d :: rest => if d == c then some rest else none
  | [] => none

/-- The element `2006`: exactly four digits. -/
def getYear (s : List Char) : Option (Int × List Char) :=
  match s with
  | y0 :: y1 :: y2 :: y3 :: rest =>
    if y0.isDigit && y1.isDigit && y2.isDigit && y3.isDigit
    then some ((digitsVal [y0, y1, y2, y3] : Nat), rest)
    else none
  | _ => none

/-- The elements `2006-01-02`; the month is range checked at once, the day at the end. -/
def getDate (s : List Char) : Option (Int × Nat × Nat × List Char) := do
  let (year, s) ← getYear s
  let s ← expect '-' s
  let (month, s) ← getnum s true
  let s ← if month == 0 || 12 < month then none else expect '-' s
  let (day, s) ← getnum s true
  pure (year, month, day, s)

/-- A fractional second that the layout does not ask for is accepted after the
seconds: a period or comma and digits, of which nine count. -/
def getFraction (s : List Char) : Nat × List Char :=
  match s with
  | sep :: d :: rest =>
    if (sep == '.' || sep == ',') && d.isDigit then
      let ds := (d :: rest).takeWhile Char.isDigit
      let ds9 := ds.take 9
      (digitsVal ds9 * 10 ^ (9 - ds9.length), (d :: rest).dropWhile Char.isDigit)
    else (0, s)
  | _ => (0, s)

/-- The element `Z07:00`: `Z`, or a sign, two digits, a colon and two digits. -/
def getZone (s : List Char) : Option (Int × List Char) :=
  match s with
  | 'Z' :: rest => some (0, rest)
  | sign :: h1 :: h2 :: colon :: m1 :: m2 :: rest =>
    if colon != ':' then none
    else match getnum [h1, h2] true, getnum [m1, m2] true with
      | some (hr, _), some (mm, _) =>
        if 24 < hr || 60 < mm then none
        else if sign == '+' then some ((((hr * 60 + mm) * 60 : Nat) : Int), rest)
        else if sign == '-' then some (-(((hr * 60 + mm) * 60 : Nat) : Int), rest)
        else none
      | _, _ => none
  | _ => none

/-- The elements `T15:04:05Z07:00` after a date. -/
def getClock (s : List Char) : Option (Nat × Nat × Nat × Nat × Int × List Char) := do
  let s ← expect 'T' s
  let (hour, s) ← getnum s false
  let s ← if 24 ≤ hour then none else expect ':' s
  let (minute, s) ← getnum s true
  let s ← if 60 ≤ minute then none else expect ':' s
  let (second, s) ← getnum s true
  let (nsec, s) ← if 60 ≤ second then none else some (getFraction s)
  let (offset, s) ← getZone s
  pure (hour, minute, second, nsec, offset, s)

/-- The parser of `time.Parse` for the layouts `2006-01-02` and `time.RFC3339`: the
elements in order, no text after them, and a day that the month has. -/
def parse (layout : Layout) (value : List Char) : Option Time :=
  match layout with
  | .dateOnly => do
    let (year, month, day, s) ← getDate value
    if s.isEmpty && decide (1 ≤ day) && decide (day ≤ daysIn month year)
    then pure (dateUTC year month day) else none
  | _ => do
    let (year, month, day, s) ← getDate value
    let (hour, minute, second, nsec, offset, s) ← getClock s
    if s.isEmpty && decide (1 ≤ day) && decide (day ≤ daysIn month year)
    then pure ⟨year, month, day, hour, minute, second, nsec, offset⟩ else none

/-- The function `time.Parse(layout, value)`. -/
def Parse (layout : Layout) (value : String) : Except Err Time :=
  match parse layout value.data with
  | some t => .ok t
  | none => .error (.timeParse layout.text value)

/-- The decimal digits of `n` in exactly `w` places. -/
def fixedDigits : Nat → Nat → List Char
  | 0, _ => []
  | w + 1, n => fixedDigits w (n / 10) ++ [digitChar n]

/-- The function `appendInt`: a sign and the digits, zero padded to `width`. -/
def appendInt (x : Int) (width : Nat) : List Char :=
  (if x < 0 then ['-'] else [])
    ++ (if x.natAbs < 10 ^ width then fixedDigits width x.natAbs
        else Nat.toDigits 10 x.natAbs)

def trimZeros (ds : List Char) : List Char :=
  (ds.reverse.dropWhile (· == '0')).reverse

/-- The element `.999999999`: nothing for a whole second, else the fraction without
trailing zeros. -/
def appendNano (nsec : Nat) : List Char :=
  if nsec == 0 then [] else '.' :: trimZeros (fixedDigits 9 nsec)

/-- The element `Z07:00` of `Format`. -/
def appendZone (offset : Int) : List Char :=
  if offset == 0 then ['Z']
  else
    let zone := offset.natAbs / 60
    (if offset ≤ -60 then ['-'] else ['+'])
      ++ appendInt (zone / 60 : Nat) 2 ++ [':'] ++ appendInt (zone % 60 : Nat) 2

def appendDate (t : Time) : List Char :=
  appendInt t.year 4 ++ ['-'] ++ appendInt t.month 2 ++ ['-'] ++ appendInt t.day 2

def appendClock (t : Time) : List Char :=
  ['T'] ++ appendInt t.hour 2 ++ [':'] ++ appendInt t.minute 2 ++ [':']
    ++ appendInt t.second 2

/-- The method `t.Format(layout)`. -/
def Time.Format (t : Time) (layout : Layout) : String :=
  match layout with
  | .dateOnly => String.mk (appendDate t)
  | .RFC3339 => String.mk (appendDate t ++ appendClock t ++ appendZone t.offset)
  | .RFC3339Nano =>
    String.mk (appendDate t ++ appendClock t ++ appendNano t.nanosecond
      ++ appendZone t.offset)

/-- The method `Time.MarshalJSON`: RFC 3339 with nanoseconds; a year outside
[0,9999] or a zone hour outside [0,23] is an error. -/
def Time.MarshalJSON (t : Time) : Except Err String :=
  if t.year < 0 || 9999 < t.year then
    .error (.marshaler "time.Time" "Time.MarshalJSON: year outside of range [0,9999]")
  else if 24 ≤ t.offset.natAbs / 60 / 60 then
    .error (.marshaler "time.Time"
      "Time.MarshalJSON: timezone hour outside of range [0,23]")
  else .ok (t.Format .RFC3339Nano)

/-- The method `Time.UnmarshalJSON` on the content of a JSON string. -/
def Time.UnmarshalJSON (s : String) : Except Err Time :=
  Parse .RFC3339 s

end time

/-! ## Package strconv -/

/-- A float64 value, by its IEEE 754 bit pattern. -/
structure Float64 where
  bits : Nat
deriving DecidableEq, Repr

/-- The float conversions of package strconv as `encoding/json` calls them:
`parseFloat` is `strconv.ParseFloat(s, 64)` on a JSON number literal (`none` when it
reports a range error), `formatFloat` is the float encoder (`none` for NaN and the
infinities).  The law is the documented one: the shortest representation that the
encoder prints parses back to the same value. -/
structure Strconv where
  parseFloat : JNumber → Option Float64
  formatFloat : Float64 → Option JNumber
  roundTrip : ∀ x n, formatFloat x = some n → parseFloat n = some x

/-- An instance that converts the literal `0` and positive zero only. -/
def Strconv.zeroOnly : Strconv where
  parseFloat n := if n = ⟨false, 0, [], none⟩ then some ⟨0⟩ else none
  formatFloat x := if x = ⟨0⟩ then some ⟨false, 0, [], none⟩ else none
  roundTrip := by
    intro x n h
    by_cases hx : x = ⟨0⟩
    · simp [hx] at h
      simp [← h, hx]
    · simp [hx] at h

/-! ## Go values and the reflective JSON codec -/

/-- A Go value as package reflect sees it.  A struct lists its fields by Go name, the
fields promoted from an embedded struct included. -/
inductive Val where
  | string (s : String)
  | bool (b : Bool)
  | int (n : Int)
  | float64 (x : Float64)
  | time (t : time.Time)
  | raw (m : Bytes)
  | nilPtr
  | ptr (v : Val)
  | nilSlice
  | slice (xs : List Val)
  | struct (fs : List (String × Val))
deriving Repr

/-- The outcome of decoding into a value: the value as it is left, the errors saved
by `saveError` in order, and the error that aborted decoding, if one did. -/
structure Dec (α : Type) where
  val : α
  saved : List Err
  abort : Option Err
deriving Repr

/-- The error that `json.Unmarshal` returns: the aborting error, else the first saved. -/
def Dec.err {α : Type} (d : Dec α) : Option Err :=
  match d.abort with
  | some e => some e
  | none => d.saved.head?

/-- A Go type as `encoding/json` treats it. -/
structure GoType where
  name : String
  zero : Val
  isZero : Val → Bool
  isEmptyValue : Val → Bool
  marshal : Val → Except Err JSON
  unmarshal : JSON → Val → Dec Val
  hasType : Val → Bool
  canon : Val → Bool

/-- The field `Value` of an `UnmarshalTypeError`. -/
def JSON.kind : JSON → String
  | .null => "null"
  | .bool _ => "bool"
  | .num _ => "number"
  | .str _ => "string"
  | .arr _ => "array"
  | .obj _ => "object"

/-- A JSON value that does not fit the Go type: the error is saved, the value kept. -/
def mismatch (goType : String) (j : JSON) (v : Val) : Dec Val :=
  ⟨v, [.unmarshalType j.kind goType], none⟩

namespace GoType

/-- A string type (`string`, `ResourceType`, ...). -/
def string (name : String) : GoType where
  name := name
  zero := .string ""
  isZero v := match v with
    | .string s => s == ""
    | _ => false
  isEmptyValue v := match v with
    | .string s => s == ""
    | _ => false
  marshal v := match v with
    | .string s => .ok (.str s)
    | _ => .error .illTyped
  unmarshal j v := match j with
    | .str s => ⟨.string s, [], none⟩
    | .null => ⟨v, [], none⟩
    | _ => mismatch name j v
  hasType v := match v with
    | .string _ => true
    | _ => false
  canon _ := true

def bool : GoType where
  name := "bool"
  zero := .bool false
  isZero v := match v with
    | .bool b => !b
    | _ => false
  isEmptyValue v := match v with
    | .bool b => !b
    | _ => false
  marshal v := match v with
    | .bool b => .ok (.bool b)
    | _ => .error .illTyped
  unmarshal j v := match j with
    | .bool b => ⟨.bool b, [], none⟩
    | .null => ⟨v, [], none⟩
    | _ => mismatch "bool" j v
  hasType v := match v with
    | .bool _ => true
    | _ => false
  canon _ := true

/-- The value that `strconv.ParseInt(s, 10, 64)` gives a JSON number literal. -/
def parseInt (n : JNumber) : Option Int :=
  if n.frac = [] ∧ n.exp = none then
    let v : Int := if n.neg then -(n.int : Int) else n.int
    if -9223372036854775808 ≤ v ∧ v ≤ 9223372036854775807 then some v else none
  else none

def formatInt (n : Int) : JNumber := ⟨decide (n < 0), n.natAbs, [], none⟩

def int : GoType where
  name := "int"
  zero := .int 0
  isZero v := match v with
    | .int n => n == 0
    | _ => false
  isEmptyValue v := match v with
    | .int n => n == 0
    | _ => false
  marshal v := match v with
    | .int n => .ok (.num (formatInt n))
    | _ => .error .illTyped
  unmarshal j v := match j with
    | .num n => match parseInt n with
      | some i => ⟨.int i, [], none⟩
      | none => mismatch "int" j v
    | .null => ⟨v, [], none⟩
    | _ => mismatch "int" j v
  hasType v := match v with
    | .int n => decide (-9223372036854775808 ≤ n ∧ n ≤ 9223372036854775807)
    | _ => false
  canon _ := true

def float64 (sc : Strconv) : GoType where
  name := "float64"
  zero := .float64 ⟨0⟩
  isZero v := match v with
    | .float64 x => x.bits == 0
    | _ => false
  isEmptyValue v := match v with
    | .float64 x => x.bits == 0 || x.bits == 2 ^ 63
    | _ => false
  marshal v := match v with
    | .float64 x => match sc.formatFloat x with
      | some n => .ok (.num n)
      | none => .error .unsupportedValue
    | _ => .error .illTyped
  unmarshal j v := match j with
    | .num n => match sc.parseFloat n with
      | some x => ⟨.float64 x, [], none⟩
      | none => mismatch "float64" j v
    | .null => ⟨v, [], none⟩
    | _ => mismatch "float64" j v
  hasType v := match v with
    | .float64 _ => true
    | _ => false
  canon v := match v with
    | .float64 x => (sc.formatFloat x).isSome
    | _ => false

/-- The type `time.Time`, which has the methods `MarshalJSON` and `UnmarshalJSON`. -/
def time : GoType where
  name := "time.Time"
  zero := .time time.zeroTime
  isZero _ := false
  isEmptyValue _ := false
  marshal v := match v with
    | .time t => match t.MarshalJSON with
      | .ok s => .ok (.str s)
      | .error e => .error e
    | _ => .error .illTyped
  unmarshal j v := match j with
    | .str s => match time.Time.UnmarshalJSON s with
      | .ok t => ⟨.time t, [], none⟩
      | .error e => ⟨v, [], some e⟩
    | .null => ⟨v, [], none⟩
    | _ => ⟨v, [], some .timeNotString⟩
  hasType v := match v with
    | .time t => t.valid
    | _ => false
  canon v := match v with
    | .time t => decide (0 ≤ t.year) && decide (t.year ≤ 9999)
        && decide (t.offset % 60 = 0) && decide (t.offset.natAbs < 86400)
    | _ => false

/-- The type `json.RawMessage`: its `UnmarshalJSON` copies the text, `null` too. -/
def rawMessage : GoType where
  name := "json.RawMessage"
  zero := .raw .null
  isZero v := match v with
    | .raw .null => true
    | _ => false
  isEmptyValue v := match v with
    | .raw m => m.isEmpty
    | _ => false
  marshal v := match v with
    | .raw .null => .ok .null
    | .raw (.text j) => .ok j
    | .raw _ => .error (.marshaler "json.RawMessage" "unexpected end of JSON input")
    | _ => .error .illTyped
  unmarshal j _ := ⟨.raw (.text j), [], none⟩
  hasType v := match v with
    | .raw _ => true
    | _ => false
  canon v := match v with
    | .raw (.text _) => true
    | _ => false

/-- A pointer type: `null` makes it nil, any other JSON value is decoded into the
pointee, which is allocated when the pointer is nil. -/
def ptr (elem : GoType) : GoType where
  name := elem.name
  zero := .nilPtr
  isZero v := match v with
    | .nilPtr => true
    | _ => false
  isEmptyValue v := match v with
    | .nilPtr => true
    | _ => false
  marshal v := match v with
    | .nilPtr => .ok .null
    | .ptr x => elem.marshal x
    | _ => .error .illTyped
  unmarshal j v := match j with
    | .null => ⟨.nilPtr, [], none⟩
    | _ =>
      let d := elem.unmarshal j (match v with
        | .ptr x => x
        | _ => elem.zero)
      ⟨.ptr d.val, d.saved, d.abort⟩
  hasType v := match v with
    | .nilPtr => true
    | .ptr x => elem.hasType x
    | _ => false
  canon v := match v with
    | .nilPtr => true
    | .ptr x => elem.canon x
    | _ => false

def encodeElems (elem : GoType) : List Val → Except Err (List JSON)
  | [] => .ok []
  | x :: xs =>
    match elem.marshal x with
    | .error e => .error e
    | .ok j =>
      match encodeElems elem xs with
      | .error e => .error e
      | .ok js => .ok (j :: js)

/-- The loop of `decodeState.array`: element `i` of the array is decoded into element
`i` of the slice, a new zero element when the slice is shorter.  Go takes an element
beyond the length from the backing array when the capacity allows, where an earlier,
longer decode into the same slice can have left a value; this takes an object that
names one member three times and is not modelled, the slice having no capacity here. -/
def decodeElems (elem : GoType) : List JSON → List Val → Dec (List Val)
  | [], _ => ⟨[], [], none⟩
  | j :: js, olds =>
    let d := elem.unmarshal j (olds.headD elem.zero)
    match d.abort with
    | some e => ⟨d.val :: olds.tail, d.saved, some e⟩
    | none =>
      let r := decodeElems elem js olds.tail
      ⟨d.val :: r.val, d.saved ++ r.saved, r.abort⟩

def slice (elem : GoType) : GoType where
  name := "[]" ++ elem.name
  zero := .nilSlice
  isZero v := match v with
    | .nilSlice => true
    | _ => false
  isEmptyValue v := match v with
    | .nilSlice => true
    | .slice xs => xs.isEmpty
    | _ => false
  marshal v := match v with
    | .nilSlice => .ok .null
    | .slice xs => match encodeElems elem xs with
      | .ok js => .ok (.arr js)
      | .error e => .error e
    | _ => .error .illTyped
  unmarshal j v := match j with
    | .null => ⟨.nilSlice, [], none⟩
    | .arr js =>
      let d := decodeElems elem js (match v with
        | .slice xs => xs
        | _ => [])
      ⟨.slice d.val, d.saved, d.abort⟩
    | _ => mismatch ("[]" ++ elem.name) j v
  hasType v := match v with
    | .nilSlice => true
    | .slice xs => xs.all elem.hasType
    | _ => false
  canon v := match v with
    | .nilSlice => true
    | .slice xs => xs.all elem.canon
    | _ => false

end GoType

/-- One entry of the field table that `encoding/json` builds for a struct type: the Go
field name, the JSON key and the `omitempty` flag of its tag, and its type. -/
structure Field where
  name : String
  key : String
  omitempty : Bool
  type : GoType

/-- The folding of one rune under which `encoding/json` compares keys: ASCII letters
fold to upper case, and so do U+017F and U+212A, the two other runes that Unicode
simple folding sends to an ASCII letter. -/
def foldRune (c : Char) : Nat :=
  if 97 ≤ c.toNat ∧ c.toNat ≤ 122 then c.toNat - 32
  else if c.toNat = 0x17F then 83
  else if c.toNat = 0x212A then 75
  else c.toNat

def foldName (s : String) : List Nat := s.data.map foldRune

/-- The field a member key selects: an exact match, else the first case-folded one. -/
def resolve (fields : List Field) (key : String) : Option Field :=
  match fields.find? (fun f => f.key == key) with
  | some f => some f
  | none => fields.find? (fun f => foldName f.key == foldName key)

def fieldSet (fs : List (String × Val)) (name : String) (v : Val) : List (String × Val) :=
  fs.map (fun p => if p.1 == name then (p.1, v) else p)

/-- The struct encoder: the fields in table order, empty `omitempty` fields left out. -/
def encodeFields : List Field → List (String × Val) → Except Err (List (String × JSON))
  | [], _ => .ok []
  | f :: fields, fs =>
    match fs.lookup f.name with
    | none => .error .illTyped
    | some x =>
      if f.omitempty && f.type.isEmptyValue x then encodeFields fields fs
      else
        match f.type.marshal x with
        | .error e => .error e
        | .ok j =>
          match encodeFields fields fs with
          | .error e => .error e
          | .ok ms => .ok ((f.key, j) :: ms)

/-- The loop of `decodeState.object` for a struct: each member in order is decoded
into the field its key selects; a member that selects no field is skipped. -/
def decodeMembers (fields : List Field) :
    List (String × JSON) → List (String × Val) → Dec (List (String × Val))
  | [], fs => ⟨fs, [], none⟩
  | (k, j) :: ms, fs =>
    match resolve fields k with
    | none => decodeMembers fields ms fs
    | some f =>
      match fs.lookup f.name with
      | none => decodeMembers fields ms fs
      | some cur =>
        let d := f.type.unmarshal j cur
        match d.abort with
        | some e => ⟨fieldSet fs f.name d.val, d.saved, some e⟩
        | none =>
          let r := decodeMembers fields ms (fieldSet fs f.name d.val)
          ⟨r.val, d.saved ++ r.saved, r.abort⟩

def structHasType : List Field → List (String × Val) → Bool
  | [], [] => true
  | f :: fields, (n, v) :: fs => n == f.name && f.type.hasType v && structHasType fields fs
  | _, _ => false

/-- A field value that the encoder and decoder reproduce: an omitted one is the zero
value, an emitted one is reproduced by its type. -/
def fieldCanon (f : Field) (v : Val) : Bool :=
  if f.omitempty && f.type.isEmptyValue v then f.type.isZero v else f.type.canon v

def structCanon (fields : List Field) (fs : List (String × Val)) : Bool :=
  fields.all (fun f => match fs.lookup f.name with
    | some v => fieldCanon f v
    | none => false)

/-- A struct type without JSON methods of its own. -/
def GoType.struct (name : String) (fields : List Field) : GoType where
  name := name
  zero := .struct (fields.map (fun f => (f.name, f.type.zero)))
  isZero _ := false
  isEmptyValue _ := false
  marshal v := match v with
    | .struct fs => match encodeFields fields fs with
      | .ok ms => .ok (.obj ms)
      | .error e => .error e
    | _ => .error .illTyped
  unmarshal j v := match j with
    | .obj ms => match v with
      | .struct fs =>
        let d := decodeMembers fields ms fs
        ⟨.struct d.val, d.saved, d.abort⟩
      | _ => ⟨v, [], none⟩
    | .null => ⟨v, [], none⟩
    | _ => mismatch name j v
  hasType v := match v with
    | .struct fs => structHasType fields fs
    | _ => false
  canon v := match v with
    | .struct fs => structCanon fields fs
    | _ => false

/-- The function `json.Unmarshal(data, &v)` for a value of type `t`. -/
def json.Unmarshal (t : GoType) (data : Bytes) (v : Val) : Val × Option Err :=
  match data with
  | .text j =>
    let d := t.unmarshal j v
    (d.val, d.err)
  | _ => (v, some .syntaxError)

/-- The function `json.Marshal(v)` for a value of type `t`. -/
def json.Marshal (t : GoType) (v : Val) : Except Err Bytes :=
  match t.marshal v with
  | .ok j => .ok (.text j)
  | .error e => .error e

/-! ## The data model of `base.go` and `patient.go` -/

/-- A struct value: its fields by Go name, in declaration order. -/
abbrev Struct := List (String × Val)

/-- A field whose tag has no `omitempty`. -/
def fld (name key : String) (type : GoType) : Field := ⟨name, key, false, type⟩

/-- A field whose tag has `omitempty`. -/
def opt (name key : String) (type : GoType) : Field := ⟨name, key, true, type⟩

open GoType in
def Period.fields : List Field :=
  [ opt "Start" "start" (ptr time),
    opt "End" "end" (ptr time) ]

def Period.type : GoType := .struct "models.Period" Period.fields

open GoType in
def Coding.fields : List Field :=
  [ opt "System" "system" (string "string"),
    opt "Version" "version" (string "string"),
    opt "Code" "code" (string "string"),
    opt "Display" "display" (string "string"),
    opt "UserSelected" "userSelected" (ptr bool) ]

def Coding.type : GoType := .struct "models.Coding" Coding.fields

open GoType in
def CodeableConcept.fields : List Field :=
  [ opt "Coding" "coding" (slice Coding.type),
    opt "Text" "text" (string "string") ]

def CodeableConcept.type : GoType := .struct "models.CodeableConcept" CodeableConcept.fields

open GoType in
def Quantity.fields (sc : Strconv) : List Field :=
  [ opt "Value" "value" (ptr (float64 sc)),
    opt "Comparator" "comparator" (string "string"),
    opt "Unit" "unit" (string "string"),
    opt "System" "system" (string "string"),
    opt "Code" "code" (string "string") ]

def Quantity.type (sc : Strconv) : GoType := .struct "models.Quantity" (Quantity.fields sc)

open GoType in
def Reference.fields : List Field :=
  [ opt "Reference" "reference" (string "string"),
    opt "Type" "type" (string "string"),
    opt "Display" "display" (string "string") ]

def Reference.type : GoType := .struct "models.Reference" Reference.fields

open GoType in
def Meta.fields : List Field :=
  [ opt "VersionID" "versionId" (string "string"),
    opt "LastUpdated" "lastUpdated" (ptr time),
    opt "Source" "source" (string "string"),
    opt "Profile" "profile" (slice (string "string")),
    opt "Security" "security" (slice Coding.type),
    opt "Tag" "tag" (slice Coding.type) ]

def Meta.type : GoType := .struct "models.Meta" Meta.fields

open GoType in
def Narrative.fields : List Field :=
  [ fld "Status" "status" (string "models.NarrativeStatus"),
    fld "Div" "div" (string "string") ]

def Narrative.type : GoType := .struct "models.Narrative" Narrative.fields

open GoType in
def Extension.fields (sc : Strconv) : List Field :=
  [ fld "URL" "url" (string "string"),
    opt "ValueString" "valueString" (ptr (string "string")),
    opt "ValueInteger" "valueInteger" (ptr int),
    opt "ValueBoolean" "valueBoolean" (ptr bool),
    opt "ValueCode" "valueCode" (ptr (string "string")),
    opt "ValueDateTime" "valueDateTime" (ptr time),
    opt "ValueQuantity" "valueQuantity" (ptr (Quantity.type sc)),
    opt "ValueReference" "valueReference" (ptr Reference.type),
    opt "ValueCodeableConcept" "valueCodeableConcept" (ptr CodeableConcept.type) ]

def Extension.type (sc : Strconv) : GoType := .struct "models.Extension" (Extension.fields sc)

open GoType in
def HumanName.fields : List Field :=
  [ opt "Use" "use" (string "string"),
    opt "Text" "text" (string "string"),
    opt "Family" "family" (string "string"),
    opt "Given" "given" (slice (string "string")),
    opt "Prefix" "prefix" (slice (string "string")),
    opt "Suffix" "suffix" (slice (string "string")),
    opt "Period" "period" (ptr Period.type) ]

def HumanName.type : GoType := .struct "models.HumanName" HumanName.fields

open GoType in
def ContactPoint.fields : List Field :=
  [ opt "System" "system" (string "models.ContactPointSystem"),
    opt "Value" "value" (string "string"),
    opt "Use" "use" (string "models.ContactPointUse"),
    opt "Rank" "rank" (ptr int),
    opt "Period" "period" (ptr Period.type) ]

def ContactPoint.type : GoType := .struct "models.ContactPoint" ContactPoint.fields

open GoType in
def Address.fields : List Field :=
  [ opt "Use" "use" (string "string"),
    opt "Type" "type" (string "string"),
    opt "Text" "text" (string "string"),
    opt "Line" "line" (slice (string "string")),
    opt "City" "city" (string "string"),
    opt "District" "district" (string "string"),
    opt "State" "state" (string "string"),
    opt "PostalCode" "postalCode" (string "string"),
    opt "Country" "country" (string "string"),
    opt "Period" "period" (ptr Period.type) ]

def Address.type : GoType := .struct "models.Address" Address.fields

open GoType in
def Attachment.fields : List Field :=
  [ opt "ContentType" "contentType" (string "string"),
    opt "Language" "language" (string "string"),
    opt "Data" "data" (string "string"),
    opt "URL" "url" (string "string"),
    opt "Size" "size" (ptr int),
    opt "Hash" "hash" (string "string"),
    opt "Title" "title" (string "string"),
    opt "Creation" "creation" (ptr time) ]

def Attachment.type : GoType := .struct "models.Attachment" Attachment.fields

open GoType in
def PatientContact.fields : List Field :=
  [ opt "Relationship" "relationship" (slice CodeableConcept.type),
    opt "Name" "name" (ptr HumanName.type),
    opt "Telecom" "telecom" (slice ContactPoint.type),
    opt "Address" "address" (ptr Address.type),
    opt "Gender" "gender" (string "string"),
    opt "Organization" "organization" (ptr Reference.type),
    opt "Period" "period" (ptr Period.type) ]

def PatientContact.type : GoType := .struct "models.PatientContact" PatientContact.fields

open GoType in
def Communication.fields : List Field :=
  [ fld "Language" "language" CodeableConcept.type,
    opt "Preferred" "preferred" (ptr bool) ]

def Communication.type : GoType := .struct "models.Communication" Communication.fields

open GoType in
def PatientLink.fields : List Field :=
  [ fld "Other" "other" Reference.type,
    fld "Type" "type" (string "string") ]

def PatientLink.type : GoType := .struct "models.PatientLink" PatientLink.fields

open GoType in
def Base.fields (sc : Strconv) : List Field :=
  [ fld "ResourceType" "resourceType" (string "models.ResourceType"),
    opt "ID" "id" (string "string"),
    opt "Meta" "meta" (ptr Meta.type),
    opt "Language" "language" (string "string"),
    opt "Text" "text" (ptr Narrative.type),
    opt "Extension" "extension" (slice (Extension.type sc)),
    opt "Contained" "contained" (slice rawMessage) ]

/-- The Go fields of a `Patient` value in declaration order, those promoted from the
embedded `Base` first.  (The JSON table of `Patient` itself is never used: the type
has its own `MarshalJSON` and `UnmarshalJSON`.) -/
def Patient.goFields (sc : Strconv) : List Field :=
  Base.fields sc
    ++ [ opt "Active" "active" (.ptr .bool),
         opt "Name" "name" (.slice HumanName.type),
         opt "Telecom" "telecom" (.slice ContactPoint.type),
         opt "Gender" "gender" (.string "string"),
         opt "BirthDate" "birthDate" (.ptr .time),
         opt "Deceased" "deceasedBoolean" (.ptr .bool),
         opt "DeceasedAt" "deceasedDateTime" (.ptr .time),
         opt "Address" "address" (.slice Address.type),
         opt "MaritalStatus" "maritalStatus" (.ptr CodeableConcept.type),
         opt "MultipleBirth" "multipleBirthBoolean" (.ptr .bool),
         opt "MultipleBirthInt" "multipleBirthInteger" (.ptr .int),
         opt "Photo" "photo" (.slice Attachment.type),
         opt "Contact" "contact" (.slice PatientContact.type),
         opt "Communication" "communication" (.slice Communication.type),
         opt "GeneralPractitioner" "generalPractitioner" (.slice Reference.type),
         opt "ManagingOrganization" "managingOrganization" (.ptr Reference.type),
         opt "Link" "link" (.slice PatientLink.type) ]

/-- The zero value of a struct type with the given fields. -/
def zeroStruct (fields : List Field) : Struct :=
  fields.map (fun f => (f.name, f.type.zero))

/-- The constant `ResourceTypePatient`. -/
def ResourceTypePatient : String := "Patient"

/-- The function `NewPatient`. -/
def NewPatient (sc : Strconv) : Struct :=
  fieldSet (zeroStruct (Patient.goFields sc)) "ResourceType" (.string ResourceTypePatient)

/-- The method `Base.GetResourceType`, promoted to every resource. -/
def Base.GetResourceType (r : Struct) : String :=
  match r.lookup "ResourceType" with
  | some (.string s) => s
  | _ => ""

/-! ## `Patient.MarshalJSON` and `Patient.UnmarshalJSON` -/

/-- The fields that the struct `aux` of both methods declares itself, after the
embedded `*Alias`: `BirthDate string` and `DeceasedAt string`.  In the flat value they
go by the names `aux.BirthDate` and `aux.DeceasedAt`. -/
def aux.own : List Field :=
  [ opt "aux.BirthDate" "birthDate" (.string "string"),
    opt "aux.DeceasedAt" "deceasedDateTime" (.string "string") ]

/-- The fields of `aux` promoted from the embedded `*Alias`: those of the patient in
their order, without those whose key an own field of `aux` has (of two fields with one
key the less nested one wins). -/
def aux.promoted (sc : Strconv) : List Field :=
  (Patient.goFields sc).filter (fun f => !aux.own.any (fun g => g.key == f.key))

/-- The JSON field table of `aux`, `struct { *Alias; BirthDate string; DeceasedAt
string }`: the promoted fields and then the own fields. -/
def aux.fields (sc : Strconv) : List Field :=
  aux.promoted sc ++ aux.own

def aux.type (sc : Strconv) : GoType := .struct "struct" (aux.fields sc)

/-- The composite literal of `aux`: `Alias` points to `p`, the strings are as given. -/
def aux.new (p : Struct) (birthDate deceasedAt : String) : Val :=
  .struct (p ++ [("aux.BirthDate", .string birthDate), ("aux.DeceasedAt", .string deceasedAt)])

/-- The patient that `aux.Alias` points to. -/
def aux.alias (a : Val) : Struct :=
  match a with
  | .struct fs => fs.filter (fun q => q.1 != "aux.BirthDate" && q.1 != "aux.DeceasedAt")
  | _ => []

/-- A string field of a struct value. -/
def Val.str (a : Val) (name : String) : String :=
  match a with
  | .struct fs =>
    match fs.lookup name with
    | some (.string s) => s
    | _ => ""
  | _ => ""

/-- The method `Patient.UnmarshalJSON`: the receiver as the call leaves it, and the
returned error. -/
def Patient.UnmarshalJSON (sc : Strconv) (p : Struct) (data : Bytes) : Struct × Option Err :=
  let (a, err) := json.Unmarshal (aux.type sc) data (aux.new p "" "")
  let p := aux.alias a
  match err with
  | some e => (p, some e)
  | none =>
    let birth :=
      if a.str "aux.BirthDate" != "" then
        match time.Parse .dateOnly (a.str "aux.BirthDate") with
        | .error e => Except.error e
        | .ok t => .ok (fieldSet p "BirthDate" (.ptr (.time t)))
      else .ok p
    match birth with
    | .error e => (p, some e)
    | .ok p =>
      if a.str "aux.DeceasedAt" != "" then
        match time.Parse .RFC3339 (a.str "aux.DeceasedAt") with
        | .error e => (p, some e)
        | .ok t => (fieldSet p "DeceasedAt" (.ptr (.time t)), none)
      else (p, none)

/-- The time a `*time.Time` field points to, if it is not nil. -/
def timeField (p : Struct) (name : String) : Option time.Time :=
  match p.lookup name with
  | some (.ptr (.time t)) => some t
  | _ => none

/-- The method `Patient.MarshalJSON`. -/
def Patient.MarshalJSON (sc : Strconv) (p : Struct) : Except Err Bytes :=
  let birthDate := match timeField p "BirthDate" with
    | some t => t.Format .dateOnly
    | none => ""
  let deceasedAt := match timeField p "DeceasedAt" with
    | some t => t.Format .RFC3339
    | none => ""
  json.Marshal (aux.type sc) (aux.new p birthDate deceasedAt)

/-! ## Bundle -/

open GoType in
def BundleLink.fields : List Field :=
  [ fld "Relation" "relation" (string "string"),
    fld "URL" "url" (string "string") ]

def BundleLink.type : GoType := .struct "models.BundleLink" BundleLink.fields

open GoType in
def BundleSearch.fields (sc : Strconv) : List Field :=
  [ opt "Mode" "mode" (string "string"),
    opt "Score" "score" (ptr (float64 sc)) ]

def BundleSearch.type (sc : Strconv) : GoType :=
  .struct "models.BundleSearch" (BundleSearch.fields sc)

open GoType in
def BundleEntry.fields (sc : Strconv) : List Field :=
  [ opt "FullURL" "fullUrl" (string "string"),
    opt "Resource" "resource" rawMessage,
    opt "Search" "search" (ptr (BundleSearch.type sc)) ]

def BundleEntry.type (sc : Strconv) : GoType :=
  .struct "models.BundleEntry" (BundleEntry.fields sc)

open GoType in
/-- The fields of `Bundle`, those promoted from the embedded `Base` first. -/
def Bundle.fields (sc : Strconv) : List Field :=
  Base.fields sc
    ++ [ fld "Type" "type" (string "string"),
         opt "Total" "total" (ptr int),
         opt "Link" "link" (slice BundleLink.type),
         opt "Entry" "entry" (slice (BundleEntry.type sc)) ]

def Bundle.type (sc : Strconv) : GoType := .struct "models.Bundle" (Bundle.fields sc)

/-! ## `mapper.go` -/

/-- A non-nil value of the interface `Resource`, by its dynamic type. -/
inductive Resource where
  | patient (p : Struct)
  | bundle (b : Struct)
deriving Repr

/-- The method `GetResourceType` of a resource. -/
def Resource.GetResourceType : Resource → String
  | .patient p => Base.GetResourceType p
  | .bundle b => Base.GetResourceType b

/-- The function `json.Unmarshal(data, resource)`: `*Patient` is an `Unmarshaler`,
`*Bundle` is decoded by reflection. -/
def json.UnmarshalResource (sc : Strconv) (data : Bytes) (resource : Resource) :
    Resource × Option Err :=
  match data with
  | .text j =>
    match resource with
    | .patient p =>
      let (p, err) := Patient.UnmarshalJSON sc p data
      (.patient p, err)
    | .bundle b =>
      let d := decodeBundle j b
      (.bundle d.1, d.2)
  | _ => (resource, some .syntaxError)
where
  /-- Reflective decoding into a `*Bundle`. -/
  decodeBundle (j : JSON) (b : Struct) : Struct × Option Err :=
    match json.Unmarshal (Bundle.type sc) (.text j) (.struct b) with
    | (.struct fs, err) => (fs, err)
    | (_, err) => (b, err)

/-- The function `json.Marshal(resource)`: `Patient` is a `Marshaler`, `Bundle` is
encoded by reflection. -/
def json.MarshalResource (sc : Strconv) (resource : Resource) : Except Err Bytes :=
  match resource with
  | .patient p => Patient.MarshalJSON sc p
  | .bundle b => json.Marshal (Bundle.type sc) (.struct b)

/-- The struct `ResourceMapper`: `typeRegistry` maps a resource type to a factory. -/
structure ResourceMapper where
  typeRegistry : String → Option (Unit → Resource)

/-- The method `RegisterResource`: `m.typeRegistry[resourceType] = factory`. -/
def ResourceMapper.RegisterResource (m : ResourceMapper) (resourceType : String)
    (factory : Unit → Resource) : ResourceMapper :=
  ⟨fun t => if t = resourceType then some factory else m.typeRegistry t⟩

/-- The function `NewResourceMapper`: an empty registry with `Patient` registered. -/
def NewResourceMapper (sc : Strconv) : ResourceMapper :=
  (ResourceMapper.mk (fun _ => none)).RegisterResource ResourceTypePatient
    (fun _ => .patient (NewPatient sc))

/-- The struct `typeHolder` of `UnmarshalResource`. -/
def typeHolder.fields : List Field :=
  [ fld "ResourceType" "resourceType" (.string "models.ResourceType") ]

def typeHolder.type : GoType := .struct "struct" typeHolder.fields

/-- The method `ResourceMapper.UnmarshalResource`: the returned resource (`none` for
nil) and the returned error (`none` for nil). -/
def ResourceMapper.UnmarshalResource (sc : Strconv) (m : ResourceMapper) (data : Bytes) :
    Option Resource × Option Err :=
  let (holder, err) := json.Unmarshal typeHolder.type data typeHolder.type.zero
  match err with
  | some e => (none, some (.wrap "failed to determine resource type" e))
  | none =>
    match m.typeRegistry (holder.str "ResourceType") with
    | none => (none, some (.errorf ("unsupported resource type: " ++ holder.str "ResourceType")))
    | some factory =>
      let (resource, err) := json.UnmarshalResource sc data (factory ())
      match err with
      | some e => (none, some (.wrap "failed to unmarshal resource" e))
      | none => (some resource, none)

/-- The method `ResourceMapper.MarshalResource`. -/
def ResourceMapper.MarshalResource (sc : Strconv) (_m : ResourceMapper)
    (resource : Resource) : Except Err Bytes :=
  json.MarshalResource sc resource

/-- The civil fields that `Format` prints in two and four places. -/
def time.Time.printable (t : time.Time) : Prop :=
  0 ≤ t.year ∧ t.year ≤ 9999 ∧ t.valid = true

/-- The instants that `Format(time.RFC3339)` prints without loss. -/
def time.Time.wholeSecond (t : time.Time) : Prop :=
  t.printable ∧ t.nanosecond = 0 ∧ t.offset % 60 = 0 ∧ t.offset.natAbs < 90000

/-- The strings of the calendar-date grammar `YYYY-MM-DD`: four digits of a year, two
of a month and two of a day of that month. -/
def isCalendarDate (s : String) : Prop :=
  ∃ (y : Int) (m d : Nat), 0 ≤ y ∧ y ≤ 9999 ∧ 1 ≤ m ∧ m ≤ 12 ∧ 1 ≤ d ∧ d ≤ time.daysIn m y
    ∧ s = (time.dateUTC y m d).Format .dateOnly

/-- Decoding left no error behind. -/
def Dec.clean {α : Type} (d : Dec α) : Prop := d.saved = [] ∧ d.abort = none

/-- Encoding a non-nil value of the type never gives the literal `null`. -/
def GoType.NonNull (T : GoType) : Prop :=
  ∀ v j, T.hasType v = true → T.marshal v = .ok j → j ≠ .null

/-- The laws of a type's codec: a well-typed value in canonical form is encoded without
error and decoding the result into the zero value gives it back. -/
structure GoType.Lawful (T : GoType) : Prop where
  isZero_eq : ∀ v, T.isZero v = true → v = T.zero
  roundTrip : ∀ v, T.hasType v = true → T.canon v = true →
    ∃ j, T.marshal v = .ok j ∧ T.unmarshal j T.zero = ⟨v, [], none⟩

/-- Decoding keeps the values of the type in the type: the zero value is of the type,
and whatever is decoded into a value of the type leaves a value of the type. -/
structure GoType.Preserves (T : GoType) : Prop where
  zero : T.hasType T.zero = true
  unmarshal : ∀ j v, T.hasType v = true → T.hasType (T.unmarshal j v).val = true

/-- A field table whose entries have lawful types and pairwise different names and keys. -/
structure FieldsOK (fields : List Field) : Prop where
  lawful : ∀ f ∈ fields, f.type.Lawful
  names : (fields.map (·.name)).Nodup
  keys : (fields.map (·.key)).Nodup

/-- A current field value into which the decoder can decode what the encoder emits as
if it were the zero value: the zero value itself, or any value of a field that is
always emitted and whose decoding overwrites. -/
def Receptive (f : Field) (cur : Val) : Prop :=
  cur = f.type.zero
    ∨ (f.omitempty = false
        ∧ ∀ x j, f.type.marshal x = .ok j →
            f.type.unmarshal j cur = f.type.unmarshal j f.type.zero)

/-- The test by which `encoding/json` accepts the member key `k` for the field key
`key` when no field has the key `k` exactly. -/
def keyMatches (key k : String) : Bool := foldName k == foldName key

/-- The values of the members of an object that go to the field with the given key,
in their order. -/
def membersFor (key : String) (ms : List (String × JSON)) : List JSON :=
  (ms.filter (fun kv => keyMatches key kv.1)).map (·.2)

/-- The members of an object that do not go to the field with the given key. -/
def membersNotFor (key : String) (ms : List (String × JSON)) : List (String × JSON) :=
  ms.filter (fun kv => !keyMatches key kv.1)

def JSON.isString : JSON → Bool
  | .str _ => true
  | _ => false

def JSON.isStringOrNull : JSON → Bool
  | .str _ => true
  | .null => true
  | _ => false

/-- The string that a string field holds after the given JSON values were decoded into
it one after the other: the last string among them, `init` when there is none. -/
def lastString (js : List JSON) (init : String) : String :=
  js.foldl (fun acc j => match j with
    | .str s => s
    | _ => acc) init

/-- The errors that a string field of type `goType` saves for the given JSON values. -/
def stringErrors (goType : String) (js : List JSON) : List Err :=
  js.filterMap (fun j => if j.isStringOrNull then none
    else some (.unmarshalType j.kind goType))

/-- A field table in which no two keys are equal under case folding, so that a member
key selects the one field whose key it matches. -/
def FoldOK (fields : List Field) : Prop :=
  (fields.map (fun f => foldName f.key)).Nodup

/-- The payload object has `resourceType` members, all of them strings, and the last
one is `t`: its discriminator is the string `t`. -/
def HasDiscriminator (ms : List (String × JSON)) (t : String) : Prop :=
  (∀ j ∈ membersFor "resourceType" ms, j.isString = true)
    ∧ (membersFor "resourceType" ms).getLast? = some (.str t)

/-- The bytes are not one well-formed JSON text. -/
def Bytes.malformed : Bytes → Bool
  | .text _ => false
  | _ => true

/-- The flat value of the struct `aux`: the fields of the patient `Alias` points to,
then the two string fields. -/
def aux.state (p : Struct) (birthDate deceasedAt : String) : Struct :=
  p ++ [("aux.BirthDate", .string birthDate), ("aux.DeceasedAt", .string deceasedAt)]

/-- The member loop of `json.Unmarshal(data, &aux)` in `Patient.UnmarshalJSON`. -/
def aux.decode (sc : Strconv) (ms : List (String × JSON)) (p : Struct) : Dec Struct :=
  decodeMembers (aux.fields sc) ms (aux.state p "" "")

/-- A struct value with the fields of a `Patient`, each of its type. -/
def Patient.hasType (sc : Strconv) (p : Struct) : Prop :=
  structHasType (Patient.goFields sc) p = true

/-- A patient in the form that `MarshalJSON` and `UnmarshalJSON` reproduce: every
field but the two time fields is reproduced by the reflective codec (`structCanon`: an
omitted slice is nil, a `*int` fits, a float is finite, a nested time has a year in
0..9999 and a zone offset of whole minutes under 24 hours, a contained raw message is
JSON text); `BirthDate`, when not nil, is a date in the years 0..9999 at midnight UTC;
`DeceasedAt`, when not nil, is a whole second in the years 0..9999 with a zone offset
of whole minutes under 25 hours. -/
def Patient.canon (sc : Strconv) (p : Struct) : Prop :=
  structCanon (aux.promoted sc) p = true
    ∧ (∀ t, timeField p "BirthDate" = some t →
        t = time.dateUTC t.year t.month t.day ∧ 0 ≤ t.year ∧ t.year ≤ 9999)
    ∧ (∀ t, timeField p "DeceasedAt" = some t → t.wholeSecond)

/-- A resource in the form that encoding and decoding reproduce. -/
def Resource.canon (sc : Strconv) : Resource → Prop
  | .patient p => Patient.canon sc p
  | .bundle b => structCanon (Bundle.fields sc) b = true

/-- A receiver as a factory or a `var` declaration makes it: the zero `Patient`, with
any `ResourceType`. -/
def Patient.Fresh (sc : Strconv) (p : Struct) : Prop :=
  ∃ t, p = fieldSet (zeroStruct (Patient.goFields sc)) "ResourceType" (.string t)

/-- The outcome of `UnmarshalResource` once the factory has made the instance
`resource`: the full decode into it. -/
def decodeInto (sc : Strconv) (data : Bytes) (resource : Resource) :
    Option Resource × Option Err :=
  let (resource, err) := json.UnmarshalResource sc data resource
  match err with
  | some e => (none, some (.wrap "failed to unmarshal resource" e))
  | none => (some resource, none)

/-- The Patient payload `{"resourceType":"Patient","id":"p1","birthDate":""}`. -/
def emptyBirthDatePayload : Bytes :=
  .text (.obj [("resourceType", .str "Patient"), ("id", .str "p1"), ("birthDate", .str "")])

/-- The payload of `TestPatientUnmarshalJSON`, its address member left out:
`{"resourceType":"Patient","id":"123","active":true,"name":[{"family":"Doe",
"given":["John","Middle"]}],"gender":"male","birthDate":"2000-01-01",
"deceasedDateTime":"2023-01-01T12:00:00Z"}`. -/
def testPatientMembers : List (String × JSON) :=
  [ ("resourceType", .str "Patient"), ("id", .str "123"), ("active", .bool true),
    ("name", .arr [.obj [("family", .str "Doe"),
      ("given", .arr [.str "John", .str "Middle"])]]),
    ("gender", .str "male"), ("birthDate", .str "2000-01-01"),
    ("deceasedDateTime", .str "2023-01-01T12:00:00Z") ]

/-- The Patient payload `{"resourceType":"Patient","gender":1}`. -/
def genderNumberPayload : Bytes :=
  .text (.obj [("resourceType", .str "Patient"), ("gender", .num ⟨false, 1, [], none⟩)])

/-- The Patient payload `{"resourceType":"Patient","id":"unit-3","birthDate":"not-a-date"}`
of `TestPatient_InvalidBirthDate`. -/
def invalidBirthDatePayload : Bytes :=
  .text (.obj [("resourceType", .str "Patient"), ("id", .str "unit-3"),
    ("birthDate", .str "not-a-date")])

/-- The patient of `TestPatient_JSONRoundTrip`: id `unit-1`, active, male, born on
1980-07-15, named Bob UnitTest. -/
def roundTripPatient (sc : Strconv) : Struct :=
  fieldSet (fieldSet (fieldSet (fieldSet (fieldSet (NewPatient sc)
    "ID" (.string "unit-1"))
    "Active" (.ptr (.bool true)))
    "Gender" (.string "male"))
    "BirthDate" (.ptr (.time (time.dateUTC 1980 7 15))))
    "Name" (.slice [.struct (fieldSet (fieldSet (zeroStruct HumanName.fields)
      "Family" (.string "UnitTest")) "Given" (.slice [.string "Bob"]))])

/-- A patient as `NewPatient` makes it whose `DeceasedAt` is half a second after
2023-01-01T12:00:00Z. -/
def halfSecondPatient (sc : Strconv) : Struct :=
  fieldSet (NewPatient sc) "DeceasedAt"
    (.ptr (.time ⟨2023, 1, 1, 12, 0, 0, 500000000, 0⟩))

/-- The Patient payload
`{"resourceType":"Patient","deceasedDateTime":"2023-01-01T12:00:00.5Z"}`. -/
def halfSecondMembers : List (String × JSON) :=
  [("resourceType", .str "Patient"), ("deceasedDateTime", .str "2023-01-01T12:00:00.5Z")]

/-! ## `mapper.go`: bundles and entry resolution -/

/-- A field of type `json.RawMessage` of a struct value, such as `entry.Resource`. -/
def Val.rawField (v : Val) (name : String) : Bytes :=
  match v with
  | .struct fs =>
    match fs.lookup name with
    | some (.raw m) => m
    | _ => .null
  | _ => .null

/-- The assignment `v.name = x` to a field of a struct value. -/
def Val.setField (v : Val) (name : String) (x : Val) : Val :=
  match v with
  | .struct fs => .struct (fieldSet fs name x)
  | _ => v

/-- The function `json.Marshal(resource)` on a value of the interface type `Resource`:
a nil interface is encoded as `null`. -/
def json.MarshalInterface (sc : Strconv) (resource : Option Resource) : Except Err Bytes :=
  match resource with
  | none => .ok (.text .null)
  | some r => json.MarshalResource sc r

/-- The body of the loop of `UnmarshalBundle` for the entry at index `i`: an entry
without a resource is left alone, any other is decoded with `UnmarshalResource` and
its `Resource` replaced by the encoding of the typed value. -/
def ResourceMapper.resolveEntry (sc : Strconv) (m : ResourceMapper) (i : Nat)
    (entry : Val) : Except Err Val :=
  if (entry.rawField "Resource").isNil then .ok entry
  else
    match m.UnmarshalResource sc (entry.rawField "Resource") with
    | (_, some err) =>
      .error (.wrap ("failed to unmarshal bundle entry " ++ toString i) err)
    | (resource, none) =>
      match json.MarshalInterface sc resource with
      | .error err => .error (.wrap ("failed to marshal typed resource " ++ toString i) err)
      | .ok typedJSON => .ok (entry.setField "Resource" (.raw typedJSON))

/-- The loop `for i, entry := range bundle.Entry` of `UnmarshalBundle`, from index `i`
on: the entries as the loop leaves them, or the error it returns. -/
def ResourceMapper.resolveEntries (sc : Strconv) (m : ResourceMapper) :
    Nat → List Val → Except Err (List Val)
  | _, [] => .ok []
  | i, entry :: rest =>
    match m.resolveEntry sc i entry with
    | .error err => .error err
    | .ok entry' =>
      match m.resolveEntries sc (i + 1) rest with
      | .error err => .error err
      | .ok rest' => .ok (entry' :: rest')

/-- The method `ResourceMapper.UnmarshalBundle`: the returned bundle (`none` for nil)
and the returned error. -/
def ResourceMapper.UnmarshalBundle (sc : Strconv) (m : ResourceMapper) (data : Bytes) :
    Option Val × Option Err :=
  let (bundle, err) := json.Unmarshal (Bundle.type sc) data (Bundle.type sc).zero
  match err with
  | some e => (none, some (.wrap "failed to unmarshal bundle" e))
  | none =>
    match bundle with
    | .struct fs =>
      match fs.lookup "Entry" with
      | some (.slice entries) =>
        match m.resolveEntries sc 0 entries with
        | .error e => (none, some e)
        | .ok entries' => (some (bundle.setField "Entry" (.slice entries')), none)
      | _ => (some bundle, none)
    | _ => (some bundle, none)

/-- The method `ResourceMapper.GetTypedResource`. -/
def ResourceMapper.GetTypedResource (sc : Strconv) (m : ResourceMapper) (data : Bytes) :
    Option Resource × Option Err :=
  if data.isNil then (none, none) else m.UnmarshalResource sc data

/-- The loop of `GetTypedResources` from index `i` on, `resources` being the slice
built so far. -/
def ResourceMapper.typedResourcesFrom (sc : Strconv) (m : ResourceMapper) :
    Nat → List Bytes → List Resource → Option (List Resource) × Option Err
  | _, [], resources => (some resources, none)
  | i, rawResource :: rest, resources =>
    match m.GetTypedResource sc rawResource with
    | (_, some err) => (none, some (.wrap ("failed to convert resource " ++ toString i) err))
    | (some resource, none) => m.typedResourcesFrom sc (i + 1) rest (resources ++ [resource])
    | (none, none) => m.typedResourcesFrom sc (i + 1) rest resources

/-- The method `ResourceMapper.GetTypedResources`. -/
def ResourceMapper.GetTypedResources (sc : Strconv) (m : ResourceMapper)
    (data : List Bytes) : Option (List Resource) × Option Err :=
  m.typedResourcesFrom sc 0 data []

/-- The method `Bundle.GetTypedResource`: it makes a mapper of its own. -/
def Bundle.GetTypedResource (sc : Strconv) (_b : Val) (data : Bytes) :
    Option Resource × Option Err :=
  if data.isNil then (none, none)
  else (NewResourceMapper sc).UnmarshalResource sc data

/-! ## Package net/url: `url.Values` -/

/-- A `url.Values`, the map from a key to its values, as the list of its keys with
their values. -/
abbrev url.Values := List (String × List String)

/-- The index expression `v[key]`: the values of a key, none when the key is absent. -/
def url.Values.values (v : url.Values) (key : String) : List String :=
  (v.lookup key).getD []

/-- The assignment `v[key] = vs`. -/
def url.Values.put (v : url.Values) (key : String) (vs : List String) : url.Values :=
  if (v.lookup key).isSome then v.map (fun kv => if kv.1 == key then (kv.1, vs) else kv)
  else v ++ [(key, vs)]

/-- The method `Values.Add`: `v[key] = append(v[key], value)`. -/
def url.Values.Add (v : url.Values) (key value : String) : url.Values :=
  v.put key (v.values key ++ [value])

/-- The method `Values.Set`: `v[key] = []string{value}`. -/
def url.Values.Set (v : url.Values) (key value : String) : url.Values :=
  v.put key [value]

/-- The UTF-8 bytes of a character. -/
def url.utf8 (c : Char) : List Nat :=
  let n := c.toNat
  if n < 0x80 then [n]
  else if n < 0x800 then [0xC0 + n / 64, 0x80 + n % 64]
  else if n < 0x10000 then [0xE0 + n / 4096, 0x80 + n / 64 % 64, 0x80 + n % 64]
  else [0xF0 + n / 262144, 0x80 + n / 4096 % 64, 0x80 + n / 64 % 64, 0x80 + n % 64]

/-- The hexadecimal digit of `url.escape`. -/
def url.upperhex (n : Nat) : Char :=
  if n < 10 then Char.ofNat (48 + n) else Char.ofNat (55 + n)

/-- The function `url.QueryEscape`: letters, digits and `-_.~` stay, a space becomes
`+`, every other byte becomes `%XX`. -/
def url.QueryEscape (s : String) : String :=
  String.mk (s.data.flatMap (fun c =>
    if c.isAlphanum || c == '-' || c == '_' || c == '.' || c == '~' then [c]
    else if c == ' ' then ['+']
    else (url.utf8 c).flatMap (fun b => ['%', url.upperhex (b / 16), url.upperhex (b % 16)])))

/-- The bytes of a Go string. -/
def url.bytes (s : String) : List Nat := s.data.flatMap url.utf8

/-- The order `a <= b` of Go strings: byte by byte. -/
def url.bytesLe : List Nat → List Nat → Bool
  | [], _ => true
  | _ :: _, [] => false
  | a :: as, b :: bs => a < b || (a == b && url.bytesLe as bs)

/-- Insertion of a key into a list of keys in increasing order. -/
def url.insertKey (k : String) : List String → List String
  | [] => [k]
  | x :: xs =>
    if url.bytesLe (url.bytes k) (url.bytes x) then k :: x :: xs
    else x :: url.insertKey k xs

/-- The sorted keys of a map. -/
def url.sortKeys (ks : List String) : List String :=
  ks.foldr url.insertKey []

/-- The method `Values.Encode`: `key=value` pairs, escaped, joined by `&`, the keys in
increasing order and the values of a key in their order. -/
def url.Values.Encode (v : url.Values) : String :=
  "&".intercalate ((url.sortKeys (v.map (·.1)).eraseDups).flatMap (fun k =>
    (v.values k).map (fun x => url.QueryEscape k ++ "=" ++ url.QueryEscape x)))

/-! ## `search/parameters.go` -/

/-- The struct `search.Parameters`. -/
structure Parameters where
  params : url.Values
deriving Repr

/-- The function `NewParameters`. -/
def NewParameters : Parameters := ⟨[]⟩

/-- The function `strconv.FormatBool`. -/
def strconv.FormatBool (b : Bool) : String := if b then "true" else "false"

namespace Parameters

def Add (p : Parameters) (name value : String) : Parameters :=
  ⟨p.params.Add name value⟩

def AddModifier (p : Parameters) (name modifier value : String) : Parameters :=
  ⟨p.params.Add (name ++ ":" ++ modifier) value⟩

def AddPrefix (p : Parameters) (name pre value : String) : Parameters :=
  ⟨p.params.Add name (pre ++ value)⟩

def Contains (p : Parameters) (field value : String) : Parameters :=
  p.AddModifier field "contains" value

def Exact (p : Parameters) (field value : String) : Parameters :=
  p.AddModifier field "exact" value

def Missing (p : Parameters) (field : String) (isMissing : Bool) : Parameters :=
  p.AddModifier field "missing" (strconv.FormatBool isMissing)

/-- The method `Parameters.Type`. -/
def Type' (p : Parameters) (field resourceType : String) : Parameters :=
  p.AddModifier field "type" resourceType

def Above (p : Parameters) (field value : String) : Parameters :=
  p.AddPrefix field "gt" value

def Below (p : Parameters) (field value : String) : Parameters :=
  p.AddPrefix field "lt" value

def EqualTo (p : Parameters) (field value : String) : Parameters :=
  p.AddPrefix field "eq" value

def NotEqualTo (p : Parameters) (field value : String) : Parameters :=
  p.AddPrefix field "ne" value

def GreaterThanOrEqual (p : Parameters) (field value : String) : Parameters :=
  p.AddPrefix field "ge" value

def LessThanOrEqual (p : Parameters) (field value : String) : Parameters :=
  p.AddPrefix field "le" value

def StartsWith (p : Parameters) (field value : String) : Parameters :=
  p.AddPrefix field "sw" value

def EndsWith (p : Parameters) (field value : String) : Parameters :=
  p.AddPrefix field "ew" value

/-- The method `Parameters.Encode`. -/
def Encode (p : Parameters) : String := p.params.Encode

/-- The method `Parameters.Raw`. -/
def Raw (p : Parameters) : url.Values := p.params

end Parameters

/-! ## `operations/http.go` -/

/-- An `http.Request` as `doRequest` makes it. -/
structure Request where
  method : String
  url : String
  body : Option Bytes
  header : List (String × String)
deriving Repr

/-- What `doRequest` reads of an `http.Response`: the status code and the outcome of
`io.ReadAll(resp.Body)`. -/
structure Response where
  StatusCode : Int
  Body : Except Err String

/-- An `http.Client`, by the outcome of its method `Do`. -/
structure Client where
  Do : Request → Except Err Response

/-- What the program uses of the Go library besides the codec: `newRequest` is the
error of `http.NewRequestWithContext` for a method and a URL, if it gives one, and
`scan` says what a byte string is as an input of `encoding/json`. -/
structure GoLib where
  newRequest : String → String → Option Err
  scan : String → Bytes

/-- The struct `HTTPOperation`. -/
structure HTTPOperation where
  client : Client
  baseURL : String
  headers : List (String × String)
  mapper : ResourceMapper

/-- The function `NewHTTPOperation`; `defaultClient` is `http.DefaultClient`. -/
def NewHTTPOperation (sc : Strconv) (defaultClient : Client) (client : Option Client)
    (baseURL : String) : HTTPOperation :=
  { client := client.getD defaultClient
    baseURL := baseURL
    headers := []
    mapper := NewResourceMapper sc }

/-- The method `Header.Set` on keys in canonical form. -/
def Header.Set (h : List (String × String)) (key value : String) : List (String × String) :=
  h.filter (fun kv => kv.1 != key) ++ [(key, value)]

namespace HTTPOperation

/-- The method `buildURL`. -/
def buildURL (o : HTTPOperation) (parts : List String) : String :=
  parts.foldl (fun url part => if part != "" then url ++ "/" ++ part else url) o.baseURL

/-- The method `SetHeader`. -/
def SetHeader (o : HTTPOperation) (key value : String) : HTTPOperation :=
  { o with headers := Header.Set o.headers key value }

/-- The request that `doRequest` hands to the client: method, URL and body as given,
the header `Accept`, the header `Content-Type` when there is a body, and the headers of
`SetHeader`. -/
def newRequest (o : HTTPOperation) (method url : String)
    (body : Option (Except Err Bytes)) : Request :=
  let reqBody : Option Bytes := match body with
    | some (.ok jsonData) => some jsonData
    | _ => none
  let header := Header.Set [] "Accept" "application/fhir+json"
  let header := if body.isSome then Header.Set header "Content-Type" "application/fhir+json"
    else header
  let header := o.headers.foldl (fun h kv => Header.Set h kv.1 kv.2) header
  ⟨method, url, reqBody, header⟩

/-- The method `doRequest`.  A request body is given by what `json.Marshal` makes of
it; the result is the returned `json.RawMessage` (`none` for nil) and the error. -/
def doRequest (lib : GoLib) (o : HTTPOperation) (method url : String)
    (body : Option (Except Err Bytes)) : Option String × Option Err :=
  match body with
  | some (.error err) => (none, some (.wrap "failed to marshal request body" err))
  | _ =>
    match lib.newRequest method url with
    | some err => (none, some (.wrap "failed to create request" err))
    | none =>
      match o.client.Do (o.newRequest method url body) with
      | .error err => (none, some (.wrap "failed to execute request" err))
      | .ok resp =>
        match resp.Body with
        | .error err => (none, some (.wrap "failed to read response body" err))
        | .ok respBody =>
          if resp.StatusCode < 200 || resp.StatusCode >= 300 then
            (none, some (.errorf ("server returned error status "
              ++ toString resp.StatusCode ++ ": " ++ respBody)))
          else (some respBody, none)

/-- The bytes of a `json.RawMessage` that `doRequest` returned. -/
def rawBytes (lib : GoLib) (data : Option String) : Bytes :=
  match data with
  | some s => lib.scan s
  | none => .null

/-- The end of the operations that return a resource: the error of `doRequest`, or
`o.mapper.UnmarshalResource(data)`. -/
def toResource (sc : Strconv) (lib : GoLib) (o : HTTPOperation)
    (r : Option String × Option Err) : Option Resource × Option Err :=
  match r with
  | (_, some err) => (none, some err)
  | (data, none) => o.mapper.UnmarshalResource sc (rawBytes lib data)

/-- The end of the operations that return a bundle: the error of `doRequest`, or
`o.mapper.UnmarshalBundle(data)`. -/
def toBundle (sc : Strconv) (lib : GoLib) (o : HTTPOperation)
    (r : Option String × Option Err) : Option Val × Option Err :=
  match r with
  | (_, some err) => (none, some err)
  | (data, none) => o.mapper.UnmarshalBundle sc (rawBytes lib data)

def Read (sc : Strconv) (lib : GoLib) (o : HTTPOperation) (resourceType id : String) :
    Option Resource × Option Err :=
  let url := o.buildURL [resourceType, id]
  toResource sc lib o (o.doRequest lib "GET" url none)

def Vread (sc : Strconv) (lib : GoLib) (o : HTTPOperation)
    (resourceType id versionId : String) : Option Resource × Option Err :=
  let url := o.buildURL [resourceType, id, "_history", versionId]
  toResource sc lib o (o.doRequest lib "GET" url none)

def Create (sc : Strconv) (lib : GoLib) (o : HTTPOperation) (resourceType : String)
    (resource : Option (Except Err Bytes)) : Option Resource × Option Err :=
  let url := o.buildURL [resourceType]
  toResource sc lib o (o.doRequest lib "POST" url resource)

def Update (sc : Strconv) (lib : GoLib) (o : HTTPOperation) (resourceType id : String)
    (resource : Option (Except Err Bytes)) : Option Resource × Option Err :=
  let url := o.buildURL [resourceType, id]
  toResource sc lib o (o.doRequest lib "PUT" url resource)

def Patch (sc : Strconv) (lib : GoLib) (o : HTTPOperation) (resourceType id : String)
    (patchBody : Option (Except Err Bytes)) : Option Resource × Option Err :=
  let url := o.buildURL [resourceType, id]
  toResource sc lib o (o.doRequest lib "PATCH" url patchBody)

def Delete (lib : GoLib) (o : HTTPOperation) (resourceType id : String) : Option Err :=
  let url := o.buildURL [resourceType, id]
  (o.doRequest lib "DELETE" url none).2

/-- The statement `if params != nil { url += "?" + params.Encode() }`. -/
def withQuery (url : String) (params : Option Parameters) : String :=
  match params with
  | some p => url ++ "?" ++ p.Encode
  | none => url

def Search (sc : Strconv) (lib : GoLib) (o : HTTPOperation) (resourceType : String)
    (params : Option Parameters) : Option Val × Option Err :=
  let url := withQuery (o.buildURL [resourceType]) params
  toBundle sc lib o (o.doRequest lib "GET" url none)

def History (sc : Strconv) (lib : GoLib) (o : HTTPOperation) (resourceType id : String)
    (params : Option Parameters) : Option Val × Option Err :=
  let url := withQuery (o.buildURL [resourceType, id, "_history"]) params
  toBundle sc lib o (o.doRequest lib "GET" url none)

def Transaction (sc : Strconv) (lib : GoLib) (o : HTTPOperation)
    (bundle : Option (Except Err Bytes)) : Option Val × Option Err :=
  let url := o.buildURL []
  toBundle sc lib o (o.doRequest lib "POST" url bundle)

def Capabilities (sc : Strconv) (lib : GoLib) (o : HTTPOperation) :
    Option Resource × Option Err :=
  let url := o.buildURL ["metadata"]
  toResource sc lib o (o.doRequest lib "GET" url none)

def Operation (sc : Strconv) (lib : GoLib) (o : HTTPOperation) (name : String)
    (input : Option (Except Err Bytes)) : Option Resource × Option Err :=
  let url := o.buildURL ["$" ++ name]
  toResource sc lib o (o.doRequest lib "POST" url input)

end HTTPOperation

/-- The value of a field after the given JSON values were decoded into it one after the
other, `cur` being its value before. -/
def fieldAfter (f : Field) (js : List JSON) (cur : Val) : Val :=
  js.foldl (fun c j => (f.type.unmarshal j c).val) cur

/-- Decoding into a value of the type never aborts: no `Unmarshaler` is involved. -/
def GoType.NoAbort (T : GoType) : Prop :=
  ∀ j v, (T.unmarshal j v).abort = none

/-- The entry that the decoder makes of an element of the `entry` array of a bundle
payload that is decoded into a fresh `Bundle`. -/
def decodeEntry (sc : Strconv) (j : JSON) : Val :=
  ((BundleEntry.type sc).unmarshal j (BundleEntry.type sc).zero).val

/-- The statement `var bundle Bundle; err := json.Unmarshal(data, &bundle)`. -/
def decodeBundle (sc : Strconv) (data : Bytes) : Val × Option Err :=
  json.Unmarshal (Bundle.type sc) data (Bundle.type sc).zero

/-- A bundle payload with one `entry` member, the array `es`. -/
def HasEntries (bms : List (String × JSON)) (es : List JSON) : Prop :=
  membersFor "entry" bms = [.arr es]

/-- The date of a civil reading in the form `YYYY-MM-DD`: ten characters, no time of
day and no zone. -/
def isDateOf (t : time.Time) (s : String) : Prop :=
  s.data = time.fixedDigits 4 t.year.toNat ++ '-' :: time.fixedDigits 2 t.month
    ++ '-' :: time.fixedDigits 2 t.day

/-- The zone suffixes of RFC 3339: `Z`, or a sign, two digits of hours, a colon and two
digits of minutes. -/
def isZoneSuffix (z : List Char) : Prop :=
  z = ['Z'] ∨ ∃ (sign : Char) (hh mm : Nat), (sign = '+' ∨ sign = '-') ∧ hh < 100 ∧ mm < 60
    ∧ z = sign :: (time.fixedDigits 2 hh ++ ':' :: time.fixedDigits 2 mm)

/-- The whole second of a civil reading in the form `YYYY-MM-DDThh:mm:ss` followed by
a zone suffix. -/
def isTimestampOf (t : time.Time) (s : String) : Prop :=
  ∃ z, isZoneSuffix z
    ∧ s.data = time.fixedDigits 4 t.year.toNat ++ '-' :: time.fixedDigits 2 t.month
        ++ '-' :: time.fixedDigits 2 t.day ++ 'T' :: time.fixedDigits 2 t.hour
        ++ ':' :: time.fixedDigits 2 t.minute ++ ':' :: time.fixedDigits 2 t.second ++ z

/-- The patient of the end-to-end scenario: John Doe, male, born on 2000-01-01. -/
def doePatient (sc : Strconv) : Struct :=
  fieldSet (fieldSet (fieldSet (NewPatient sc)
    "Name" (.slice [.struct (fieldSet (fieldSet (zeroStruct HumanName.fields)
      "Family" (.string "Doe")) "Given" (.slice [.string "John"]))]))
    "Gender" (.string "male"))
    "BirthDate" (.ptr (.time (time.dateUTC 2000 1 1)))

/-- A patient as `NewPatient` makes it, born on the first day of the year 10000. -/
def farFuturePatient (sc : Strconv) : Struct :=
  fieldSet (NewPatient sc) "BirthDate" (.ptr (.time (time.dateUTC 10000 1 1)))

/-- What the loop of `UnmarshalBundle` makes of an entry `e` when it does not fail: an
entry without a resource stays as it is, and in any other the `Resource` becomes the
encoding of the typed resource that `UnmarshalResource` decodes from it. -/
def Resolved (sc : Strconv) (m : ResourceMapper) (e e' : Val) : Prop :=
  ((e.rawField "Resource").isNil = true ∧ e' = e)
    ∨ ((e.rawField "Resource").isNil = false
        ∧ ∃ r typed, m.UnmarshalResource sc (e.rawField "Resource") = (some r, none)
            ∧ json.MarshalResource sc r = .ok typed
            ∧ e' = e.setField "Resource" (.raw typed))

/-- An operation handler for examples: every request is created, and the client
answers every request with the status `c` and the body `b`. -/
def stubOperation (c : Int) (b : String) : HTTPOperation :=
  ⟨⟨fun _ => .ok ⟨c, .ok b⟩⟩, "http://fhir.example", [], NewResourceMapper Strconv.zeroOnly⟩

/-- A library for examples: every request is created and no body scans. -/
def stubLib : GoLib := ⟨fun _ _ => none, fun _ => .invalid⟩

/-- The Bundle payload `{"resourceType":"Bundle","type":"searchset","entry":
[{"resource":{"resourceType":"Observation","id":"o1"}}]}`. -/
def observationBundleMembers : List (String × JSON) :=
  [ ("resourceType", .str "Bundle"), ("type", .str "searchset"),
    ("entry", .arr [.obj [("resource",
      .obj [("resourceType", .str "Observation"), ("id", .str "o1")])]]) ]

/-- The Patient payload `{"resourceType":"Patient","identifier":[{"value":"x"}],
"id":"1"}`; the struct `Patient` has no field for `identifier`. -/
def identifierPatientMembers : List (String × JSON) :=
  [ ("resourceType", .str "Patient"), ("identifier", .arr [.obj [("value", .str "x")]]),
    ("id", .str "1") ]

/-- The Bundle payload `{"resourceType":"Bundle","type":"searchset","entry":
[{"resource":{"resourceType":"Patient","identifier":[{"value":"x"}],"id":"1"}}]}`. -/
def identifierBundleMembers : List (String × JSON) :=
  [ ("resourceType", .str "Bundle"), ("type", .str "searchset"),
    ("entry", .arr [.obj [("resource", .obj identifierPatientMembers)]]) ]

/-- The Bundle payload `{"resourceType":"Bundle","type":"history","entry":
[{"fullUrl":"urn:uuid:1","resource":null}]}`. -/
def nullResourceBundleMembers : List (String × JSON) :=
  [ ("resourceType", .str "Bundle"), ("type", .str "history"),
    ("entry", .arr [.obj [("fullUrl", .str "urn:uuid:1"), ("resource", .null)]]) ]

/-! ## Notions for the statements about requests, key order and member names -/

/-- The header of the request that the handler hands to its client: `Accept`, then
`Content-Type` when the request has a body, then the headers of `SetHeader` in their
order, each replacing a header of the same name. -/
def HTTPOperation.sentHeader (o : HTTPOperation) (hasBody : Bool) : List (String × String) :=
  o.headers.foldl (fun h kv => Header.Set h kv.1 kv.2)
    (if hasBody then
      [("Accept", "application/fhir+json"), ("Content-Type", "application/fhir+json")]
    else [("Accept", "application/fhir+json")])

/-- The client is asked and answers: the request with the method `method` to the URL
`url` can be created, and the client answers this request, with the body `body` (if
any) and the headers of the handler, with a status code in 200..299 and a response body
that is read as `b`. -/
def HTTPOperation.Answers (lib : GoLib) (o : HTTPOperation) (method url : String)
    (body : Option Bytes) (b : String) : Prop :=
  lib.newRequest method url = none
    ∧ ∃ c : Int, 200 ≤ c ∧ c < 300
        ∧ o.client.Do ⟨method, url, body, o.sentHeader body.isSome⟩ = .ok ⟨c, .ok b⟩

/-- The JSON keys in the order in which `json.Marshal` emits the members of a resource:
for a Patient the keys of the struct `aux` of `MarshalJSON`, which are the keys of the
fields of `Patient` in declaration order without `birthDate` and `deceasedDateTime`,
and then these two; for a Bundle the keys of its fields in declaration order. -/
def Resource.keyOrder (sc : Strconv) : Resource → List String
  | .patient _ => (aux.fields sc).map (·.key)
  | .bundle _ => (Bundle.fields sc).map (·.key)

mutual

/-- No object of the JSON text, at any depth, has two members whose names are equal or
differ in case only: no field of a Go struct is decoded into twice. -/
def JSON.uniqueKeys : JSON → Bool
  | .arr xs => JSON.uniqueKeysList xs
  | .obj ms =>
    decide ((ms.map (fun kv => foldName kv.1)).Nodup) && JSON.uniqueKeysMembers ms
  | _ => true

def JSON.uniqueKeysList : List JSON → Bool
  | [] => true
  | x :: xs => x.uniqueKeys && JSON.uniqueKeysList xs

def JSON.uniqueKeysMembers : List (String × JSON) → Bool
  | [] => true
  | kv :: ms => kv.2.uniqueKeys && JSON.uniqueKeysMembers ms

end

/-- A patient as `NewPatient` makes it with the id `1`, born on 2000-01-01 and
deceased: of its fields, `BirthDate` is declared before `Deceased`. -/
def orderPatient (sc : Strconv) : Struct :=
  fieldSet (fieldSet (fieldSet (NewPatient sc) "ID" (.string "1"))
    "BirthDate" (.ptr (.time (time.dateUTC 2000 1 1))))
    "Deceased" (.ptr (.bool true))

/-- The response body `{"resourceType":"Patient","id":"123"}` as a string. -/
def patient123Body : String := "\x7b\"resourceType\":\"Patient\",\"id\":\"123\"\x7d"

/-- An operation handler for examples: its client answers the request with the method
`method` to the URL `url` with the status `c` and the body `b`, and every other request
with the status 404 and an empty body. -/
def routedOperation (method url : String) (c : Int) (b : String) : HTTPOperation :=
  ⟨⟨fun req => if req.method = method ∧ req.url = url then .ok ⟨c, .ok b⟩
      else .ok ⟨404, .ok ""⟩⟩,
    "http://fhir.example", [], NewResourceMapper Strconv.zeroOnly⟩

/-- A library for examples: every request is created, and the one body that scans is
`patient123Body`, as the object it spells. -/
def routedLib : GoLib :=
  ⟨fun _ _ => none, fun s => if s = patient123Body
    then .text (.obj [("resourceType", .str "Patient"), ("id", .str "123")]) else .invalid⟩

/-! ## `search/builder.go` -/

/-- The struct `search.Builder`. -/
structure Builder where
  params : url.Values
deriving Repr

/-- The function `NewBuilder`. -/
def NewBuilder : Builder := ⟨[]⟩

/-- The function `strconv.Itoa`. -/
def strconv.Itoa (n : Int) : String := toString n

namespace Builder

/-- The method `Builder.Where`: the key is `param`, or `param:op` when `op` is neither
empty nor `eq`, and the value is added under it as given. -/
def Where (b : Builder) (param op value : String) : Builder :=
  let key := if op != "" && op != "eq" then param ++ ":" ++ op else param
  ⟨b.params.Add key value⟩

/-- The method `Builder.Sort`. -/
def Sort' (b : Builder) (param : String) (desc : Bool) : Builder :=
  let param := if desc then "-" ++ param else param
  ⟨b.params.Add "_sort" param⟩

def Count (b : Builder) (count : Int) : Builder :=
  ⟨b.params.Set "_count" (strconv.Itoa count)⟩

def Include (b : Builder) (resourceType searchParam : String) : Builder :=
  ⟨b.params.Add "_include" (resourceType ++ ":" ++ searchParam)⟩

def RevInclude (b : Builder) (resourceType searchParam : String) : Builder :=
  ⟨b.params.Add "_revinclude" (resourceType ++ ":" ++ searchParam)⟩

/-- The method `Builder.Build`. -/
def Build (b : Builder) : String := b.params.Encode

end Builder

/-! ## `version/version.go` -/

namespace version

/-- The type `version.Version`, a string. -/
abbrev Version := String

/-- The constant `version.R4`. -/
def R4 : Version := "R4"

/-- The constant `version.R5`. -/
def R5 : Version := "R5"

/-- The struct `VersionInfo`. -/
structure VersionInfo where
  Version : String
  APIVersion : String
  BaseURL : String
  Conformance : String
deriving DecidableEq, Repr

/-- A non-nil value of the interface `VersionManager`, by its methods. -/
structure VersionManager where
  GetVersion : String
  GetVersionInfo : VersionInfo
  IsSupported : String → Bool
  GetBaseResource : String → String

/-- The function `newR4Manager` with the methods of `*R4Manager`. -/
def newR4Manager : VersionManager where
  GetVersion := R4
  GetVersionInfo := ⟨R4, "4.0.1", "/baseR4", "metadata"⟩
  IsSupported _ := true
  GetBaseResource resourceType := resourceType

/-- The function `newR5Manager` with the methods of `*R5Manager`. -/
def newR5Manager : VersionManager where
  GetVersion := R5
  GetVersionInfo := ⟨R5, "5.0.0", "/R5", "metadata"⟩
  IsSupported _ := true
  GetBaseResource resourceType := resourceType

/-- The function `NewVersionManager`: the manager (`none` for a nil interface) and the
error. -/
def NewVersionManager (version : Version) : Option VersionManager × Option Err :=
  if version = R4 then (some newR4Manager, none)
  else if version = R5 then (some newR5Manager, none)
  else (none, some (.errorf ("unsupported FHIR version: " ++ version)))

end version

/-! ## `mapper/mapper.go` -/

/-- The struct `DefaultMapper`: `versionManagers` maps a version to a manager, which
as a value of an interface type may be nil (`some none`). -/
structure DefaultMapper where
  versionManagers : version.Version → Option (Option version.VersionManager)

/-- The assignment `m[key] = value` on the map of a `DefaultMapper`. -/
def DefaultMapper.setManager (m : DefaultMapper) (key : version.Version)
    (value : Option version.VersionManager) : DefaultMapper :=
  ⟨fun v => if v = key then some value else m.versionManagers v⟩

/-- The function `NewMapper`. -/
def NewMapper : DefaultMapper :=
  let mapper : DefaultMapper := ⟨fun _ => none⟩
  let r4Manager := (version.NewVersionManager version.R4).1
  let r5Manager := (version.NewVersionManager version.R5).1
  (mapper.setManager version.R4 r4Manager).setManager version.R5 r5Manager

namespace DefaultMapper

/-- The method `GetMappingPath`: the path (`none` for a nil slice) and the error. -/
def GetMappingPath (_m : DefaultMapper) (fromVersion toVersion : version.Version) :
    Option (List version.Version) × Option Err :=
  if fromVersion = toVersion then (some [fromVersion], none)
  else if fromVersion = version.R4 ∧ toVersion = version.R5 then
    (some [version.R4, version.R5], none)
  else if fromVersion = version.R5 ∧ toVersion = version.R4 then
    (some [version.R5, version.R4], none)
  else (none, some (.errorf ("no mapping path available from " ++ fromVersion ++ " to "
    ++ toVersion)))

/-- The method `mapBetweenVersions`. -/
def mapBetweenVersions {α : Type} (_m : DefaultMapper) (resource : α)
    (_fromVersion _toVersion : version.Version) : α × Option Err :=
  (resource, none)

/-- The loop `for i := 0; i < len(path)-1; i++` of `MapResource` on what is left of the
path, `result` being the resource mapped so far. -/
def mapAlong {α : Type} (m : DefaultMapper) (result : α) :
    List version.Version → Option α × Option Err
  | currentVersion :: nextVersion :: rest =>
    match m.mapBetweenVersions result currentVersion nextVersion with
    | (_, some err) => (none, some err)
    | (result, none) => mapAlong m result (nextVersion :: rest)
  | _ => (some result, none)

/-- The method `MapResource` on a resource of any type: the returned value (`none` for
the nil that comes with an error) and the error. -/
def MapResource {α : Type} (m : DefaultMapper) (resource : α)
    (fromVersion toVersion : version.Version) : Option α × Option Err :=
  if fromVersion = toVersion then (some resource, none)
  else
    match m.GetMappingPath fromVersion toVersion with
    | (_, some err) => (none, some err)
    | (path, none) => m.mapAlong resource (path.getD [])

/-- The method `CanMap`; `none` is the run-time panic of a method call on a nil
manager. -/
def CanMap (m : DefaultMapper) (resourceType : String)
    (fromVersion toVersion : version.Version) : Option Bool :=
  match m.versionManagers fromVersion, m.versionManagers toVersion with
  | some fromManager, some toManager =>
    match fromManager with
    | none => none
    | some fromManager =>
      if fromManager.IsSupported resourceType then
        match toManager with
        | none => none
        | some toManager => some (toManager.IsSupported resourceType)
      else some false
  | _, _ => some false

end DefaultMapper

/-! ## Notions for the statements about payload members, lists of payloads and paths -/

def JSON.isBool : JSON → Bool
  | .bool _ => true
  | _ => false

/-- The member key selects a field of the struct `Patient`. -/
def Patient.modelled (sc : Strconv) (key : String) : Bool :=
  (resolve (Patient.goFields sc) key).isSome

/-- The members of a payload object whose keys select a field of `Patient`. -/
def Patient.modelledMembers (sc : Strconv) (ms : List (String × JSON)) :
    List (String × JSON) :=
  ms.filter (fun kv => Patient.modelled sc kv.1)

/-- Every constructor of the registry makes a `Patient`. -/
def ResourceMapper.PatientsOnly (m : ResourceMapper) : Prop :=
  ∀ t factory, m.typeRegistry t = some factory → ∃ p, factory () = .patient p

/-- The raw payloads of a list that are not nil, in their order. -/
def nonNil (data : List Bytes) : List Bytes :=
  data.filter (fun d => !d.isNil)

/-- The Patient payload `{"resourceType":"Patient","deceasedBoolean":true,
"deceasedDateTime":"2023-01-01T12:00:00Z"}`. -/
def bothDeceasedMembers : List (String × JSON) :=
  [ ("resourceType", .str "Patient"), ("deceasedBoolean", .bool true),
    ("deceasedDateTime", .str "2023-01-01T12:00:00Z") ]

/-- A patient as `NewPatient` makes it with `Deceased` true and `DeceasedAt`
2023-01-01T12:00:00Z. -/
def bothDeceasedPatient (sc : Strconv) : Struct :=
  fieldSet (fieldSet (NewPatient sc) "Deceased" (.ptr (.bool true)))
    "DeceasedAt" (.ptr (.time ⟨2023, 1, 1, 12, 0, 0, 0, 0⟩))

/-- The payload `{"resourceType":"Patient","id":"1"}`. -/
def patientOneMembers : List (String × JSON) :=
  [("resourceType", .str "Patient"), ("id", .str "1")]

/-- A mapper as `NewResourceMapper` makes it on which `Observation` is registered
too, with the constructor `NewPatient`. -/
def observationMapper (sc : Strconv) : ResourceMapper :=
  (NewResourceMapper sc).RegisterResource "Observation" (fun _ => .patient (NewPatient sc))

/-- The payload `{"resourceType":"Observation","id":"o1"}`. -/
def observationMembers : List (String × JSON) :=
  [("resourceType", .str "Observation"), ("id", .str "o1")]

namespace time

theorem digitChar_spec :
    ∀ k, k < 10 → (digitChar k).isDigit = true ∧ digitVal (digitChar k) = k := by
  decide

theorem digitChar_isDigit (n : Nat) : (digitChar n).isDigit = true := by
  have := (digitChar_spec (n % 10) (Nat.mod_lt _ (by decide))).1
  simpa [digitChar] using this

theorem digitVal_digitChar (n : Nat) : digitVal (digitChar n) = n % 10 := by
  have := (digitChar_spec (n % 10) (Nat.mod_lt _ (by decide))).2
  simpa [digitChar] using this

theorem isDigit_bounds {c : Char} (h : c.isDigit = true) : 48 ≤ c.toNat ∧ c.toNat ≤ 57 := by
  simp [Char.isDigit] at h
  exact ⟨h.1, h.2⟩

theorem digitVal_lt {c : Char} (h : c.isDigit = true) : digitVal c < 10 := by
  have := isDigit_bounds h
  unfold digitVal
  omega

theorem digitChar_of_digitVal {c : Char} (h : c.isDigit = true) {n : Nat}
    (hn : n % 10 = digitVal c) : digitChar n = c := by
  have hb := isDigit_bounds h
  unfold digitChar
  rw [hn]
  unfold digitVal
  have : 48 + (c.toNat - 48) = c.toNat := by omega
  rw [this, Char.ofNat_toNat]

theorem fixedDigits_two (n : Nat) : fixedDigits 2 n = [digitChar (n / 10), digitChar n] := by
  simp [fixedDigits]

theorem fixedDigits_four (n : Nat) :
    fixedDigits 4 n
      = [digitChar (n / 1000), digitChar (n / 100), digitChar (n / 10), digitChar n] := by
  simp [fixedDigits, Nat.div_div_eq_div_mul]

theorem appendInt_two (n : Nat) (h : n < 100) :
    appendInt (n : Int) 2 = [digitChar (n / 10), digitChar n] := by
  have h0 : ¬ ((n : Int) < 0) := by omega
  simp [appendInt, h0, h, fixedDigits_two]

theorem appendInt_four (y : Int) (h0 : 0 ≤ y) (h : y ≤ 9999) :
    appendInt y 4
      = [digitChar (y.toNat / 1000), digitChar (y.toNat / 100), digitChar (y.toNat / 10),
          digitChar y.toNat] := by
  have h1 : ¬ (y < 0) := by omega
  have h2 : y.natAbs = y.toNat := by omega
  have h3 : y.toNat < 10000 := by omega
  simp [appendInt, h1, h2, h3, fixedDigits_four]

theorem getnum_two (n : Nat) (h : n < 100) (rest : List Char) (fixed : Bool) :
    getnum (digitChar (n / 10) :: digitChar n :: rest) fixed = some (n, rest) := by
  have e : n / 10 % 10 * 10 + n % 10 = n := by omega
  simp [getnum, digitChar_isDigit, digitVal_digitChar, e]

theorem getYear_four (y : Nat) (h : y < 10000) (rest : List Char) :
    getYear (digitChar (y / 1000) :: digitChar (y / 100) :: digitChar (y / 10)
        :: digitChar y :: rest) = some ((y : Int), rest) := by
  have e : ((y / 1000 % 10 * 10 + y / 100 % 10) * 10 + y / 10 % 10) * 10 + y % 10 = y := by
    omega
  simp [getYear, digitChar_isDigit, digitsVal, digitVal_digitChar, e]

theorem daysIn_le (m : Nat) (y : Int) : daysIn m y ≤ 31 := by
  unfold daysIn
  split
  · omega
  · split <;> omega

theorem valid_bounds {t : Time} (h : t.valid = true) :
    1 ≤ t.month ∧ t.month ≤ 12 ∧ 1 ≤ t.day ∧ t.day ≤ daysIn t.month t.year ∧ t.hour < 24
      ∧ t.minute < 60 ∧ t.second < 60 ∧ t.nanosecond < 1000000000 := by
  simp [Time.valid] at h
  tauto

theorem getDate_appendDate (t : Time) (h : t.printable) (rest : List Char) :
    getDate (appendDate t ++ rest) = some (t.year, t.month, t.day, rest) := by
  obtain ⟨h0, h1, hv⟩ := h
  obtain ⟨hm1, hm2, hd1, hd2, -⟩ := valid_bounds hv
  have hd3 := daysIn_le t.month t.year
  have hy : ((t.year.toNat : Nat) : Int) = t.year := by omega
  have hm : ¬ (t.month = 0 ∨ 12 < t.month) := by omega
  simp [getDate, appendDate, appendInt_four t.year h0 h1,
    appendInt_two t.month (by omega), appendInt_two t.day (by omega),
    getYear_four t.year.toNat (by omega), expect, getnum_two t.month (by omega),
    getnum_two t.day (by omega), hy, hm]

theorem parse_dateOnly_appendDate (t : Time) (h : t.printable)
    (ht : t = dateUTC t.year t.month t.day) :
    parse .dateOnly (appendDate t) = some t := by
  have hg := getDate_appendDate t h []
  obtain ⟨-, -, hv⟩ := h
  obtain ⟨hm1, hm2, hd1, hd2, -⟩ := valid_bounds hv
  simp only [List.append_nil] at hg
  simp [parse, hg]
  exact ⟨⟨by omega, hd2⟩, ht.symm⟩

theorem digitsVal_append_single (xs : List Char) (c : Char) :
    digitsVal (xs ++ [c]) = digitsVal xs * 10 + digitVal c := by
  simp [digitsVal, List.foldl_append]

theorem digitsVal_fixedDigits (w n : Nat) : digitsVal (fixedDigits w n) = n % 10 ^ w := by
  induction w generalizing n with
  | zero => simp [fixedDigits, digitsVal, Nat.mod_one]
  | succ w ih =>
    simp only [fixedDigits, digitsVal_append_single, ih, digitVal_digitChar]
    rw [pow_succ', Nat.mod_mul]
    omega

theorem fixedDigits_isDigit (w n : Nat) : ∀ c ∈ fixedDigits w n, c.isDigit = true := by
  induction w generalizing n with
  | zero => simp [fixedDigits]
  | succ w ih =>
    intro c hc
    simp only [fixedDigits, List.mem_append, List.mem_singleton] at hc
    rcases hc with hc | hc
    · exact ih _ c hc
    · subst hc
      exact digitChar_isDigit n

theorem fixedDigits_length (w n : Nat) : (fixedDigits w n).length = w := by
  induction w generalizing n with
  | zero => simp [fixedDigits]
  | succ w ih => simp [fixedDigits, ih]

theorem digitsVal_append_zeros (xs : List Char) (k : Nat) :
    digitsVal (xs ++ List.replicate k '0') = digitsVal xs * 10 ^ k := by
  induction k with
  | zero => simp
  | succ k ih =>
    rw [List.replicate_succ', ← List.append_assoc, digitsVal_append_single, ih]
    have : digitVal '0' = 0 := by decide
    rw [this, pow_succ]
    ring

theorem trimZeros_spec (xs : List Char) :
    ∃ k, xs = trimZeros xs ++ List.replicate k '0' ∧ k + (trimZeros xs).length = xs.length := by
  refine ⟨(xs.reverse.takeWhile (· == '0')).length, ?_, ?_⟩
  · have h := List.takeWhile_append_dropWhile (· == '0') xs.reverse
    have h2 : xs.reverse.takeWhile (· == '0')
        = List.replicate (xs.reverse.takeWhile (· == '0')).length '0' := by
      apply List.eq_replicate_of_mem
      intro c hc
      have := List.mem_takeWhile_imp hc
      simpa using this
    have h3 := congrArg List.reverse h
    rw [List.reverse_append, List.reverse_reverse] at h3
    have h4 : (xs.reverse.takeWhile (· == '0')).reverse
        = List.replicate (xs.reverse.takeWhile (· == '0')).length '0' := by
      conv_lhs => rw [h2]
      simp
    rw [h4] at h3
    exact h3.symm
  · have h := congrArg List.length (List.takeWhile_append_dropWhile (· == '0') xs.reverse)
    simp only [List.length_append, List.length_reverse] at h
    simp only [trimZeros, List.length_reverse]
    exact h

theorem trimZeros_subset (xs : List Char) : ∀ c ∈ trimZeros xs, c ∈ xs := by
  intro c hc
  simp only [trimZeros, List.mem_reverse] at hc
  have := (List.dropWhile_sublist _).mem hc
  simpa using this

theorem takeWhile_digits_append (ds z : List Char) (hd : ∀ c ∈ ds, c.isDigit = true)
    (hz : z.head?.all (fun c => !c.isDigit) = true) :
    (ds ++ z).takeWhile Char.isDigit = ds ∧ (ds ++ z).dropWhile Char.isDigit = z := by
  induction ds with
  | nil =>
    cases z with
    | nil => simp
    | cons c z =>
      simp at hz
      simp [List.takeWhile, List.dropWhile, hz]
  | cons d ds ih =>
    have h1 : d.isDigit = true := hd d (by simp)
    have h2 := ih (fun c hc => hd c (by simp [hc]))
    simp [List.takeWhile, List.dropWhile, h1, h2.1, h2.2]

theorem getFraction_of_not_sep (s : List Char)
    (h : s.head?.all (fun c => c != '.' && c != ',') = true) :
    getFraction s = (0, s) := by
  unfold getFraction
  split
  · rename_i sep d rest
    simp at h
    simp [h.1, h.2]
  · rfl

theorem getFraction_appendNano (n : Nat) (hn : n < 1000000000) (z : List Char)
    (hz : z.head?.all (fun c => !c.isDigit && c != '.' && c != ',') = true) :
    getFraction (appendNano n ++ z) = (n, z) := by
  unfold appendNano
  by_cases h0 : n = 0
  · subst h0
    simp only [beq_self_eq_true, if_true, List.nil_append]
    apply getFraction_of_not_sep
    cases z with
    | nil => rfl
    | cons c z =>
      simp at hz ⊢
      exact ⟨hz.1.2, hz.2⟩
  · have hb : (n == 0) = false := by simpa using h0
    simp only [hb, Bool.false_eq_true, if_false]
    obtain ⟨k, hk, hlen⟩ := trimZeros_spec (fixedDigits 9 n)
    have hval : digitsVal (trimZeros (fixedDigits 9 n)) * 10 ^ k = n := by
      rw [← digitsVal_append_zeros, ← hk, digitsVal_fixedDigits]
      exact Nat.mod_eq_of_lt (by simpa using hn)
    have hdig : ∀ c ∈ trimZeros (fixedDigits 9 n), c.isDigit = true :=
      fun c hc => fixedDigits_isDigit 9 n c (trimZeros_subset _ c hc)
    rw [fixedDigits_length] at hlen
    cases hts : trimZeros (fixedDigits 9 n) with
    | nil =>
      rw [hts] at hval
      simp [digitsVal] at hval
      omega
    | cons d ds =>
      rw [hts] at hdig hlen hval
      have hz2 : z.head?.all (fun c => !c.isDigit) = true := by
        cases z with
        | nil => rfl
        | cons c z =>
          simp at hz ⊢
          exact hz.1.1
      have htd := takeWhile_digits_append (d :: ds) z hdig hz2
      have hd : d.isDigit = true := hdig d (by simp)
      simp only [List.cons_append] at htd ⊢
      simp only [getFraction, hd, beq_self_eq_true, Bool.true_or, Bool.and_self, if_true,
        htd.1, htd.2]
      have hl : (d :: ds).length ≤ 9 := by omega
      rw [List.take_of_length_le hl]
      have hk9 : 9 - (d :: ds).length = k := by omega
      rw [hk9, hval]

theorem appendZone_head (off : Int) (rest : List Char) :
    (appendZone off ++ rest).head?.all (fun c => !c.isDigit && c != '.' && c != ',')
      = true := by
  unfold appendZone
  by_cases h0 : off = 0
  · simp [h0]
  · have hb : (off == 0) = false := by simpa using h0
    simp only [hb, Bool.false_eq_true, if_false]
    by_cases hs : off ≤ -60
    · simp [hs]
    · simp [hs]

theorem appendZone_head_sep (off : Int) (rest : List Char) :
    (appendZone off ++ rest).head?.all (fun c => c != '.' && c != ',') = true := by
  have := appendZone_head off rest
  revert this
  cases (appendZone off ++ rest).head? with
  | none => simp
  | some c =>
    simp only [Option.all_some, Bool.and_eq_true]
    intro h
    exact ⟨h.1.2, h.2⟩

theorem getZone_digits (sign : Char) (hr mm : Nat) (h1 : hr ≤ 24) (h2 : mm < 60)
    (rest : List Char) (hs : sign ≠ 'Z') :
    getZone (sign :: digitChar (hr / 10) :: digitChar hr :: ':' :: digitChar (mm / 10)
        :: digitChar mm :: rest)
      = if sign == '+' then some ((((hr * 60 + mm) * 60 : Nat) : Int), rest)
        else if sign == '-' then some (-(((hr * 60 + mm) * 60 : Nat) : Int), rest)
        else none := by
  have g1 := getnum_two hr (by omega) [] true
  have g2 := getnum_two mm (by omega) [] true
  have hr2 : ¬ (24 < hr ∨ 60 < mm) := by omega
  unfold getZone
  split
  · rename_i heq
    simp at heq
    exact absurd heq.1 hs
  · rename_i heq
    simp only [List.cons.injEq] at heq
    obtain ⟨rfl, rfl, rfl, rfl, rfl, rfl, rfl⟩ := heq
    simp only [g1, g2]
    simp [hr2]
  · rename_i hne
    exact absurd rfl (hne _ _ _ _ _ _ _)

theorem getZone_appendZone (off : Int) (h60 : off % 60 = 0) (hb : off.natAbs < 90000)
    (rest : List Char) :
    getZone (appendZone off ++ rest) = some (off, rest) := by
  unfold appendZone
  by_cases h0 : off = 0
  · simp [h0, getZone]
  · have hz : (off == 0) = false := by simpa using h0
    simp only [hz, Bool.false_eq_true, if_false]
    have h1 : off.natAbs / 60 / 60 < 100 := by omega
    have h2 : off.natAbs / 60 % 60 < 100 := by omega
    have e1 := appendInt_two (off.natAbs / 60 / 60) h1
    have e2 := appendInt_two (off.natAbs / 60 % 60) h2
    rw [e1, e2]
    by_cases hs : off ≤ -60
    · have hv : -(((off.natAbs / 60 / 60 * 60 + off.natAbs / 60 % 60) * 60 : Nat) : Int)
          = off := by omega
      simp only [hs, if_true, List.cons_append, List.nil_append, List.append_assoc]
      rw [getZone_digits '-' _ _ (by omega) (by omega) rest (by decide), hv]
      rfl
    · have hv : (((off.natAbs / 60 / 60 * 60 + off.natAbs / 60 % 60) * 60 : Nat) : Int)
          = off := by omega
      simp only [hs, if_false, List.cons_append, List.nil_append, List.append_assoc]
      rw [getZone_digits '+' _ _ (by omega) (by omega) rest (by decide), hv]
      rfl

theorem getClock_appendClock (t : Time) (hv : t.valid = true) (f z rest : List Char)
    (ns : Nat) (off : Int) (hf : getFraction (f ++ z) = (ns, z))
    (hz : getZone z = some (off, rest)) :
    getClock (appendClock t ++ (f ++ z))
      = some (t.hour, t.minute, t.second, ns, off, rest) := by
  obtain ⟨-, -, -, -, hh, hm, hs, -⟩ := valid_bounds hv
  have h1 : ¬ (24 ≤ t.hour) := by omega
  have h2 : ¬ (60 ≤ t.minute) := by omega
  have h3 : ¬ (60 ≤ t.second) := by omega
  simp [getClock, appendClock, appendInt_two t.hour (by omega),
    appendInt_two t.minute (by omega), appendInt_two t.second (by omega), expect,
    getnum_two t.hour (by omega), getnum_two t.minute (by omega),
    getnum_two t.second (by omega), h1, h2, h3, hf, hz]

theorem parse_RFC3339_format (t : Time) (h : t.wholeSecond) :
    parse .RFC3339 (t.Format .RFC3339).data = some t := by
  obtain ⟨hp, hn, h60, hb⟩ := h
  have hv := hp.2.2
  obtain ⟨hm1, hm2, hd1, hd2, -⟩ := valid_bounds hv
  have hz := getZone_appendZone t.offset h60 hb []
  have hf : getFraction ([] ++ (appendZone t.offset ++ [])) = (0, appendZone t.offset ++ []) :=
    getFraction_of_not_sep _ (appendZone_head_sep t.offset [])
  have hc := getClock_appendClock t hv [] (appendZone t.offset ++ []) [] 0 t.offset hf hz
  have hg := getDate_appendDate t hp (appendClock t ++ ([] ++ (appendZone t.offset ++ [])))
  simp only [List.append_nil, List.nil_append] at hg hc
  simp [Time.Format, parse, hg, hc]
  refine ⟨⟨by omega, hd2⟩, ?_⟩
  cases t
  simp_all

theorem parse_RFC3339_formatNano (t : Time) (hp : t.printable) (h60 : t.offset % 60 = 0)
    (hb : t.offset.natAbs < 90000) :
    parse .RFC3339 (t.Format .RFC3339Nano).data = some t := by
  have hv := hp.2.2
  obtain ⟨hm1, hm2, hd1, hd2, -, -, -, hns⟩ := valid_bounds hv
  have hz := getZone_appendZone t.offset h60 hb []
  have hf := getFraction_appendNano t.nanosecond hns (appendZone t.offset ++ [])
    (appendZone_head t.offset [])
  have hc := getClock_appendClock t hv (appendNano t.nanosecond) (appendZone t.offset ++ [])
    [] t.nanosecond t.offset hf hz
  have hg := getDate_appendDate t hp
    (appendClock t ++ (appendNano t.nanosecond ++ (appendZone t.offset ++ [])))
  simp only [List.append_nil, List.nil_append] at hg hc
  simp [Time.Format, parse, hg, hc]
  exact ⟨by omega, hd2⟩

end time

theorem Dec.err_eq_none_iff {α : Type} (d : Dec α) : d.err = none ↔ d.clean := by
  unfold Dec.err Dec.clean
  cases d.abort with
  | some e => simp
  | none => simp [List.head?_eq_none_iff]

theorem fieldSet_cons (k : String) (x : Val) (fs : Struct) (n : String) (v : Val) :
    fieldSet ((k, x) :: fs) n v = (if k == n then (k, v) else (k, x)) :: fieldSet fs n v :=
  rfl

theorem lookup_fieldSet_ne (fs : Struct) (n m : String) (v : Val) (h : m ≠ n) :
    (fieldSet fs n v).lookup m = fs.lookup m := by
  induction fs with
  | nil => rfl
  | cons p fs ih =>
    obtain ⟨k, x⟩ := p
    rw [fieldSet_cons]
    by_cases hk : k = n
    · subst hk
      have : (m == k) = false := by simpa using h
      simp only [beq_self_eq_true, if_true, List.lookup_cons, this, ih]
    · have hk2 : (k == n) = false := by simpa using hk
      simp only [hk2, Bool.false_eq_true, if_false, List.lookup_cons, ih]

theorem lookup_fieldSet_self (fs : Struct) (n : String) (v x : Val)
    (h : fs.lookup n = some x) : (fieldSet fs n v).lookup n = some v := by
  induction fs with
  | nil => simp at h
  | cons p fs ih =>
    obtain ⟨k, y⟩ := p
    rw [fieldSet_cons]
    by_cases hk : k = n
    · subst hk
      simp only [beq_self_eq_true, if_true, List.lookup_cons]
    · have hk2 : (k == n) = false := by simpa using hk
      have hk3 : (n == k) = false := by simpa using fun h => hk h.symm
      simp only [List.lookup_cons, hk3] at h
      simp only [hk2, Bool.false_eq_true, if_false, List.lookup_cons, hk3]
      exact ih h

theorem lookup_fieldSet_none (fs : Struct) (n : String) (v : Val)
    (h : fs.lookup n = none) : (fieldSet fs n v).lookup n = none := by
  induction fs with
  | nil => rfl
  | cons p fs ih =>
    obtain ⟨k, y⟩ := p
    rw [fieldSet_cons]
    by_cases hk : k = n
    · subst hk
      simp [List.lookup_cons] at h
    · have hk2 : (k == n) = false := by simpa using hk
      have hk3 : (n == k) = false := by simpa using fun h => hk h.symm
      simp only [List.lookup_cons, hk3] at h
      simp only [hk2, Bool.false_eq_true, if_false, List.lookup_cons, hk3]
      exact ih h

theorem fieldSet_names (fs : Struct) (n : String) (v : Val) :
    (fieldSet fs n v).map Prod.fst = fs.map Prod.fst := by
  induction fs with
  | nil => rfl
  | cons p fs ih =>
    obtain ⟨k, y⟩ := p
    rw [fieldSet_cons, List.map_cons, List.map_cons, ih]
    split <;> rfl

theorem lookup_isSome_iff (fs : Struct) (n : String) :
    (fs.lookup n).isSome = true ↔ n ∈ fs.map Prod.fst := by
  induction fs with
  | nil => simp
  | cons p fs ih =>
    obtain ⟨k, y⟩ := p
    by_cases hk : n = k
    · subst hk
      simp [List.lookup_cons]
    · have hk3 : (n == k) = false := by simpa using hk
      simp only [List.lookup_cons, hk3, List.map_cons, List.mem_cons, hk, false_or]
      exact ih

/-- Two structs with the same field names, none repeated, are equal when they agree on
every field. -/
theorem struct_ext (a b : Struct) (hn : a.map Prod.fst = b.map Prod.fst)
    (hd : (a.map Prod.fst).Nodup) (h : ∀ n ∈ a.map Prod.fst, a.lookup n = b.lookup n) :
    a = b := by
  induction a generalizing b with
  | nil =>
    cases b with
    | nil => rfl
    | cons q b => simp at hn
  | cons p a ih =>
    cases b with
    | nil => simp at hn
    | cons q b =>
      obtain ⟨k, x⟩ := p
      obtain ⟨k2, y⟩ := q
      simp only [List.map_cons, List.cons.injEq] at hn
      obtain ⟨hk, hn⟩ := hn
      subst hk
      simp only [List.map_cons, List.nodup_cons] at hd
      have hx := h k (by simp)
      simp [List.lookup_cons] at hx
      subst hx
      congr 1
      apply ih b hn hd.2
      intro n hnmem
      have hne : n ≠ k := fun e => hd.1 (e ▸ hnmem)
      have := h n (by simp [hnmem])
      have hb : (n == k) = false := by simpa using hne
      simpa [List.lookup_cons, hb] using this

open GoType

theorem lawful_string (name : String) : (GoType.string name).Lawful where
  isZero_eq v h := by
    cases v with
    | string s =>
      have : s = "" := by simpa [GoType.string] using h
      subst this
      rfl
    | _ => exact Bool.noConfusion h
  roundTrip v h _ := by
    cases v with
    | string s => exact ⟨.str s, rfl, rfl⟩
    | _ => exact Bool.noConfusion h

theorem nonNull_string (name : String) : (GoType.string name).NonNull := by
  intro v j h hm
  cases v with
  | string s =>
    cases hm
    exact JSON.noConfusion
  | _ => exact Bool.noConfusion h

theorem lawful_bool : GoType.bool.Lawful where
  isZero_eq v h := by
    cases v with
    | bool b =>
      cases b
      · rfl
      · exact Bool.noConfusion h
    | _ => exact Bool.noConfusion h
  roundTrip v h _ := by
    cases v with
    | bool b => exact ⟨.bool b, rfl, rfl⟩
    | _ => exact Bool.noConfusion h

theorem nonNull_bool : GoType.bool.NonNull := by
  intro v j h hm
  cases v with
  | bool b =>
    cases hm
    exact JSON.noConfusion
  | _ => exact Bool.noConfusion h

theorem parseInt_formatInt (n : Int) (h1 : -9223372036854775808 ≤ n)
    (h2 : n ≤ 9223372036854775807) : parseInt (formatInt n) = some n := by
  unfold parseInt formatInt
  by_cases hn : n < 0
  · have e : -|n| = n := by rw [abs_of_neg hn]; omega
    have e2 : |n| = -n := abs_of_neg hn
    simp [hn, e, h1, h2]
  · have e : |n| = n := abs_of_nonneg (by omega)
    simp [hn, e, h1, h2]

theorem lawful_int : GoType.int.Lawful where
  isZero_eq v h := by
    cases v with
    | int n =>
      have : n = 0 := by simpa [GoType.int] using h
      subst this
      rfl
    | _ => exact Bool.noConfusion h
  roundTrip v h _ := by
    cases v with
    | int n =>
      have h' : -9223372036854775808 ≤ n ∧ n ≤ 9223372036854775807 := by
        simpa [GoType.int] using h
      refine ⟨.num (formatInt n), rfl, ?_⟩
      show (match parseInt (formatInt n) with
        | some i => (⟨.int i, [], none⟩ : Dec Val)
        | none => mismatch "int" (.num (formatInt n)) (.int 0)) = _
      rw [parseInt_formatInt n h'.1 h'.2]
    | _ => exact Bool.noConfusion h

theorem nonNull_int : GoType.int.NonNull := by
  intro v j h hm
  cases v with
  | int n =>
    cases hm
    exact JSON.noConfusion
  | _ => exact Bool.noConfusion h

theorem lawful_float64 (sc : Strconv) : (GoType.float64 sc).Lawful where
  isZero_eq v h := by
    cases v with
    | float64 x =>
      obtain ⟨b⟩ := x
      have : b = 0 := by simpa [GoType.float64] using h
      subst this
      rfl
    | _ => exact Bool.noConfusion h
  roundTrip v h hc := by
    cases v with
    | float64 x =>
      have hc' : (sc.formatFloat x).isSome = true := hc
      obtain ⟨n, hn⟩ := Option.isSome_iff_exists.mp hc'
      have hp := sc.roundTrip x n hn
      refine ⟨.num n, ?_, ?_⟩
      · show (match sc.formatFloat x with
          | some n => Except.ok (JSON.num n)
          | none => Except.error Err.unsupportedValue) = _
        rw [hn]
      · show (match sc.parseFloat n with
          | some x => (⟨.float64 x, [], none⟩ : Dec Val)
          | none => mismatch "float64" (.num n) (.float64 ⟨0⟩)) = _
        rw [hp]
    | _ => exact Bool.noConfusion h

theorem nonNull_float64 (sc : Strconv) : (GoType.float64 sc).NonNull := by
  intro v j h hm
  cases v with
  | float64 x =>
    have hm' : (match sc.formatFloat x with
        | some n => Except.ok (JSON.num n)
        | none => Except.error Err.unsupportedValue) = Except.ok j := hm
    cases hf : sc.formatFloat x with
    | none => rw [hf] at hm'; cases hm'
    | some n =>
      rw [hf] at hm'
      cases hm'
      exact JSON.noConfusion
  | _ => exact Bool.noConfusion h

theorem time_marshal_unmarshal (t : time.Time) (hv : t.valid = true) (h0 : 0 ≤ t.year)
    (h1 : t.year ≤ 9999) (h60 : t.offset % 60 = 0) (hb : t.offset.natAbs < 86400) :
    t.MarshalJSON = .ok (t.Format .RFC3339Nano)
      ∧ time.Time.UnmarshalJSON (t.Format .RFC3339Nano) = .ok t := by
  constructor
  · have h2 : ¬ (t.year < 0 ∨ 9999 < t.year) := by omega
    have h3 : ¬ (24 ≤ t.offset.natAbs / 60 / 60) := by omega
    simp [time.Time.MarshalJSON, h2, h3]
  · have := time.parse_RFC3339_formatNano t ⟨h0, h1, hv⟩ h60 (by omega)
    simp [time.Time.UnmarshalJSON, time.Parse, this]

theorem lawful_time : GoType.time.Lawful where
  isZero_eq v h := Bool.noConfusion h
  roundTrip v h hc := by
    cases v with
    | time t =>
      have hv : t.valid = true := h
      have hc' : (decide (0 ≤ t.year) && decide (t.year ≤ 9999)
        && decide (t.offset % 60 = 0) && decide (t.offset.natAbs < 86400)) = true := hc
      simp only [Bool.and_eq_true, decide_eq_true_eq] at hc'
      obtain ⟨⟨⟨h0, h1⟩, h60⟩, hb⟩ := hc'
      obtain ⟨hm, hu⟩ := time_marshal_unmarshal t hv h0 h1 h60 hb
      refine ⟨.str (t.Format .RFC3339Nano), ?_, ?_⟩
      · show (match t.MarshalJSON with
          | .ok s => Except.ok (JSON.str s)
          | .error e => .error e) = _
        rw [hm]
      · show (match time.Time.UnmarshalJSON (t.Format .RFC3339Nano) with
          | .ok t => (⟨.time t, [], none⟩ : Dec Val)
          | .error e => ⟨.time time.zeroTime, [], some e⟩) = _
        rw [hu]
    | _ => exact Bool.noConfusion h

theorem nonNull_time : GoType.time.NonNull := by
  intro v j h hm
  cases v with
  | time t =>
    have hm' : (match t.MarshalJSON with
        | .ok s => Except.ok (JSON.str s)
        | .error e => .error e) = Except.ok j := hm
    cases hf : t.MarshalJSON with
    | error e => rw [hf] at hm'; cases hm'
    | ok s =>
      rw [hf] at hm'
      cases hm'
      exact JSON.noConfusion
  | _ => exact Bool.noConfusion h

theorem lawful_rawMessage : GoType.rawMessage.Lawful where
  isZero_eq v h := by
    cases v with
    | raw m =>
      cases m with
      | null => rfl
      | _ => exact Bool.noConfusion h
    | _ => exact Bool.noConfusion h
  roundTrip v h hc := by
    cases v with
    | raw m =>
      cases m with
      | text j => exact ⟨j, rfl, rfl⟩
      | _ => exact Bool.noConfusion hc
    | _ => exact Bool.noConfusion h

theorem lawful_ptr (elem : GoType) (hl : elem.Lawful) (hn : elem.NonNull) :
    (GoType.ptr elem).Lawful where
  isZero_eq v h := by
    cases v with
    | nilPtr => rfl
    | _ => exact Bool.noConfusion h
  roundTrip v h hc := by
    cases v with
    | nilPtr => exact ⟨.null, rfl, rfl⟩
    | ptr x =>
      have h' : elem.hasType x = true := h
      have hc' : elem.canon x = true := hc
      obtain ⟨j, hj, hd⟩ := hl.roundTrip x h' hc'
      have hnn := hn x j h' hj
      refine ⟨j, hj, ?_⟩
      cases j with
      | null => exact absurd rfl hnn
      | _ =>
        show (⟨.ptr (elem.unmarshal _ elem.zero).val, (elem.unmarshal _ elem.zero).saved,
          (elem.unmarshal _ elem.zero).abort⟩ : Dec Val) = _
        rw [hd]
    | _ => exact Bool.noConfusion h

theorem slice_roundTrip (elem : GoType) (hl : elem.Lawful) (xs : List Val)
    (h : xs.all elem.hasType = true) (hc : xs.all elem.canon = true) :
    ∃ js, encodeElems elem xs = .ok js ∧ decodeElems elem js [] = ⟨xs, [], none⟩ := by
  induction xs with
  | nil => exact ⟨[], rfl, rfl⟩
  | cons x xs ih =>
    simp only [List.all_cons, Bool.and_eq_true] at h hc
    obtain ⟨js, hjs, hds⟩ := ih h.2 hc.2
    obtain ⟨j, hj, hd⟩ := hl.roundTrip x h.1 hc.1
    refine ⟨j :: js, by simp [encodeElems, hj, hjs], ?_⟩
    simp [decodeElems, hd, hds]

theorem lawful_slice (elem : GoType) (hl : elem.Lawful) : (GoType.slice elem).Lawful where
  isZero_eq v h := by
    cases v with
    | nilSlice => rfl
    | _ => exact Bool.noConfusion h
  roundTrip v h hc := by
    cases v with
    | nilSlice => exact ⟨.null, rfl, rfl⟩
    | slice xs =>
      have h' : xs.all elem.hasType = true := h
      have hc' : xs.all elem.canon = true := hc
      obtain ⟨js, hjs, hds⟩ := slice_roundTrip elem hl xs h' hc'
      refine ⟨.arr js, ?_, ?_⟩
      · show (match encodeElems elem xs with
          | .ok js => Except.ok (JSON.arr js)
          | .error e => .error e) = _
        rw [hjs]
      · show (⟨.slice (decodeElems elem js []).val, (decodeElems elem js []).saved,
          (decodeElems elem js []).abort⟩ : Dec Val) = _
        rw [hds]
    | _ => exact Bool.noConfusion h

theorem nonNull_struct (name : String) (fields : List Field) :
    (GoType.struct name fields).NonNull := by
  intro v j h hm
  cases v with
  | struct fs =>
    have hm' : (match encodeFields fields fs with
        | .ok ms => Except.ok (JSON.obj ms)
        | .error e => .error e) = Except.ok j := hm
    cases hf : encodeFields fields fs with
    | error e => rw [hf] at hm'; cases hm'
    | ok s =>
      rw [hf] at hm'
      cases hm'
      exact JSON.noConfusion
  | _ => exact Bool.noConfusion h

theorem find?_key_of_nodup {α β : Type} [BEq β] [LawfulBEq β] (key : α → β) (l : List α)
    (h : (l.map key).Nodup) (f : α) (hf : f ∈ l) :
    l.find? (fun g => key g == key f) = some f := by
  induction l with
  | nil => simp at hf
  | cons a l ih =>
    simp only [List.map_cons, List.nodup_cons] at h
    rcases List.mem_cons.mp hf with rfl | hf'
    · simp
    · have hne : key a ≠ key f := by
        intro e
        exact h.1 (e ▸ List.mem_map_of_mem key hf')
      have hb : (key a == key f) = false := by simpa using hne
      rw [List.find?_cons, hb]
      exact ih h.2 hf'

theorem resolve_key (all : List Field) (hk : (all.map (·.key)).Nodup) (f : Field)
    (hf : f ∈ all) : resolve all f.key = some f := by
  unfold resolve
  rw [find?_key_of_nodup (·.key) all hk f hf]

theorem lookup_zeroStruct (all : List Field) (hn : (all.map (·.name)).Nodup) (f : Field)
    (hf : f ∈ all) : (zeroStruct all).lookup f.name = some f.type.zero := by
  induction all with
  | nil => simp at hf
  | cons a l ih =>
    simp only [List.map_cons, List.nodup_cons] at hn
    rcases List.mem_cons.mp hf with rfl | hf'
    · simp [zeroStruct, List.lookup_cons]
    · have hne : f.name ≠ a.name := by
        intro e
        exact hn.1 (e ▸ List.mem_map_of_mem (·.name) hf')
      have hb : (f.name == a.name) = false := by simpa using hne
      have := ih hn.2 hf'
      simp only [zeroStruct] at this
      simp only [zeroStruct, List.map_cons, List.lookup_cons, hb]
      exact this

theorem zeroStruct_names (all : List Field) :
    (zeroStruct all).map Prod.fst = all.map (·.name) := by
  simp [zeroStruct, List.map_map, Function.comp_def]

theorem structHasType_names (all : List Field) (fs : Struct)
    (h : structHasType all fs = true) : fs.map Prod.fst = all.map (·.name) := by
  induction all generalizing fs with
  | nil =>
    cases fs with
    | nil => rfl
    | cons p fs => simp [structHasType] at h
  | cons a l ih =>
    cases fs with
    | nil => simp [structHasType] at h
    | cons p fs =>
      obtain ⟨n, v⟩ := p
      simp only [structHasType, Bool.and_eq_true, beq_iff_eq] at h
      simp [h.1.1, ih fs h.2]

theorem structHasType_lookup (all : List Field) (hn : (all.map (·.name)).Nodup)
    (fs : Struct) (h : structHasType all fs = true) (f : Field) (hf : f ∈ all) :
    ∃ x, fs.lookup f.name = some x ∧ f.type.hasType x = true := by
  induction all generalizing fs with
  | nil => simp at hf
  | cons a l ih =>
    cases fs with
    | nil => simp [structHasType] at h
    | cons p fs =>
      obtain ⟨n, v⟩ := p
      simp only [structHasType, Bool.and_eq_true, beq_iff_eq] at h
      obtain ⟨⟨hna, hv⟩, hrest⟩ := h
      subst hna
      simp only [List.map_cons, List.nodup_cons] at hn
      rcases List.mem_cons.mp hf with rfl | hf'
      · exact ⟨v, by simp [List.lookup_cons], hv⟩
      · have hne : f.name ≠ a.name := by
          intro e
          exact hn.1 (e ▸ List.mem_map_of_mem (·.name) hf')
        have hb : (f.name == a.name) = false := by simpa using hne
        obtain ⟨x, hx, hx2⟩ := ih hn.2 fs hrest hf'
        exact ⟨x, by simp [List.lookup_cons, hb, hx], hx2⟩

/-- The encoder and the decoder of a struct agree field by field: decoding what the
encoder emits for the fields `fs` of `vs` sets these fields in the receiver to their
values in `vs` and leaves every other field of the receiver alone. -/
theorem fields_roundTrip (all : List Field) (hok : FieldsOK all) :
    ∀ (fs : List Field), (∀ f ∈ fs, f ∈ all) → (fs.map (·.name)).Nodup →
    ∀ (vs st : Struct),
      (∀ f ∈ fs, ∃ x cur, vs.lookup f.name = some x ∧ f.type.hasType x = true
        ∧ fieldCanon f x = true ∧ st.lookup f.name = some cur ∧ Receptive f cur) →
      ∃ ms st', encodeFields fs vs = .ok ms ∧ decodeMembers all ms st = ⟨st', [], none⟩
        ∧ st'.map Prod.fst = st.map Prod.fst
        ∧ (∀ f ∈ fs, st'.lookup f.name = vs.lookup f.name)
        ∧ (∀ n, n ∉ fs.map (·.name) → st'.lookup n = st.lookup n) := by
  intro fs
  induction fs with
  | nil =>
    intro _ _ vs st _
    exact ⟨[], st, rfl, rfl, rfl, by simp, by simp⟩
  | cons f fs ih =>
    intro hall hnd vs st hpre
    simp only [List.map_cons, List.nodup_cons] at hnd
    obtain ⟨x, cur, hx, hty, hcan, hz, hrec⟩ := hpre f (by simp)
    have hall' : ∀ g ∈ fs, g ∈ all := fun g hg => hall g (by simp [hg])
    have hfne : ∀ g ∈ fs, g.name ≠ f.name := by
      intro g hg e
      exact hnd.1 (e ▸ List.mem_map_of_mem (·.name) hg)
    by_cases hom : (f.omitempty && f.type.isEmptyValue x) = true
    · -- the field is left out; it is the zero value
      have hzero : x = f.type.zero := by
        apply (hok.lawful f (hall f (by simp))).isZero_eq
        simpa [fieldCanon, hom] using hcan
      obtain ⟨ms, st', he, hd, hn, hl, hr⟩ := ih hall' hnd.2 vs st
        (fun g hg => hpre g (by simp [hg]))
      have hcur : cur = f.type.zero := by
        rcases hrec with h | ⟨h, -⟩
        · exact h
        · rw [h] at hom
          exact absurd hom (by simp)
      refine ⟨ms, st', by simp [encodeFields, hx, hom, he], hd, hn, ?_, ?_⟩
      · intro g hg
        rcases List.mem_cons.mp hg with rfl | hg'
        · rw [hr _ hnd.1, hz, hx, hzero, hcur]
        · exact hl g hg'
      · intro n hn'
        simp only [List.map_cons, List.mem_cons, not_or] at hn'
        exact hr n hn'.2
    · -- the field is emitted and decoded back
      have hcan' : f.type.canon x = true := by
        simpa [fieldCanon, hom] using hcan
      obtain ⟨j, hj, hdj⟩ := (hok.lawful f (hall f (by simp))).roundTrip x hty hcan'
      have hdj' : f.type.unmarshal j cur = ⟨x, [], none⟩ := by
        rcases hrec with h | ⟨-, h⟩
        · rw [h, hdj]
        · rw [h x j hj, hdj]
      have hpre' : ∀ g ∈ fs, ∃ y c, vs.lookup g.name = some y ∧ g.type.hasType y = true
          ∧ fieldCanon g y = true
          ∧ (fieldSet st f.name x).lookup g.name = some c ∧ Receptive g c := by
        intro g hg
        obtain ⟨y, c, hy1, hy2, hy3, hy4, hy5⟩ := hpre g (by simp [hg])
        exact ⟨y, c, hy1, hy2, hy3,
          by rw [lookup_fieldSet_ne _ _ _ _ (hfne g hg), hy4], hy5⟩
      obtain ⟨ms, st', he, hd, hn, hl, hr⟩ := ih hall' hnd.2 vs (fieldSet st f.name x) hpre'
      refine ⟨(f.key, j) :: ms, st', ?_, ?_, ?_, ?_, ?_⟩
      · simp [encodeFields, hx, hom, hj, he]
      · simp [decodeMembers, resolve_key all hok.keys f (hall f (by simp)), hz, hdj', hd]
      · rw [hn, fieldSet_names]
      · intro g hg
        rcases List.mem_cons.mp hg with rfl | hg'
        · rw [hr _ hnd.1, lookup_fieldSet_self _ _ _ _ hz, hx]
        · exact hl g hg'
      · intro n hn'
        simp only [List.map_cons, List.mem_cons, not_or] at hn'
        rw [hr n hn'.2, lookup_fieldSet_ne _ _ _ _ hn'.1]

theorem lawful_struct (name : String) (all : List Field) (hok : FieldsOK all) :
    (GoType.struct name all).Lawful where
  isZero_eq v h := Bool.noConfusion h
  roundTrip v h hc := by
    cases v with
    | struct vs =>
      have h' : structHasType all vs = true := h
      have hc' : structCanon all vs = true := hc
      have hpre : ∀ f ∈ all, ∃ x cur, vs.lookup f.name = some x ∧ f.type.hasType x = true
          ∧ fieldCanon f x = true ∧ (zeroStruct all).lookup f.name = some cur
          ∧ Receptive f cur := by
        intro f hf
        obtain ⟨x, hx, hty⟩ := structHasType_lookup all hok.names vs h' f hf
        refine ⟨x, f.type.zero, hx, hty, ?_, lookup_zeroStruct all hok.names f hf,
          Or.inl rfl⟩
        have := (List.all_eq_true.mp hc') f hf
        simpa [hx] using this
      obtain ⟨ms, st', he, hd, hn, hl, -⟩ :=
        fields_roundTrip all hok all (fun f hf => hf) hok.names vs (zeroStruct all) hpre
      have hnames : st'.map Prod.fst = vs.map Prod.fst := by
        rw [hn, zeroStruct_names, structHasType_names all vs h']
      have hst : st' = vs := by
        apply struct_ext st' vs hnames
        · rw [hnames, structHasType_names all vs h']
          exact hok.names
        · intro n hnmem
          rw [hnames, structHasType_names all vs h'] at hnmem
          obtain ⟨f, hf, rfl⟩ := List.mem_map.mp hnmem
          exact hl f hf
      refine ⟨.obj ms, ?_, ?_⟩
      · show (match encodeFields all vs with
          | .ok ms => Except.ok (JSON.obj ms)
          | .error e => .error e) = _
        rw [he]
      · show (⟨.struct (decodeMembers all ms (zeroStruct all)).val,
          (decodeMembers all ms (zeroStruct all)).saved,
          (decodeMembers all ms (zeroStruct all)).abort⟩ : Dec Val) = _
        rw [hd, hst]
    | _ => exact Bool.noConfusion h

end FhirClient

set_option linter.unusedTactic false
set_option linter.unreachableTactic false

namespace FhirClient

theorem Period_fieldsOK : FieldsOK (Period.fields) where
  lawful := by
    simp only [Period.fields, opt, fld, List.forall_mem_cons, List.not_mem_nil,
      IsEmpty.forall_iff, implies_true, and_true]
    and_intros
    all_goals
      repeat' first
        | exact lawful_bool | exact lawful_int | exact lawful_time
        | exact lawful_rawMessage | exact nonNull_bool | exact nonNull_int
        | exact nonNull_time
        | apply lawful_string | apply nonNull_string
        | apply lawful_float64 | apply nonNull_float64 | apply nonNull_struct
        | apply lawful_ptr | apply lawful_slice
  names := by
    have e : (Period.fields).map (·.name)
        = ["Start", "End"] := rfl
    rw [e]
    decide
  keys := by
    have e : (Period.fields).map (·.key)
        = ["start", "end"] := rfl
    rw [e]
    decide

theorem Period_lawful : (Period.type).Lawful := lawful_struct _ _ (Period_fieldsOK)

theorem Coding_fieldsOK : FieldsOK (Coding.fields) where
  lawful := by
    simp only [Coding.fields, opt, fld, List.forall_mem_cons, List.not_mem_nil,
      IsEmpty.forall_iff, implies_true, and_true]
    and_intros
    all_goals
      repeat' first
        | exact lawful_bool | exact lawful_int | exact lawful_time
        | exact lawful_rawMessage | exact nonNull_bool | exact nonNull_int
        | exact nonNull_time
        | apply lawful_string | apply nonNull_string
        | apply lawful_float64 | apply nonNull_float64 | apply nonNull_struct
        | apply lawful_ptr | apply lawful_slice
  names := by
    have e : (Coding.fields).map (·.name)
        = ["System", "Version", "Code", "Display", "UserSelected"] := rfl
    rw [e]
    decide
  keys := by
    have e : (Coding.fields).map (·.key)
        = ["system", "version", "code", "display", "userSelected"] := rfl
    rw [e]
    decide

theorem Coding_lawful : (Coding.type).Lawful := lawful_struct _ _ (Coding_fieldsOK)

theorem CodeableConcept_fieldsOK : FieldsOK (CodeableConcept.fields) where
  lawful := by
    simp only [CodeableConcept.fields, opt, fld, List.forall_mem_cons, List.not_mem_nil,
      IsEmpty.forall_iff, implies_true, and_true]
    and_intros
    all_goals
      repeat' first
        | exact lawful_bool | exact lawful_int | exact lawful_time
        | exact lawful_rawMessage | exact nonNull_bool | exact nonNull_int
        | exact nonNull_time | exact Coding_lawful
        | apply lawful_string | apply nonNull_string
        | apply lawful_float64 | apply nonNull_float64 | apply nonNull_struct
        | apply lawful_ptr | apply lawful_slice
  names := by
    have e : (CodeableConcept.fields).map (·.name)
        = ["Coding", "Text"] := rfl
    rw [e]
    decide
  keys := by
    have e : (CodeableConcept.fields).map (·.key)
        = ["coding", "text"] := rfl
    rw [e]
    decide

theorem CodeableConcept_lawful : (CodeableConcept.type).Lawful := lawful_struct _ _ (CodeableConcept_fieldsOK)

theorem Quantity_fieldsOK (sc : Strconv) : FieldsOK (Quantity.fields sc) where
  lawful := by
    simp only [Quantity.fields, opt, fld, List.forall_mem_cons, List.not_mem_nil,
      IsEmpty.forall_iff, implies_true, and_true]
    and_intros
    all_goals
      repeat' first
        | exact lawful_bool | exact lawful_int | exact lawful_time
        | exact lawful_rawMessage | exact nonNull_bool | exact nonNull_int
        | exact nonNull_time
        | apply lawful_string | apply nonNull_string
        | apply lawful_float64 | apply nonNull_float64 | apply nonNull_struct
        | apply lawful_ptr | apply lawful_slice
  names := by
    have e : (Quantity.fields sc).map (·.name)
        = ["Value", "Comparator", "Unit", "System", "Code"] := rfl
    rw [e]
    decide
  keys := by
    have e : (Quantity.fields sc).map (·.key)
        = ["value", "comparator", "unit", "system", "code"] := rfl
    rw [e]
    decide

theorem Quantity_lawful (sc : Strconv) : (Quantity.type sc).Lawful := lawful_struct _ _ (Quantity_fieldsOK sc)

theorem Reference_fieldsOK : FieldsOK (Reference.fields) where
  lawful := by
    simp only [Reference.fields, opt, fld, List.forall_mem_cons, List.not_mem_nil,
      IsEmpty.forall_iff, implies_true, and_true]
    and_intros
    all_goals
      repeat' first
        | exact lawful_bool | exact lawful_int | exact lawful_time
        | exact lawful_rawMessage | exact nonNull_bool | exact nonNull_int
        | exact nonNull_time
        | apply lawful_string | apply nonNull_string
        | apply lawful_float64 | apply nonNull_float64 | apply nonNull_struct
        | apply lawful_ptr | apply lawful_slice
  names := by
    have e : (Reference.fields).map (·.name)
        = ["Reference", "Type", "Display"] := rfl
    rw [e]
    decide
  keys := by
    have e : (Reference.fields).map (·.key)
        = ["reference", "type", "display"] := rfl
    rw [e]
    decide

theorem Reference_lawful : (Reference.type).Lawful := lawful_struct _ _ (Reference_fieldsOK)

theorem Meta_fieldsOK : FieldsOK (Meta.fields) where
  lawful := by
    simp only [Meta.fields, opt, fld, List.forall_mem_cons, List.not_mem_nil,
      IsEmpty.forall_iff, implies_true, and_true]
    and_intros
    all_goals
      repeat' first
        | exact lawful_bool | exact lawful_int | exact lawful_time
        | exact lawful_rawMessage | exact nonNull_bool | exact nonNull_int
        | exact nonNull_time | exact Coding_lawful
        | apply lawful_string | apply nonNull_string
        | apply lawful_float64 | apply nonNull_float64 | apply nonNull_struct
        | apply lawful_ptr | apply lawful_slice
  names := by
    have e : (Meta.fields).map (·.name)
        = ["VersionID", "LastUpdated", "Source", "Profile", "Security", "Tag"] := rfl
    rw [e]
    decide
  keys := by
    have e : (Meta.fields).map (·.key)
        = ["versionId", "lastUpdated", "source", "profile", "security", "tag"] := rfl
    rw [e]
    decide

theorem Meta_lawful : (Meta.type).Lawful := lawful_struct _ _ (Meta_fieldsOK)

theorem Narrative_fieldsOK : FieldsOK (Narrative.fields) where
  lawful := by
    simp only [Narrative.fields, opt, fld, List.forall_mem_cons, List.not_mem_nil,
      IsEmpty.forall_iff, implies_true, and_true]
    and_intros
    all_goals
      repeat' first
        | exact lawful_bool | exact lawful_int | exact lawful_time
        | exact lawful_rawMessage | exact nonNull_bool | exact nonNull_int
        | exact nonNull_time
        | apply lawful_string | apply nonNull_string
        | apply lawful_float64 | apply nonNull_float64 | apply nonNull_struct
        | apply lawful_ptr | apply lawful_slice
  names := by
    have e : (Narrative.fields).map (·.name)
        = ["Status", "Div"] := rfl
    rw [e]
    decide
  keys := by
    have e : (Narrative.fields).map (·.key)
        = ["status", "div"] := rfl
    rw [e]
    decide

theorem Narrative_lawful : (Narrative.type).Lawful := lawful_struct _ _ (Narrative_fieldsOK)

theorem Extension_fieldsOK (sc : Strconv) : FieldsOK (Extension.fields sc) where
  lawful := by
    simp only [Extension.fields, opt, fld, List.forall_mem_cons, List.not_mem_nil,
      IsEmpty.forall_iff, implies_true, and_true]
    and_intros
    all_goals
      repeat' first
        | exact lawful_bool | exact lawful_int | exact lawful_time
        | exact lawful_rawMessage | exact nonNull_bool | exact nonNull_int
        | exact nonNull_time | exact CodeableConcept_lawful | exact Quantity_lawful sc | exact Reference_lawful
        | apply lawful_string | apply nonNull_string
        | apply lawful_float64 | apply nonNull_float64 | apply nonNull_struct
        | apply lawful_ptr | apply lawful_slice
  names := by
    have e : (Extension.fields sc).map (·.name)
        = ["URL", "ValueString", "ValueInteger", "ValueBoolean", "ValueCode",
            "ValueDateTime", "ValueQuantity", "ValueReference", "ValueCodeableConcept"] := rfl
    rw [e]
    decide
  keys := by
    have e : (Extension.fields sc).map (·.key)
        = ["url", "valueString", "valueInteger", "valueBoolean", "valueCode",
            "valueDateTime", "valueQuantity", "valueReference", "valueCodeableConcept"] := rfl
    rw [e]
    decide

theorem Extension_lawful (sc : Strconv) : (Extension.type sc).Lawful := lawful_struct _ _ (Extension_fieldsOK sc)

theorem HumanName_fieldsOK : FieldsOK (HumanName.fields) where
  lawful := by
    simp only [HumanName.fields, opt, fld, List.forall_mem_cons, List.not_mem_nil,
      IsEmpty.forall_iff, implies_true, and_true]
    and_intros
    all_goals
      repeat' first
        | exact lawful_bool | exact lawful_int | exact lawful_time
        | exact lawful_rawMessage | exact nonNull_bool | exact nonNull_int
        | exact nonNull_time | exact Period_lawful
        | apply lawful_string | apply nonNull_string
        | apply lawful_float64 | apply nonNull_float64 | apply nonNull_struct
        | apply lawful_ptr | apply lawful_slice
  names := by
    have e : (HumanName.fields).map (·.name)
        = ["Use", "Text", "Family", "Given", "Prefix", "Suffix", "Period"] := rfl
    rw [e]
    decide
  keys := by
    have e : (HumanName.fields).map (·.key)
        = ["use", "text", "family", "given", "prefix", "suffix", "period"] := rfl
    rw [e]
    decide

theorem HumanName_lawful : (HumanName.type).Lawful := lawful_struct _ _ (HumanName_fieldsOK)

theorem ContactPoint_fieldsOK : FieldsOK (ContactPoint.fields) where
  lawful := by
    simp only [ContactPoint.fields, opt, fld, List.forall_mem_cons, List.not_mem_nil,
      IsEmpty.forall_iff, implies_true, and_true]
    and_intros
    all_goals
      repeat' first
        | exact lawful_bool | exact lawful_int | exact lawful_time
        | exact lawful_rawMessage | exact nonNull_bool | exact nonNull_int
        | exact nonNull_time | exact Period_lawful
        | apply lawful_string | apply nonNull_string
        | apply lawful_float64 | apply nonNull_float64 | apply nonNull_struct
        | apply lawful_ptr | apply lawful_slice
  names := by
    have e : (ContactPoint.fields).map (·.name)
        = ["System", "Value", "Use", "Rank", "Period"] := rfl
    rw [e]
    decide
  keys := by
    have e : (ContactPoint.fields).map (·.key)
        = ["system", "value", "use", "rank", "period"] := rfl
    rw [e]
    decide

theorem ContactPoint_lawful : (ContactPoint.type).Lawful := lawful_struct _ _ (ContactPoint_fieldsOK)

theorem Address_fieldsOK : FieldsOK (Address.fields) where
  lawful := by
    simp only [Address.fields, opt, fld, List.forall_mem_cons, List.not_mem_nil,
      IsEmpty.forall_iff, implies_true, and_true]
    and_intros
    all_goals
      repeat' first
        | exact lawful_bool | exact lawful_int | exact lawful_time
        | exact lawful_rawMessage | exact nonNull_bool | exact nonNull_int
        | exact nonNull_time | exact Period_lawful
        | apply lawful_string | apply nonNull_string
        | apply lawful_float64 | apply nonNull_float64 | apply nonNull_struct
        | apply lawful_ptr | apply lawful_slice
  names := by
    have e : (Address.fields).map (·.name)
        = ["Use", "Type", "Text", "Line", "City", "District", "State", "PostalCode",
            "Country", "Period"] := rfl
    rw [e]
    decide
  keys := by
    have e : (Address.fields).map (·.key)
        = ["use", "type", "text", "line", "city", "district", "state", "postalCode",
            "country", "period"] := rfl
    rw [e]
    decide

theorem Address_lawful : (Address.type).Lawful := lawful_struct _ _ (Address_fieldsOK)

theorem Attachment_fieldsOK : FieldsOK (Attachment.fields) where
  lawful := by
    simp only [Attachment.fields, opt, fld, List.forall_mem_cons, List.not_mem_nil,
      IsEmpty.forall_iff, implies_true, and_true]
    and_intros
    all_goals
      repeat' first
        | exact lawful_bool | exact lawful_int | exact lawful_time
        | exact lawful_rawMessage | exact nonNull_bool | exact nonNull_int
        | exact nonNull_time
        | apply lawful_string | apply nonNull_string
        | apply lawful_float64 | apply nonNull_float64 | apply nonNull_struct
        | apply lawful_ptr | apply lawful_slice
  names := by
    have e : (Attachment.fields).map (·.name)
        = ["ContentType", "Language", "Data", "URL", "Size", "Hash", "Title",
            "Creation"] := rfl
    rw [e]
    decide
  keys := by
    have e : (Attachment.fields).map (·.key)
        = ["contentType", "language", "data", "url", "size", "hash", "title",
            "creation"] := rfl
    rw [e]
    decide

theorem Attachment_lawful : (Attachment.type).Lawful := lawful_struct _ _ (Attachment_fieldsOK)

theorem PatientContact_fieldsOK : FieldsOK (PatientContact.fields) where
  lawful := by
    simp only [PatientContact.fields, opt, fld, List.forall_mem_cons, List.not_mem_nil,
      IsEmpty.forall_iff, implies_true, and_true]
    and_intros
    all_goals
      repeat' first
        | exact lawful_bool | exact lawful_int | exact lawful_time
        | exact lawful_rawMessage | exact nonNull_bool | exact nonNull_int
        | exact nonNull_time | exact Period_lawful | exact CodeableConcept_lawful | exact Reference_lawful | exact HumanName_lawful | exact ContactPoint_lawful | exact Address_lawful
        | apply lawful_string | apply nonNull_string
        | apply lawful_float64 | apply nonNull_float64 | apply nonNull_struct
        | apply lawful_ptr | apply lawful_slice
  names := by
    have e : (PatientContact.fields).map (·.name)
        = ["Relationship", "Name", "Telecom", "Address", "Gender", "Organization",
            "Period"] := rfl
    rw [e]
    decide
  keys := by
    have e : (PatientContact.fields).map (·.key)
        = ["relationship", "name", "telecom", "address", "gender", "organization",
            "period"] := rfl
    rw [e]
    decide

theorem PatientContact_lawful : (PatientContact.type).Lawful := lawful_struct _ _ (PatientContact_fieldsOK)

theorem Communication_fieldsOK : FieldsOK (Communication.fields) where
  lawful := by
    simp only [Communication.fields, opt, fld, List.forall_mem_cons, List.not_mem_nil,
      IsEmpty.forall_iff, implies_true, and_true]
    and_intros
    all_goals
      repeat' first
        | exact lawful_bool | exact lawful_int | exact lawful_time
        | exact lawful_rawMessage | exact nonNull_bool | exact nonNull_int
        | exact nonNull_time | exact CodeableConcept_lawful
        | apply lawful_string | apply nonNull_string
        | apply lawful_float64 | apply nonNull_float64 | apply nonNull_struct
        | apply lawful_ptr | apply lawful_slice
  names := by
    have e : (Communication.fields).map (·.name)
        = ["Language", "Preferred"] := rfl
    rw [e]
    decide
  keys := by
    have e : (Communication.fields).map (·.key)
        = ["language", "preferred"] := rfl
    rw [e]
    decide

theorem Communication_lawful : (Communication.type).Lawful := lawful_struct _ _ (Communication_fieldsOK)

theorem PatientLink_fieldsOK : FieldsOK (PatientLink.fields) where
  lawful := by
    simp only [PatientLink.fields, opt, fld, List.forall_mem_cons, List.not_mem_nil,
      IsEmpty.forall_iff, implies_true, and_true]
    and_intros
    all_goals
      repeat' first
        | exact lawful_bool | exact lawful_int | exact lawful_time
        | exact lawful_rawMessage | exact nonNull_bool | exact nonNull_int
        | exact nonNull_time | exact Reference_lawful
        | apply lawful_string | apply nonNull_string
        | apply lawful_float64 | apply nonNull_float64 | apply nonNull_struct
        | apply lawful_ptr | apply lawful_slice
  names := by
    have e : (PatientLink.fields).map (·.name)
        = ["Other", "Type"] := rfl
    rw [e]
    decide
  keys := by
    have e : (PatientLink.fields).map (·.key)
        = ["other", "type"] := rfl
    rw [e]
    decide

theorem PatientLink_lawful : (PatientLink.type).Lawful := lawful_struct _ _ (PatientLink_fieldsOK)

theorem BundleLink_fieldsOK : FieldsOK (BundleLink.fields) where
  lawful := by
    simp only [BundleLink.fields, opt, fld, List.forall_mem_cons, List.not_mem_nil,
      IsEmpty.forall_iff, implies_true, and_true]
    and_intros
    all_goals
      repeat' first
        | exact lawful_bool | exact lawful_int | exact lawful_time
        | exact lawful_rawMessage | exact nonNull_bool | exact nonNull_int
        | exact nonNull_time
        | apply lawful_string | apply nonNull_string
        | apply lawful_float64 | apply nonNull_float64 | apply nonNull_struct
        | apply lawful_ptr | apply lawful_slice
  names := by
    have e : (BundleLink.fields).map (·.name)
        = ["Relation", "URL"] := rfl
    rw [e]
    decide
  keys := by
    have e : (BundleLink.fields).map (·.key)
        = ["relation", "url"] := rfl
    rw [e]
    decide

theorem BundleLink_lawful : (BundleLink.type).Lawful := lawful_struct _ _ (BundleLink_fieldsOK)

theorem BundleSearch_fieldsOK (sc : Strconv) : FieldsOK (BundleSearch.fields sc) where
  lawful := by
    simp only [BundleSearch.fields, opt, fld, List.forall_mem_cons, List.not_mem_nil,
      IsEmpty.forall_iff, implies_true, and_true]
    and_intros
    all_goals
      repeat' first
        | exact lawful_bool | exact lawful_int | exact lawful_time
        | exact lawful_rawMessage | exact nonNull_bool | exact nonNull_int
        | exact nonNull_time
        | apply lawful_string | apply nonNull_string
        | apply lawful_float64 | apply nonNull_float64 | apply nonNull_struct
        | apply lawful_ptr | apply lawful_slice
  names := by
    have e : (BundleSearch.fields sc).map (·.name)
        = ["Mode", "Score"] := rfl
    rw [e]
    decide
  keys := by
    have e : (BundleSearch.fields sc).map (·.key)
        = ["mode", "score"] := rfl
    rw [e]
    decide

theorem BundleSearch_lawful (sc : Strconv) : (BundleSearch.type sc).Lawful := lawful_struct _ _ (BundleSearch_fieldsOK sc)

theorem BundleEntry_fieldsOK (sc : Strconv) : FieldsOK (BundleEntry.fields sc) where
  lawful := by
    simp only [BundleEntry.fields, opt, fld, List.forall_mem_cons, List.not_mem_nil,
      IsEmpty.forall_iff, implies_true, and_true]
    and_intros
    all_goals
      repeat' first
        | exact lawful_bool | exact lawful_int | exact lawful_time
        | exact lawful_rawMessage | exact nonNull_bool | exact nonNull_int
        | exact nonNull_time | exact BundleSearch_lawful sc
        | apply lawful_string | apply nonNull_string
        | apply lawful_float64 | apply nonNull_float64 | apply nonNull_struct
        | apply lawful_ptr | apply lawful_slice
  names := by
    have e : (BundleEntry.fields sc).map (·.name)
        = ["FullURL", "Resource", "Search"] := rfl
    rw [e]
    decide
  keys := by
    have e : (BundleEntry.fields sc).map (·.key)
        = ["fullUrl", "resource", "search"] := rfl
    rw [e]
    decide

theorem BundleEntry_lawful (sc : Strconv) : (BundleEntry.type sc).Lawful := lawful_struct _ _ (BundleEntry_fieldsOK sc)

theorem Bundle_fieldsOK (sc : Strconv) : FieldsOK (Bundle.fields sc) where
  lawful := by
    simp only [Bundle.fields, Base.fields, opt, fld, List.cons_append, List.nil_append, List.forall_mem_cons, List.not_mem_nil,
      IsEmpty.forall_iff, implies_true, and_true]
    and_intros
    all_goals
      repeat' first
        | exact lawful_bool | exact lawful_int | exact lawful_time
        | exact lawful_rawMessage | exact nonNull_bool | exact nonNull_int
        | exact nonNull_time | exact Meta_lawful | exact Narrative_lawful | exact Extension_lawful sc | exact BundleLink_lawful | exact BundleEntry_lawful sc
        | apply lawful_string | apply nonNull_string
        | apply lawful_float64 | apply nonNull_float64 | apply nonNull_struct
        | apply lawful_ptr | apply lawful_slice
  names := by
    have e : (Bundle.fields sc).map (·.name)
        = ["ResourceType", "ID", "Meta", "Language", "Text", "Extension", "Contained",
            "Type", "Total", "Link", "Entry"] := rfl
    rw [e]
    decide
  keys := by
    have e : (Bundle.fields sc).map (·.key)
        = ["resourceType", "id", "meta", "language", "text", "extension", "contained",
            "type", "total", "link", "entry"] := rfl
    rw [e]
    decide

theorem Bundle_lawful (sc : Strconv) : (Bundle.type sc).Lawful := lawful_struct _ _ (Bundle_fieldsOK sc)

theorem typeHolder_fieldsOK : FieldsOK (typeHolder.fields) where
  lawful := by
    simp only [typeHolder.fields, opt, fld, List.forall_mem_cons, List.not_mem_nil,
      IsEmpty.forall_iff, implies_true, and_true]
    and_intros
    all_goals
      repeat' first
        | exact lawful_bool | exact lawful_int | exact lawful_time
        | exact lawful_rawMessage | exact nonNull_bool | exact nonNull_int
        | exact nonNull_time
        | apply lawful_string | apply nonNull_string
        | apply lawful_float64 | apply nonNull_float64 | apply nonNull_struct
        | apply lawful_ptr | apply lawful_slice
  names := by
    have e : (typeHolder.fields).map (·.name)
        = ["ResourceType"] := rfl
    rw [e]
    decide
  keys := by
    have e : (typeHolder.fields).map (·.key)
        = ["resourceType"] := rfl
    rw [e]
    decide

theorem typeHolder_lawful : (typeHolder.type).Lawful := lawful_struct _ _ (typeHolder_fieldsOK)

theorem Patient_fieldsOK (sc : Strconv) : FieldsOK (Patient.goFields sc) where
  lawful := by
    simp only [Patient.goFields, Base.fields, opt, fld, List.cons_append, List.nil_append, List.forall_mem_cons, List.not_mem_nil,
      IsEmpty.forall_iff, implies_true, and_true]
    and_intros
    all_goals
      repeat' first
        | exact lawful_bool | exact lawful_int | exact lawful_time
        | exact lawful_rawMessage | exact nonNull_bool | exact nonNull_int
        | exact nonNull_time | exact CodeableConcept_lawful | exact Reference_lawful | exact Meta_lawful | exact Narrative_lawful | exact Extension_lawful sc | exact HumanName_lawful | exact ContactPoint_lawful | exact Address_lawful | exact Attachment_lawful | exact PatientContact_lawful | exact Communication_lawful | exact PatientLink_lawful
        | apply lawful_string | apply nonNull_string
        | apply lawful_float64 | apply nonNull_float64 | apply nonNull_struct
        | apply lawful_ptr | apply lawful_slice
  names := by
    have e : (Patient.goFields sc).map (·.name)
        = ["ResourceType", "ID", "Meta", "Language", "Text", "Extension", "Contained",
            "Active", "Name", "Telecom", "Gender", "BirthDate", "Deceased",
            "DeceasedAt", "Address", "MaritalStatus", "MultipleBirth",
            "MultipleBirthInt", "Photo", "Contact", "Communication",
            "GeneralPractitioner", "ManagingOrganization", "Link"] := rfl
    rw [e]
    decide
  keys := by
    have e : (Patient.goFields sc).map (·.key)
        = ["resourceType", "id", "meta", "language", "text", "extension", "contained",
            "active", "name", "telecom", "gender", "birthDate", "deceasedBoolean",
            "deceasedDateTime", "address", "maritalStatus", "multipleBirthBoolean",
            "multipleBirthInteger", "photo", "contact", "communication",
            "generalPractitioner", "managingOrganization", "link"] := rfl
    rw [e]
    decide

theorem aux.fields_names (sc : Strconv) :
    (aux.fields sc).map (·.name)
      = ["ResourceType", "ID", "Meta", "Language", "Text", "Extension", "Contained",
          "Active", "Name", "Telecom", "Gender", "Deceased", "Address", "MaritalStatus",
          "MultipleBirth", "MultipleBirthInt", "Photo", "Contact", "Communication",
          "GeneralPractitioner", "ManagingOrganization", "Link", "aux.BirthDate",
          "aux.DeceasedAt"] := rfl

theorem aux.fields_keys (sc : Strconv) :
    (aux.fields sc).map (·.key)
      = ["resourceType", "id", "meta", "language", "text", "extension", "contained",
          "active", "name", "telecom", "gender", "deceasedBoolean", "address",
          "maritalStatus", "multipleBirthBoolean", "multipleBirthInteger", "photo",
          "contact", "communication", "generalPractitioner", "managingOrganization",
          "link", "birthDate", "deceasedDateTime"] := rfl

theorem Patient.goFields_names (sc : Strconv) :
    (Patient.goFields sc).map (·.name)
      = ["ResourceType", "ID", "Meta", "Language", "Text", "Extension", "Contained",
          "Active", "Name", "Telecom", "Gender", "BirthDate", "Deceased", "DeceasedAt",
          "Address", "MaritalStatus", "MultipleBirth", "MultipleBirthInt", "Photo",
          "Contact", "Communication", "GeneralPractitioner", "ManagingOrganization",
          "Link"] := rfl

theorem find?_fold_of_nodup (all : List Field) (h : FoldOK all) (g : Field) (hg : g ∈ all) :
    all.find? (fun f => foldName f.key == foldName g.key) = some g :=
  find?_key_of_nodup (fun f : Field => foldName f.key) all h g hg

/-- The field that a member key selects in a table with pairwise different folded
keys: the one whose key matches it. -/
theorem resolve_eq_some_iff (all : List Field) (h : FoldOK all) (k : String) (g : Field) :
    resolve all k = some g ↔ g ∈ all ∧ keyMatches g.key k = true := by
  unfold resolve keyMatches
  constructor
  · intro hr
    split at hr
    · rename_i f hf
      cases hr
      have h1 := List.find?_some hf
      have h2 := List.mem_of_find?_eq_some hf
      simp only [beq_iff_eq] at h1
      exact ⟨h2, by simp [h1]⟩
    · have h1 := List.find?_some hr
      have h2 := List.mem_of_find?_eq_some hr
      simp only [beq_iff_eq] at h1
      exact ⟨h2, by simp [h1]⟩
  · rintro ⟨hg, hm⟩
    simp only [beq_iff_eq] at hm
    have hfind : all.find? (fun f => foldName f.key == foldName k) = some g := by
      rw [hm]
      exact find?_fold_of_nodup all h g hg
    split
    · rename_i f hf
      have h1 := List.find?_some hf
      have h2 := List.mem_of_find?_eq_some hf
      simp only [beq_iff_eq] at h1
      have hfg : foldName f.key = foldName g.key := by rw [h1, hm]
      have := find?_fold_of_nodup all h f h2
      rw [hfg, find?_fold_of_nodup all h g hg] at this
      exact this.symm
    · exact hfind

theorem resolve_eq_none_iff (all : List Field) (k : String) :
    resolve all k = none ↔ ∀ g ∈ all, keyMatches g.key k = false := by
  unfold resolve keyMatches
  constructor
  · intro hr g hg
    split at hr
    · cases hr
    · have := List.find?_eq_none.mp hr g hg
      simp only [beq_iff_eq] at this
      simp only [beq_eq_false_iff_ne, ne_eq]
      exact fun e => this e.symm
  · intro hall
    have h2 : all.find? (fun f => foldName f.key == foldName k) = none := by
      apply List.find?_eq_none.mpr
      intro g hg
      have := hall g hg
      simp only [beq_eq_false_iff_ne, ne_eq] at this
      simp only [beq_iff_eq]
      exact fun e => this e.symm
    have h1 : all.find? (fun f => f.key == k) = none := by
      apply List.find?_eq_none.mpr
      intro g hg
      have := hall g hg
      simp only [beq_eq_false_iff_ne, ne_eq] at this
      simp only [beq_iff_eq]
      exact fun e => this (by rw [e])
    rw [h1]
    exact h2

/-- Decoding the members of an object keeps the field names of the receiver. -/
theorem decodeMembers_names (all : List Field) (ms : List (String × JSON)) (st : Struct) :
    (decodeMembers all ms st).val.map Prod.fst = st.map Prod.fst := by
  induction ms generalizing st with
  | nil => rfl
  | cons m ms ih =>
    obtain ⟨k, j⟩ := m
    unfold decodeMembers
    split
    · exact ih st
    · split
      · exact ih st
      · dsimp only
        split
        · exact fieldSet_names _ _ _
        · rw [ih, fieldSet_names]

theorem lastString_cons (j : JSON) (js : List JSON) (a : String) :
    lastString (j :: js) a = lastString js (match j with
      | .str s => s
      | _ => a) := rfl

theorem string_unmarshal (tn : String) (j : JSON) (a : String) :
    (GoType.string tn).unmarshal j (.string a)
      = ⟨.string (lastString [j] a), stringErrors tn [j], none⟩ := by
  cases j <;> rfl

theorem membersFor_cons_of_match (key k : String) (j : JSON) (ms : List (String × JSON))
    (h : keyMatches key k = true) :
    membersFor key ((k, j) :: ms) = j :: membersFor key ms := by
  simp [membersFor, List.filter_cons, h]

theorem membersFor_cons_of_not (key k : String) (j : JSON) (ms : List (String × JSON))
    (h : keyMatches key k = false) :
    membersFor key ((k, j) :: ms) = membersFor key ms := by
  simp [membersFor, List.filter_cons, h]

theorem membersNotFor_cons_of_match (key k : String) (j : JSON)
    (ms : List (String × JSON)) (h : keyMatches key k = true) :
    membersNotFor key ((k, j) :: ms) = membersNotFor key ms := by
  simp [membersNotFor, List.filter_cons, h]

theorem membersNotFor_cons_of_not (key k : String) (j : JSON)
    (ms : List (String × JSON)) (h : keyMatches key k = false) :
    membersNotFor key ((k, j) :: ms) = (k, j) :: membersNotFor key ms := by
  simp [membersNotFor, List.filter_cons, h]

theorem stringErrors_cons (tn : String) (j : JSON) (js : List JSON) :
    stringErrors tn (j :: js) = stringErrors tn [j] ++ stringErrors tn js := by
  simp only [stringErrors, List.filterMap_cons, List.filterMap_nil]
  split <;> rfl

theorem resolve_single (f : Field) (k : String) :
    resolve [f] k = if keyMatches f.key k then some f else none := by
  unfold resolve keyMatches
  by_cases h1 : f.key = k
  · subst h1
    simp
  · by_cases h2 : foldName k = foldName f.key
    · simp [h1, h2]
    · have h3 : ¬ foldName f.key = foldName k := fun e => h2 e.symm
      simp [h1, h2, h3]

theorem decodeMembers_cons_none (all : List Field) (k : String) (j : JSON)
    (ms : List (String × JSON)) (st : Struct) (h : resolve all k = none) :
    decodeMembers all ((k, j) :: ms) st = decodeMembers all ms st := by
  rw [decodeMembers]
  simp only [h]

theorem decodeMembers_cons_skip (all : List Field) (k : String) (j : JSON)
    (ms : List (String × JSON)) (st : Struct) (g : Field) (h : resolve all k = some g)
    (hl : st.lookup g.name = none) :
    decodeMembers all ((k, j) :: ms) st = decodeMembers all ms st := by
  rw [decodeMembers]
  simp only [h, hl]

theorem decodeMembers_cons_abort (all : List Field) (k : String) (j : JSON)
    (ms : List (String × JSON)) (st : Struct) (g : Field) (h : resolve all k = some g)
    (cur : Val) (hl : st.lookup g.name = some cur) (e : Err)
    (ha : (g.type.unmarshal j cur).abort = some e) :
    decodeMembers all ((k, j) :: ms) st
      = ⟨fieldSet st g.name (g.type.unmarshal j cur).val, (g.type.unmarshal j cur).saved,
          some e⟩ := by
  rw [decodeMembers]
  simp only [h, hl, ha]

theorem decodeMembers_cons_step (all : List Field) (k : String) (j : JSON)
    (ms : List (String × JSON)) (st : Struct) (g : Field) (h : resolve all k = some g)
    (cur : Val) (hl : st.lookup g.name = some cur)
    (ha : (g.type.unmarshal j cur).abort = none) :
    decodeMembers all ((k, j) :: ms) st
      = ⟨(decodeMembers all ms (fieldSet st g.name (g.type.unmarshal j cur).val)).val,
          (g.type.unmarshal j cur).saved
            ++ (decodeMembers all ms (fieldSet st g.name (g.type.unmarshal j cur).val)).saved,
          (decodeMembers all ms (fieldSet st g.name (g.type.unmarshal j cur).val)).abort⟩ := by
  rw [decodeMembers]
  simp only [h, hl, ha]

/-- Decoding an object into a struct with one string field: the field ends up with the
last string among the members whose key matches, and every matching member that is
neither a string nor `null` saves an error. -/
theorem decodeMembers_single (n k tn : String) (om : Bool) (ms : List (String × JSON))
    (a : String) :
    decodeMembers [⟨n, k, om, .string tn⟩] ms [(n, .string a)]
      = ⟨[(n, .string (lastString (membersFor k ms) a))],
          stringErrors tn (membersFor k ms), none⟩ := by
  induction ms generalizing a with
  | nil => rfl
  | cons m ms ih =>
    obtain ⟨key, j⟩ := m
    by_cases hm : keyMatches k key = true
    · rw [membersFor_cons_of_match k key j ms hm]
      have hr : resolve [(⟨n, k, om, .string tn⟩ : Field)] key
          = some ⟨n, k, om, .string tn⟩ := by
        rw [resolve_single]
        simp only [hm, if_true]
      have hl : List.lookup n [(n, Val.string a)] = some (.string a) := by
        simp [List.lookup_cons]
      rw [decodeMembers_cons_step _ key j ms _ _ hr (.string a) hl (by rw [string_unmarshal])]
      simp only [string_unmarshal, fieldSet_cons, beq_self_eq_true, if_true]
      have hfs : fieldSet [] n (Val.string (lastString [j] a)) = [] := rfl
      rw [hfs, ih, stringErrors_cons tn j (membersFor k ms)]
      rfl
    · have hm' : keyMatches k key = false := by simpa using hm
      rw [membersFor_cons_of_not k key j ms hm']
      have hr : resolve [(⟨n, k, om, .string tn⟩ : Field)] key = none := by
        rw [resolve_single]
        simp only [hm', Bool.false_eq_true, if_false]
      rw [decodeMembers_cons_none _ key j ms _ hr]
      exact ih a

theorem field_eq_of_keyMatches (all : List Field) (hfo : FoldOK all) (f g : Field)
    (hf : f ∈ all) (hg : g ∈ all) (k : String) (h1 : keyMatches f.key k = true)
    (h2 : keyMatches g.key k = true) : f = g := by
  simp only [keyMatches, beq_iff_eq] at h1 h2
  have e : foldName f.key = foldName g.key := by rw [← h1, ← h2]
  have := find?_fold_of_nodup all hfo f hf
  rw [e, find?_fold_of_nodup all hfo g hg] at this
  exact (Option.some.inj this).symm

theorem field_eq_of_name (all : List Field) (hn : (all.map (·.name)).Nodup) (f g : Field)
    (hf : f ∈ all) (hg : g ∈ all) (h : f.name = g.name) : f = g := by
  have h1 := find?_key_of_nodup (fun f : Field => f.name) all hn f hf
  have h2 := find?_key_of_nodup (fun f : Field => f.name) all hn g hg
  simp only [h] at h1
  rw [h2] at h1
  exact (Option.some.inj h1).symm

/-- The value of a string field after an object was decoded into a struct, when no
`Unmarshaler` aborted: the last string among the members whose key matches. -/
theorem decodeMembers_string_field (all : List Field) (hfo : FoldOK all)
    (hn : (all.map (·.name)).Nodup) (f : Field) (hf : f ∈ all) (tn : String)
    (hty : f.type = .string tn) (ms : List (String × JSON)) (st : Struct) (a : String)
    (hst : st.lookup f.name = some (.string a))
    (hab : (decodeMembers all ms st).abort = none) :
    (decodeMembers all ms st).val.lookup f.name
      = some (.string (lastString (membersFor f.key ms) a)) := by
  induction ms generalizing st a with
  | nil => exact hst
  | cons m ms ih =>
    obtain ⟨key, j⟩ := m
    cases hr : resolve all key with
    | none =>
      rw [decodeMembers_cons_none all key j ms st hr] at hab ⊢
      have := (resolve_eq_none_iff all key).mp hr f hf
      rw [membersFor_cons_of_not f.key key j ms this]
      exact ih st a hst hab
    | some g =>
      obtain ⟨hg, hgm⟩ := (resolve_eq_some_iff all hfo key g).mp hr
      by_cases hfg : g = f
      · subst hfg
        rw [membersFor_cons_of_match g.key key j ms hgm]
        have ha : (g.type.unmarshal j (.string a)).abort = none := by
          rw [hty, string_unmarshal]
        rw [decodeMembers_cons_step all key j ms st g hr _ hst ha] at hab ⊢
        rw [lastString_cons]
        apply ih
        · rw [lookup_fieldSet_self _ _ _ _ hst, hty, string_unmarshal]
          cases j <;> rfl
        · exact hab
      · have hkm : keyMatches f.key key = false := by
          by_contra hc
          simp only [Bool.not_eq_false] at hc
          exact hfg (field_eq_of_keyMatches all hfo g f hg hf key hgm hc)
        have hname : f.name ≠ g.name := fun e =>
          hfg (field_eq_of_name all hn f g hf hg e).symm
        rw [membersFor_cons_of_not f.key key j ms hkm]
        cases hl : st.lookup g.name with
        | none =>
          rw [decodeMembers_cons_skip all key j ms st g hr hl] at hab ⊢
          exact ih st a hst hab
        | some cur =>
          cases hd : (g.type.unmarshal j cur).abort with
          | some e =>
            rw [decodeMembers_cons_abort all key j ms st g hr cur hl e hd] at hab
            simp at hab
          | none =>
            rw [decodeMembers_cons_step all key j ms st g hr cur hl hd] at hab ⊢
            apply ih
            · rw [lookup_fieldSet_ne _ _ _ _ hname]
              exact hst
            · exact hab

theorem lastString_of_getLast (js : List JSON) (a t : String)
    (h : js.getLast? = some (.str t)) : lastString js a = t := by
  induction js generalizing a with
  | nil => simp at h
  | cons j js ih =>
    rw [lastString_cons]
    cases js with
    | nil =>
      simp at h
      subst h
      rfl
    | cons j2 js2 =>
      apply ih
      simpa [List.getLast?_cons_cons] using h

theorem stringErrors_eq_nil (tn : String) (js : List JSON)
    (h : ∀ j ∈ js, j.isStringOrNull = true) : stringErrors tn js = [] := by
  induction js with
  | nil => rfl
  | cons j js ih =>
    rw [stringErrors_cons, ih (fun x hx => h x (by simp [hx]))]
    simp [stringErrors, h j (by simp)]

theorem stringErrors_ne_nil (tn : String) (js : List JSON) (j : JSON) (hj : j ∈ js)
    (h : j.isStringOrNull = false) : ∃ e, (stringErrors tn js).head? = some e := by
  have hm : Err.unmarshalType j.kind tn ∈ stringErrors tn js := by
    simp only [stringErrors, List.mem_filterMap]
    exact ⟨j, hj, by simp [h]⟩
  cases hs : stringErrors tn js with
  | nil => rw [hs] at hm; simp at hm
  | cons e es => exact ⟨e, rfl⟩

/-- The first step of `UnmarshalResource` on an object: `typeHolder` gets the last
string among the `resourceType` members; a member of another type is an error. -/
theorem typeHolder_obj (ms : List (String × JSON)) :
    json.Unmarshal typeHolder.type (.text (.obj ms)) typeHolder.type.zero
      = (.struct [("ResourceType", .string (lastString (membersFor "resourceType" ms) ""))],
          (stringErrors "models.ResourceType" (membersFor "resourceType" ms)).head?) := by
  have h := decodeMembers_single "ResourceType" "resourceType" "models.ResourceType" false ms ""
  show ((⟨.struct (decodeMembers typeHolder.fields ms _).val, _, _⟩ : Dec Val).val,
    (⟨.struct (decodeMembers typeHolder.fields ms _).val, _, _⟩ : Dec Val).err) = _
  simp only [typeHolder.fields, fld, zeroStruct]
  erw [h]
  rfl

theorem UnmarshalResource_obj (sc : Strconv) (m : ResourceMapper)
    (ms : List (String × JSON)) :
    m.UnmarshalResource sc (.text (.obj ms))
      = match (stringErrors "models.ResourceType" (membersFor "resourceType" ms)).head? with
        | some e => (none, some (.wrap "failed to determine resource type" e))
        | none =>
          match m.typeRegistry (lastString (membersFor "resourceType" ms) "") with
          | none => (none, some (.errorf ("unsupported resource type: "
              ++ lastString (membersFor "resourceType" ms) "")))
          | some factory => decodeInto sc (.text (.obj ms)) (factory ()) := by
  unfold ResourceMapper.UnmarshalResource
  rw [typeHolder_obj]
  have hs : (Val.struct [("ResourceType",
      Val.string (lastString (membersFor "resourceType" ms) ""))]).str "ResourceType"
        = lastString (membersFor "resourceType" ms) "" := rfl
  simp only [hs]
  rfl

namespace time

theorem expect_inv {c : Char} {s rest : List Char} (h : expect c s = some rest) :
    s = c :: rest := by
  cases s with
  | nil => simp [expect] at h
  | cons d s =>
    simp only [expect] at h
    split at h
    · rename_i hd
      simp only [beq_iff_eq] at hd
      cases h
      rw [hd]
    · cases h

theorem getnum_fixed_inv {s rest : List Char} {n : Nat} (h : getnum s true = some (n, rest)) :
    ∃ c0 c1, s = c0 :: c1 :: rest ∧ c0.isDigit = true ∧ c1.isDigit = true
      ∧ n = digitVal c0 * 10 + digitVal c1 := by
  cases s with
  | nil => simp [getnum] at h
  | cons c0 s =>
    cases s with
    | nil =>
      simp only [getnum] at h
      split at h <;> simp at h
    | cons c1 s =>
      simp only [getnum] at h
      by_cases h0 : c0.isDigit = true
      · by_cases h1 : c1.isDigit = true
        · simp only [h0, h1, Bool.not_true, Bool.false_eq_true, if_false, if_true,
            Option.some.injEq, Prod.mk.injEq] at h
          obtain ⟨hn, hr⟩ := h
          subst hr
          exact ⟨c0, c1, rfl, h0, h1, hn.symm⟩
        · simp [h0, h1] at h
      · simp [h0] at h

theorem getYear_inv {s rest : List Char} {y : Int} (h : getYear s = some (y, rest)) :
    ∃ y0 y1 y2 y3, s = y0 :: y1 :: y2 :: y3 :: rest ∧ y0.isDigit = true
      ∧ y1.isDigit = true ∧ y2.isDigit = true ∧ y3.isDigit = true
      ∧ y = ((digitsVal [y0, y1, y2, y3] : Nat) : Int) := by
  unfold getYear at h
  split at h
  · rename_i y0 y1 y2 y3 r
    split at h
    · rename_i hd
      simp only [Bool.and_eq_true] at hd
      simp only [Option.some.injEq, Prod.mk.injEq] at h
      obtain ⟨hy, hr⟩ := h
      subst hr
      exact ⟨y0, y1, y2, y3, rfl, hd.1.1.1, hd.1.1.2, hd.1.2, hd.2, hy.symm⟩
    · cases h
  · cases h

theorem getDate_inv {s rest : List Char} {y : Int} {m d : Nat}
    (h : getDate s = some (y, m, d, rest)) :
    0 ≤ y ∧ y ≤ 9999 ∧ 1 ≤ m ∧ m ≤ 12 ∧ d < 100
      ∧ s = appendInt y 4 ++ ['-'] ++ appendInt m 2 ++ ['-'] ++ appendInt d 2 ++ rest := by
  unfold getDate at h
  simp only [Option.bind_eq_bind, Option.bind_eq_some, Prod.exists] at h
  obtain ⟨y', s1, hy, s2, he1, m', s3, hm, h⟩ := h
  by_cases hmr : (m' == 0 || decide (12 < m')) = true
  · simp [hmr] at h
  · simp only [hmr, Bool.false_eq_true, if_false, Option.pure_def, Option.bind_eq_bind,
      Option.bind_some, Option.bind_eq_some, Prod.exists, Option.some.injEq,
      Prod.mk.injEq] at h
    obtain ⟨s4, he2, d', s5, hd, rfl, rfl, rfl, rfl⟩ := h
    obtain ⟨y0, y1, y2, y3, rfl, h0, h1, h2, h3, rfl⟩ := getYear_inv hy
    obtain ⟨c0, c1, hs2, hc0, hc1, rfl⟩ := getnum_fixed_inv hm
    obtain ⟨e0, e1, hs4, he0, he1', rfl⟩ := getnum_fixed_inv hd
    have := expect_inv he1
    have := expect_inv he2
    subst_vars
    have b0 := digitVal_lt h0
    have b1 := digitVal_lt h1
    have b2 := digitVal_lt h2
    have b3 := digitVal_lt h3
    have bc0 := digitVal_lt hc0
    have bc1 := digitVal_lt hc1
    have be0 := digitVal_lt he0
    have be1 := digitVal_lt he1'
    simp only [Bool.or_eq_true, beq_iff_eq, decide_eq_true_eq, not_or, not_lt] at hmr
    have hyv : digitsVal [y0, y1, y2, y3]
        = ((digitVal y0 * 10 + digitVal y1) * 10 + digitVal y2) * 10 + digitVal y3 := by
      simp [digitsVal]
    rw [hyv]
    refine ⟨by omega, by omega, by omega, by omega, by omega, ?_⟩
    rw [appendInt_four _ (by omega) (by omega), appendInt_two _ (by omega),
      appendInt_two _ (by omega)]
    simp only [Int.toNat_ofNat, List.cons_append, List.nil_append, List.append_assoc]
    rw [digitChar_of_digitVal h0 (by omega), digitChar_of_digitVal h1 (by omega),
      digitChar_of_digitVal h2 (by omega), digitChar_of_digitVal h3 (by omega),
      digitChar_of_digitVal hc0 (by omega), digitChar_of_digitVal hc1 (by omega),
      digitChar_of_digitVal he0 (by omega), digitChar_of_digitVal he1' (by omega)]

end time

/-- The layout `2006-01-02` accepts exactly the strings of the calendar-date grammar,
and gives the date at midnight UTC. -/
theorem parse_dateOnly_iff (s : String) (t : time.Time) :
    time.parse .dateOnly s.data = some t
      ↔ ∃ (y : Int) (m d : Nat), 0 ≤ y ∧ y ≤ 9999 ∧ 1 ≤ m ∧ m ≤ 12 ∧ 1 ≤ d
          ∧ d ≤ time.daysIn m y ∧ s = (time.dateUTC y m d).Format .dateOnly
          ∧ t = time.dateUTC y m d := by
  constructor
  · intro h
    simp only [time.parse, Option.bind_eq_bind, Option.bind_eq_some, Prod.exists] at h
    obtain ⟨y, m, d, rest, hg, h⟩ := h
    cases rest with
    | cons c r => simp at h
    | nil =>
      simp only [List.isEmpty_nil, Bool.true_and, Bool.and_eq_true, decide_eq_true_eq,
        Option.pure_def, Option.ite_none_right_eq_some] at h
      obtain ⟨⟨hd1, hd2⟩, ht⟩ := h
      obtain ⟨h0, h1, hm1, hm2, -, hs⟩ := time.getDate_inv hg
      refine ⟨y, m, d, h0, h1, hm1, hm2, hd1, hd2, ?_, (Option.some.inj ht).symm⟩
      simp only [List.append_nil] at hs
      show s = String.mk _
      rw [time.appendDate, time.dateUTC, ← hs]
  · rintro ⟨y, m, d, h0, h1, hm1, hm2, hd1, hd2, rfl, rfl⟩
    have hv : (time.dateUTC y m d).valid = true := by
      simp [time.Time.valid, time.dateUTC, hm1, hm2, hd2]
      omega
    exact time.parse_dateOnly_appendDate (time.dateUTC y m d) ⟨h0, h1, hv⟩ rfl

theorem Parse_dateOnly_ok_iff (s : String) (t : time.Time) :
    time.Parse .dateOnly s = .ok t ↔ time.parse .dateOnly s.data = some t := by
  unfold time.Parse
  cases time.parse .dateOnly s.data <;> simp

theorem not_calendarDate_Parse (s : String) (h : ¬ isCalendarDate s) :
    time.Parse .dateOnly s = .error (.timeParse "2006-01-02" s) := by
  unfold time.Parse
  cases hp : time.parse .dateOnly s.data with
  | none => rfl
  | some t =>
    exfalso
    obtain ⟨y, m, d, h0, h1, h2, h3, h4, h5, h6, -⟩ := (parse_dateOnly_iff s t).mp hp
    exact h ⟨y, m, d, h0, h1, h2, h3, h4, h5, h6⟩

theorem aux_foldOK (sc : Strconv) : FoldOK (aux.fields sc) := by
  have e : (aux.fields sc).map (fun f => foldName f.key)
      = ((aux.fields sc).map (·.key)).map foldName := by
    rw [List.map_map]
    rfl
  unfold FoldOK
  rw [e, aux.fields_keys]
  decide

theorem aux_names_nodup (sc : Strconv) : ((aux.fields sc).map (·.name)).Nodup := by
  rw [aux.fields_names]
  decide

theorem lookup_eq_none_of_not_mem (fs : Struct) (n : String) (h : n ∉ fs.map Prod.fst) :
    fs.lookup n = none := by
  cases hl : fs.lookup n with
  | none => rfl
  | some x =>
    exfalso
    apply h
    rw [← lookup_isSome_iff, hl]
    rfl

theorem lookup_append (a b : Struct) (n : String) :
    (a ++ b).lookup n = (a.lookup n).or (b.lookup n) := by
  induction a with
  | nil => simp
  | cons p a ih =>
    obtain ⟨k, x⟩ := p
    simp only [List.cons_append, List.lookup_cons]
    cases n == k
    · exact ih
    · rfl

theorem Patient.hasType_names (sc : Strconv) (p : Struct) (hp : Patient.hasType sc p) :
    p.map Prod.fst = (Patient.goFields sc).map (·.name) :=
  structHasType_names _ p hp

/-- Looking a field up in the flat value of `aux`: the two string fields are the
appended ones, every other name is looked up in the patient. -/
theorem aux_state_lookup (sc : Strconv) (p : Struct) (hp : Patient.hasType sc p)
    (b d : String) :
    (aux.state p b d).lookup "aux.BirthDate" = some (.string b)
      ∧ (aux.state p b d).lookup "aux.DeceasedAt" = some (.string d)
      ∧ ∀ n, n ≠ "aux.BirthDate" → n ≠ "aux.DeceasedAt" →
          (aux.state p b d).lookup n = p.lookup n := by
  have hn := Patient.hasType_names sc p hp
  rw [Patient.goFields_names] at hn
  have h1 : p.lookup "aux.BirthDate" = none := by
    apply lookup_eq_none_of_not_mem
    rw [hn]
    decide
  have h2 : p.lookup "aux.DeceasedAt" = none := by
    apply lookup_eq_none_of_not_mem
    rw [hn]
    decide
  refine ⟨?_, ?_, ?_⟩
  · rw [aux.state, lookup_append, h1]
    rfl
  · rw [aux.state, lookup_append, h2]
    rfl
  · intro n hn1 hn2
    rw [aux.state, lookup_append]
    have hb1 : (n == "aux.BirthDate") = false := by simpa using hn1
    have hb2 : (n == "aux.DeceasedAt") = false := by simpa using hn2
    cases p.lookup n with
    | some x => rfl
    | none => simp [List.lookup_cons, hb1, hb2]

theorem aux_birth_mem (sc : Strconv) :
    (opt "aux.BirthDate" "birthDate" (.string "string")) ∈ aux.fields sc :=
  List.mem_append_right _ (by simp [aux.own])

theorem aux_deceased_mem (sc : Strconv) :
    (opt "aux.DeceasedAt" "deceasedDateTime" (.string "string")) ∈ aux.fields sc :=
  List.mem_append_right _ (by simp [aux.own])

theorem aux_resourceType_mem (sc : Strconv) :
    (fld "ResourceType" "resourceType" (.string "models.ResourceType")) ∈ aux.fields sc :=
  List.mem_append_left _ (List.mem_filter.mpr ⟨by simp [Patient.goFields, Base.fields], rfl⟩)

/-- The method `Patient.UnmarshalJSON` on an object, in terms of the member loop. -/
theorem Patient_UnmarshalJSON_obj (sc : Strconv) (p : Struct) (ms : List (String × JSON)) :
    Patient.UnmarshalJSON sc p (.text (.obj ms))
      = match (aux.decode sc ms p).err with
        | some e => (aux.alias (.struct (aux.decode sc ms p).val), some e)
        | none =>
          match (if (Val.struct (aux.decode sc ms p).val).str "aux.BirthDate" != "" then
              match time.Parse .dateOnly
                  ((Val.struct (aux.decode sc ms p).val).str "aux.BirthDate") with
              | .error e => Except.error e
              | .ok t => .ok (fieldSet (aux.alias (.struct (aux.decode sc ms p).val))
                  "BirthDate" (.ptr (.time t)))
            else .ok (aux.alias (.struct (aux.decode sc ms p).val))) with
          | .error e => (aux.alias (.struct (aux.decode sc ms p).val), some e)
          | .ok p1 =>
            if (Val.struct (aux.decode sc ms p).val).str "aux.DeceasedAt" != "" then
              match time.Parse .RFC3339
                  ((Val.struct (aux.decode sc ms p).val).str "aux.DeceasedAt") with
              | .error e => (p1, some e)
              | .ok t => (fieldSet p1 "DeceasedAt" (.ptr (.time t)), none)
            else (p1, none) := by
  rfl

/-- The string fields of `aux` after the member loop, when no `Unmarshaler` aborted:
the last string among the `birthDate` members and among the `deceasedDateTime`
members. -/
theorem aux_decode_strings (sc : Strconv) (p : Struct) (hp : Patient.hasType sc p)
    (ms : List (String × JSON)) (hab : (aux.decode sc ms p).abort = none) :
    (Val.struct (aux.decode sc ms p).val).str "aux.BirthDate"
        = lastString (membersFor "birthDate" ms) ""
      ∧ (Val.struct (aux.decode sc ms p).val).str "aux.DeceasedAt"
        = lastString (membersFor "deceasedDateTime" ms) "" := by
  obtain ⟨h1, h2, -⟩ := aux_state_lookup sc p hp "" ""
  have e1 := decodeMembers_string_field (aux.fields sc) (aux_foldOK sc) (aux_names_nodup sc)
    _ (aux_birth_mem sc) "string" rfl ms _ "" h1 hab
  have e2 := decodeMembers_string_field (aux.fields sc) (aux_foldOK sc) (aux_names_nodup sc)
    _ (aux_deceased_mem sc) "string" rfl ms _ "" h2 hab
  constructor
  · show (match (aux.decode sc ms p).val.lookup "aux.BirthDate" with
      | some (.string s) => s
      | _ => "") = _
    erw [e1]
    rfl
  · show (match (aux.decode sc ms p).val.lookup "aux.DeceasedAt" with
      | some (.string s) => s
      | _ => "") = _
    erw [e2]
    rfl

theorem lookup_fieldSet (fs : Struct) (n m : String) (v : Val) :
    (fieldSet fs n v).lookup m
      = if m = n then (fs.lookup n).map (fun _ => v) else fs.lookup m := by
  by_cases h : m = n
  · subst h
    simp only [if_true]
    cases hl : fs.lookup m with
    | none => rw [lookup_fieldSet_none _ _ _ hl]; rfl
    | some x => rw [lookup_fieldSet_self _ _ _ _ hl]; rfl
  · simp only [h, if_false]
    exact lookup_fieldSet_ne _ _ _ _ h

theorem string_unmarshal_clean (tn : String) (j : JSON) (cur : Val)
    (h : j.isStringOrNull = true) :
    ((GoType.string tn).unmarshal j cur).saved = []
      ∧ ((GoType.string tn).unmarshal j cur).abort = none := by
  cases j with
  | str s => exact ⟨rfl, rfl⟩
  | null => exact ⟨rfl, rfl⟩
  | _ => exact Bool.noConfusion h

/-- Frame property of the member loop: the members that go to one string field, when
they are strings or `null`, can be dropped from the object without changing the errors
of the decode or the value of any other field. -/
theorem decodeMembers_frame (all : List Field) (hfo : FoldOK all)
    (hn : (all.map (·.name)).Nodup) (f : Field) (hf : f ∈ all) (tn : String)
    (hty : f.type = .string tn) (ms : List (String × JSON)) (st st' : Struct)
    (hj : ∀ j ∈ membersFor f.key ms, j.isStringOrNull = true)
    (hrel : ∀ n, n ≠ f.name → st.lookup n = st'.lookup n) :
    (decodeMembers all ms st).saved = (decodeMembers all (membersNotFor f.key ms) st').saved
      ∧ (decodeMembers all ms st).abort
          = (decodeMembers all (membersNotFor f.key ms) st').abort
      ∧ ∀ n, n ≠ f.name → (decodeMembers all ms st).val.lookup n
          = (decodeMembers all (membersNotFor f.key ms) st').val.lookup n := by
  induction ms generalizing st st' with
  | nil => exact ⟨rfl, rfl, hrel⟩
  | cons m ms ih =>
    obtain ⟨key, j⟩ := m
    cases hr : resolve all key with
    | none =>
      have hk := (resolve_eq_none_iff all key).mp hr f hf
      rw [membersFor_cons_of_not f.key key j ms hk] at hj
      rw [membersNotFor_cons_of_not f.key key j ms hk,
        decodeMembers_cons_none all key j ms st hr,
        decodeMembers_cons_none all key j _ st' hr]
      exact ih st st' hj hrel
    | some g =>
      obtain ⟨hg, hgm⟩ := (resolve_eq_some_iff all hfo key g).mp hr
      by_cases hfg : g = f
      · subst hfg
        rw [membersFor_cons_of_match g.key key j ms hgm] at hj
        rw [membersNotFor_cons_of_match g.key key j ms hgm]
        have hj' : ∀ x ∈ membersFor g.key ms, x.isStringOrNull = true :=
          fun x hx => hj x (by simp [hx])
        cases hl : st.lookup g.name with
        | none =>
          rw [decodeMembers_cons_skip all key j ms st g hr hl]
          exact ih st st' hj' hrel
        | some cur =>
          have hc := string_unmarshal_clean tn j cur (hj j (by simp))
          rw [← hty] at hc
          rw [decodeMembers_cons_step all key j ms st g hr cur hl hc.2, hc.1]
          simp only [List.nil_append]
          apply ih _ st' hj'
          intro n hne
          rw [lookup_fieldSet_ne _ _ _ _ hne]
          exact hrel n hne
      · have hkm : keyMatches f.key key = false := by
          by_contra hc
          simp only [Bool.not_eq_false] at hc
          exact hfg (field_eq_of_keyMatches all hfo g f hg hf key hgm hc)
        have hname : g.name ≠ f.name := fun e =>
          hfg (field_eq_of_name all hn g f hg hf e)
        rw [membersFor_cons_of_not f.key key j ms hkm] at hj
        rw [membersNotFor_cons_of_not f.key key j ms hkm]
        have hlk := hrel g.name hname
        have hrel' : ∀ v n, n ≠ f.name →
            (fieldSet st g.name v).lookup n = (fieldSet st' g.name v).lookup n := by
          intro v n hne
          rw [lookup_fieldSet, lookup_fieldSet, hlk, hrel n hne]
        cases hl : st.lookup g.name with
        | none =>
          rw [decodeMembers_cons_skip all key j ms st g hr hl,
            decodeMembers_cons_skip all key j _ st' g hr (by rw [← hlk, hl])]
          exact ih st st' hj hrel
        | some cur =>
          have hl' : st'.lookup g.name = some cur := by rw [← hlk, hl]
          cases hd : (g.type.unmarshal j cur).abort with
          | some e =>
            rw [decodeMembers_cons_abort all key j ms st g hr cur hl e hd,
              decodeMembers_cons_abort all key j _ st' g hr cur hl' e hd]
            exact ⟨rfl, rfl, hrel' _⟩
          | none =>
            rw [decodeMembers_cons_step all key j ms st g hr cur hl hd,
              decodeMembers_cons_step all key j _ st' g hr cur hl' hd]
            obtain ⟨h1, h2, h3⟩ := ih (fieldSet st g.name (g.type.unmarshal j cur).val)
              (fieldSet st' g.name (g.type.unmarshal j cur).val) hj (hrel' _)
            exact ⟨by simp only [h1], h2, h3⟩

theorem membersFor_membersNotFor (key : String) (ms : List (String × JSON)) :
    membersFor key (membersNotFor key ms) = [] := by
  simp only [membersFor, membersNotFor, List.filter_filter, List.map_eq_nil_iff,
    List.filter_eq_nil_iff]
  intro a _
  simp

theorem lookup_filter_name (fs : Struct) (P : String → Bool) (n : String)
    (h : P n = true) : (fs.filter (fun q => P q.1)).lookup n = fs.lookup n := by
  induction fs with
  | nil => rfl
  | cons p fs ih =>
    obtain ⟨k, x⟩ := p
    by_cases hk : n = k
    · subst hk
      simp [List.filter_cons, h, List.lookup_cons]
    · have hb : (n == k) = false := by simpa using hk
      simp only [List.filter_cons, List.lookup_cons, hb]
      split
      · simp only [List.lookup_cons, hb]
        exact ih
      · exact ih

/-- The patient behind `aux` after the member loop keeps the field names of the
receiver, and holds under each the value the flat value of `aux` holds. -/
theorem aux_alias_spec (sc : Strconv) (p : Struct) (hp : Patient.hasType sc p)
    (ms : List (String × JSON)) :
    (aux.alias (.struct (aux.decode sc ms p).val)).map Prod.fst = p.map Prod.fst
      ∧ ∀ n, n ≠ "aux.BirthDate" → n ≠ "aux.DeceasedAt" →
          (aux.alias (.struct (aux.decode sc ms p).val)).lookup n
            = (aux.decode sc ms p).val.lookup n := by
  constructor
  · have hn := Patient.hasType_names sc p hp
    rw [Patient.goFields_names] at hn
    have h1 := decodeMembers_names (aux.fields sc) ms (aux.state p "" "")
    show ((aux.decode sc ms p).val.filter _).map Prod.fst = _
    have h2 : ∀ l : Struct, (l.filter (fun q => q.1 != "aux.BirthDate"
        && q.1 != "aux.DeceasedAt")).map Prod.fst
          = (l.map Prod.fst).filter (fun k => k != "aux.BirthDate"
              && k != "aux.DeceasedAt") := by
      intro l
      rw [List.filter_map]
      rfl
    rw [h2]
    unfold aux.decode
    rw [h1, aux.state, List.map_append, hn]
    decide
  · intro n h1 h2
    show ((aux.decode sc ms p).val.filter _).lookup n = _
    apply lookup_filter_name _ (fun k => k != "aux.BirthDate" && k != "aux.DeceasedAt")
    simp [h1, h2]

theorem lastString_idem (js : List JSON) (a b : String) (h : lastString js a = b) :
    lastString js b = b := by
  induction js generalizing a with
  | nil => rfl
  | cons j js ih =>
    rw [lastString_cons] at h ⊢
    cases j with
    | str s => exact h
    | null => exact ih a h
    | bool x => exact ih a h
    | num x => exact ih a h
    | arr x => exact ih a h
    | obj x => exact ih a h

/-- Every field other than `BirthDate` and `DeceasedAt` has, in the receiver that
`Patient.UnmarshalJSON` leaves, the value that the member loop gave it. -/
theorem Patient_UnmarshalJSON_lookup (sc : Strconv) (p : Struct)
    (hp : Patient.hasType sc p) (ms : List (String × JSON)) (n : String)
    (h1 : n ≠ "BirthDate") (h2 : n ≠ "DeceasedAt") (h3 : n ≠ "aux.BirthDate")
    (h4 : n ≠ "aux.DeceasedAt") :
    (Patient.UnmarshalJSON sc p (.text (.obj ms))).1.lookup n
      = (aux.decode sc ms p).val.lookup n := by
  obtain ⟨-, hal⟩ := aux_alias_spec sc p hp ms
  have hal' := hal n h3 h4
  rw [Patient_UnmarshalJSON_obj]
  cases (aux.decode sc ms p).err with
  | some e => exact hal'
  | none =>
    dsimp only
    by_cases hb : ((Val.struct (aux.decode sc ms p).val).str "aux.BirthDate" != "") = true
    · simp only [hb, if_true]
      cases time.Parse .dateOnly ((Val.struct (aux.decode sc ms p).val).str "aux.BirthDate") with
      | error e => exact hal'
      | ok t =>
        dsimp only
        by_cases hd : ((Val.struct (aux.decode sc ms p).val).str "aux.DeceasedAt" != "")
            = true
        · simp only [hd, if_true]
          cases time.Parse .RFC3339
              ((Val.struct (aux.decode sc ms p).val).str "aux.DeceasedAt") with
          | error e =>
            dsimp only
            rw [lookup_fieldSet_ne _ _ _ _ h1]
            exact hal'
          | ok t2 =>
            dsimp only
            rw [lookup_fieldSet_ne _ _ _ _ h2, lookup_fieldSet_ne _ _ _ _ h1]
            exact hal'
        · simp only [hd, Bool.false_eq_true, if_false]
          rw [lookup_fieldSet_ne _ _ _ _ h1]
          exact hal'
    · simp only [hb, Bool.false_eq_true, if_false]
      by_cases hd : ((Val.struct (aux.decode sc ms p).val).str "aux.DeceasedAt" != "")
          = true
      · simp only [hd, if_true]
        cases time.Parse .RFC3339
            ((Val.struct (aux.decode sc ms p).val).str "aux.DeceasedAt") with
        | error e => exact hal'
        | ok t2 =>
          dsimp only
          rw [lookup_fieldSet_ne _ _ _ _ h2]
          exact hal'
      · simp only [hd, Bool.false_eq_true, if_false]
        exact hal'

/-- A call of `Patient.UnmarshalJSON` that returns no error has run the member loop
without error. -/
theorem Patient_UnmarshalJSON_clean (sc : Strconv) (p : Struct)
    (ms : List (String × JSON))
    (h : (Patient.UnmarshalJSON sc p (.text (.obj ms))).2 = none) :
    (aux.decode sc ms p).clean := by
  rw [Patient_UnmarshalJSON_obj] at h
  cases herr : (aux.decode sc ms p).err with
  | some e =>
    rw [herr] at h
    cases h
  | none => exact (Dec.err_eq_none_iff _).mp herr

theorem NewPatient_hasType (sc : Strconv) : Patient.hasType sc (NewPatient sc) := by
  unfold Patient.hasType
  rfl

/-- The default mapper has a constructor for `Patient` only. -/
theorem NewResourceMapper_registry (sc : Strconv) (t : String) :
    (NewResourceMapper sc).typeRegistry t
      = if t = "Patient" then some (fun _ => .patient (NewPatient sc)) else none := rfl

theorem aux_promoted_names (sc : Strconv) :
    (aux.promoted sc).map (·.name)
      = ["ResourceType", "ID", "Meta", "Language", "Text", "Extension", "Contained",
          "Active", "Name", "Telecom", "Gender", "Deceased", "Address", "MaritalStatus",
          "MultipleBirth", "MultipleBirthInt", "Photo", "Contact", "Communication",
          "GeneralPractitioner", "ManagingOrganization", "Link"] := rfl

theorem aux_promoted_mem (sc : Strconv) (f : Field) (hf : f ∈ aux.promoted sc) :
    f ∈ Patient.goFields sc := (List.mem_filter.mp hf).1

theorem aux_fieldsOK (sc : Strconv) : FieldsOK (aux.fields sc) where
  lawful := by
    intro f hf
    rcases List.mem_append.mp hf with h | h
    · exact (Patient_fieldsOK sc).lawful f (aux_promoted_mem sc f h)
    · simp only [aux.own, opt, List.mem_cons, List.mem_singleton, List.not_mem_nil,
        or_false] at h
      rcases h with rfl | rfl <;> exact lawful_string _
  names := aux_names_nodup sc
  keys := by
    rw [aux.fields_keys]
    decide

theorem Fresh_hasType (sc : Strconv) (p0 : Struct) (h : Patient.Fresh sc p0) :
    Patient.hasType sc p0 := by
  obtain ⟨t, rfl⟩ := h
  unfold Patient.hasType
  rfl

theorem Fresh_lookup (sc : Strconv) (p0 : Struct) (h : Patient.Fresh sc p0) :
    (∃ t, p0.lookup "ResourceType" = some (.string t))
      ∧ ∀ f ∈ Patient.goFields sc, f.name ≠ "ResourceType" →
          p0.lookup f.name = some f.type.zero := by
  obtain ⟨t, rfl⟩ := h
  refine ⟨⟨t, rfl⟩, ?_⟩
  intro f hf hne
  rw [lookup_fieldSet_ne _ _ _ _ hne]
  exact lookup_zeroStruct _ (Patient_fieldsOK sc).names f hf

theorem resourceType_field_of_name (sc : Strconv) (f : Field) (hf : f ∈ Patient.goFields sc)
    (hn : f.name = "ResourceType") :
    f = fld "ResourceType" "resourceType" (.string "models.ResourceType") :=
  field_eq_of_name _ (Patient_fieldsOK sc).names f _ hf
    (by simp [Patient.goFields, Base.fields]) hn

/-- A time field of a patient is nil or points to a valid time. -/
theorem Patient_time_field (sc : Strconv) (p : Struct) (hp : Patient.hasType sc p)
    (n key : String) (hmem : opt n key (.ptr .time) ∈ Patient.goFields sc) :
    (p.lookup n = some .nilPtr ∧ timeField p n = none)
      ∨ ∃ t, p.lookup n = some (.ptr (.time t)) ∧ timeField p n = some t
          ∧ t.valid = true := by
  obtain ⟨x, hx, hty⟩ := structHasType_lookup _ (Patient_fieldsOK sc).names p hp _ hmem
  have hx' : p.lookup n = some x := hx
  cases x with
  | nilPtr => exact Or.inl ⟨hx', by simp [timeField, hx']⟩
  | ptr y =>
    cases y with
    | time t => exact Or.inr ⟨t, hx', by simp [timeField, hx'], hty⟩
    | _ => exact Bool.noConfusion hty
  | _ => exact Bool.noConfusion hty

theorem birthDate_mem (sc : Strconv) :
    opt "BirthDate" "birthDate" (.ptr .time) ∈ Patient.goFields sc := by
  simp [Patient.goFields, Base.fields]

theorem deceasedAt_mem (sc : Strconv) :
    opt "DeceasedAt" "deceasedDateTime" (.ptr .time) ∈ Patient.goFields sc := by
  simp [Patient.goFields, Base.fields]

/-- What `Patient.UnmarshalJSON` returns once the member loop has run without error and
each of the two strings is empty or parses. -/
theorem Patient_UnmarshalJSON_times (sc : Strconv) (p0 : Struct)
    (hp0 : Patient.hasType sc p0) (ms : List (String × JSON)) (b d : String)
    (vb vd : Option Val) (herr : (aux.decode sc ms p0).err = none)
    (hb : (Val.struct (aux.decode sc ms p0).val).str "aux.BirthDate" = b)
    (hd : (Val.struct (aux.decode sc ms p0).val).str "aux.DeceasedAt" = d)
    (hB : (b = "" ∧ vb = (aux.decode sc ms p0).val.lookup "BirthDate")
      ∨ (b ≠ "" ∧ ∃ t, time.Parse .dateOnly b = .ok t ∧ vb = some (.ptr (.time t))))
    (hD : (d = "" ∧ vd = (aux.decode sc ms p0).val.lookup "DeceasedAt")
      ∨ (d ≠ "" ∧ ∃ t, time.Parse .RFC3339 d = .ok t ∧ vd = some (.ptr (.time t)))) :
    (Patient.UnmarshalJSON sc p0 (.text (.obj ms))).2 = none
      ∧ (Patient.UnmarshalJSON sc p0 (.text (.obj ms))).1.map Prod.fst = p0.map Prod.fst
      ∧ (Patient.UnmarshalJSON sc p0 (.text (.obj ms))).1.lookup "BirthDate" = vb
      ∧ (Patient.UnmarshalJSON sc p0 (.text (.obj ms))).1.lookup "DeceasedAt" = vd := by
  obtain ⟨hnames, hal⟩ := aux_alias_spec sc p0 hp0 ms
  have halB := hal "BirthDate" (by decide) (by decide)
  have halD := hal "DeceasedAt" (by decide) (by decide)
  have hnm := Patient.hasType_names sc p0 hp0
  rw [Patient.goFields_names] at hnm
  have hmemB : "BirthDate" ∈ (aux.alias (.struct (aux.decode sc ms p0).val)).map Prod.fst := by
    rw [hnames, hnm]
    decide
  have hmemD : "DeceasedAt" ∈ (aux.alias (.struct (aux.decode sc ms p0).val)).map Prod.fst := by
    rw [hnames, hnm]
    decide
  obtain ⟨xB, hxB⟩ := Option.isSome_iff_exists.mp ((lookup_isSome_iff _ _).mpr hmemB)
  obtain ⟨xD, hxD⟩ := Option.isSome_iff_exists.mp ((lookup_isSome_iff _ _).mpr hmemD)
  rw [Patient_UnmarshalJSON_obj, herr]
  simp only [hb, hd]
  rcases hB with ⟨rfl, rfl⟩ | ⟨hbne, tb, hpb, rfl⟩
  · rcases hD with ⟨rfl, rfl⟩ | ⟨hdne, td, hpd, rfl⟩
    · simp only [bne_self_eq_false, Bool.false_eq_true, if_false]
      exact ⟨trivial, hnames, halB, halD⟩
    · have hdne' : (d != "") = true := by simpa using hdne
      simp only [bne_self_eq_false, Bool.false_eq_true, if_false, hdne', if_true, hpd]
      refine ⟨trivial, ?_, ?_, ?_⟩
      · rw [fieldSet_names, hnames]
      · rw [lookup_fieldSet_ne _ _ _ _ (by decide), halB]
      · exact lookup_fieldSet_self _ _ _ _ hxD
  · have hbne' : (b != "") = true := by simpa using hbne
    rcases hD with ⟨rfl, rfl⟩ | ⟨hdne, td, hpd, rfl⟩
    · simp only [hbne', if_true, hpb, bne_self_eq_false, Bool.false_eq_true, if_false]
      refine ⟨trivial, ?_, ?_, ?_⟩
      · rw [fieldSet_names, hnames]
      · exact lookup_fieldSet_self _ _ _ _ hxB
      · rw [lookup_fieldSet_ne _ _ _ _ (by decide), halD]
    · have hdne' : (d != "") = true := by simpa using hdne
      have hxD' : (fieldSet (aux.alias (.struct (aux.decode sc ms p0).val)) "BirthDate"
          (.ptr (.time tb))).lookup "DeceasedAt" = some xD := by
        rw [lookup_fieldSet_ne _ _ _ _ (by decide), hxD]
      simp only [hbne', if_true, hpb, hdne', hpd]
      refine ⟨trivial, ?_, ?_, ?_⟩
      · rw [fieldSet_names, fieldSet_names, hnames]
      · rw [lookup_fieldSet_ne _ _ _ _ (by decide)]
        exact lookup_fieldSet_self _ _ _ _ hxB
      · exact lookup_fieldSet_self _ _ _ _ hxD'

theorem string_overwrites (tn : String) (x : Val) (j : JSON) (cur : Val)
    (h : (GoType.string tn).marshal x = .ok j) :
    (GoType.string tn).unmarshal j cur = (GoType.string tn).unmarshal j (GoType.string tn).zero := by
  cases x with
  | string s =>
    cases h
    rfl
  | _ => cases h

theorem fieldCanon_string (n k tn s : String) :
    fieldCanon (opt n k (.string tn)) (.string s) = true := by
  unfold fieldCanon
  by_cases h : s = ""
  · subst h
    rfl
  · have hb : (s == "") = false := by simpa using h
    show (if (true && (s == "")) = true then (s == "") else true) = true
    simp [hb]

theorem promoted_name_ne (sc : Strconv) (f : Field) (hf : f ∈ aux.promoted sc) :
    f.name ≠ "aux.BirthDate" ∧ f.name ≠ "aux.DeceasedAt" ∧ f.name ≠ "BirthDate"
      ∧ f.name ≠ "DeceasedAt" := by
  have hm : f.name ∈ (aux.promoted sc).map (·.name) := List.mem_map_of_mem _ hf
  rw [aux_promoted_names] at hm
  refine ⟨?_, ?_, ?_, ?_⟩ <;>
  · intro e
    rw [e] at hm
    revert hm
    decide

theorem goFields_name_cases (sc : Strconv) (n : String)
    (h : n ∈ (Patient.goFields sc).map (·.name)) :
    n = "BirthDate" ∨ n = "DeceasedAt" ∨ ∃ f ∈ aux.promoted sc, f.name = n := by
  have hp : n = "BirthDate" ∨ n = "DeceasedAt" ∨ n ∈ (aux.promoted sc).map (·.name) := by
    rw [Patient.goFields_names] at h
    rw [aux_promoted_names]
    simp only [List.mem_cons, List.mem_singleton, List.not_mem_nil, or_false] at h ⊢
    tauto
  rcases hp with h1 | h2 | h3
  · exact Or.inl h1
  · exact Or.inr (Or.inl h2)
  · obtain ⟨f, hf, rfl⟩ := List.mem_map.mp h3
    exact Or.inr (Or.inr ⟨f, hf, rfl⟩)

/-- The strings that `MarshalJSON` puts into `aux`. -/
theorem Patient_MarshalJSON_eq (sc : Strconv) (p : Struct) (b d : String)
    (hb : b = match timeField p "BirthDate" with
      | some t => t.Format .dateOnly
      | none => "")
    (hd : d = match timeField p "DeceasedAt" with
      | some t => t.Format .RFC3339
      | none => "")
    (ms : List (String × JSON))
    (he : encodeFields (aux.fields sc) (aux.state p b d) = .ok ms) :
    Patient.MarshalJSON sc p = .ok (.text (.obj ms)) := by
  have h : json.Marshal (aux.type sc) (aux.new p b d) = .ok (.text (.obj ms)) := by
    show (match (match encodeFields (aux.fields sc) (aux.state p b d) with
        | .ok ms => Except.ok (JSON.obj ms)
        | .error e => .error e) with
      | .ok j => Except.ok (Bytes.text j)
      | .error e => .error e) = _
    rw [he]
  subst hb hd
  exact h

/-- Round trip of the two methods: a well-typed patient in canonical form is encoded
without error to an object, and decoding this object into a fresh receiver gives the
patient back. -/
theorem Patient_roundTrip_fields (sc : Strconv) (p : Struct) (hp : Patient.hasType sc p)
    (hc : Patient.canon sc p) :
    ∃ ms b d, encodeFields (aux.fields sc) (aux.state p b d) = .ok ms
      ∧ Patient.MarshalJSON sc p = .ok (.text (.obj ms))
      ∧ ∀ p0, Patient.Fresh sc p0 →
          Patient.UnmarshalJSON sc p0 (.text (.obj ms)) = (p, none) := by
  obtain ⟨hc1, hcB, hcD⟩ := hc
  generalize hbdef : (match timeField p "BirthDate" with
      | some t => t.Format .dateOnly
      | none => "") = b
  generalize hddef : (match timeField p "DeceasedAt" with
      | some t => t.Format .RFC3339
      | none => "") = d
  obtain ⟨hvB, hvD, hvs⟩ := aux_state_lookup sc p hp b d
  have hpre : ∀ p0, Patient.Fresh sc p0 → ∀ f ∈ aux.fields sc, ∃ x cur,
      (aux.state p b d).lookup f.name = some x ∧ f.type.hasType x = true
        ∧ fieldCanon f x = true ∧ (aux.state p0 "" "").lookup f.name = some cur
        ∧ Receptive f cur := by
    intro p0 hfresh f hf
    have hp0 := Fresh_hasType sc p0 hfresh
    obtain ⟨h0B, h0D, h0s⟩ := aux_state_lookup sc p0 hp0 "" ""
    rcases List.mem_append.mp hf with h | h
    · have hfg := aux_promoted_mem sc f h
      obtain ⟨n1, n2, -, -⟩ := promoted_name_ne sc f h
      obtain ⟨x, hx, hty⟩ := structHasType_lookup _ (Patient_fieldsOK sc).names p hp f hfg
      have hcan : fieldCanon f x = true := by
        have := (List.all_eq_true.mp hc1) f h
        simpa [hx] using this
      obtain ⟨⟨t, ht⟩, hz⟩ := Fresh_lookup sc p0 hfresh
      by_cases hrt : f.name = "ResourceType"
      · have hfe := resourceType_field_of_name sc f hfg hrt
        subst hfe
        refine ⟨x, .string t, by rw [hvs _ n1 n2, hx], hty, hcan,
          by rw [h0s _ n1 n2]; exact ht, Or.inr ⟨rfl, ?_⟩⟩
        intro y j hj
        exact string_overwrites _ y j _ hj
      · exact ⟨x, f.type.zero, by rw [hvs _ n1 n2, hx], hty, hcan,
          by rw [h0s _ n1 n2]; exact hz f hfg hrt, Or.inl rfl⟩
    · simp only [aux.own, List.mem_cons, List.mem_singleton, List.not_mem_nil,
        or_false] at h
      rcases h with rfl | rfl
      · exact ⟨.string b, .string "", hvB, rfl, fieldCanon_string _ _ _ _, h0B, Or.inl rfl⟩
      · exact ⟨.string d, .string "", hvD, rfl, fieldCanon_string _ _ _ _, h0D, Or.inl rfl⟩
  -- the object that the encoder emits
  have hfresh0 : Patient.Fresh sc (fieldSet (zeroStruct (Patient.goFields sc))
      "ResourceType" (.string "")) := ⟨"", rfl⟩
  obtain ⟨ms, -, he, -⟩ := fields_roundTrip (aux.fields sc) (aux_fieldsOK sc) (aux.fields sc)
    (fun f hf => hf) (aux_names_nodup sc) (aux.state p b d) _ (hpre _ hfresh0)
  refine ⟨ms, b, d, he, Patient_MarshalJSON_eq sc p b d hbdef.symm hddef.symm ms he, ?_⟩
  intro p0 hfresh
  have hp0 := Fresh_hasType sc p0 hfresh
  obtain ⟨ms', st', he', hd', hn', hl', hr'⟩ := fields_roundTrip (aux.fields sc)
    (aux_fieldsOK sc) (aux.fields sc) (fun f hf => hf) (aux_names_nodup sc)
    (aux.state p b d) (aux.state p0 "" "") (hpre p0 hfresh)
  have hms : ms' = ms := by
    rw [he] at he'
    cases he'
    rfl
  subst hms
  have hdec : aux.decode sc ms' p0 = ⟨st', [], none⟩ := hd'
  have hval : (aux.decode sc ms' p0).val = st' := by rw [hdec]
  have herr : (aux.decode sc ms' p0).err = none := by rw [hdec]; rfl
  have hsB : (Val.struct (aux.decode sc ms' p0).val).str "aux.BirthDate" = b := by
    show (match (aux.decode sc ms' p0).val.lookup "aux.BirthDate" with
      | some (.string s) => s
      | _ => "") = b
    have := hl' _ (aux_birth_mem sc)
    rw [hval]
    erw [this, hvB]
  have hsD : (Val.struct (aux.decode sc ms' p0).val).str "aux.DeceasedAt" = d := by
    show (match (aux.decode sc ms' p0).val.lookup "aux.DeceasedAt" with
      | some (.string s) => s
      | _ => "") = d
    have := hl' _ (aux_deceased_mem sc)
    rw [hval]
    erw [this, hvD]
  obtain ⟨-, hz0⟩ := Fresh_lookup sc p0 hfresh
  obtain ⟨-, -, h0s⟩ := aux_state_lookup sc p0 hp0 "" ""
  have hnotB : "BirthDate" ∉ (aux.fields sc).map (·.name) := by
    rw [aux.fields_names]
    decide
  have hnotD : "DeceasedAt" ∉ (aux.fields sc).map (·.name) := by
    rw [aux.fields_names]
    decide
  have hstB : (aux.decode sc ms' p0).val.lookup "BirthDate" = some .nilPtr := by
    rw [hval, hr' _ hnotB, h0s _ (by decide) (by decide)]
    exact hz0 _ (birthDate_mem sc) (by decide)
  have hstD : (aux.decode sc ms' p0).val.lookup "DeceasedAt" = some .nilPtr := by
    rw [hval, hr' _ hnotD, h0s _ (by decide) (by decide)]
    exact hz0 _ (deceasedAt_mem sc) (by decide)
  have hB : (b = "" ∧ p.lookup "BirthDate" = (aux.decode sc ms' p0).val.lookup "BirthDate")
      ∨ (b ≠ "" ∧ ∃ t, time.Parse .dateOnly b = .ok t
          ∧ p.lookup "BirthDate" = some (.ptr (.time t))) := by
    rcases Patient_time_field sc p hp "BirthDate" "birthDate" (birthDate_mem sc) with
      ⟨h1, h2⟩ | ⟨t, h1, h2, h3⟩
    · left
      rw [h2] at hbdef
      exact ⟨hbdef.symm, by rw [h1, hstB]⟩
    · right
      rw [h2] at hbdef
      obtain ⟨c1, c2, c3⟩ := hcB t h2
      have hparse : time.Parse .dateOnly b = .ok t := by
        rw [← hbdef]
        exact (Parse_dateOnly_ok_iff _ _).mpr
          (time.parse_dateOnly_appendDate t ⟨c2, c3, h3⟩ c1)
      refine ⟨?_, t, hparse, h1⟩
      intro e
      rw [e] at hparse
      cases hparse
  have hD : (d = "" ∧ p.lookup "DeceasedAt" = (aux.decode sc ms' p0).val.lookup "DeceasedAt")
      ∨ (d ≠ "" ∧ ∃ t, time.Parse .RFC3339 d = .ok t
          ∧ p.lookup "DeceasedAt" = some (.ptr (.time t))) := by
    rcases Patient_time_field sc p hp "DeceasedAt" "deceasedDateTime" (deceasedAt_mem sc)
      with ⟨h1, h2⟩ | ⟨t, h1, h2, h3⟩
    · left
      rw [h2] at hddef
      exact ⟨hddef.symm, by rw [h1, hstD]⟩
    · right
      rw [h2] at hddef
      have hparse : time.Parse .RFC3339 d = .ok t := by
        rw [← hddef]
        unfold time.Parse
        rw [time.parse_RFC3339_format t (hcD t h2)]
      refine ⟨?_, t, hparse, h1⟩
      intro e
      rw [e] at hparse
      cases hparse
  obtain ⟨r2, rn, rB, rD⟩ := Patient_UnmarshalJSON_times sc p0 hp0 ms' b d _ _ herr hsB hsD
    hB hD
  have hpn := Patient.hasType_names sc p hp
  have hp0n := Patient.hasType_names sc p0 hp0
  have hr1 : (Patient.UnmarshalJSON sc p0 (.text (.obj ms'))).1 = p := by
    apply struct_ext
    · rw [rn, hp0n, hpn]
    · rw [rn, hp0n]
      exact (Patient_fieldsOK sc).names
    · intro n hn
      rw [rn, hp0n] at hn
      rcases goFields_name_cases sc n hn with rfl | rfl | ⟨f, hf, rfl⟩
      · exact rB
      · exact rD
      · obtain ⟨n1, n2, n3, n4⟩ := promoted_name_ne sc f hf
        rw [Patient_UnmarshalJSON_lookup sc p0 hp0 ms' f.name n3 n4 n1 n2, hval,
          hl' f (List.mem_append_left _ hf), hvs _ n1 n2]
  exact Prod.ext hr1 r2

theorem Patient_roundTrip (sc : Strconv) (p : Struct) (hp : Patient.hasType sc p)
    (hc : Patient.canon sc p) :
    ∃ ms, Patient.MarshalJSON sc p = .ok (.text (.obj ms))
      ∧ ∀ p0, Patient.Fresh sc p0 →
          Patient.UnmarshalJSON sc p0 (.text (.obj ms)) = (p, none) := by
  obtain ⟨ms, -, -, -, h1, h2⟩ := Patient_roundTrip_fields sc p hp hc
  exact ⟨ms, h1, h2⟩

namespace time

theorem digitsVal_lt_pow (ds : List Char) (h : ∀ c ∈ ds, c.isDigit = true) :
    digitsVal ds < 10 ^ ds.length := by
  induction ds using List.reverseRecOn with
  | nil => simp [digitsVal]
  | append_singleton xs c ih =>
    rw [digitsVal_append_single]
    have h1 := ih (fun c hc => h c (List.mem_append_left _ hc))
    have h2 := digitVal_lt (h c (List.mem_append_right _ (List.mem_singleton.mpr rfl)))
    simp only [List.length_append, List.length_singleton, pow_succ]
    omega

theorem getFraction_lt (s : List Char) : (getFraction s).1 < 1000000000 := by
  unfold getFraction
  split
  · rename_i sep d rest
    split
    · have hd : ∀ c ∈ ((d :: rest).takeWhile Char.isDigit).take 9, c.isDigit = true := by
        intro c hc
        exact (List.mem_takeWhile_imp (List.mem_of_mem_take hc))
      have hl : (((d :: rest).takeWhile Char.isDigit).take 9).length ≤ 9 := by
        rw [List.length_take]
        exact Nat.min_le_left _ _
      have h1 := digitsVal_lt_pow _ hd
      show digitsVal (((d :: rest).takeWhile Char.isDigit).take 9)
        * 10 ^ (9 - (((d :: rest).takeWhile Char.isDigit).take 9).length) < 1000000000
      generalize (((d :: rest).takeWhile Char.isDigit).take 9).length = n at hl h1
      generalize digitsVal (((d :: rest).takeWhile Char.isDigit).take 9) = v at h1
      have h2 : v * 10 ^ (9 - n) < 10 ^ n * 10 ^ (9 - n) :=
        Nat.mul_lt_mul_of_pos_right h1 (by positivity)
      rw [← pow_add, show n + (9 - n) = 9 by omega] at h2
      exact h2
    · show 0 < 1000000000
      omega
  · show 0 < 1000000000
    omega

theorem getClock_inv {s rest : List Char} {h mi se ns : Nat} {off : Int}
    (hc : getClock s = some (h, mi, se, ns, off, rest)) :
    h < 24 ∧ mi < 60 ∧ se < 60 ∧ ns < 1000000000 := by
  unfold getClock at hc
  simp only [Option.bind_eq_bind, Option.bind_eq_some, Prod.exists] at hc
  obtain ⟨s1, -, h', s2, -, hc⟩ := hc
  by_cases hh : 24 ≤ h'
  · simp [hh] at hc
  · simp only [hh, if_false, Option.bind_eq_some, Prod.exists] at hc
    obtain ⟨s3, -, mi', s4, -, hc⟩ := hc
    by_cases hm : 60 ≤ mi'
    · simp [hm] at hc
    · simp only [hm, if_false, Option.bind_eq_some, Prod.exists] at hc
      obtain ⟨s5, -, se', s6, -, hc⟩ := hc
      by_cases hs : 60 ≤ se'
      · simp [hs] at hc
      · simp only [hs, if_false, Option.bind_eq_some, Prod.exists, Option.some.injEq,
          Option.pure_def, Prod.mk.injEq] at hc
        obtain ⟨ns', s7, hf, off', s8, -, rfl, rfl, rfl, rfl, -, -⟩ := hc
        have := getFraction_lt s6
        rw [hf] at this
        exact ⟨by omega, by omega, by omega, this⟩

theorem parse_valid (l : Layout) (s : List Char) (t : Time) (h : parse l s = some t) :
    t.valid = true := by
  have hdate : ∀ s, parse .dateOnly s = some t → t.valid = true := by
    intro s h
    simp only [parse, Option.bind_eq_bind, Option.bind_eq_some, Prod.exists] at h
    obtain ⟨y, m, d, rest, hg, h⟩ := h
    simp only [Option.pure_def, Option.ite_none_right_eq_some, Bool.and_eq_true,
      decide_eq_true_eq, Option.some.injEq] at h
    obtain ⟨⟨⟨-, hd1⟩, hd2⟩, rfl⟩ := h
    obtain ⟨-, -, hm1, hm2, -, -⟩ := getDate_inv hg
    simp [Time.valid, dateUTC, hm1, hm2, hd1, hd2]
  have hclock : ∀ s, (do
      let (year, month, day, s) ← getDate s
      let (hour, minute, second, nsec, offset, s) ← getClock s
      if s.isEmpty && decide (1 ≤ day) && decide (day ≤ daysIn month year)
      then pure (⟨year, month, day, hour, minute, second, nsec, offset⟩ : Time)
      else none) = some t → t.valid = true := by
    intro s h
    simp only [Option.bind_eq_bind, Option.bind_eq_some, Prod.exists] at h
    obtain ⟨y, m, d, rest, hg, hh, mi, se, ns, off, rest2, hc, h⟩ := h
    simp only [Option.pure_def, Option.ite_none_right_eq_some, Bool.and_eq_true,
      decide_eq_true_eq, Option.some.injEq] at h
    obtain ⟨⟨⟨-, hd1⟩, hd2⟩, rfl⟩ := h
    obtain ⟨-, -, hm1, hm2, -, -⟩ := getDate_inv hg
    obtain ⟨c1, c2, c3, c4⟩ := getClock_inv hc
    simp [Time.valid, hm1, hm2, hd1, hd2, c1, c2, c3, c4]
  cases l with
  | dateOnly => exact hdate s h
  | RFC3339 => exact hclock s h
  | RFC3339Nano => exact hclock s h

theorem Parse_valid (l : Layout) (s : String) (t : Time) (h : Parse l s = .ok t) :
    t.valid = true := by
  unfold Parse at h
  cases hp : parse l s.data with
  | none =>
    rw [hp] at h
    cases h
  | some t' =>
    rw [hp] at h
    cases h
    exact parse_valid l _ _ hp

end time

theorem preserves_string (tn : String) : (GoType.string tn).Preserves where
  zero := rfl
  unmarshal j v h := by
    cases j with
    | str s => rfl
    | _ => exact h

theorem preserves_bool : GoType.bool.Preserves where
  zero := rfl
  unmarshal j v h := by
    cases j with
    | bool b => rfl
    | _ => exact h

theorem parseInt_range (n : JNumber) (i : Int) (h : GoType.parseInt n = some i) :
    -9223372036854775808 ≤ i ∧ i ≤ 9223372036854775807 := by
  unfold GoType.parseInt at h
  split at h
  · simp only [Option.ite_none_right_eq_some, Option.some.injEq] at h
    obtain ⟨hr, rfl⟩ := h
    exact hr
  · cases h

theorem preserves_int : GoType.int.Preserves where
  zero := rfl
  unmarshal j v h := by
    cases j with
    | num n =>
      show GoType.int.hasType (match GoType.parseInt n with
        | some i => (⟨.int i, [], none⟩ : Dec Val)
        | none => mismatch "int" (.num n) v).val = true
      cases hp : GoType.parseInt n with
      | none => exact h
      | some i =>
        show decide (-9223372036854775808 ≤ i ∧ i ≤ 9223372036854775807) = true
        exact decide_eq_true (parseInt_range n i hp)
    | _ => exact h

theorem preserves_float64 (sc : Strconv) : (GoType.float64 sc).Preserves where
  zero := rfl
  unmarshal j v h := by
    cases j with
    | num n =>
      show (GoType.float64 sc).hasType (match sc.parseFloat n with
        | some x => (⟨.float64 x, [], none⟩ : Dec Val)
        | none => mismatch "float64" (.num n) v).val = true
      cases sc.parseFloat n with
      | none => exact h
      | some x => rfl
    | _ => exact h

theorem preserves_time : GoType.time.Preserves where
  zero := rfl
  unmarshal j v h := by
    cases j with
    | str s =>
      show GoType.time.hasType (match time.Time.UnmarshalJSON s with
        | .ok t => (⟨.time t, [], none⟩ : Dec Val)
        | .error e => ⟨v, [], some e⟩).val = true
      cases hp : time.Time.UnmarshalJSON s with
      | error e => exact h
      | ok t => exact time.Parse_valid _ _ _ hp
    | _ => exact h

theorem preserves_rawMessage : GoType.rawMessage.Preserves where
  zero := rfl
  unmarshal _ _ _ := rfl

theorem preserves_ptr (elem : GoType) (he : elem.Preserves) : (GoType.ptr elem).Preserves where
  zero := rfl
  unmarshal j v h := by
    cases j with
    | null => rfl
    | _ =>
      cases v with
      | ptr x => exact he.unmarshal _ x h
      | nilPtr => exact he.unmarshal _ _ he.zero
      | _ => exact Bool.noConfusion h

theorem decodeElems_typed (elem : GoType) (he : elem.Preserves) (js : List JSON) :
    ∀ olds : List Val, olds.all elem.hasType = true →
      (GoType.decodeElems elem js olds).val.all elem.hasType = true := by
  induction js with
  | nil =>
    intro olds _
    rfl
  | cons j js ih =>
    intro olds ho
    have hhead : elem.hasType (olds.headD elem.zero) = true := by
      cases olds with
      | nil => exact he.zero
      | cons o os =>
        simp only [List.all_cons, Bool.and_eq_true] at ho
        exact ho.1
    have htail : olds.tail.all elem.hasType = true := by
      cases olds with
      | nil => rfl
      | cons o os =>
        simp only [List.all_cons, Bool.and_eq_true] at ho
        exact ho.2
    have hd := he.unmarshal j _ hhead
    unfold GoType.decodeElems
    dsimp only
    cases ha : (elem.unmarshal j (olds.headD elem.zero)).abort with
    | some e =>
      simp only [List.all_cons, Bool.and_eq_true]
      exact ⟨hd, htail⟩
    | none =>
      simp only [List.all_cons, Bool.and_eq_true]
      exact ⟨hd, ih _ htail⟩

theorem preserves_slice (elem : GoType) (he : elem.Preserves) :
    (GoType.slice elem).Preserves where
  zero := rfl
  unmarshal j v h := by
    cases j with
    | null => rfl
    | arr js =>
      cases v with
      | slice xs => exact decodeElems_typed elem he js xs h
      | nilSlice => exact decodeElems_typed elem he js [] rfl
      | _ => exact Bool.noConfusion h
    | _ => exact h

theorem resolve_mem (all : List Field) (k : String) (g : Field)
    (h : resolve all k = some g) : g ∈ all := by
  unfold resolve at h
  split at h
  · rename_i f hf
    cases h
    exact List.mem_of_find?_eq_some hf
  · exact List.mem_of_find?_eq_some h

/-- Decoding the members of an object keeps every field of the table in its type. -/
theorem decodeMembers_typed (all : List Field) (hn : (all.map (·.name)).Nodup)
    (hp : ∀ f ∈ all, f.type.Preserves) (ms : List (String × JSON)) :
    ∀ st : Struct, (∀ f ∈ all, ∀ x, st.lookup f.name = some x → f.type.hasType x = true) →
      ∀ f ∈ all, ∀ x, (decodeMembers all ms st).val.lookup f.name = some x →
        f.type.hasType x = true := by
  induction ms with
  | nil =>
    intro st hst
    exact hst
  | cons kj ms ih =>
    obtain ⟨k, j⟩ := kj
    intro st hst
    cases hr : resolve all k with
    | none =>
      rw [decodeMembers_cons_none all k j ms st hr]
      exact ih st hst
    | some g =>
      have hg := resolve_mem all k g hr
      cases hl : st.lookup g.name with
      | none =>
        rw [decodeMembers_cons_skip all k j ms st g hr hl]
        exact ih st hst
      | some cur =>
        have hcur := hst g hg cur hl
        have hnew := (hp g hg).unmarshal j cur hcur
        have hset : ∀ f ∈ all, ∀ x,
            (fieldSet st g.name (g.type.unmarshal j cur).val).lookup f.name = some x →
              f.type.hasType x = true := by
          intro f hf x hx
          rw [lookup_fieldSet] at hx
          by_cases hfg : f.name = g.name
          · have := field_eq_of_name all hn f g hf hg hfg
            subst this
            simp only [if_true, hl, Option.map_some', Option.some.injEq] at hx
            rw [← hx]
            exact hnew
          · simp only [hfg, if_false] at hx
            exact hst f hf x hx
        cases ha : (g.type.unmarshal j cur).abort with
        | some e =>
          rw [decodeMembers_cons_abort all k j ms st g hr cur hl e ha]
          exact hset
        | none =>
          rw [decodeMembers_cons_step all k j ms st g hr cur hl ha]
          exact ih _ hset

/-- Decoding the members of an object leaves alone what is not a field of the table. -/
theorem decodeMembers_other (all : List Field) (n : String)
    (hn : n ∉ all.map (·.name)) (ms : List (String × JSON)) :
    ∀ st : Struct, (decodeMembers all ms st).val.lookup n = st.lookup n := by
  induction ms with
  | nil =>
    intro st
    rfl
  | cons kj ms ih =>
    obtain ⟨k, j⟩ := kj
    intro st
    cases hr : resolve all k with
    | none =>
      rw [decodeMembers_cons_none all k j ms st hr]
      exact ih st
    | some g =>
      have hg := resolve_mem all k g hr
      have hne : n ≠ g.name := by
        intro e
        exact hn (e ▸ List.mem_map_of_mem (·.name) hg)
      cases hl : st.lookup g.name with
      | none =>
        rw [decodeMembers_cons_skip all k j ms st g hr hl]
        exact ih st
      | some cur =>
        cases ha : (g.type.unmarshal j cur).abort with
        | some e =>
          rw [decodeMembers_cons_abort all k j ms st g hr cur hl e ha]
          exact lookup_fieldSet_ne _ _ _ _ hne
        | none =>
          rw [decodeMembers_cons_step all k j ms st g hr cur hl ha]
          show (decodeMembers all ms _).val.lookup n = _
          rw [ih, lookup_fieldSet_ne _ _ _ _ hne]

theorem structHasType_of_lookup (all : List Field) :
    (all.map (·.name)).Nodup → ∀ fs : Struct, fs.map Prod.fst = all.map (·.name) →
      (∀ f ∈ all, ∃ x, fs.lookup f.name = some x ∧ f.type.hasType x = true) →
      structHasType all fs = true := by
  induction all with
  | nil =>
    intro _ fs hnames _
    cases fs with
    | nil => rfl
    | cons p fs => simp at hnames
  | cons a l ih =>
    intro hn fs hnames h
    cases fs with
    | nil => simp at hnames
    | cons p fs =>
      obtain ⟨n, v⟩ := p
      simp only [List.map_cons, List.cons.injEq] at hnames
      obtain ⟨hna, hrest⟩ := hnames
      subst hna
      simp only [List.map_cons, List.nodup_cons] at hn
      have hhead : a.type.hasType v = true := by
        obtain ⟨x, hx, hty⟩ := h a (List.mem_cons_self _ _)
        simp only [List.lookup_cons, beq_self_eq_true, Option.some.injEq] at hx
        rw [hx]
        exact hty
      have htail : structHasType l fs = true := by
        apply ih hn.2 fs hrest
        intro f hf
        obtain ⟨x, hx, hty⟩ := h f (List.mem_cons_of_mem _ hf)
        have hne : f.name ≠ a.name := by
          intro e
          exact hn.1 (e ▸ List.mem_map_of_mem (·.name) hf)
        have hb : (f.name == a.name) = false := by simpa using hne
        simp only [List.lookup_cons, hb] at hx
        exact ⟨x, hx, hty⟩
      simp only [structHasType, beq_self_eq_true, Bool.true_and, Bool.and_eq_true]
      exact ⟨hhead, htail⟩

theorem preserves_struct (name : String) (all : List Field)
    (hn : (all.map (·.name)).Nodup) (hp : ∀ f ∈ all, f.type.Preserves) :
    (GoType.struct name all).Preserves where
  zero := by
    show structHasType all (zeroStruct all) = true
    apply structHasType_of_lookup all hn _ (zeroStruct_names all)
    intro f hf
    exact ⟨_, lookup_zeroStruct all hn f hf, (hp f hf).zero⟩
  unmarshal j v h := by
    cases v with
    | struct fs =>
      have h' : structHasType all fs = true := h
      cases j with
      | obj ms =>
        show structHasType all (decodeMembers all ms fs).val = true
        apply structHasType_of_lookup all hn
        · rw [decodeMembers_names, structHasType_names all fs h']
        · intro f hf
          have hsome : ((decodeMembers all ms fs).val.lookup f.name).isSome = true := by
            rw [lookup_isSome_iff, decodeMembers_names, structHasType_names all fs h']
            exact List.mem_map_of_mem (·.name) hf
          obtain ⟨x, hx⟩ := Option.isSome_iff_exists.mp hsome
          refine ⟨x, hx, decodeMembers_typed all hn hp ms fs ?_ f hf x hx⟩
          intro g hg y hy
          obtain ⟨z, hz, hty⟩ := structHasType_lookup all hn fs h' g hg
          rw [hz] at hy
          cases hy
          exact hty
      | _ => exact h
    | _ => exact Bool.noConfusion h

end FhirClient

set_option linter.unusedTactic false
set_option linter.unreachableTactic false

namespace FhirClient

theorem Period_fields_preserve : ∀ f ∈ Period.fields, f.type.Preserves := by
  simp only [Period.fields, opt, fld, List.forall_mem_cons, List.not_mem_nil,
    IsEmpty.forall_iff, implies_true, and_true]
  and_intros
  all_goals
    repeat' first
      | exact preserves_bool | exact preserves_int | exact preserves_time
      | exact preserves_rawMessage
      | apply preserves_string | apply preserves_float64
      | apply preserves_ptr | apply preserves_slice

theorem Period_preserves : (Period.type).Preserves :=
  preserves_struct _ _ (Period_fieldsOK).names (Period_fields_preserve)

theorem Coding_fields_preserve : ∀ f ∈ Coding.fields, f.type.Preserves := by
  simp only [Coding.fields, opt, fld, List.forall_mem_cons, List.not_mem_nil,
    IsEmpty.forall_iff, implies_true, and_true]
  and_intros
  all_goals
    repeat' first
      | exact preserves_bool | exact preserves_int | exact preserves_time
      | exact preserves_rawMessage
      | apply preserves_string | apply preserves_float64
      | apply preserves_ptr | apply preserves_slice

theorem Coding_preserves : (Coding.type).Preserves :=
  preserves_struct _ _ (Coding_fieldsOK).names (Coding_fields_preserve)

theorem CodeableConcept_fields_preserve : ∀ f ∈ CodeableConcept.fields, f.type.Preserves := by
  simp only [CodeableConcept.fields, opt, fld, List.forall_mem_cons, List.not_mem_nil,
    IsEmpty.forall_iff, implies_true, and_true]
  and_intros
  all_goals
    repeat' first
      | exact preserves_bool | exact preserves_int | exact preserves_time
      | exact preserves_rawMessage | exact Coding_preserves
      | apply preserves_string | apply preserves_float64
      | apply preserves_ptr | apply preserves_slice

theorem CodeableConcept_preserves : (CodeableConcept.type).Preserves :=
  preserves_struct _ _ (CodeableConcept_fieldsOK).names (CodeableConcept_fields_preserve)

theorem Quantity_fields_preserve (sc : Strconv) : ∀ f ∈ Quantity.fields sc, f.type.Preserves := by
  simp only [Quantity.fields, opt, fld, List.forall_mem_cons, List.not_mem_nil,
    IsEmpty.forall_iff, implies_true, and_true]
  and_intros
  all_goals
    repeat' first
      | exact preserves_bool | exact preserves_int | exact preserves_time
      | exact preserves_rawMessage
      | apply preserves_string | apply preserves_float64
      | apply preserves_ptr | apply preserves_slice

theorem Quantity_preserves (sc : Strconv) : (Quantity.type sc).Preserves :=
  preserves_struct _ _ (Quantity_fieldsOK sc).names (Quantity_fields_preserve sc)

theorem Reference_fields_preserve : ∀ f ∈ Reference.fields, f.type.Preserves := by
  simp only [Reference.fields, opt, fld, List.forall_mem_cons, List.not_mem_nil,
    IsEmpty.forall_iff, implies_true, and_true]
  and_intros
  all_goals
    repeat' first
      | exact preserves_bool | exact preserves_int | exact preserves_time
      | exact preserves_rawMessage
      | apply preserves_string | apply preserves_float64
      | apply preserves_ptr | apply preserves_slice

theorem Reference_preserves : (Reference.type).Preserves :=
  preserves_struct _ _ (Reference_fieldsOK).names (Reference_fields_preserve)

theorem Meta_fields_preserve : ∀ f ∈ Meta.fields, f.type.Preserves := by
  simp only [Meta.fields, opt, fld, List.forall_mem_cons, List.not_mem_nil,
    IsEmpty.forall_iff, implies_true, and_true]
  and_intros
  all_goals
    repeat' first
      | exact preserves_bool | exact preserves_int | exact preserves_time
      | exact preserves_rawMessage | exact Coding_preserves
      | apply preserves_string | apply preserves_float64
      | apply preserves_ptr | apply preserves_slice

theorem Meta_preserves : (Meta.type).Preserves :=
  preserves_struct _ _ (Meta_fieldsOK).names (Meta_fields_preserve)

theorem Narrative_fields_preserve : ∀ f ∈ Narrative.fields, f.type.Preserves := by
  simp only [Narrative.fields, opt, fld, List.forall_mem_cons, List.not_mem_nil,
    IsEmpty.forall_iff, implies_true, and_true]
  and_intros
  all_goals
    repeat' first
      | exact preserves_bool | exact preserves_int | exact preserves_time
      | exact preserves_rawMessage
      | apply preserves_string | apply preserves_float64
      | apply preserves_ptr | apply preserves_slice

theorem Narrative_preserves : (Narrative.type).Preserves :=
  preserves_struct _ _ (Narrative_fieldsOK).names (Narrative_fields_preserve)

theorem Extension_fields_preserve (sc : Strconv) : ∀ f ∈ Extension.fields sc, f.type.Preserves := by
  simp only [Extension.fields, opt, fld, List.forall_mem_cons, List.not_mem_nil,
    IsEmpty.forall_iff, implies_true, and_true]
  and_intros
  all_goals
    repeat' first
      | exact preserves_bool | exact preserves_int | exact preserves_time
      | exact preserves_rawMessage | exact CodeableConcept_preserves | exact Quantity_preserves sc | exact Reference_preserves
      | apply preserves_string | apply preserves_float64
      | apply preserves_ptr | apply preserves_slice

theorem Extension_preserves (sc : Strconv) : (Extension.type sc).Preserves :=
  preserves_struct _ _ (Extension_fieldsOK sc).names (Extension_fields_preserve sc)

theorem HumanName_fields_preserve : ∀ f ∈ HumanName.fields, f.type.Preserves := by
  simp only [HumanName.fields, opt, fld, List.forall_mem_cons, List.not_mem_nil,
    IsEmpty.forall_iff, implies_true, and_true]
  and_intros
  all_goals
    repeat' first
      | exact preserves_bool | exact preserves_int | exact preserves_time
      | exact preserves_rawMessage | exact Period_preserves
      | apply preserves_string | apply preserves_float64
      | apply preserves_ptr | apply preserves_slice

theorem HumanName_preserves : (HumanName.type).Preserves :=
  preserves_struct _ _ (HumanName_fieldsOK).names (HumanName_fields_preserve)

theorem ContactPoint_fields_preserve : ∀ f ∈ ContactPoint.fields, f.type.Preserves := by
  simp only [ContactPoint.fields, opt, fld, List.forall_mem_cons, List.not_mem_nil,
    IsEmpty.forall_iff, implies_true, and_true]
  and_intros
  all_goals
    repeat' first
      | exact preserves_bool | exact preserves_int | exact preserves_time
      | exact preserves_rawMessage | exact Period_preserves
      | apply preserves_string | apply preserves_float64
      | apply preserves_ptr | apply preserves_slice

theorem ContactPoint_preserves : (ContactPoint.type).Preserves :=
  preserves_struct _ _ (ContactPoint_fieldsOK).names (ContactPoint_fields_preserve)

theorem Address_fields_preserve : ∀ f ∈ Address.fields, f.type.Preserves := by
  simp only [Address.fields, opt, fld, List.forall_mem_cons, List.not_mem_nil,
    IsEmpty.forall_iff, implies_true, and_true]
  and_intros
  all_goals
    repeat' first
      | exact preserves_bool | exact preserves_int | exact preserves_time
      | exact preserves_rawMessage | exact Period_preserves
      | apply preserves_string | apply preserves_float64
      | apply preserves_ptr | apply preserves_slice

theorem Address_preserves : (Address.type).Preserves :=
  preserves_struct _ _ (Address_fieldsOK).names (Address_fields_preserve)

theorem Attachment_fields_preserve : ∀ f ∈ Attachment.fields, f.type.Preserves := by
  simp only [Attachment.fields, opt, fld, List.forall_mem_cons, List.not_mem_nil,
    IsEmpty.forall_iff, implies_true, and_true]
  and_intros
  all_goals
    repeat' first
      | exact preserves_bool | exact preserves_int | exact preserves_time
      | exact preserves_rawMessage
      | apply preserves_string | apply preserves_float64
      | apply preserves_ptr | apply preserves_slice

theorem Attachment_preserves : (Attachment.type).Preserves :=
  preserves_struct _ _ (Attachment_fieldsOK).names (Attachment_fields_preserve)

theorem PatientContact_fields_preserve : ∀ f ∈ PatientContact.fields, f.type.Preserves := by
  simp only [PatientContact.fields, opt, fld, List.forall_mem_cons, List.not_mem_nil,
    IsEmpty.forall_iff, implies_true, and_true]
  and_intros
  all_goals
    repeat' first
      | exact preserves_bool | exact preserves_int | exact preserves_time
      | exact preserves_rawMessage | exact Period_preserves | exact CodeableConcept_preserves | exact Reference_preserves | exact HumanName_preserves | exact ContactPoint_preserves | exact Address_preserves
      | apply preserves_string | apply preserves_float64
      | apply preserves_ptr | apply preserves_slice

theorem PatientContact_preserves : (PatientContact.type).Preserves :=
  preserves_struct _ _ (PatientContact_fieldsOK).names (PatientContact_fields_preserve)

theorem Communication_fields_preserve : ∀ f ∈ Communication.fields, f.type.Preserves := by
  simp only [Communication.fields, opt, fld, List.forall_mem_cons, List.not_mem_nil,
    IsEmpty.forall_iff, implies_true, and_true]
  and_intros
  all_goals
    repeat' first
      | exact preserves_bool | exact preserves_int | exact preserves_time
      | exact preserves_rawMessage | exact CodeableConcept_preserves
      | apply preserves_string | apply preserves_float64
      | apply preserves_ptr | apply preserves_slice

theorem Communication_preserves : (Communication.type).Preserves :=
  preserves_struct _ _ (Communication_fieldsOK).names (Communication_fields_preserve)

theorem PatientLink_fields_preserve : ∀ f ∈ PatientLink.fields, f.type.Preserves := by
  simp only [PatientLink.fields, opt, fld, List.forall_mem_cons, List.not_mem_nil,
    IsEmpty.forall_iff, implies_true, and_true]
  and_intros
  all_goals
    repeat' first
      | exact preserves_bool | exact preserves_int | exact preserves_time
      | exact preserves_rawMessage | exact Reference_preserves
      | apply preserves_string | apply preserves_float64
      | apply preserves_ptr | apply preserves_slice

theorem PatientLink_preserves : (PatientLink.type).Preserves :=
  preserves_struct _ _ (PatientLink_fieldsOK).names (PatientLink_fields_preserve)

theorem Patient_fields_preserve (sc : Strconv) : ∀ f ∈ Patient.goFields sc, f.type.Preserves := by
  simp only [Patient.goFields, Base.fields, opt, fld, List.cons_append, List.nil_append, List.forall_mem_cons, List.not_mem_nil,
    IsEmpty.forall_iff, implies_true, and_true]
  and_intros
  all_goals
    repeat' first
      | exact preserves_bool | exact preserves_int | exact preserves_time
      | exact preserves_rawMessage | exact CodeableConcept_preserves | exact Reference_preserves | exact Meta_preserves | exact Narrative_preserves | exact Extension_preserves sc | exact HumanName_preserves | exact ContactPoint_preserves | exact Address_preserves | exact Attachment_preserves | exact PatientContact_preserves | exact Communication_preserves | exact PatientLink_preserves
      | apply preserves_string | apply preserves_float64
      | apply preserves_ptr | apply preserves_slice

theorem aux_fields_preserve (sc : Strconv) : ∀ f ∈ aux.fields sc, f.type.Preserves := by
  intro f hf
  rcases List.mem_append.mp hf with h | h
  · exact Patient_fields_preserve sc f (aux_promoted_mem sc f h)
  · simp only [aux.own, List.mem_cons, List.mem_singleton, List.not_mem_nil,
      or_false] at h
    rcases h with rfl | rfl
    · exact preserves_string _
    · exact preserves_string _

/-- The receiver that `Patient.UnmarshalJSON` leaves is the patient that the member
loop left, with `BirthDate` and `DeceasedAt` set to what was parsed, if anything. -/
theorem Patient_UnmarshalJSON_shape (sc : Strconv) (p : Struct)
    (ms : List (String × JSON)) :
    ∃ q, (q = aux.alias (.struct (aux.decode sc ms p).val)
          ∨ ∃ t, t.valid = true
              ∧ q = fieldSet (aux.alias (.struct (aux.decode sc ms p).val)) "BirthDate"
                  (.ptr (.time t)))
      ∧ ((Patient.UnmarshalJSON sc p (.text (.obj ms))).1 = q
          ∨ ∃ t, t.valid = true
              ∧ (Patient.UnmarshalJSON sc p (.text (.obj ms))).1
                  = fieldSet q "DeceasedAt" (.ptr (.time t))) := by
  rw [Patient_UnmarshalJSON_obj]
  cases (aux.decode sc ms p).err with
  | some e => exact ⟨_, Or.inl rfl, Or.inl rfl⟩
  | none =>
    dsimp only
    by_cases hb : ((Val.struct (aux.decode sc ms p).val).str "aux.BirthDate" != "") = true
    · simp only [hb, if_true]
      cases hpb : time.Parse .dateOnly
          ((Val.struct (aux.decode sc ms p).val).str "aux.BirthDate") with
      | error e => exact ⟨_, Or.inl rfl, Or.inl rfl⟩
      | ok t =>
        have hv := time.Parse_valid _ _ _ hpb
        dsimp only
        by_cases hd : ((Val.struct (aux.decode sc ms p).val).str "aux.DeceasedAt" != "")
            = true
        · simp only [hd, if_true]
          cases hpd : time.Parse .RFC3339
              ((Val.struct (aux.decode sc ms p).val).str "aux.DeceasedAt") with
          | error e => exact ⟨_, Or.inr ⟨t, hv, rfl⟩, Or.inl rfl⟩
          | ok t2 =>
            exact ⟨_, Or.inr ⟨t, hv, rfl⟩, Or.inr ⟨t2, time.Parse_valid _ _ _ hpd, rfl⟩⟩
        · simp only [hd, Bool.false_eq_true, if_false]
          exact ⟨_, Or.inr ⟨t, hv, rfl⟩, Or.inl rfl⟩
    · simp only [hb, Bool.false_eq_true, if_false]
      by_cases hd : ((Val.struct (aux.decode sc ms p).val).str "aux.DeceasedAt" != "")
          = true
      · simp only [hd, if_true]
        cases hpd : time.Parse .RFC3339
            ((Val.struct (aux.decode sc ms p).val).str "aux.DeceasedAt") with
        | error e => exact ⟨_, Or.inl rfl, Or.inl rfl⟩
        | ok t2 => exact ⟨_, Or.inl rfl, Or.inr ⟨t2, time.Parse_valid _ _ _ hpd, rfl⟩⟩
      · simp only [hd, Bool.false_eq_true, if_false]
        exact ⟨_, Or.inl rfl, Or.inl rfl⟩

/-- A struct value with the field names of a `Patient` whose fields are of their
types. -/
theorem hasType_of_typed (sc : Strconv) (q : Struct)
    (hn : q.map Prod.fst = (Patient.goFields sc).map (·.name))
    (h : ∀ f ∈ Patient.goFields sc, ∀ x, q.lookup f.name = some x →
      f.type.hasType x = true) :
    Patient.hasType sc q := by
  apply structHasType_of_lookup _ (Patient_fieldsOK sc).names q hn
  intro f hf
  have hsome : (q.lookup f.name).isSome = true := by
    rw [lookup_isSome_iff, hn]
    exact List.mem_map_of_mem (·.name) hf
  obtain ⟨x, hx⟩ := Option.isSome_iff_exists.mp hsome
  exact ⟨x, hx, h f hf x hx⟩

theorem typed_fieldSet_time (sc : Strconv) (q : Struct) (n key : String)
    (hmem : opt n key (.ptr .time) ∈ Patient.goFields sc) (t : time.Time)
    (ht : t.valid = true)
    (h : ∀ f ∈ Patient.goFields sc, ∀ x, q.lookup f.name = some x →
      f.type.hasType x = true) :
    ∀ f ∈ Patient.goFields sc, ∀ x,
      (fieldSet q n (.ptr (.time t))).lookup f.name = some x → f.type.hasType x = true := by
  intro f hf x hx
  rw [lookup_fieldSet] at hx
  by_cases hfn : f.name = n
  · have hfe := field_eq_of_name _ (Patient_fieldsOK sc).names f _ hf hmem hfn
    subst hfe
    simp only [hfn, if_true] at hx
    cases hq : q.lookup n with
    | none =>
      rw [hq] at hx
      cases hx
    | some y =>
      rw [hq] at hx
      cases hx
      exact ht
  · simp only [hfn, if_false] at hx
    exact h f hf x hx

/-- The method `Patient.UnmarshalJSON` leaves a value of the type `Patient` in a
receiver of this type. -/
theorem Patient_UnmarshalJSON_hasType (sc : Strconv) (p : Struct)
    (hp : Patient.hasType sc p) (ms : List (String × JSON)) :
    Patient.hasType sc (Patient.UnmarshalJSON sc p (.text (.obj ms))).1 := by
  obtain ⟨han, hal⟩ := aux_alias_spec sc p hp ms
  obtain ⟨-, -, hst⟩ := aux_state_lookup sc p hp "" ""
  have hpn := Patient.hasType_names sc p hp
  have hno : ∀ f ∈ Patient.goFields sc,
      f.name ≠ "aux.BirthDate" ∧ f.name ≠ "aux.DeceasedAt" := by
    intro f hf
    have hm : f.name ∈ (Patient.goFields sc).map (·.name) := List.mem_map_of_mem _ hf
    rw [Patient.goFields_names] at hm
    constructor <;>
    · intro e
      rw [e] at hm
      revert hm
      decide
  -- the state before the member loop is typed
  have hst0 : ∀ g ∈ aux.fields sc, ∀ x, (aux.state p "" "").lookup g.name = some x →
      g.type.hasType x = true := by
    intro g hg x hx
    rcases List.mem_append.mp hg with h | h
    · obtain ⟨n1, n2, -, -⟩ := promoted_name_ne sc g h
      rw [hst _ n1 n2] at hx
      obtain ⟨y, hy, hty⟩ := structHasType_lookup _ (Patient_fieldsOK sc).names p hp g
        (aux_promoted_mem sc g h)
      rw [hy] at hx
      cases hx
      exact hty
    · obtain ⟨hB, hD, -⟩ := aux_state_lookup sc p hp "" ""
      simp only [aux.own, List.mem_cons, List.mem_singleton, List.not_mem_nil,
        or_false] at h
      rcases h with rfl | rfl
      · have hx' : (aux.state p "" "").lookup "aux.BirthDate" = some x := hx
        rw [hB] at hx'
        cases hx'
        rfl
      · have hx' : (aux.state p "" "").lookup "aux.DeceasedAt" = some x := hx
        rw [hD] at hx'
        cases hx'
        rfl
  have hdec := decodeMembers_typed (aux.fields sc) (aux_names_nodup sc)
    (aux_fields_preserve sc) ms (aux.state p "" "") hst0
  have htime : ∀ n, n = "BirthDate" ∨ n = "DeceasedAt" →
      (aux.decode sc ms p).val.lookup n = p.lookup n := by
    intro n hn
    have hnot : n ∉ (aux.fields sc).map (·.name) := by
      rw [aux.fields_names]
      rcases hn with rfl | rfl <;> decide
    have h1 : n ≠ "aux.BirthDate" := by rcases hn with rfl | rfl <;> decide
    have h2 : n ≠ "aux.DeceasedAt" := by rcases hn with rfl | rfl <;> decide
    show (decodeMembers (aux.fields sc) ms (aux.state p "" "")).val.lookup n = _
    rw [decodeMembers_other _ n hnot, hst n h1 h2]
  have halias : ∀ f ∈ Patient.goFields sc, ∀ x,
      (aux.alias (.struct (aux.decode sc ms p).val)).lookup f.name = some x →
        f.type.hasType x = true := by
    intro f hf x hx
    obtain ⟨n1, n2⟩ := hno f hf
    rw [hal _ n1 n2] at hx
    rcases goFields_name_cases sc f.name (List.mem_map_of_mem _ hf) with hB | hD
      | ⟨g, hg, hgn⟩
    · rw [htime _ (Or.inl hB)] at hx
      obtain ⟨y, hy, hty⟩ := structHasType_lookup _ (Patient_fieldsOK sc).names p hp f hf
      rw [hy] at hx
      cases hx
      exact hty
    · rw [htime _ (Or.inr hD)] at hx
      obtain ⟨y, hy, hty⟩ := structHasType_lookup _ (Patient_fieldsOK sc).names p hp f hf
      rw [hy] at hx
      cases hx
      exact hty
    · have hfg := field_eq_of_name _ (Patient_fieldsOK sc).names g f
        (aux_promoted_mem sc g hg) hf hgn
      subst hfg
      exact hdec g (List.mem_append_left _ hg) x hx
  obtain ⟨q, hq, hr⟩ := Patient_UnmarshalJSON_shape sc p ms
  have hqn : q.map Prod.fst = (Patient.goFields sc).map (·.name) := by
    rcases hq with rfl | ⟨t, -, rfl⟩
    · rw [han, hpn]
    · rw [fieldSet_names, han, hpn]
  have hqt : ∀ f ∈ Patient.goFields sc, ∀ x, q.lookup f.name = some x →
      f.type.hasType x = true := by
    rcases hq with rfl | ⟨t, ht, rfl⟩
    · exact halias
    · exact typed_fieldSet_time sc _ _ _ (birthDate_mem sc) t ht halias
  rcases hr with hr | ⟨t, ht, hr⟩
  · rw [hr]
    exact hasType_of_typed sc q hqn hqt
  · rw [hr]
    apply hasType_of_typed sc
    · rw [fieldSet_names, hqn]
    · exact typed_fieldSet_time sc _ _ _ (deceasedAt_mem sc) t ht hqt

/-- The encoder emits keys of the table only. -/
theorem encodeFields_keys (fs : List Field) (vs : Struct) :
    ∀ ms, encodeFields fs vs = .ok ms → ∀ kv ∈ ms, ∃ f ∈ fs, f.key = kv.1 := by
  induction fs with
  | nil =>
    intro ms h kv hkv
    cases h
    cases hkv
  | cons a l ih =>
    intro ms h kv hkv
    unfold encodeFields at h
    cases hl : vs.lookup a.name with
    | none =>
      rw [hl] at h
      cases h
    | some x =>
      rw [hl] at h
      dsimp only at h
      split at h
      · obtain ⟨f, hf, hk⟩ := ih ms h kv hkv
        exact ⟨f, List.mem_cons_of_mem _ hf, hk⟩
      · cases hm : a.type.marshal x with
        | error e =>
          rw [hm] at h
          cases h
        | ok j =>
          rw [hm] at h
          dsimp only at h
          cases hr : encodeFields l vs with
          | error e =>
            rw [hr] at h
            cases h
          | ok ms' =>
            rw [hr] at h
            cases h
            rcases List.mem_cons.mp hkv with rfl | hkv'
            · exact ⟨a, List.mem_cons_self _ _, rfl⟩
            · obtain ⟨f, hf, hk⟩ := ih ms' hr kv hkv'
              exact ⟨f, List.mem_cons_of_mem _ hf, hk⟩

theorem aux_fields_cons (sc : Strconv) :
    aux.fields sc = fld "ResourceType" "resourceType" (.string "models.ResourceType")
      :: (aux.fields sc).tail := rfl

/-- The object that `MarshalJSON` emits for a patient has one `resourceType` member,
the string of the field `ResourceType`. -/
theorem encoded_discriminator (sc : Strconv) (vs : Struct) (t : String)
    (ms : List (String × JSON))
    (hl : vs.lookup "ResourceType" = some (.string t))
    (he : encodeFields (aux.fields sc) vs = .ok ms) :
    membersFor "resourceType" ms = [.str t] := by
  have hfo := aux_foldOK sc
  unfold FoldOK at hfo
  rw [aux_fields_cons] at he hfo
  simp only [List.map_cons, List.nodup_cons] at hfo
  unfold encodeFields at he
  have hl' : vs.lookup (fld "ResourceType" "resourceType"
      (.string "models.ResourceType")).name = some (.string t) := hl
  rw [hl'] at he
  have hom : ((fld "ResourceType" "resourceType" (.string "models.ResourceType")).omitempty
      && (fld "ResourceType" "resourceType" (.string "models.ResourceType")).type.isEmptyValue
        (.string t)) = false := rfl
  have hma : (fld "ResourceType" "resourceType" (.string "models.ResourceType")).type.marshal
      (.string t) = .ok (.str t) := rfl
  simp only [hom, Bool.false_eq_true, if_false, hma] at he
  cases hr : encodeFields (aux.fields sc).tail vs with
  | error e =>
    rw [hr] at he
    cases he
  | ok ms' =>
    rw [hr] at he
    cases he
    have hk := encodeFields_keys _ vs ms' hr
    have hnone : membersFor "resourceType" ms' = [] := by
      unfold membersFor
      rw [List.map_eq_nil_iff, List.filter_eq_nil_iff]
      intro kv hkv hm
      obtain ⟨f, hf, hfk⟩ := hk kv hkv
      apply hfo.1
      have hm' : foldName kv.1 = foldName "resourceType" := by
        simpa [keyMatches] using hm
      rw [← hfk] at hm'
      have : foldName f.key ∈ (aux.fields sc).tail.map (fun f : Field => foldName f.key) :=
        List.mem_map_of_mem (fun f : Field => foldName f.key) hf
      rw [hm'] at this
      exact this
    have hkm : keyMatches "resourceType" (fld "ResourceType" "resourceType"
        (.string "models.ResourceType")).key = true := by decide
    rw [membersFor_cons_of_match _ _ _ _ hkm, hnone]

/-- The default mapper decodes what it encodes: a patient of the resource type
`Patient` in canonical form is encoded without error, and the mapper decodes the bytes
to the same patient. -/
theorem mapper_roundTrip (sc : Strconv) (p : Struct) (hp : Patient.hasType sc p)
    (hc : Patient.canon sc p) (hrt : p.lookup "ResourceType" = some (.string "Patient")) :
    ∃ bytes, (NewResourceMapper sc).MarshalResource sc (.patient p) = .ok bytes
      ∧ (NewResourceMapper sc).UnmarshalResource sc bytes = (some (.patient p), none) := by
  obtain ⟨ms, b, d, he, hm, hdec⟩ := Patient_roundTrip_fields sc p hp hc
  refine ⟨.text (.obj ms), hm, ?_⟩
  obtain ⟨-, -, hst⟩ := aux_state_lookup sc p hp b d
  have hl : (aux.state p b d).lookup "ResourceType" = some (.string "Patient") := by
    rw [hst _ (by decide) (by decide), hrt]
  have hmem := encoded_discriminator sc _ "Patient" ms hl he
  have hfresh : Patient.Fresh sc (NewPatient sc) := ⟨"Patient", rfl⟩
  have hd := hdec (NewPatient sc) hfresh
  rw [UnmarshalResource_obj, hmem]
  show decodeInto sc (.text (.obj ms)) (.patient (NewPatient sc)) = _
  simp only [decodeInto, json.UnmarshalResource, hd]

/-- A payload that the default mapper decodes without error is an object, and the
resource is the patient that `Patient.UnmarshalJSON` leaves in the receiver made by
`NewPatient`, of the resource type `Patient`. -/
theorem UnmarshalResource_ok_inv (sc : Strconv) (data : Bytes) (r : Resource)
    (h : (NewResourceMapper sc).UnmarshalResource sc data = (some r, none)) :
    ∃ ms p, data = .text (.obj ms) ∧ r = .patient p
      ∧ Patient.UnmarshalJSON sc (NewPatient sc) (.text (.obj ms)) = (p, none)
      ∧ p.lookup "ResourceType" = some (.string "Patient") := by
  have hnotobj : ∀ j : JSON, (∀ ms, j ≠ .obj ms) →
      ((NewResourceMapper sc).UnmarshalResource sc (.text j)).1 = none := by
    intro j hj
    cases j with
    | obj ms => exact absurd rfl (hj ms)
    | _ => rfl
  cases data with
  | null => cases h
  | empty => cases h
  | invalid => cases h
  | text j =>
    by_cases hobj : ∃ ms, j = .obj ms
    · obtain ⟨ms, rfl⟩ := hobj
      rw [UnmarshalResource_obj] at h
      cases hh : (stringErrors "models.ResourceType" (membersFor "resourceType" ms)).head? with
      | some e =>
        rw [hh] at h
        cases h
      | none =>
        rw [hh] at h
        dsimp only at h
        rw [NewResourceMapper_registry] at h
        by_cases ht : lastString (membersFor "resourceType" ms) "" = "Patient"
        · simp only [ht, if_true] at h
          simp only [decodeInto, json.UnmarshalResource] at h
          cases hres : Patient.UnmarshalJSON sc (NewPatient sc) (.text (.obj ms)) with
          | mk p' err =>
            rw [hres] at h
            cases err with
            | some e => cases h
            | none =>
              simp only [Prod.mk.injEq, Option.some.injEq, and_true] at h
              subst h
              have hclean := Patient_UnmarshalJSON_clean sc (NewPatient sc) ms
                (by rw [hres])
              have hlk := Patient_UnmarshalJSON_lookup sc (NewPatient sc)
                (NewPatient_hasType sc) ms "ResourceType" (by decide) (by decide)
                (by decide) (by decide)
              rw [hres] at hlk
              have hsf := decodeMembers_string_field (aux.fields sc) (aux_foldOK sc)
                (aux_names_nodup sc) _ (aux_resourceType_mem sc) "models.ResourceType" rfl
                ms (aux.state (NewPatient sc) "" "") "Patient" rfl hclean.2
              have hval : p'.lookup "ResourceType" = some (.string "Patient") := by
                rw [hlk]
                erw [hsf]
                rw [show (fld "ResourceType" "resourceType"
                  (GoType.string "models.ResourceType")).key = "resourceType" from rfl,
                  lastString_idem _ _ _ ht]
              exact ⟨ms, p', rfl, rfl, hres, hval⟩
        · simp only [ht, if_false] at h
          cases h
    · have := hnotobj j (fun ms e => hobj ⟨ms, e⟩)
      rw [h] at this
      cases this

/-- An error from `UnmarshalResource` comes with a nil resource. -/
theorem UnmarshalResource_error_nil (sc : Strconv) (m : ResourceMapper) (data : Bytes)
    (h : (m.UnmarshalResource sc data).2 ≠ none) :
    (m.UnmarshalResource sc data).1 = none := by
  unfold ResourceMapper.UnmarshalResource at h ⊢
  generalize json.Unmarshal typeHolder.type data typeHolder.type.zero = th at h ⊢
  obtain ⟨holder, err⟩ := th
  cases err with
  | some e => rfl
  | none =>
    dsimp only at h ⊢
    cases hreg : m.typeRegistry (holder.str "ResourceType") with
    | none => rfl
    | some factory =>
      rw [hreg] at h
      dsimp only at h ⊢
      generalize json.UnmarshalResource sc data (factory ()) = res at h ⊢
      obtain ⟨r, err2⟩ := res
      cases err2 with
      | some e => rfl
      | none => exact absurd rfl h

/-- C1 fails as stated: the patient that `NewPatient` makes, with `DeceasedAt` set to
half a second after 2023-01-01T12:00:00Z, has the resource type `Patient` and no
`BirthDate`; `MarshalJSON` encodes it without error and `UnmarshalJSON` decodes the
bytes into a zero `Patient` without error, but the decoded `DeceasedAt` is
2023-01-01T12:00:00Z without the half second, so the result is not the patient. -/
theorem C1_patient_roundTrip_counterexample :
    Patient.hasType Strconv.zeroOnly (halfSecondPatient Strconv.zeroOnly)
      ∧ Base.GetResourceType (halfSecondPatient Strconv.zeroOnly) = "Patient"
      ∧ timeField (halfSecondPatient Strconv.zeroOnly) "BirthDate" = none
      ∧ timeField (halfSecondPatient Strconv.zeroOnly) "DeceasedAt"
          = some ⟨2023, 1, 1, 12, 0, 0, 500000000, 0⟩
      ∧ ∃ ms, Patient.MarshalJSON Strconv.zeroOnly (halfSecondPatient Strconv.zeroOnly)
            = .ok (.text (.obj ms))
          ∧ (Patient.UnmarshalJSON Strconv.zeroOnly
              (zeroStruct (Patient.goFields Strconv.zeroOnly)) (.text (.obj ms))).2 = none
          ∧ timeField (Patient.UnmarshalJSON Strconv.zeroOnly
              (zeroStruct (Patient.goFields Strconv.zeroOnly)) (.text (.obj ms))).1
              "DeceasedAt" = some ⟨2023, 1, 1, 12, 0, 0, 0, 0⟩
          ∧ (Patient.UnmarshalJSON Strconv.zeroOnly
              (zeroStruct (Patient.goFields Strconv.zeroOnly)) (.text (.obj ms))).1
              ≠ halfSecondPatient Strconv.zeroOnly := by
  refine ⟨rfl, rfl, rfl, rfl, [("resourceType", .str "Patient"),
    ("deceasedDateTime", .str "2023-01-01T12:00:00Z")], rfl, rfl, rfl, ?_⟩
  intro e
  have h1 : timeField (Patient.UnmarshalJSON Strconv.zeroOnly
      (zeroStruct (Patient.goFields Strconv.zeroOnly))
      (.text (.obj [("resourceType", .str "Patient"),
        ("deceasedDateTime", .str "2023-01-01T12:00:00Z")]))).1 "DeceasedAt"
      = some ⟨2023, 1, 1, 12, 0, 0, 0, 0⟩ := rfl
  rw [e] at h1
  have h2 : timeField (halfSecondPatient Strconv.zeroOnly) "DeceasedAt"
      = some ⟨2023, 1, 1, 12, 0, 0, 500000000, 0⟩ := rfl
  rw [h2] at h1
  exact absurd h1 (by decide)

/-- C1, amended: for every Patient value `p` in canonical form (`Patient.canon`: every
field but the two time fields is one the reflective codec reproduces, `BirthDate` if
present is a calendar date of the years 0..9999 at midnight UTC, `DeceasedAt` if present
is a whole second of the years 0..9999 with a zone offset of whole minutes under 25
hours), `MarshalJSON` encodes `p` without error to a JSON object, and `UnmarshalJSON` decodes
this object into every fresh receiver without error and leaves exactly `p` in it; a
`BirthDate` is then still the same calendar date at zero time of day. -/
theorem C1_patient_roundTrip (sc : Strconv) (p : Struct) (hp : Patient.hasType sc p)
    (hc : Patient.canon sc p) :
    ∃ ms, Patient.MarshalJSON sc p = .ok (.text (.obj ms))
      ∧ ∀ p0, Patient.Fresh sc p0 →
          Patient.UnmarshalJSON sc p0 (.text (.obj ms)) = (p, none)
            ∧ ∀ t, timeField p "BirthDate" = some t →
                timeField (Patient.UnmarshalJSON sc p0 (.text (.obj ms))).1 "BirthDate"
                  = some (time.dateUTC t.year t.month t.day) := by
  obtain ⟨ms, h1, h2⟩ := Patient_roundTrip sc p hp hc
  refine ⟨ms, h1, fun p0 h0 => ⟨h2 p0 h0, fun t ht => ?_⟩⟩
  rw [h2 p0 h0, ht, ← (hc.2.1 t ht).1]

theorem C1_patient_roundTrip_witness :
    Patient.hasType Strconv.zeroOnly (roundTripPatient Strconv.zeroOnly)
      ∧ Patient.canon Strconv.zeroOnly (roundTripPatient Strconv.zeroOnly)
      ∧ ∃ ms, Patient.MarshalJSON Strconv.zeroOnly (roundTripPatient Strconv.zeroOnly)
            = .ok (.text (.obj ms))
          ∧ ∀ p0, Patient.Fresh Strconv.zeroOnly p0 →
              Patient.UnmarshalJSON Strconv.zeroOnly p0 (.text (.obj ms))
                  = (roundTripPatient Strconv.zeroOnly, none)
                ∧ ∀ t, timeField (roundTripPatient Strconv.zeroOnly) "BirthDate" = some t →
                    timeField (Patient.UnmarshalJSON Strconv.zeroOnly p0
                        (.text (.obj ms))).1 "BirthDate"
                      = some (time.dateUTC t.year t.month t.day) :=
  have hb : timeField (roundTripPatient Strconv.zeroOnly) "BirthDate"
      = some (time.dateUTC 1980 7 15) := rfl
  have hd : timeField (roundTripPatient Strconv.zeroOnly) "DeceasedAt" = none := rfl
  have hc : Patient.canon Strconv.zeroOnly (roundTripPatient Strconv.zeroOnly) :=
    ⟨rfl,
      fun t ht => by
        rw [hb] at ht
        cases ht
        exact ⟨rfl, by decide, by decide⟩,
      fun t ht => by
        rw [hd] at ht
        cases ht⟩
  ⟨rfl, hc, C1_patient_roundTrip Strconv.zeroOnly (roundTripPatient Strconv.zeroOnly) rfl hc⟩

/-- C2 fails as stated: the default mapper decodes the payload
`{"resourceType":"Patient","deceasedDateTime":"2023-01-01T12:00:00.5Z"}` without error
to a patient whose `DeceasedAt` is half a second after noon; `MarshalResource` encodes
this patient without error, and the mapper decodes the bytes without error to a patient
whose `DeceasedAt` is noon exactly, which is not the patient that was encoded. -/
theorem C2_encode_inverts_decode_counterexample :
    (NewResourceMapper Strconv.zeroOnly).UnmarshalResource Strconv.zeroOnly
        (.text (.obj halfSecondMembers))
      = (some (.patient (halfSecondPatient Strconv.zeroOnly)), none)
    ∧ timeField (halfSecondPatient Strconv.zeroOnly) "DeceasedAt"
        = some ⟨2023, 1, 1, 12, 0, 0, 500000000, 0⟩
    ∧ ∃ bytes p, (NewResourceMapper Strconv.zeroOnly).MarshalResource Strconv.zeroOnly
            (.patient (halfSecondPatient Strconv.zeroOnly)) = .ok bytes
        ∧ (NewResourceMapper Strconv.zeroOnly).UnmarshalResource Strconv.zeroOnly bytes
            = (some (.patient p), none)
        ∧ timeField p "DeceasedAt" = some ⟨2023, 1, 1, 12, 0, 0, 0, 0⟩
        ∧ p ≠ halfSecondPatient Strconv.zeroOnly := by
  refine ⟨rfl, rfl, .text (.obj [("resourceType", .str "Patient"),
      ("deceasedDateTime", .str "2023-01-01T12:00:00Z")]),
    fieldSet (NewPatient Strconv.zeroOnly) "DeceasedAt"
      (.ptr (.time ⟨2023, 1, 1, 12, 0, 0, 0, 0⟩)), rfl, rfl, rfl, ?_⟩
  intro e
  have h1 : timeField (fieldSet (NewPatient Strconv.zeroOnly) "DeceasedAt"
      (.ptr (.time ⟨2023, 1, 1, 12, 0, 0, 0, 0⟩))) "DeceasedAt"
      = some ⟨2023, 1, 1, 12, 0, 0, 0, 0⟩ := rfl
  rw [e] at h1
  have h2 : timeField (halfSecondPatient Strconv.zeroOnly) "DeceasedAt"
      = some ⟨2023, 1, 1, 12, 0, 0, 500000000, 0⟩ := rfl
  rw [h2] at h1
  exact absurd h1 (by decide)

/-- C2, amended: for every payload that the default mapper decodes without error to a
resource `r` in canonical form (`Resource.canon`: among others a `deceasedDateTime`
without a fractional second), `MarshalResource r` succeeds and the mapper decodes its
bytes without error to `r` itself. -/
theorem C2_encode_inverts_decode (sc : Strconv) (data : Bytes) (r : Resource)
    (h : (NewResourceMapper sc).UnmarshalResource sc data = (some r, none))
    (hc : r.canon sc) :
    ∃ bytes, (NewResourceMapper sc).MarshalResource sc r = .ok bytes
      ∧ (NewResourceMapper sc).UnmarshalResource sc bytes = (some r, none) := by
  obtain ⟨ms, p, rfl, rfl, hdec, hrt⟩ := UnmarshalResource_ok_inv sc data r h
  have hp : Patient.hasType sc p := by
    have := Patient_UnmarshalJSON_hasType sc (NewPatient sc) (NewPatient_hasType sc) ms
    rw [hdec] at this
    exact this
  exact mapper_roundTrip sc p hp hc hrt

theorem C2_encode_inverts_decode_witness :
    (NewResourceMapper Strconv.zeroOnly).UnmarshalResource Strconv.zeroOnly
        (.text (.obj testPatientMembers))
      = (some (.patient (Patient.UnmarshalJSON Strconv.zeroOnly
          (NewPatient Strconv.zeroOnly) (.text (.obj testPatientMembers))).1), none)
    ∧ Resource.canon Strconv.zeroOnly (.patient (Patient.UnmarshalJSON Strconv.zeroOnly
          (NewPatient Strconv.zeroOnly) (.text (.obj testPatientMembers))).1)
    ∧ ∃ bytes, (NewResourceMapper Strconv.zeroOnly).MarshalResource Strconv.zeroOnly
          (.patient (Patient.UnmarshalJSON Strconv.zeroOnly
            (NewPatient Strconv.zeroOnly) (.text (.obj testPatientMembers))).1) = .ok bytes
        ∧ (NewResourceMapper Strconv.zeroOnly).UnmarshalResource Strconv.zeroOnly bytes
          = (some (.patient (Patient.UnmarshalJSON Strconv.zeroOnly
              (NewPatient Strconv.zeroOnly) (.text (.obj testPatientMembers))).1), none) :=
  have hb : timeField (Patient.UnmarshalJSON Strconv.zeroOnly
      (NewPatient Strconv.zeroOnly) (.text (.obj testPatientMembers))).1 "BirthDate"
      = some (time.dateUTC 2000 1 1) := rfl
  have hd : timeField (Patient.UnmarshalJSON Strconv.zeroOnly
      (NewPatient Strconv.zeroOnly) (.text (.obj testPatientMembers))).1 "DeceasedAt"
      = some ⟨2023, 1, 1, 12, 0, 0, 0, 0⟩ := rfl
  have hc : Resource.canon Strconv.zeroOnly (.patient (Patient.UnmarshalJSON
      Strconv.zeroOnly (NewPatient Strconv.zeroOnly)
      (.text (.obj testPatientMembers))).1) :=
    ⟨rfl,
      fun t ht => by
        rw [hb] at ht
        cases ht
        exact ⟨rfl, by decide, by decide⟩,
      fun t ht => by
        rw [hd] at ht
        cases ht
        exact ⟨⟨by decide, by decide, rfl⟩, rfl, by decide, by decide⟩⟩
  ⟨rfl, hc, C2_encode_inverts_decode Strconv.zeroOnly (.text (.obj testPatientMembers)) _
    rfl hc⟩

/-- C3: for every object payload whose discriminator is a string `t` with no
constructor in the registry, `UnmarshalResource` returns no resource and the error
`unsupported resource type: t`; once a constructor `f` is registered for `t` the lookup
finds `f` and the call goes on to decode the payload into the instance `f` makes. -/
theorem C3_unsupported_discriminator (sc : Strconv) (m : ResourceMapper)
    (ms : List (String × JSON)) (t : String) (hd : HasDiscriminator ms t)
    (hreg : m.typeRegistry t = none) :
    m.UnmarshalResource sc (.text (.obj ms))
        = (none, some (.errorf ("unsupported resource type: " ++ t)))
      ∧ ∀ f : Unit → Resource,
          (m.RegisterResource t f).typeRegistry t = some f
            ∧ (m.RegisterResource t f).UnmarshalResource sc (.text (.obj ms))
                = decodeInto sc (.text (.obj ms)) (f ()) := by
  obtain ⟨hs, hl⟩ := hd
  have he : stringErrors "models.ResourceType" (membersFor "resourceType" ms) = [] := by
    apply stringErrors_eq_nil
    intro j hj
    have := hs j hj
    cases j <;> simp_all [JSON.isString, JSON.isStringOrNull]
  have hv : lastString (membersFor "resourceType" ms) "" = t :=
    lastString_of_getLast _ _ _ hl
  refine ⟨?_, fun f => ⟨?_, ?_⟩⟩
  · rw [UnmarshalResource_obj, he, hv]
    simp only [List.head?_nil, hreg]
  · simp [ResourceMapper.RegisterResource]
  · rw [UnmarshalResource_obj, he, hv]
    simp [ResourceMapper.RegisterResource]

theorem C3_unsupported_discriminator_witness :
    HasDiscriminator [("resourceType", .str "Observation")] "Observation"
      ∧ (NewResourceMapper Strconv.zeroOnly).typeRegistry "Observation" = none
      ∧ ((NewResourceMapper Strconv.zeroOnly).UnmarshalResource Strconv.zeroOnly
            (.text (.obj [("resourceType", .str "Observation")]))
          = (none, some (.errorf ("unsupported resource type: " ++ "Observation")))
        ∧ ∀ f : Unit → Resource,
            ((NewResourceMapper Strconv.zeroOnly).RegisterResource "Observation" f).typeRegistry
                "Observation" = some f
              ∧ ((NewResourceMapper Strconv.zeroOnly).RegisterResource "Observation"
                    f).UnmarshalResource Strconv.zeroOnly
                  (.text (.obj [("resourceType", .str "Observation")]))
                  = decodeInto Strconv.zeroOnly
                      (.text (.obj [("resourceType", .str "Observation")])) (f ())) :=
  have hd : HasDiscriminator [("resourceType", .str "Observation")] "Observation" :=
    ⟨by decide, rfl⟩
  ⟨hd, rfl, C3_unsupported_discriminator Strconv.zeroOnly
    (NewResourceMapper Strconv.zeroOnly) _ "Observation" hd rfl⟩

/-- C5 (as stated, refuted): the default mapper answers the object `{"id":"123"}`, which
has no `resourceType` member, with the unsupported-type error for the empty type name,
not with the error `failed to determine resource type`. -/
theorem C5_absent_discriminator_counterexample :
    (NewResourceMapper Strconv.zeroOnly).UnmarshalResource Strconv.zeroOnly
        (.text (.obj [("id", .str "123")]))
      = (none, some (.errorf "unsupported resource type: "))
    ∧ ¬ ∃ e, ((NewResourceMapper Strconv.zeroOnly).UnmarshalResource Strconv.zeroOnly
        (.text (.obj [("id", .str "123")]))).2
          = some (.wrap "failed to determine resource type" e) := by
  refine ⟨rfl, ?_⟩
  rintro ⟨e, he⟩
  have h2 : ((NewResourceMapper Strconv.zeroOnly).UnmarshalResource Strconv.zeroOnly
      (.text (.obj [("id", .str "123")]))).2
        = some (.errorf "unsupported resource type: ") := rfl
  rw [h2] at he
  cases he

/-- C5 (amended): for every object payload without a member whose key matches
`resourceType`, `UnmarshalResource` on a mapper with no constructor registered under
the empty name returns no resource and the unsupported-type error for the empty type
name. -/
theorem C5_absent_discriminator (sc : Strconv) (m : ResourceMapper)
    (ms : List (String × JSON)) (hno : membersFor "resourceType" ms = [])
    (hreg : m.typeRegistry "" = none) :
    m.UnmarshalResource sc (.text (.obj ms))
      = (none, some (.errorf "unsupported resource type: ")) := by
  rw [UnmarshalResource_obj, hno]
  simp only [stringErrors, List.filterMap_nil, List.head?_nil, lastString, List.foldl_nil,
    hreg]
  rfl

theorem C5_absent_discriminator_witness :
    membersFor "resourceType" [("id", JSON.str "123")] = []
      ∧ (NewResourceMapper Strconv.zeroOnly).typeRegistry "" = none
      ∧ (NewResourceMapper Strconv.zeroOnly).UnmarshalResource Strconv.zeroOnly
          (.text (.obj [("id", .str "123")]))
        = (none, some (.errorf "unsupported resource type: ")) :=
  ⟨rfl, rfl, C5_absent_discriminator Strconv.zeroOnly (NewResourceMapper Strconv.zeroOnly)
    [("id", .str "123")] rfl rfl⟩

/-- C6: for every payload that is not well-formed JSON, and for every object payload
with a `resourceType` member that is a number, an object, an array or a boolean,
`UnmarshalResource` returns no resource and an error wrapped as `failed to determine
resource type`, whatever the registry of the mapper holds. -/
theorem C6_malformed_discriminator (sc : Strconv) (m : ResourceMapper) (data : Bytes)
    (h : data.malformed = true
      ∨ ∃ ms j, data = .text (.obj ms) ∧ ("resourceType", j) ∈ ms
          ∧ j.isStringOrNull = false) :
    ∃ e, m.UnmarshalResource sc data
      = (none, some (.wrap "failed to determine resource type" e)) := by
  rcases h with h | ⟨ms, j, rfl, hmem, hj⟩
  · cases data with
    | text j => exact Bool.noConfusion h
    | null => exact ⟨.syntaxError, rfl⟩
    | empty => exact ⟨.syntaxError, rfl⟩
    | invalid => exact ⟨.syntaxError, rfl⟩
  · have hin : j ∈ membersFor "resourceType" ms := by
      simp only [membersFor, List.mem_map, List.mem_filter]
      have hk : keyMatches "resourceType" "resourceType" = true := by decide
      exact ⟨("resourceType", j), ⟨hmem, hk⟩, rfl⟩
    obtain ⟨e, he⟩ := stringErrors_ne_nil "models.ResourceType" _ j hin hj
    exact ⟨e, by rw [UnmarshalResource_obj, he]⟩

theorem C6_malformed_discriminator_witness :
    (Bytes.malformed (.text (.obj [("resourceType", .num ⟨false, 5, [], none⟩)])) = true
      ∨ ∃ ms j, Bytes.text (.obj [("resourceType", .num ⟨false, 5, [], none⟩)])
            = .text (.obj ms)
          ∧ ("resourceType", j) ∈ ms ∧ j.isStringOrNull = false)
    ∧ ∃ e, (NewResourceMapper Strconv.zeroOnly).UnmarshalResource Strconv.zeroOnly
        (.text (.obj [("resourceType", .num ⟨false, 5, [], none⟩)]))
      = (none, some (.wrap "failed to determine resource type" e)) :=
  have h : (Bytes.malformed (.text (.obj [("resourceType", .num ⟨false, 5, [], none⟩)]))
        = true
      ∨ ∃ ms j, Bytes.text (.obj [("resourceType", .num ⟨false, 5, [], none⟩)])
            = .text (.obj ms)
          ∧ ("resourceType", j) ∈ ms ∧ j.isStringOrNull = false) :=
    Or.inr ⟨_, _, rfl, List.mem_singleton.mpr rfl, rfl⟩
  ⟨h, C6_malformed_discriminator Strconv.zeroOnly (NewResourceMapper Strconv.zeroOnly) _ h⟩

/-- C7: whenever `UnmarshalResource` returns an error, the resource it returns is
nil. -/
theorem C7_no_partial_success (sc : Strconv) (m : ResourceMapper) (data : Bytes)
    (h : (m.UnmarshalResource sc data).2 ≠ none) :
    (m.UnmarshalResource sc data).1 = none :=
  UnmarshalResource_error_nil sc m data h

theorem C7_no_partial_success_witness :
    (((NewResourceMapper Strconv.zeroOnly).UnmarshalResource Strconv.zeroOnly
          genderNumberPayload).2 ≠ none
      ∧ ((NewResourceMapper Strconv.zeroOnly).UnmarshalResource Strconv.zeroOnly
          genderNumberPayload).1 = none)
    ∧ (((NewResourceMapper Strconv.zeroOnly).UnmarshalResource Strconv.zeroOnly
          invalidBirthDatePayload).2 ≠ none
      ∧ ((NewResourceMapper Strconv.zeroOnly).UnmarshalResource Strconv.zeroOnly
          invalidBirthDatePayload).1 = none) :=
  ⟨⟨by decide, C7_no_partial_success _ _ genderNumberPayload (by decide)⟩,
    ⟨by decide, C7_no_partial_success _ _ invalidBirthDatePayload (by decide)⟩⟩

theorem not_calendarDate_empty : ¬ isCalendarDate "" := by
  rintro ⟨y, m, d, h0, h1, h2, h3, h4, h5, h6⟩
  have := (parse_dateOnly_iff "" (time.dateUTC y m d)).mpr
    ⟨y, m, d, h0, h1, h2, h3, h4, h5, h6, rfl⟩
  have h : time.parse .dateOnly "".data = none := rfl
  rw [h] at this
  cases this

/-- C10 (as stated, refuted): the payload `{"resourceType":"Patient","id":"p1",
"birthDate":""}` has a `birthDate` string outside the calendar-date grammar, and yet
both `Patient.UnmarshalJSON` and `UnmarshalResource` decode it without error, leaving
`BirthDate` nil: the field is skipped. -/
theorem C10_invalid_birthDate_counterexample :
    ¬ isCalendarDate ""
      ∧ (Patient.UnmarshalJSON Strconv.zeroOnly (NewPatient Strconv.zeroOnly)
          emptyBirthDatePayload).2 = none
      ∧ (Patient.UnmarshalJSON Strconv.zeroOnly (NewPatient Strconv.zeroOnly)
          emptyBirthDatePayload).1.lookup "BirthDate" = some .nilPtr
      ∧ ((NewResourceMapper Strconv.zeroOnly).UnmarshalResource Strconv.zeroOnly
          emptyBirthDatePayload).2 = none :=
  ⟨not_calendarDate_empty, rfl, rfl, rfl⟩

/-- C10 (amended): for every Patient payload whose `birthDate` member is a non-empty
JSON string outside the calendar-date grammar `YYYY-MM-DD`, `Patient.UnmarshalJSON`
returns an error, and `UnmarshalResource` of the default mapper returns an error and no
resource. -/
theorem C10_invalid_birthDate (sc : Strconv) (p : Struct) (ms : List (String × JSON))
    (s : String) (hp : Patient.hasType sc p)
    (hl : (membersFor "birthDate" ms).getLast? = some (.str s)) (hne : s ≠ "")
    (hnot : ¬ isCalendarDate s) :
    (Patient.UnmarshalJSON sc p (.text (.obj ms))).2 ≠ none
      ∧ ((NewResourceMapper sc).UnmarshalResource sc (.text (.obj ms))).1 = none
      ∧ ((NewResourceMapper sc).UnmarshalResource sc (.text (.obj ms))).2 ≠ none := by
  have key : ∀ q : Struct, Patient.hasType sc q →
      (Patient.UnmarshalJSON sc q (.text (.obj ms))).2 ≠ none := by
    intro q hq
    rw [Patient_UnmarshalJSON_obj]
    cases herr : (aux.decode sc ms q).err with
    | some e => simp
    | none =>
      have hclean := (Dec.err_eq_none_iff _).mp herr
      obtain ⟨hb, -⟩ := aux_decode_strings sc q hq ms hclean.2
      rw [lastString_of_getLast _ _ _ hl] at hb
      have hne' : (s != "") = true := by simpa using hne
      simp only [hb, hne', if_true, not_calendarDate_Parse s hnot]
      simp
  have hmap : ((NewResourceMapper sc).UnmarshalResource sc (.text (.obj ms))).2 ≠ none := by
    rw [UnmarshalResource_obj]
    cases (stringErrors "models.ResourceType" (membersFor "resourceType" ms)).head? with
    | some e => simp
    | none =>
      simp only [NewResourceMapper, ResourceMapper.RegisterResource]
      split
      · simp
      · rename_i factory hf
        split at hf
        · cases hf
          have := key (NewPatient sc) (NewPatient_hasType sc)
          simp only [decodeInto, json.UnmarshalResource]
          cases h2 : (Patient.UnmarshalJSON sc (NewPatient sc) (.text (.obj ms))).2 with
          | none => exact absurd h2 this
          | some e => simp [h2]
        · cases hf
  exact ⟨key p hp, UnmarshalResource_error_nil sc _ _ hmap, hmap⟩

theorem C10_invalid_birthDate_witness :
    Patient.hasType Strconv.zeroOnly (NewPatient Strconv.zeroOnly)
      ∧ (membersFor "birthDate" [("resourceType", JSON.str "Patient"),
          ("id", .str "unit-3"), ("birthDate", .str "not-a-date")]).getLast?
            = some (.str "not-a-date")
      ∧ "not-a-date" ≠ ""
      ∧ ¬ isCalendarDate "not-a-date"
      ∧ (Patient.UnmarshalJSON Strconv.zeroOnly (NewPatient Strconv.zeroOnly)
          invalidBirthDatePayload).2 ≠ none
      ∧ ((NewResourceMapper Strconv.zeroOnly).UnmarshalResource Strconv.zeroOnly
          invalidBirthDatePayload).1 = none
      ∧ ((NewResourceMapper Strconv.zeroOnly).UnmarshalResource Strconv.zeroOnly
          invalidBirthDatePayload).2 ≠ none :=
  have hnot : ¬ isCalendarDate "not-a-date" := by
    rintro ⟨y, m, d, h0, h1, h2, h3, h4, h5, h6⟩
    have := (parse_dateOnly_iff "not-a-date" (time.dateUTC y m d)).mpr
      ⟨y, m, d, h0, h1, h2, h3, h4, h5, h6, rfl⟩
    have h : time.parse .dateOnly "not-a-date".data = none := rfl
    rw [h] at this
    cases this
  ⟨NewPatient_hasType _, rfl, by decide, hnot,
    C10_invalid_birthDate Strconv.zeroOnly (NewPatient Strconv.zeroOnly) _ "not-a-date"
      (NewPatient_hasType _) rfl (by decide) hnot⟩

/-- C9: for every Patient payload whose `birthDate` members are strings, the last of
them the calendar date `YYYY-MM-DD` of a year `y` in 0..9999, a month `m` and a day `d`
of that month, and whose other members decode without error, `Patient.UnmarshalJSON`
returns no error and leaves `BirthDate` non-nil at year `y`, month `m`, day `d`,
00:00:00.0 in UTC. -/
theorem C9_birthDate_decode (sc : Strconv) (p : Struct) (ms : List (String × JSON))
    (y : Int) (m d : Nat) (hp : Patient.hasType sc p) (hy0 : 0 ≤ y) (hy1 : y ≤ 9999)
    (hm1 : 1 ≤ m) (hm2 : m ≤ 12) (hd1 : 1 ≤ d) (hd2 : d ≤ time.daysIn m y)
    (hs : ∀ j ∈ membersFor "birthDate" ms, j.isString = true)
    (hl : (membersFor "birthDate" ms).getLast?
      = some (.str ((time.dateUTC y m d).Format .dateOnly)))
    (hother : (Patient.UnmarshalJSON sc p (.text (.obj (membersNotFor "birthDate" ms)))).2
      = none) :
    (Patient.UnmarshalJSON sc p (.text (.obj ms))).2 = none
      ∧ timeField (Patient.UnmarshalJSON sc p (.text (.obj ms))).1 "BirthDate"
          = some ⟨y, m, d, 0, 0, 0, 0, 0⟩ := by
  have hparse : time.Parse .dateOnly ((time.dateUTC y m d).Format .dateOnly)
      = .ok (time.dateUTC y m d) :=
    (Parse_dateOnly_ok_iff _ _).mpr ((parse_dateOnly_iff _ _).mpr
      ⟨y, m, d, hy0, hy1, hm1, hm2, hd1, hd2, rfl, rfl⟩)
  have hne : ((time.dateUTC y m d).Format .dateOnly != "") = true := by
    simp only [bne_iff_ne, ne_eq]
    intro e
    rw [e] at hparse
    cases hparse
  -- the payload without its birthDate members
  have hsn : ∀ j ∈ membersFor "birthDate" ms, j.isStringOrNull = true := by
    intro j hj
    have := hs j hj
    cases j <;> simp_all [JSON.isString, JSON.isStringOrNull]
  obtain ⟨f1, f2, f3⟩ := decodeMembers_frame (aux.fields sc) (aux_foldOK sc)
    (aux_names_nodup sc) _ (aux_birth_mem sc) "string" rfl ms (aux.state p "" "")
    (aux.state p "" "") hsn (fun _ _ => rfl)
  have f1' : (aux.decode sc ms p).saved
      = (aux.decode sc (membersNotFor "birthDate" ms) p).saved := f1
  have f2' : (aux.decode sc ms p).abort
      = (aux.decode sc (membersNotFor "birthDate" ms) p).abort := f2
  have f3' : (aux.decode sc ms p).val.lookup "aux.DeceasedAt"
      = (aux.decode sc (membersNotFor "birthDate" ms) p).val.lookup "aux.DeceasedAt" :=
    f3 "aux.DeceasedAt" (by decide)
  have herr : (aux.decode sc ms p).err
      = (aux.decode sc (membersNotFor "birthDate" ms) p).err := by
    unfold Dec.err
    rw [f1', f2']
  have hdec : (Val.struct (aux.decode sc ms p).val).str "aux.DeceasedAt"
      = (Val.struct (aux.decode sc (membersNotFor "birthDate" ms) p).val).str
          "aux.DeceasedAt" := by
    show (match (aux.decode sc ms p).val.lookup "aux.DeceasedAt" with
      | some (.string s) => s
      | _ => "") = (match (aux.decode sc (membersNotFor "birthDate" ms) p).val.lookup
          "aux.DeceasedAt" with
      | some (.string s) => s
      | _ => "")
    rw [f3']
  rw [Patient_UnmarshalJSON_obj] at hother
  cases herr2 : (aux.decode sc (membersNotFor "birthDate" ms) p).err with
  | some e =>
    rw [herr2] at hother
    cases hother
  | none =>
    rw [herr2] at hother herr
    have hclean := (Dec.err_eq_none_iff _).mp herr
    have hclean2 := (Dec.err_eq_none_iff _).mp herr2
    obtain ⟨hb, -⟩ := aux_decode_strings sc p hp ms hclean.2
    obtain ⟨hb2, -⟩ := aux_decode_strings sc p hp (membersNotFor "birthDate" ms) hclean2.2
    rw [lastString_of_getLast _ _ _ hl] at hb
    rw [membersFor_membersNotFor] at hb2
    have hb2' : (Val.struct (aux.decode sc (membersNotFor "birthDate" ms) p).val).str
        "aux.BirthDate" = "" := hb2
    obtain ⟨hnames, -⟩ := aux_alias_spec sc p hp ms
    have hmem : "BirthDate" ∈ (aux.alias (.struct (aux.decode sc ms p).val)).map Prod.fst := by
      rw [hnames, Patient.hasType_names sc p hp, Patient.goFields_names]
      decide
    obtain ⟨x, hx⟩ := Option.isSome_iff_exists.mp ((lookup_isSome_iff _ _).mpr hmem)
    have hset := lookup_fieldSet_self _ "BirthDate" (.ptr (.time (time.dateUTC y m d))) x hx
    rw [Patient_UnmarshalJSON_obj, herr]
    simp only [hb, hne, if_true, hparse, hdec]
    simp only [hb2', bne_self_eq_false, Bool.false_eq_true, if_false] at hother
    by_cases hde : ((Val.struct (aux.decode sc (membersNotFor "birthDate" ms) p).val).str
        "aux.DeceasedAt" != "") = true
    · simp only [hde, if_true] at hother ⊢
      cases hp2 : time.Parse .RFC3339
          ((Val.struct (aux.decode sc (membersNotFor "birthDate" ms) p).val).str
            "aux.DeceasedAt") with
      | error e =>
        rw [hp2] at hother
        cases hother
      | ok t =>
        refine ⟨rfl, ?_⟩
        simp only [timeField]
        rw [lookup_fieldSet_ne _ _ _ _ (by decide), hset]
        rfl
    · simp only [hde, Bool.false_eq_true, if_false]
      refine ⟨trivial, ?_⟩
      simp only [timeField]
      rw [hset]
      rfl

theorem C9_birthDate_decode_witness :
    Patient.hasType Strconv.zeroOnly (NewPatient Strconv.zeroOnly)
      ∧ (∀ j ∈ membersFor "birthDate" testPatientMembers, j.isString = true)
      ∧ (membersFor "birthDate" testPatientMembers).getLast?
          = some (.str ((time.dateUTC 2000 1 1).Format .dateOnly))
      ∧ (time.dateUTC 2000 1 1).Format .dateOnly = "2000-01-01"
      ∧ (Patient.UnmarshalJSON Strconv.zeroOnly (NewPatient Strconv.zeroOnly)
          (.text (.obj (membersNotFor "birthDate" testPatientMembers)))).2 = none
      ∧ (Patient.UnmarshalJSON Strconv.zeroOnly (NewPatient Strconv.zeroOnly)
          (.text (.obj testPatientMembers))).2 = none
      ∧ timeField (Patient.UnmarshalJSON Strconv.zeroOnly (NewPatient Strconv.zeroOnly)
          (.text (.obj testPatientMembers))).1 "BirthDate"
            = some ⟨2000, 1, 1, 0, 0, 0, 0, 0⟩ :=
  have hs : ∀ j ∈ membersFor "birthDate" testPatientMembers, j.isString = true := by
    intro j hj
    have e : membersFor "birthDate" testPatientMembers = [.str "2000-01-01"] := rfl
    rw [e] at hj
    rw [List.mem_singleton.mp hj]
    rfl
  ⟨NewPatient_hasType _, hs, rfl, rfl, rfl,
    C9_birthDate_decode Strconv.zeroOnly (NewPatient Strconv.zeroOnly) testPatientMembers
      2000 1 1 (NewPatient_hasType _) (by decide) (by decide) (by decide) (by decide)
      (by decide) (by decide) hs rfl rfl⟩

/-- C4: every payload that the default mapper decodes without error is an object, the
result is a `*Patient` whose `GetResourceType()` is `Patient`, and this is the
discriminator of the payload, the last string among its `resourceType` members; a value
made by `NewPatient` has the same discriminator. -/
theorem C4_discriminator_invariant (sc : Strconv) (data : Bytes) (r : Resource)
    (h : (NewResourceMapper sc).UnmarshalResource sc data = (some r, none)) :
    (∃ p, r = .patient p)
      ∧ r.GetResourceType = "Patient"
      ∧ (∃ ms, data = .text (.obj ms)
          ∧ lastString (membersFor "resourceType" ms) "" = r.GetResourceType
          ∧ ∀ t, HasDiscriminator ms t → t = r.GetResourceType)
      ∧ Base.GetResourceType (NewPatient sc) = "Patient" := by
  have hnotobj : ∀ j : JSON, (∀ ms, j ≠ .obj ms) →
      ((NewResourceMapper sc).UnmarshalResource sc (.text j)).1 = none := by
    intro j hj
    cases j with
    | obj ms => exact absurd rfl (hj ms)
    | _ => rfl
  cases data with
  | null => cases h
  | empty => cases h
  | invalid => cases h
  | text j =>
    by_cases hobj : ∃ ms, j = .obj ms
    · obtain ⟨ms, rfl⟩ := hobj
      rw [UnmarshalResource_obj] at h
      cases hh : (stringErrors "models.ResourceType" (membersFor "resourceType" ms)).head? with
      | some e =>
        rw [hh] at h
        cases h
      | none =>
        rw [hh] at h
        dsimp only at h
        rw [NewResourceMapper_registry] at h
        by_cases ht : lastString (membersFor "resourceType" ms) "" = "Patient"
        · simp only [ht, if_true] at h
          simp only [decodeInto, json.UnmarshalResource] at h
          cases hres : Patient.UnmarshalJSON sc (NewPatient sc) (.text (.obj ms)) with
          | mk p' err =>
            rw [hres] at h
            cases err with
            | some e => cases h
            | none =>
              simp only [Prod.mk.injEq, Option.some.injEq, and_true] at h
              subst h
              have hclean := Patient_UnmarshalJSON_clean sc (NewPatient sc) ms
                (by rw [hres])
              have hlk := Patient_UnmarshalJSON_lookup sc (NewPatient sc)
                (NewPatient_hasType sc) ms "ResourceType" (by decide) (by decide)
                (by decide) (by decide)
              rw [hres] at hlk
              have hsf := decodeMembers_string_field (aux.fields sc) (aux_foldOK sc)
                (aux_names_nodup sc) _ (aux_resourceType_mem sc) "models.ResourceType" rfl
                ms (aux.state (NewPatient sc) "" "") "Patient" rfl hclean.2
              have hval : p'.lookup "ResourceType" = some (.string "Patient") := by
                rw [hlk]
                erw [hsf]
                rw [show (fld "ResourceType" "resourceType"
                  (GoType.string "models.ResourceType")).key = "resourceType" from rfl,
                  lastString_idem _ _ _ ht]
              have hg : Resource.GetResourceType (.patient p') = "Patient" := by
                show (match p'.lookup "ResourceType" with
                  | some (.string s) => s
                  | _ => "") = "Patient"
                rw [hval]
              refine ⟨⟨p', rfl⟩, hg, ⟨ms, rfl, by rw [hg, ht], ?_⟩, rfl⟩
              intro t hd
              rw [hg, ← ht]
              exact (lastString_of_getLast _ _ _ hd.2).symm
        · simp only [ht, if_false] at h
          cases h
    · have := hnotobj j (fun ms e => hobj ⟨ms, e⟩)
      rw [h] at this
      cases this

theorem C4_discriminator_invariant_witness :
    (NewResourceMapper Strconv.zeroOnly).UnmarshalResource Strconv.zeroOnly
        (.text (.obj testPatientMembers))
      = (some (.patient (Patient.UnmarshalJSON Strconv.zeroOnly
          (NewPatient Strconv.zeroOnly) (.text (.obj testPatientMembers))).1), none)
    ∧ Resource.GetResourceType (.patient (Patient.UnmarshalJSON Strconv.zeroOnly
          (NewPatient Strconv.zeroOnly) (.text (.obj testPatientMembers))).1) = "Patient" :=
  ⟨rfl, (C4_discriminator_invariant Strconv.zeroOnly (.text (.obj testPatientMembers))
    _ rfl).2.1⟩

/-- The method `buildURL` on segments that are all non-empty: every segment is
appended after a slash. -/
theorem buildURL_nonempty (o : HTTPOperation) (parts : List String)
    (h : ∀ s ∈ parts, s ≠ "") :
    o.buildURL parts = o.baseURL ++ String.join (parts.map (fun s => "/" ++ s)) := by
  unfold HTTPOperation.buildURL
  generalize o.baseURL = base
  induction parts generalizing base with
  | nil =>
    apply String.ext
    simp
  | cons p ps ih =>
    have hp : (p != "") = true := by
      simpa using h p (List.mem_cons_self _ _)
    rw [List.foldl_cons, hp, if_pos rfl, ih (fun s hs => h s (List.mem_cons_of_mem _ hs))]
    apply String.ext
    simp [String.data_join, List.append_assoc]

theorem lookup_map_put (v : url.Values) (key : String) (vs : List String) (k : String) :
    (v.map (fun kv => if kv.1 == key then (kv.1, vs) else kv)).lookup k
      = if k = key then (v.lookup key).map (fun _ => vs) else v.lookup k := by
  induction v with
  | nil => simp [List.lookup]
  | cons a v ih =>
    obtain ⟨a1, a2⟩ := a
    by_cases ha : a1 = key
    · subst ha
      by_cases hk : k = a1
      · subst hk
        simp [List.lookup_cons]
      · have hkb : (k == a1) = false := by simpa using hk
        simp only [List.map_cons, beq_self_eq_true, if_true, List.lookup_cons, hkb, hk,
          if_false]
        simpa [hk] using ih
    · have hab : (a1 == key) = false := by simpa using ha
      have hka : (key == a1) = false := by simpa using (Ne.symm ha)
      simp only [List.map_cons, hab, Bool.false_eq_true, if_false, List.lookup_cons, hka]
      by_cases hk : k = a1
      · subst hk
        simp [ha]
      · have hkb : (k == a1) = false := by simpa using hk
        simp only [hkb]
        exact ih

theorem lookup_append_put (v : url.Values) (key : String) (vs : List String) (k : String)
    (hl : v.lookup key = none) :
    (v ++ [(key, vs)]).lookup k = if k = key then some vs else v.lookup k := by
  induction v with
  | nil =>
    by_cases hk : k = key
    · subst hk
      simp [List.lookup]
    · have : (k == key) = false := by simpa using hk
      simp [List.lookup, this, hk]
  | cons a v ih =>
    obtain ⟨a1, a2⟩ := a
    simp only [List.lookup_cons] at hl
    by_cases ha : (key == a1) = true
    · simp [ha] at hl
    · simp only [ha] at hl
      have hne : key ≠ a1 := by simpa using ha
      simp only [List.cons_append, List.lookup_cons]
      by_cases hka : k = a1
      · subst hka
        have : k ≠ key := Ne.symm hne
        simp [this]
      · have hkb : (k == a1) = false := by simpa using hka
        simp only [hkb]
        exact ih hl

theorem values_put (v : url.Values) (key : String) (vs : List String) (k : String) :
    (v.put key vs).values k = if k = key then vs else v.values k := by
  unfold url.Values.put url.Values.values
  cases hl : v.lookup key with
  | none =>
    simp only [Option.isSome_none, Bool.false_eq_true, if_false]
    rw [lookup_append_put v key vs k hl]
    by_cases hk : k = key <;> simp [hk]
  | some old =>
    simp only [Option.isSome_some, if_true]
    rw [lookup_map_put, hl]
    by_cases hk : k = key <;> simp [hk]

/-- The method `Values.Add` appends the value to the values of the key and leaves the
values of every other key alone. -/
theorem values_Add (v : url.Values) (key value k : String) :
    (v.Add key value).values k = if k = key then v.values k ++ [value] else v.values k := by
  unfold url.Values.Add
  rw [values_put]
  by_cases hk : k = key
  · subst hk
    simp
  · simp [hk]

theorem fieldAfter_cons (f : Field) (j : JSON) (js : List JSON) (cur : Val) :
    fieldAfter f (j :: js) cur = fieldAfter f js (f.type.unmarshal j cur).val := rfl

/-- The member loop decodes into a field the values of the members whose keys match
its key, one after the other. -/
theorem decodeMembers_field (all : List Field) (hfo : FoldOK all)
    (hn : (all.map (·.name)).Nodup) (f : Field) (hf : f ∈ all)
    (ms : List (String × JSON)) (st : Struct) (cur : Val)
    (hst : st.lookup f.name = some cur)
    (hab : (decodeMembers all ms st).abort = none) :
    (decodeMembers all ms st).val.lookup f.name
      = some (fieldAfter f (membersFor f.key ms) cur) := by
  induction ms generalizing st cur with
  | nil => exact hst
  | cons m ms ih =>
    obtain ⟨key, j⟩ := m
    cases hr : resolve all key with
    | none =>
      rw [decodeMembers_cons_none all key j ms st hr] at hab ⊢
      have := (resolve_eq_none_iff all key).mp hr f hf
      rw [membersFor_cons_of_not f.key key j ms this]
      exact ih st cur hst hab
    | some g =>
      obtain ⟨hg, hgm⟩ := (resolve_eq_some_iff all hfo key g).mp hr
      by_cases hfg : g = f
      · subst hfg
        rw [membersFor_cons_of_match g.key key j ms hgm, fieldAfter_cons]
        cases ha : (g.type.unmarshal j cur).abort with
        | some e =>
          rw [decodeMembers_cons_abort all key j ms st g hr cur hst e ha] at hab
          cases hab
        | none =>
          rw [decodeMembers_cons_step all key j ms st g hr cur hst ha] at hab ⊢
          apply ih
          · exact lookup_fieldSet_self _ _ _ _ hst
          · exact hab
      · have hkm : keyMatches f.key key = false := by
          by_contra hc
          simp only [Bool.not_eq_false] at hc
          exact hfg (field_eq_of_keyMatches all hfo g f hg hf key hgm hc)
        have hname : f.name ≠ g.name := fun e =>
          hfg (field_eq_of_name all hn f g hf hg e).symm
        rw [membersFor_cons_of_not f.key key j ms hkm]
        cases hl : st.lookup g.name with
        | none =>
          rw [decodeMembers_cons_skip all key j ms st g hr hl] at hab ⊢
          exact ih st cur hst hab
        | some c =>
          cases hd : (g.type.unmarshal j c).abort with
          | some e =>
            rw [decodeMembers_cons_abort all key j ms st g hr c hl e hd] at hab
            cases hab
          | none =>
            rw [decodeMembers_cons_step all key j ms st g hr c hl hd] at hab ⊢
            apply ih
            · rw [lookup_fieldSet_ne _ _ _ _ hname]
              exact hst
            · exact hab

theorem noAbort_string (tn : String) : (GoType.string tn).NoAbort := by
  intro j v
  cases j <;> rfl

theorem noAbort_bool : GoType.bool.NoAbort := by
  intro j v
  cases j <;> rfl

theorem noAbort_int : GoType.int.NoAbort := by
  intro j v
  cases j with
  | num n =>
    show (match GoType.parseInt n with
      | some i => (⟨.int i, [], none⟩ : Dec Val)
      | none => mismatch "int" (.num n) v).abort = none
    cases GoType.parseInt n <;> rfl
  | _ => rfl

theorem noAbort_float64 (sc : Strconv) : (GoType.float64 sc).NoAbort := by
  intro j v
  cases j with
  | num n =>
    show (match sc.parseFloat n with
      | some x => (⟨.float64 x, [], none⟩ : Dec Val)
      | none => mismatch "float64" (.num n) v).abort = none
    cases sc.parseFloat n <;> rfl
  | _ => rfl

theorem noAbort_rawMessage : GoType.rawMessage.NoAbort := fun _ _ => rfl

theorem noAbort_ptr (elem : GoType) (he : elem.NoAbort) : (GoType.ptr elem).NoAbort := by
  intro j v
  cases j with
  | null => rfl
  | _ => exact he _ _

theorem decodeElems_noAbort (elem : GoType) (he : elem.NoAbort) (js : List JSON) :
    ∀ olds, (GoType.decodeElems elem js olds).abort = none := by
  induction js with
  | nil =>
    intro olds
    rfl
  | cons j js ih =>
    intro olds
    unfold GoType.decodeElems
    dsimp only
    rw [he j (olds.headD elem.zero)]
    exact ih _

theorem noAbort_slice (elem : GoType) (he : elem.NoAbort) : (GoType.slice elem).NoAbort := by
  intro j v
  cases j with
  | arr js => exact decodeElems_noAbort elem he js _
  | _ => rfl

theorem decodeMembers_noAbort (all : List Field) (h : ∀ f ∈ all, f.type.NoAbort)
    (ms : List (String × JSON)) : ∀ st, (decodeMembers all ms st).abort = none := by
  induction ms with
  | nil =>
    intro st
    rfl
  | cons kj ms ih =>
    obtain ⟨k, j⟩ := kj
    intro st
    cases hr : resolve all k with
    | none =>
      rw [decodeMembers_cons_none all k j ms st hr]
      exact ih st
    | some g =>
      cases hl : st.lookup g.name with
      | none =>
        rw [decodeMembers_cons_skip all k j ms st g hr hl]
        exact ih st
      | some cur =>
        have ha := h g (resolve_mem all k g hr) j cur
        rw [decodeMembers_cons_step all k j ms st g hr cur hl ha]
        exact ih _

theorem noAbort_struct (name : String) (all : List Field) (h : ∀ f ∈ all, f.type.NoAbort) :
    (GoType.struct name all).NoAbort := by
  intro j v
  cases j with
  | obj ms =>
    cases v with
    | struct fs => exact decodeMembers_noAbort all h ms fs
    | _ => rfl
  | _ => rfl

theorem BundleEntry_noAbort (sc : Strconv) : (BundleEntry.type sc).NoAbort := by
  apply noAbort_struct
  simp only [BundleEntry.fields, opt, List.forall_mem_cons, List.not_mem_nil,
    IsEmpty.forall_iff, implies_true, and_true]
  refine ⟨noAbort_string _, noAbort_rawMessage, noAbort_ptr _ (noAbort_struct _ _ ?_)⟩
  simp only [BundleSearch.fields, opt, List.forall_mem_cons, List.not_mem_nil,
    IsEmpty.forall_iff, implies_true, and_true]
  exact ⟨noAbort_string _, noAbort_ptr _ (noAbort_float64 sc)⟩

/-- Decoding an array into a nil slice decodes every element into a zero element. -/
theorem decodeElems_fresh (elem : GoType) (he : elem.NoAbort) (js : List JSON) :
    (GoType.decodeElems elem js []).val = js.map (fun j => (elem.unmarshal j elem.zero).val) := by
  induction js with
  | nil => rfl
  | cons j js ih =>
    unfold GoType.decodeElems
    dsimp only
    have h0 : ([] : List Val).headD elem.zero = elem.zero := rfl
    have ht : ([] : List Val).tail = [] := rfl
    rw [h0, ht, he j elem.zero]
    dsimp only
    rw [ih]
    rfl

theorem Bundle_foldOK (sc : Strconv) : FoldOK (Bundle.fields sc) := by
  have e : (Bundle.fields sc).map (fun f => foldName f.key)
      = ["resourceType", "id", "meta", "language", "text", "extension", "contained",
          "type", "total", "link", "entry"].map foldName := rfl
  unfold FoldOK
  rw [e]
  decide

theorem BundleEntry_foldOK (sc : Strconv) : FoldOK (BundleEntry.fields sc) := by
  have e : (BundleEntry.fields sc).map (fun f => foldName f.key)
      = ["fullUrl", "resource", "search"].map foldName := rfl
  unfold FoldOK
  rw [e]
  decide

theorem Bundle_entry_mem (sc : Strconv) :
    opt "Entry" "entry" (.slice (BundleEntry.type sc)) ∈ Bundle.fields sc := by
  simp [Bundle.fields, Base.fields]

theorem BundleEntry_resource_mem (sc : Strconv) :
    opt "Resource" "resource" .rawMessage ∈ BundleEntry.fields sc := by
  simp [BundleEntry.fields]

/-- The raw message that a `json.RawMessage` field holds after JSON values were decoded
into it: the text of the last one. -/
theorem fieldAfter_raw (n k : String) (js : List JSON) (cur : Val) :
    fieldAfter (opt n k .rawMessage) js cur
      = match js.getLast? with
        | some j => .raw (.text j)
        | none => cur := by
  induction js generalizing cur with
  | nil => rfl
  | cons j js ih =>
    rw [fieldAfter_cons, ih]
    cases js with
    | nil => rfl
    | cons j2 js2 =>
      rw [List.getLast?_cons_cons]
      obtain ⟨x, hx⟩ : ∃ x, (j2 :: js2).getLast? = some x :=
        ⟨_, List.getLast?_eq_getLast _ (List.cons_ne_nil _ _)⟩
      rw [hx]

/-- A bundle payload that is decoded without error into a fresh `Bundle` leaves in
`Entry` one entry for each element of its `entry` array, each decoded on its own. -/
theorem decodeBundle_entries (sc : Strconv) (bms : List (String × JSON)) (es : List JSON)
    (hes : HasEntries bms es) (hclean : (decodeBundle sc (.text (.obj bms))).2 = none) :
    ∃ fs, decodeBundle sc (.text (.obj bms)) = (.struct fs, none)
      ∧ fs.lookup "Entry" = some (.slice (es.map (decodeEntry sc))) := by
  have hunf : decodeBundle sc (.text (.obj bms))
      = (.struct (decodeMembers (Bundle.fields sc) bms (zeroStruct (Bundle.fields sc))).val,
          (decodeMembers (Bundle.fields sc) bms (zeroStruct (Bundle.fields sc))).err) := rfl
  rw [hunf] at hclean ⊢
  have hcl := (Dec.err_eq_none_iff _).mp hclean
  have hz : (zeroStruct (Bundle.fields sc)).lookup
      (opt "Entry" "entry" (.slice (BundleEntry.type sc))).name = some .nilSlice :=
    lookup_zeroStruct _ (Bundle_fieldsOK sc).names _ (Bundle_entry_mem sc)
  have hf := decodeMembers_field (Bundle.fields sc) (Bundle_foldOK sc)
    (Bundle_fieldsOK sc).names _ (Bundle_entry_mem sc) bms _ _ hz hcl.2
  refine ⟨_, by rw [show (decodeMembers (Bundle.fields sc) bms
    (zeroStruct (Bundle.fields sc))).err = none from hclean], ?_⟩
  have hk : (opt "Entry" "entry" (.slice (BundleEntry.type sc))).key = "entry" := rfl
  have hnm : (opt "Entry" "entry" (.slice (BundleEntry.type sc))).name = "Entry" := rfl
  rw [hk, hnm] at hf
  rw [hf]
  have hes' : membersFor "entry" bms = [.arr es] := hes
  rw [hes']
  show some (Val.slice (GoType.decodeElems (BundleEntry.type sc) es []).val) = _
  rw [decodeElems_fresh _ (BundleEntry_noAbort sc)]
  rfl

/-- The `Resource` of a decoded entry is the text of the entry's last `resource`
member, and nil when the entry has none. -/
theorem decodeEntry_resource (sc : Strconv) (ems : List (String × JSON)) :
    (decodeEntry sc (.obj ems)).rawField "Resource"
      = match (membersFor "resource" ems).getLast? with
        | some j => .text j
        | none => .null := by
  have hunf : decodeEntry sc (.obj ems)
      = .struct (decodeMembers (BundleEntry.fields sc) ems
          (zeroStruct (BundleEntry.fields sc))).val := rfl
  have hz : (zeroStruct (BundleEntry.fields sc)).lookup
      (opt "Resource" "resource" .rawMessage).name = some (.raw .null) :=
    lookup_zeroStruct _ (BundleEntry_fieldsOK sc).names _ (BundleEntry_resource_mem sc)
  have hna : (decodeMembers (BundleEntry.fields sc) ems
      (zeroStruct (BundleEntry.fields sc))).abort = none := by
    apply decodeMembers_noAbort
    intro f hf
    simp only [BundleEntry.fields, opt, List.mem_cons, List.mem_singleton,
      List.not_mem_nil, or_false] at hf
    rcases hf with rfl | rfl | rfl
    · exact noAbort_string _
    · exact noAbort_rawMessage
    · refine noAbort_ptr _ (noAbort_struct _ _ ?_)
      simp only [BundleSearch.fields, opt, List.forall_mem_cons, List.not_mem_nil,
        IsEmpty.forall_iff, implies_true, and_true]
      exact ⟨noAbort_string _, noAbort_ptr _ (noAbort_float64 sc)⟩
  have hf := decodeMembers_field (BundleEntry.fields sc) (BundleEntry_foldOK sc)
    (BundleEntry_fieldsOK sc).names _ (BundleEntry_resource_mem sc) ems _ _ hz hna
  have hk : (opt "Resource" "resource" GoType.rawMessage).key = "resource" := rfl
  have hnm : (opt "Resource" "resource" GoType.rawMessage).name = "Resource" := rfl
  rw [hk, hnm, fieldAfter_raw] at hf
  rw [hunf]
  show (match (decodeMembers (BundleEntry.fields sc) ems
      (zeroStruct (BundleEntry.fields sc))).val.lookup "Resource" with
    | some (.raw m) => m
    | _ => .null) = _
  rw [hf]
  cases (membersFor "resource" ems).getLast? <;> rfl

/-- An element of the `entry` array that is not an object leaves a zero entry. -/
theorem decodeEntry_not_obj (sc : Strconv) (j : JSON) (h : ∀ ems, j ≠ .obj ems) :
    (decodeEntry sc j).rawField "Resource" = .null := by
  cases j with
  | obj ems => exact absurd rfl (h ems)
  | _ => rfl

/-- `UnmarshalResource` returns a resource and no error, or an error and no
resource. -/
theorem UnmarshalResource_result (sc : Strconv) (m : ResourceMapper) (data : Bytes) :
    (∃ r, m.UnmarshalResource sc data = (some r, none))
      ∨ ∃ e, m.UnmarshalResource sc data = (none, some e) := by
  unfold ResourceMapper.UnmarshalResource
  generalize json.Unmarshal typeHolder.type data typeHolder.type.zero = th
  obtain ⟨holder, err⟩ := th
  cases err with
  | some e => exact Or.inr ⟨_, rfl⟩
  | none =>
    dsimp only
    cases m.typeRegistry (holder.str "ResourceType") with
    | none => exact Or.inr ⟨_, rfl⟩
    | some factory =>
      dsimp only
      generalize json.UnmarshalResource sc data (factory ()) = res
      obtain ⟨r, err2⟩ := res
      cases err2 with
      | some e => exact Or.inr ⟨_, rfl⟩
      | none => exact Or.inl ⟨_, rfl⟩

theorem UnmarshalBundle_eq (sc : Strconv) (m : ResourceMapper) (data : Bytes) :
    m.UnmarshalBundle sc data
      = match decodeBundle sc data with
        | (_, some e) => (none, some (.wrap "failed to unmarshal bundle" e))
        | (.struct fs, none) =>
          match fs.lookup "Entry" with
          | some (.slice entries) =>
            match m.resolveEntries sc 0 entries with
            | .error e => (none, some e)
            | .ok entries' => (some (.struct (fieldSet fs "Entry" (.slice entries'))), none)
          | _ => (some (.struct fs), none)
        | (bundle, none) => (some bundle, none) := by
  unfold ResourceMapper.UnmarshalBundle decodeBundle
  generalize json.Unmarshal (Bundle.type sc) data (Bundle.type sc).zero = r
  obtain ⟨bundle, err⟩ := r
  cases err with
  | some e => cases bundle <;> rfl
  | none =>
    cases bundle with
    | struct fs =>
      dsimp only
      cases hl : fs.lookup "Entry" with
      | none => rfl
      | some x =>
        cases x with
        | slice entries =>
          dsimp only
          cases m.resolveEntries sc 0 entries <;> rfl
        | _ => rfl
    | _ => rfl

theorem resolveEntry_error (sc : Strconv) (m : ResourceMapper) (i : Nat) (e : Val)
    (err : Err) (h : (e.rawField "Resource").isNil = false)
    (hu : m.UnmarshalResource sc (e.rawField "Resource") = (none, some err)) :
    m.resolveEntry sc i e
      = .error (.wrap ("failed to unmarshal bundle entry " ++ toString i) err) := by
  unfold ResourceMapper.resolveEntry
  rw [if_neg (by simp [h]), hu]

theorem resolveEntry_ok_iff (sc : Strconv) (m : ResourceMapper) (i : Nat) (e e' : Val) :
    m.resolveEntry sc i e = .ok e' ↔ Resolved sc m e e' := by
  unfold ResourceMapper.resolveEntry Resolved
  by_cases hn : (e.rawField "Resource").isNil = true
  · rw [if_pos hn]
    constructor
    · intro h
      cases h
      exact Or.inl ⟨hn, rfl⟩
    · rintro (⟨-, rfl⟩ | ⟨h2, -⟩)
      · rfl
      · rw [hn] at h2
        cases h2
  · rw [if_neg hn]
    have hn' : (e.rawField "Resource").isNil = false := by simpa using hn
    rcases UnmarshalResource_result sc m (e.rawField "Resource") with ⟨r, hr⟩ | ⟨err, hr⟩
    · rw [hr]
      dsimp only [json.MarshalInterface]
      cases hm : json.MarshalResource sc r with
      | error err =>
        dsimp only
        constructor
        · intro h
          cases h
        · rintro (⟨h1, -⟩ | ⟨-, r', typed, h1, h2, -⟩)
          · exact absurd h1 hn
          · cases h1
            rw [hm] at h2
            cases h2
      | ok typed =>
        dsimp only
        constructor
        · intro h
          cases h
          exact Or.inr ⟨hn', r, typed, rfl, hm, rfl⟩
        · rintro (⟨h1, -⟩ | ⟨-, r', typed', h1, h2, rfl⟩)
          · exact absurd h1 hn
          · cases h1
            rw [hm] at h2
            cases h2
            rfl
    · rw [hr]
      dsimp only
      constructor
      · intro h
        cases h
      · rintro (⟨h1, -⟩ | ⟨-, r', typed', h1, -⟩)
        · exact absurd h1 hn
        · cases h1

theorem resolveEntries_cons (sc : Strconv) (m : ResourceMapper) (i : Nat) (e : Val)
    (es : List Val) :
    m.resolveEntries sc i (e :: es)
      = match m.resolveEntry sc i e with
        | .error err => .error err
        | .ok e' =>
          match m.resolveEntries sc (i + 1) es with
          | .error err => .error err
          | .ok es' => .ok (e' :: es') := rfl

/-- The loop of `UnmarshalBundle` succeeds exactly when every entry is resolved, and
then leaves the resolved entries in their order. -/
theorem resolveEntries_ok_iff (sc : Strconv) (m : ResourceMapper) (es : List Val) :
    ∀ i es', m.resolveEntries sc i es = .ok es' ↔ List.Forall₂ (Resolved sc m) es es' := by
  induction es with
  | nil =>
    intro i es'
    constructor
    · intro h
      cases h
      exact List.Forall₂.nil
    · intro h
      cases h
      rfl
  | cons e es ih =>
    intro i es'
    rw [resolveEntries_cons]
    constructor
    · intro h
      cases h1 : m.resolveEntry sc i e with
      | error err =>
        rw [h1] at h
        cases h
      | ok e1 =>
        rw [h1] at h
        dsimp only at h
        cases h2 : m.resolveEntries sc (i + 1) es with
        | error err =>
          rw [h2] at h
          cases h
        | ok es1 =>
          rw [h2] at h
          cases h
          exact List.Forall₂.cons ((resolveEntry_ok_iff sc m i e e1).mp h1)
            ((ih (i + 1) es1).mp h2)
    · intro h
      cases h with
      | cons h1 h2 =>
        rw [(resolveEntry_ok_iff sc m i e _).mpr h1]
        dsimp only
        rw [(ih (i + 1) _).mpr h2]

/-- The loop of `UnmarshalBundle` returns the error of the first entry that is not
resolved. -/
theorem resolveEntries_error (sc : Strconv) (m : ResourceMapper) (es : List Val) :
    ∀ (i k : Nat) (e : Val) (err : Err), es[k]? = some e →
      m.resolveEntry sc (i + k) e = .error err →
      (∀ k', k' < k → ∀ e0, es[k']? = some e0 → ∃ e1, m.resolveEntry sc (i + k') e0 = .ok e1) →
      m.resolveEntries sc i es = .error err := by
  induction es with
  | nil =>
    intro i k e err hk
    cases hk
  | cons a es ih =>
    intro i k e err hk herr hbefore
    rw [resolveEntries_cons]
    cases k with
    | zero =>
      rw [List.getElem?_cons_zero] at hk
      cases hk
      rw [Nat.add_zero] at herr
      rw [herr]
    | succ k =>
      obtain ⟨a1, ha1⟩ := hbefore 0 (Nat.succ_pos k) a List.getElem?_cons_zero
      rw [Nat.add_zero] at ha1
      rw [ha1]
      dsimp only
      have hk' : es[k]? = some e := by
        rw [List.getElem?_cons_succ] at hk
        exact hk
      have herr' : m.resolveEntry sc (i + 1 + k) e = .error err := by
        rw [show i + 1 + k = i + (k + 1) by omega]
        exact herr
      rw [ih (i + 1) k e err hk' herr' ?_]
      intro k' hk'lt e0 he0
      have := hbefore (k' + 1) (by omega) e0 (by rw [List.getElem?_cons_succ]; exact he0)
      rw [show i + 1 + k' = i + (k' + 1) by omega]
      exact this

/-- The loop of `UnmarshalBundle` fails as soon as one entry is not resolved. -/
theorem resolveEntries_fails (sc : Strconv) (m : ResourceMapper) (es : List Val) :
    ∀ (i k : Nat) (e : Val) (err : Err), es[k]? = some e →
      m.resolveEntry sc (i + k) e = .error err →
      ∃ err', m.resolveEntries sc i es = .error err' := by
  induction es with
  | nil =>
    intro i k e err hk
    cases hk
  | cons a es ih =>
    intro i k e err hk herr
    rw [resolveEntries_cons]
    cases k with
    | zero =>
      rw [List.getElem?_cons_zero] at hk
      cases hk
      rw [Nat.add_zero] at herr
      rw [herr]
      exact ⟨_, rfl⟩
    | succ k =>
      cases h1 : m.resolveEntry sc i a with
      | error e1 => exact ⟨_, rfl⟩
      | ok a1 =>
        dsimp only
        have hk' : es[k]? = some e := by
          rw [List.getElem?_cons_succ] at hk
          exact hk
        have herr' : m.resolveEntry sc (i + 1 + k) e = .error err := by
          rw [show i + 1 + k = i + (k + 1) by omega]
          exact herr
        obtain ⟨err', h'⟩ := ih (i + 1) k e err hk' herr'
        rw [h']
        exact ⟨_, rfl⟩

/-- A payload whose discriminator is a string without a registered constructor. -/
theorem UnmarshalResource_unsupported (sc : Strconv) (m : ResourceMapper)
    (ms : List (String × JSON)) (t : String) (hd : HasDiscriminator ms t)
    (hreg : m.typeRegistry t = none) :
    m.UnmarshalResource sc (.text (.obj ms))
      = (none, some (.errorf ("unsupported resource type: " ++ t))) := by
  have hs : stringErrors "models.ResourceType" (membersFor "resourceType" ms) = [] := by
    apply stringErrors_eq_nil
    intro j hj
    have := hd.1 j hj
    cases j <;> simp_all [JSON.isString, JSON.isStringOrNull]
  rw [UnmarshalResource_obj, hs, lastString_of_getLast _ _ _ hd.2]
  dsimp only [List.head?]
  rw [hreg]

theorem aux_promoted_mem_fields (sc : Strconv) (f : Field) (hf : f ∈ aux.promoted sc) :
    f ∈ aux.fields sc := List.mem_append_left _ hf

/-- After a call of `Patient.UnmarshalJSON` without error, a field other than
`BirthDate` and `DeceasedAt` holds what the members matching its key were decoded to,
one after the other. -/
theorem Patient_decode_field (sc : Strconv) (p0 : Struct) (hp0 : Patient.hasType sc p0)
    (ms : List (String × JSON))
    (h : (Patient.UnmarshalJSON sc p0 (.text (.obj ms))).2 = none)
    (f : Field) (hf : f ∈ aux.promoted sc) (cur : Val) (hcur : p0.lookup f.name = some cur) :
    (Patient.UnmarshalJSON sc p0 (.text (.obj ms))).1.lookup f.name
      = some (fieldAfter f (membersFor f.key ms) cur) := by
  obtain ⟨n1, n2, n3, n4⟩ := promoted_name_ne sc f hf
  obtain ⟨-, -, hst⟩ := aux_state_lookup sc p0 hp0 "" ""
  have hclean := Patient_UnmarshalJSON_clean sc p0 ms h
  rw [Patient_UnmarshalJSON_lookup sc p0 hp0 ms f.name n3 n4 n1 n2]
  exact decodeMembers_field (aux.fields sc) (aux_foldOK sc) (aux_names_nodup sc) f
    (aux_promoted_mem_fields sc f hf) ms _ cur (by rw [hst _ n1 n2]; exact hcur) hclean.2

/-- A call of `Patient.UnmarshalJSON` without error has run the member loop without
error, and has parsed each of the two strings of `aux` that is not empty and set the
time field to the result. -/
theorem Patient_UnmarshalJSON_ok_inv (sc : Strconv) (p0 : Struct)
    (hp0 : Patient.hasType sc p0) (ms : List (String × JSON))
    (h : (Patient.UnmarshalJSON sc p0 (.text (.obj ms))).2 = none) :
    (aux.decode sc ms p0).err = none
      ∧ (((Val.struct (aux.decode sc ms p0).val).str "aux.BirthDate" = ""
            ∧ (Patient.UnmarshalJSON sc p0 (.text (.obj ms))).1.lookup "BirthDate"
                = (aux.decode sc ms p0).val.lookup "BirthDate")
          ∨ ((Val.struct (aux.decode sc ms p0).val).str "aux.BirthDate" ≠ ""
            ∧ ∃ t, time.Parse .dateOnly
                  ((Val.struct (aux.decode sc ms p0).val).str "aux.BirthDate") = .ok t
                ∧ (Patient.UnmarshalJSON sc p0 (.text (.obj ms))).1.lookup "BirthDate"
                    = some (.ptr (.time t))))
      ∧ (((Val.struct (aux.decode sc ms p0).val).str "aux.DeceasedAt" = ""
            ∧ (Patient.UnmarshalJSON sc p0 (.text (.obj ms))).1.lookup "DeceasedAt"
                = (aux.decode sc ms p0).val.lookup "DeceasedAt")
          ∨ ((Val.struct (aux.decode sc ms p0).val).str "aux.DeceasedAt" ≠ ""
            ∧ ∃ t, time.Parse .RFC3339
                  ((Val.struct (aux.decode sc ms p0).val).str "aux.DeceasedAt") = .ok t
                ∧ (Patient.UnmarshalJSON sc p0 (.text (.obj ms))).1.lookup "DeceasedAt"
                    = some (.ptr (.time t)))) := by
  have hclean := Patient_UnmarshalJSON_clean sc p0 ms h
  have herr := (Dec.err_eq_none_iff _).mpr hclean
  generalize hb : (Val.struct (aux.decode sc ms p0).val).str "aux.BirthDate" = b
  generalize hd : (Val.struct (aux.decode sc ms p0).val).str "aux.DeceasedAt" = d
  -- the outcome of the two parses
  have hB : b = "" ∨ (b ≠ "" ∧ ∃ t, time.Parse .dateOnly b = .ok t) := by
    by_cases hbe : b = ""
    · exact Or.inl hbe
    · right
      refine ⟨hbe, ?_⟩
      cases hP : time.Parse .dateOnly b with
      | ok t => exact ⟨t, rfl⟩
      | error e =>
        exfalso
        have hbne : (b != "") = true := by simpa using hbe
        rw [Patient_UnmarshalJSON_obj, herr] at h
        simp only [hb, hbne, if_true, hP] at h
        cases h
  have hD : d = "" ∨ (d ≠ "" ∧ ∃ t, time.Parse .RFC3339 d = .ok t) := by
    by_cases hde : d = ""
    · exact Or.inl hde
    · right
      refine ⟨hde, ?_⟩
      cases hP : time.Parse .RFC3339 d with
      | ok t => exact ⟨t, rfl⟩
      | error e =>
        exfalso
        have hdne : (d != "") = true := by simpa using hde
        rw [Patient_UnmarshalJSON_obj, herr] at h
        rcases hB with rfl | ⟨hbe, tb, hPb⟩
        · simp only [hb, hd, bne_self_eq_false, Bool.false_eq_true, if_false, hdne,
            if_true, hP] at h
          cases h
        · have hbne : (b != "") = true := by simpa using hbe
          simp only [hb, hd, hbne, if_true, hPb, hdne, hP] at h
          cases h
  have key : ∀ vb vd,
      ((b = "" ∧ vb = (aux.decode sc ms p0).val.lookup "BirthDate")
        ∨ (b ≠ "" ∧ ∃ t, time.Parse .dateOnly b = .ok t ∧ vb = some (.ptr (.time t)))) →
      ((d = "" ∧ vd = (aux.decode sc ms p0).val.lookup "DeceasedAt")
        ∨ (d ≠ "" ∧ ∃ t, time.Parse .RFC3339 d = .ok t ∧ vd = some (.ptr (.time t)))) →
      (Patient.UnmarshalJSON sc p0 (.text (.obj ms))).1.lookup "BirthDate" = vb
        ∧ (Patient.UnmarshalJSON sc p0 (.text (.obj ms))).1.lookup "DeceasedAt" = vd := by
    intro vb vd h1 h2
    exact (Patient_UnmarshalJSON_times sc p0 hp0 ms b d vb vd herr hb hd h1 h2).2.2
  refine ⟨herr, ?_, ?_⟩
  · rcases hB with hbe | ⟨hbe, tb, hPb⟩
    · rcases hD with hde | ⟨hde, td, hPd⟩
      · exact Or.inl ⟨hbe, (key _ _ (Or.inl ⟨hbe, rfl⟩) (Or.inl ⟨hde, rfl⟩)).1⟩
      · exact Or.inl ⟨hbe, (key _ _ (Or.inl ⟨hbe, rfl⟩) (Or.inr ⟨hde, td, hPd, rfl⟩)).1⟩
    · rcases hD with hde | ⟨hde, td, hPd⟩
      · exact Or.inr ⟨hbe, tb, hPb,
          (key _ _ (Or.inr ⟨hbe, tb, hPb, rfl⟩) (Or.inl ⟨hde, rfl⟩)).1⟩
      · exact Or.inr ⟨hbe, tb, hPb,
          (key _ _ (Or.inr ⟨hbe, tb, hPb, rfl⟩) (Or.inr ⟨hde, td, hPd, rfl⟩)).1⟩
  · rcases hD with hde | ⟨hde, td, hPd⟩
    · rcases hB with hbe | ⟨hbe, tb, hPb⟩
      · exact Or.inl ⟨hde, (key _ _ (Or.inl ⟨hbe, rfl⟩) (Or.inl ⟨hde, rfl⟩)).2⟩
      · exact Or.inl ⟨hde, (key _ _ (Or.inr ⟨hbe, tb, hPb, rfl⟩) (Or.inl ⟨hde, rfl⟩)).2⟩
    · rcases hB with hbe | ⟨hbe, tb, hPb⟩
      · exact Or.inr ⟨hde, td, hPd,
          (key _ _ (Or.inl ⟨hbe, rfl⟩) (Or.inr ⟨hde, td, hPd, rfl⟩)).2⟩
      · exact Or.inr ⟨hde, td, hPd,
          (key _ _ (Or.inr ⟨hbe, tb, hPb, rfl⟩) (Or.inr ⟨hde, td, hPd, rfl⟩)).2⟩

theorem getElem?_map_some {α β : Type} (f : α → β) (xs : List α) (i : Nat) (x : α)
    (h : xs[i]? = some x) : (xs.map f)[i]? = some (f x) := by
  rw [List.getElem?_map, h]
  rfl

/-- The entry that decoding leaves for an entry object of the payload, and its
`Resource`. -/
theorem decodeBundle_entry (sc : Strconv) (bms : List (String × JSON)) (es : List JSON)
    (hes : HasEntries bms es) (hclean : (decodeBundle sc (.text (.obj bms))).2 = none)
    (i : Nat) (ems : List (String × JSON)) (hi : es[i]? = some (.obj ems)) :
    ∃ fs, decodeBundle sc (.text (.obj bms)) = (.struct fs, none)
      ∧ fs.lookup "Entry" = some (.slice (es.map (decodeEntry sc)))
      ∧ (es.map (decodeEntry sc))[i]? = some (decodeEntry sc (.obj ems))
      ∧ (decodeEntry sc (.obj ems)).rawField "Resource"
          = match (membersFor "resource" ems).getLast? with
            | some j => .text j
            | none => .null := by
  obtain ⟨fs, h1, h2⟩ := decodeBundle_entries sc bms es hes hclean
  exact ⟨fs, h1, h2, getElem?_map_some _ _ _ _ hi, decodeEntry_resource sc ems⟩

theorem UnmarshalBundle_entries (sc : Strconv) (m : ResourceMapper) (data : Bytes)
    (fs : Struct) (entries : List Val) (h1 : decodeBundle sc data = (.struct fs, none))
    (h2 : fs.lookup "Entry" = some (.slice entries)) :
    m.UnmarshalBundle sc data
      = match m.resolveEntries sc 0 entries with
        | .error e => (none, some e)
        | .ok entries' => (some (.struct (fieldSet fs "Entry" (.slice entries'))), none) := by
  rw [UnmarshalBundle_eq, h1]
  dsimp only
  rw [h2]
  all_goals rfl

/-- `UnmarshalBundle` returns a bundle and no error, or an error and no bundle. -/
theorem UnmarshalBundle_result (sc : Strconv) (m : ResourceMapper) (data : Bytes) :
    (∃ b, m.UnmarshalBundle sc data = (some b, none))
      ∨ ∃ e, m.UnmarshalBundle sc data = (none, some e) := by
  rw [UnmarshalBundle_eq]
  generalize decodeBundle sc data = r
  obtain ⟨bundle, err⟩ := r
  cases err with
  | some e => cases bundle <;> exact Or.inr ⟨_, rfl⟩
  | none =>
    cases bundle with
    | struct fs =>
      dsimp only
      cases fs.lookup "Entry" with
      | none => exact Or.inl ⟨_, rfl⟩
      | some x =>
        cases x with
        | slice entries =>
          dsimp only
          cases m.resolveEntries sc 0 entries with
          | error e => exact Or.inr ⟨_, rfl⟩
          | ok es' => exact Or.inl ⟨_, rfl⟩
        | _ => exact Or.inl ⟨_, rfl⟩
    | _ => exact Or.inl ⟨_, rfl⟩

/-- What a successful `UnmarshalBundle` returns: the decoded bundle, with the entries
as the loop leaves them when the bundle has any. -/
theorem UnmarshalBundle_ok_inv (sc : Strconv) (m : ResourceMapper) (data : Bytes)
    (b' : Val) (h : m.UnmarshalBundle sc data = (some b', none)) :
    (∃ fs es es', decodeBundle sc data = (.struct fs, none)
        ∧ fs.lookup "Entry" = some (.slice es)
        ∧ List.Forall₂ (Resolved sc m) es es'
        ∧ b' = .struct (fieldSet fs "Entry" (.slice es')))
      ∨ (decodeBundle sc data = (b', none)
          ∧ ∀ fs es, b' = .struct fs → fs.lookup "Entry" ≠ some (.slice es)) := by
  rw [UnmarshalBundle_eq] at h
  generalize hr : decodeBundle sc data = r at h
  obtain ⟨bundle, err⟩ := r
  cases err with
  | some e => cases bundle <;> cases h
  | none =>
    cases bundle with
    | struct fs =>
      dsimp only at h
      cases hl : fs.lookup "Entry" with
      | none =>
        rw [hl] at h
        cases h
        exact Or.inr ⟨rfl, fun fs' es hb => by cases hb; rw [hl]; exact fun e => by cases e⟩
      | some x =>
        rw [hl] at h
        cases x with
        | slice entries =>
          dsimp only at h
          cases hre : m.resolveEntries sc 0 entries with
          | error e =>
            rw [hre] at h
            cases h
          | ok es' =>
            rw [hre] at h
            cases h
            exact Or.inl ⟨fs, entries, es', rfl, hl,
              (resolveEntries_ok_iff sc m entries 0 es').mp hre, rfl⟩
        | _ =>
          cases h
          exact Or.inr ⟨rfl, fun fs' es hb => by cases hb; rw [hl]; exact fun e => by cases e⟩
    | _ =>
      cases h
      exact Or.inr ⟨rfl, fun fs' es hb => by cases hb⟩

theorem decodeInto_patient_ok (sc : Strconv) (p0 : Struct) (ms : List (String × JSON))
    (h : (Patient.UnmarshalJSON sc p0 (.text (.obj ms))).2 = none) :
    decodeInto sc (.text (.obj ms)) (.patient p0)
      = (some (.patient (Patient.UnmarshalJSON sc p0 (.text (.obj ms))).1), none) := by
  simp only [decodeInto, json.UnmarshalResource]
  cases hres : Patient.UnmarshalJSON sc p0 (.text (.obj ms)) with
  | mk p' err =>
    rw [hres] at h
    cases h
    rfl

/-- What the struct encoder emits for one field: nothing when the field is omitted,
else one member, under the key of the field. -/
theorem encodeFields_member (fs : List Field) (vs : Struct) :
    FoldOK fs → ∀ ms, encodeFields fs vs = .ok ms →
      ∀ f ∈ fs, ∀ x, vs.lookup f.name = some x →
        ((f.omitempty && f.type.isEmptyValue x) = true → membersFor f.key ms = [])
          ∧ ((f.omitempty && f.type.isEmptyValue x) = false →
              ∃ j, f.type.marshal x = .ok j ∧ membersFor f.key ms = [j]) := by
  induction fs with
  | nil =>
    intro _ ms _ f hf
    cases hf
  | cons a l ih =>
    intro hfo ms he f hf x hx
    have hfo' : FoldOK l := by
      unfold FoldOK at hfo ⊢
      simp only [List.map_cons, List.nodup_cons] at hfo
      exact hfo.2
    have hhead : ∀ ms', encodeFields l vs = .ok ms' → membersFor a.key ms' = [] := by
      intro ms' he'
      unfold membersFor
      rw [List.map_eq_nil_iff, List.filter_eq_nil_iff]
      intro kv hkv hm
      obtain ⟨g, hg, hgk⟩ := encodeFields_keys l vs ms' he' kv hkv
      unfold FoldOK at hfo
      simp only [List.map_cons, List.nodup_cons] at hfo
      apply hfo.1
      have hm' : foldName kv.1 = foldName a.key := by simpa [keyMatches] using hm
      rw [← hgk] at hm'
      rw [← hm']
      exact List.mem_map_of_mem (fun f : Field => foldName f.key) hg
    have htail : ∀ g ∈ l, keyMatches g.key a.key = false := by
      intro g hg
      unfold FoldOK at hfo
      simp only [List.map_cons, List.nodup_cons] at hfo
      by_contra hc
      simp only [Bool.not_eq_false] at hc
      apply hfo.1
      have hm' : foldName a.key = foldName g.key := by simpa [keyMatches] using hc
      rw [hm']
      exact List.mem_map_of_mem (fun f : Field => foldName f.key) hg
    unfold encodeFields at he
    cases hl : vs.lookup a.name with
    | none =>
      rw [hl] at he
      cases he
    | some y =>
      rw [hl] at he
      dsimp only at he
      by_cases hom : (a.omitempty && a.type.isEmptyValue y) = true
      · rw [if_pos hom] at he
        rcases List.mem_cons.mp hf with rfl | hf'
        · rw [hl] at hx
          cases hx
          exact ⟨fun _ => hhead ms he, fun hc => by rw [hom] at hc; cases hc⟩
        · exact ih hfo' ms he f hf' x hx
      · rw [if_neg hom] at he
        cases hm : a.type.marshal y with
        | error e =>
          rw [hm] at he
          cases he
        | ok j =>
          rw [hm] at he
          dsimp only at he
          cases hr : encodeFields l vs with
          | error e =>
            rw [hr] at he
            cases he
          | ok ms' =>
            rw [hr] at he
            cases he
            rcases List.mem_cons.mp hf with rfl | hf'
            · rw [hl] at hx
              cases hx
              have hkm : keyMatches f.key f.key = true := by simp [keyMatches]
              refine ⟨fun hc => absurd hc hom, fun _ => ⟨j, hm, ?_⟩⟩
              rw [membersFor_cons_of_match _ _ _ _ hkm, hhead ms' hr]
            · rw [membersFor_cons_of_not _ _ _ _ (htail f hf')]
              exact ih hfo' ms' hr f hf' x hx

/-- What `MarshalJSON` returns, when it returns no error: the object that the struct
encoder makes of `aux`, whose two strings are the formatted times, or empty. -/
theorem Patient_MarshalJSON_inv (sc : Strconv) (p : Struct) (bytes : Bytes)
    (h : Patient.MarshalJSON sc p = .ok bytes) :
    ∃ ms b d, bytes = .text (.obj ms)
      ∧ encodeFields (aux.fields sc) (aux.state p b d) = .ok ms
      ∧ (timeField p "BirthDate" = none → b = "")
      ∧ (∀ t, timeField p "BirthDate" = some t → b = t.Format .dateOnly)
      ∧ (timeField p "DeceasedAt" = none → d = "")
      ∧ (∀ t, timeField p "DeceasedAt" = some t → d = t.Format .RFC3339) := by
  have key : ∀ b d, json.Marshal (aux.type sc) (aux.new p b d) = .ok bytes →
      ∃ ms, bytes = .text (.obj ms)
        ∧ encodeFields (aux.fields sc) (aux.state p b d) = .ok ms := by
    intro b d hm
    have hm' : (match (match encodeFields (aux.fields sc) (aux.state p b d) with
        | .ok ms => Except.ok (JSON.obj ms)
        | .error e => .error e) with
      | .ok j => Except.ok (Bytes.text j)
      | .error e => .error e) = .ok bytes := hm
    cases he : encodeFields (aux.fields sc) (aux.state p b d) with
    | error e =>
      rw [he] at hm'
      cases hm'
    | ok ms =>
      rw [he] at hm'
      cases hm'
      exact ⟨ms, rfl, rfl⟩
  cases hB : timeField p "BirthDate" with
  | none =>
    cases hD : timeField p "DeceasedAt" with
    | none =>
      have hm : json.Marshal (aux.type sc) (aux.new p "" "") = .ok bytes := by
        simpa only [Patient.MarshalJSON, hB, hD] using h
      obtain ⟨ms, h1, h2⟩ := key _ _ hm
      exact ⟨ms, _, _, h1, h2, fun _ => rfl, fun t ht => (by cases ht), fun _ => rfl,
        fun t ht => (by cases ht)⟩
    | some td =>
      have hm : json.Marshal (aux.type sc) (aux.new p "" (td.Format .RFC3339))
          = .ok bytes := by
        simpa only [Patient.MarshalJSON, hB, hD] using h
      obtain ⟨ms, h1, h2⟩ := key _ _ hm
      exact ⟨ms, _, _, h1, h2, fun _ => rfl, fun t ht => (by cases ht),
        fun hn => (by cases hn), fun t ht => (by cases ht; rfl)⟩
  | some tb =>
    cases hD : timeField p "DeceasedAt" with
    | none =>
      have hm : json.Marshal (aux.type sc) (aux.new p (tb.Format .dateOnly) "")
          = .ok bytes := by
        simpa only [Patient.MarshalJSON, hB, hD] using h
      obtain ⟨ms, h1, h2⟩ := key _ _ hm
      exact ⟨ms, _, _, h1, h2, fun hn => (by cases hn), fun t ht => (by cases ht; rfl),
        fun _ => rfl, fun t ht => (by cases ht)⟩
    | some td =>
      have hm : json.Marshal (aux.type sc) (aux.new p (tb.Format .dateOnly)
          (td.Format .RFC3339)) = .ok bytes := by
        simpa only [Patient.MarshalJSON, hB, hD] using h
      obtain ⟨ms, h1, h2⟩ := key _ _ hm
      exact ⟨ms, _, _, h1, h2, fun hn => (by cases hn), fun t ht => (by cases ht; rfl),
        fun hn => (by cases hn), fun t ht => (by cases ht; rfl)⟩

namespace time

theorem appendInt_fixed (n w : Nat) (h : n < 10 ^ w) :
    appendInt (n : Int) w = fixedDigits w n := by
  have h0 : ¬ ((n : Int) < 0) := by omega
  simp [appendInt, h0, h]

theorem appendInt_year (y : Int) (h0 : 0 ≤ y) (h1 : y ≤ 9999) :
    appendInt y 4 = fixedDigits 4 y.toNat := by
  have e : y = (y.toNat : Int) := by omega
  have hlt : y.toNat < 10 ^ 4 := by
    norm_num
    omega
  have := appendInt_fixed y.toNat 4 hlt
  rw [← e] at this
  exact this

theorem appendDate_shape (t : Time) (hv : t.valid = true) (h0 : 0 ≤ t.year)
    (h1 : t.year ≤ 9999) :
    appendDate t = fixedDigits 4 t.year.toNat ++ '-' :: fixedDigits 2 t.month
      ++ '-' :: fixedDigits 2 t.day := by
  obtain ⟨-, hm, -, hd, -⟩ := valid_bounds hv
  have hd31 := daysIn_le t.month t.year
  unfold appendDate
  rw [appendInt_year _ h0 h1, appendInt_fixed t.month 2 (by norm_num; omega),
    appendInt_fixed t.day 2 (by norm_num; omega)]
  simp

theorem appendClock_shape (t : Time) (hv : t.valid = true) :
    appendClock t = 'T' :: fixedDigits 2 t.hour ++ ':' :: fixedDigits 2 t.minute
      ++ ':' :: fixedDigits 2 t.second := by
  obtain ⟨-, -, -, -, hh, hmi, hs, -⟩ := valid_bounds hv
  unfold appendClock
  rw [appendInt_fixed t.hour 2 (by norm_num; omega),
    appendInt_fixed t.minute 2 (by norm_num; omega),
    appendInt_fixed t.second 2 (by norm_num; omega)]
  simp

end time

theorem appendZone_isZoneSuffix (off : Int) (h : off.natAbs < 360000) :
    isZoneSuffix (time.appendZone off) := by
  unfold time.appendZone
  by_cases h0 : off = 0
  · subst h0
    exact Or.inl rfl
  · have hb : (off == 0) = false := by simpa using h0
    simp only [hb, Bool.false_eq_true, if_false]
    have hh : off.natAbs / 60 / 60 < 100 := by omega
    have hm : off.natAbs / 60 % 60 < 60 := Nat.mod_lt _ (by norm_num)
    rw [time.appendInt_fixed _ 2 (by norm_num; omega),
      time.appendInt_fixed _ 2 (by norm_num; omega)]
    right
    by_cases hneg : off ≤ -60
    · exact ⟨'-', _, _, Or.inr rfl, hh, hm, by simp [hneg]⟩
    · exact ⟨'+', _, _, Or.inl rfl, hh, hm, by simp [hneg]⟩

theorem format_dateOnly_isDateOf (t : time.Time) (hv : t.valid = true) (h0 : 0 ≤ t.year)
    (h1 : t.year ≤ 9999) : isDateOf t (t.Format .dateOnly) :=
  time.appendDate_shape t hv h0 h1

theorem isDateOf_length (t : time.Time) (s : String) (h : isDateOf t s) : s.length = 10 := by
  unfold isDateOf at h
  show s.data.length = 10
  rw [h]
  simp [time.fixedDigits_length]

theorem format_RFC3339_isTimestampOf (t : time.Time) (hv : t.valid = true)
    (h0 : 0 ≤ t.year) (h1 : t.year ≤ 9999) (hz : t.offset.natAbs < 360000) :
    isTimestampOf t (t.Format .RFC3339) := by
  refine ⟨time.appendZone t.offset, appendZone_isZoneSuffix _ hz, ?_⟩
  show time.appendDate t ++ time.appendClock t ++ time.appendZone t.offset = _
  rw [time.appendDate_shape t hv h0 h1, time.appendClock_shape t hv]
  simp

theorem format_ne_empty (t : time.Time) (l : time.Layout) : t.Format l ≠ "" := by
  intro e
  have hd := congrArg String.data e
  cases l <;>
  · simp [time.Time.Format, time.appendDate] at hd

theorem encoded_string_member (sc : Strconv) (vs : Struct) (ms : List (String × JSON))
    (he : encodeFields (aux.fields sc) vs = .ok ms) (n k : String)
    (hf : opt n k (.string "string") ∈ aux.fields sc) (s : String)
    (hl : vs.lookup n = some (.string s)) :
    membersFor k ms = if s = "" then [] else [.str s] := by
  obtain ⟨h1, h2⟩ := encodeFields_member (aux.fields sc) vs (aux_foldOK sc) ms he _ hf
    (.string s) hl
  by_cases hs : s = ""
  · subst hs
    rw [if_pos rfl]
    exact h1 rfl
  · rw [if_neg hs]
    have hne : (s == "") = false := by simpa using hs
    obtain ⟨j, hj, hm⟩ := h2 (by
      show (true && (s == "")) = false
      simp [hne])
    cases hj
    exact hm

/-- The temporal members of the object that `MarshalJSON` returns: none for a nil
field, and else one member, the formatted time. -/
theorem Patient_encoded_times (sc : Strconv) (p : Struct) (bytes : Bytes)
    (hp : Patient.hasType sc p) (h : Patient.MarshalJSON sc p = .ok bytes) :
    ∃ ms, bytes = .text (.obj ms)
      ∧ (timeField p "BirthDate" = none → membersFor "birthDate" ms = [])
      ∧ (∀ t, timeField p "BirthDate" = some t →
          membersFor "birthDate" ms = [.str (t.Format .dateOnly)])
      ∧ (timeField p "DeceasedAt" = none → membersFor "deceasedDateTime" ms = [])
      ∧ (∀ t, timeField p "DeceasedAt" = some t →
          membersFor "deceasedDateTime" ms = [.str (t.Format .RFC3339)]) := by
  obtain ⟨ms, b, d, hb, he, b0, b1, d0, d1⟩ := Patient_MarshalJSON_inv sc p bytes h
  obtain ⟨hlB, hlD, -⟩ := aux_state_lookup sc p hp b d
  have hB := encoded_string_member sc _ ms he _ _ (aux_birth_mem sc) b hlB
  have hD := encoded_string_member sc _ ms he _ _ (aux_deceased_mem sc) d hlD
  refine ⟨ms, hb, ?_, ?_, ?_, ?_⟩
  · intro hn
    rw [hB, b0 hn, if_pos rfl]
  · intro t ht
    rw [hB, b1 t ht, if_neg (format_ne_empty t _)]
  · intro hn
    rw [hD, d0 hn, if_pos rfl]
  · intro t ht
    rw [hD, d1 t ht, if_neg (format_ne_empty t _)]

theorem timeField_valid (sc : Strconv) (p : Struct) (hp : Patient.hasType sc p)
    (t : time.Time) :
    (timeField p "BirthDate" = some t → t.valid = true)
      ∧ (timeField p "DeceasedAt" = some t → t.valid = true) := by
  constructor
  · intro ht
    rcases Patient_time_field sc p hp "BirthDate" "birthDate" (birthDate_mem sc) with
      ⟨-, h2⟩ | ⟨t', -, h2, h3⟩
    · rw [h2] at ht
      cases ht
    · rw [h2] at ht
      cases ht
      exact h3
  · intro ht
    rcases Patient_time_field sc p hp "DeceasedAt" "deceasedDateTime" (deceasedAt_mem sc)
      with ⟨-, h2⟩ | ⟨t', -, h2, h3⟩
    · rw [h2] at ht
      cases ht
    · rw [h2] at ht
      cases ht
      exact h3

/-! ## The request that `doRequest` sends -/

/-- The request that `doRequest` makes for a body that is encoded: method, URL and body
as given, with the headers of the handler. -/
theorem newRequest_eq (o : HTTPOperation) (method url : String) (body : Option Bytes) :
    o.newRequest method url (body.map .ok) = ⟨method, url, body, o.sentHeader body.isSome⟩ := by
  cases body with
  | none => rfl
  | some d => rfl

/-- When the client answers the request with a status in 200..299, `doRequest` returns
the response body. -/
theorem doRequest_answers (lib : GoLib) (o : HTTPOperation) (method url : String)
    (body : Option Bytes) (b : String) (h : o.Answers lib method url body b) :
    o.doRequest lib method url (body.map .ok) = (some b, none) := by
  obtain ⟨hreq, c, h1, h2, hdo⟩ := h
  rw [← newRequest_eq] at hdo
  have hc : (decide (c < 200) || decide (c ≥ 300)) = false := by
    simp only [Bool.or_eq_false_iff, decide_eq_false_iff_not, not_lt, ge_iff_le, not_le]
    exact ⟨h1, h2⟩
  unfold HTTPOperation.doRequest
  cases body with
  | none =>
    simp only [Option.map_none'] at hdo ⊢
    simp only [hreq, hdo, hc]
    rfl
  | some d =>
    simp only [Option.map_some'] at hdo ⊢
    simp only [hreq, hdo, hc]
    rfl

theorem toResource_answers (sc : Strconv) (lib : GoLib) (o : HTTPOperation)
    (method url : String) (body : Option Bytes) (b : String)
    (h : o.Answers lib method url body b) :
    o.toResource sc lib (o.doRequest lib method url (body.map .ok))
      = o.mapper.UnmarshalResource sc (lib.scan b) := by
  rw [doRequest_answers lib o method url body b h]
  rfl

theorem toBundle_answers (sc : Strconv) (lib : GoLib) (o : HTTPOperation)
    (method url : String) (body : Option Bytes) (b : String)
    (h : o.Answers lib method url body b) :
    o.toBundle sc lib (o.doRequest lib method url (body.map .ok))
      = o.mapper.UnmarshalBundle sc (lib.scan b) := by
  rw [doRequest_answers lib o method url body b h]
  rfl

/-! ## The order of the members that the encoder emits -/

theorem encodeFields_sublist (fs : List Field) (vs : Struct) :
    ∀ ms, encodeFields fs vs = .ok ms → (ms.map Prod.fst).Sublist (fs.map (·.key)) := by
  induction fs with
  | nil =>
    intro ms h
    simp only [encodeFields] at h
    cases h
    exact List.Sublist.refl _
  | cons f fs ih =>
    intro ms h
    rw [encodeFields] at h
    cases hl : vs.lookup f.name with
    | none =>
      rw [hl] at h
      cases h
    | some x =>
      rw [hl] at h
      simp only at h
      by_cases he : (f.omitempty && f.type.isEmptyValue x) = true
      · rw [if_pos he] at h
        exact (ih ms h).cons _
      · rw [if_neg he] at h
        cases hm : f.type.marshal x with
        | error e =>
          rw [hm] at h
          cases h
        | ok j =>
          rw [hm] at h
          simp only at h
          cases hr : encodeFields fs vs with
          | error e =>
            rw [hr] at h
            cases h
          | ok rest =>
            rw [hr] at h
            cases h
            exact (ih rest hr).cons₂ _

theorem Bundle_fields_keys (sc : Strconv) :
    (Bundle.fields sc).map (·.key)
      = ["resourceType", "id", "meta", "language", "text", "extension", "contained",
          "type", "total", "link", "entry"] := rfl

theorem keyOrder_nodup (sc : Strconv) (r : Resource) : (Resource.keyOrder sc r).Nodup := by
  cases r with
  | patient p =>
    show ((aux.fields sc).map (·.key)).Nodup
    rw [aux.fields_keys]
    decide
  | bundle b =>
    show ((Bundle.fields sc).map (·.key)).Nodup
    rw [Bundle_fields_keys]
    decide

/-- The encoding of a resource is an object whose member keys are, in their order,
keys of the field table of its type in the order of the table, none twice. -/
theorem MarshalResource_keyOrder (sc : Strconv) (r : Resource) (typed : Bytes)
    (h : json.MarshalResource sc r = .ok typed) :
    ∃ out, typed = .text (.obj out)
      ∧ (out.map Prod.fst).Sublist (Resource.keyOrder sc r)
      ∧ (out.map Prod.fst).Nodup := by
  have hmain : ∃ out, typed = .text (.obj out)
      ∧ (out.map Prod.fst).Sublist (Resource.keyOrder sc r) := by
    cases r with
    | patient p =>
      obtain ⟨out, b, d, hb, he, -⟩ := Patient_MarshalJSON_inv sc p typed h
      exact ⟨out, hb, encodeFields_sublist _ _ out he⟩
    | bundle b =>
      have e : json.MarshalResource sc (.bundle b)
          = match encodeFields (Bundle.fields sc) b with
            | .ok ms => .ok (.text (.obj ms))
            | .error e => .error e := by
        simp only [json.MarshalResource, json.Marshal, Bundle.type, GoType.struct]
        cases encodeFields (Bundle.fields sc) b <;> rfl
      rw [e] at h
      cases he : encodeFields (Bundle.fields sc) b with
      | error e' =>
        rw [he] at h
        cases h
      | ok ms =>
        rw [he] at h
        cases h
        exact ⟨ms, rfl, encodeFields_sublist _ _ ms he⟩
  obtain ⟨out, h1, h2⟩ := hmain
  exact ⟨out, h1, h2, h2.nodup (keyOrder_nodup sc r)⟩

/-! ## Objects without repeated member names -/

/-- C11 fails as stated: the patient that `NewPatient` makes, with `BirthDate` set to
the first day of the year 10000, is encoded without error, and the `birthDate` member
of the object is `10000-01-01`, which has eleven characters, not ten. -/
theorem C11_temporal_encode_counterexample :
    Patient.hasType Strconv.zeroOnly (farFuturePatient Strconv.zeroOnly)
      ∧ timeField (farFuturePatient Strconv.zeroOnly) "BirthDate"
          = some (time.dateUTC 10000 1 1)
      ∧ ∃ ms, Patient.MarshalJSON Strconv.zeroOnly (farFuturePatient Strconv.zeroOnly)
            = .ok (.text (.obj ms))
          ∧ membersFor "birthDate" ms = [.str "10000-01-01"]
          ∧ "10000-01-01".length = 11 :=
  ⟨rfl, rfl, [("resourceType", .str "Patient"), ("birthDate", .str "10000-01-01")], rfl,
    rfl, by decide⟩

/-- C11, amended: in the object that `MarshalJSON` returns for a Patient, a non-nil
`BirthDate` gives exactly one `birthDate` member, the string `Format("2006-01-02")` of
it, which for a year in 0..9999 is the ten characters `YYYY-MM-DD` of the date, with no
time of day and no zone; and a non-nil `DeceasedAt` gives exactly one
`deceasedDateTime` member, the string `Format(time.RFC3339)` of it, which for a year in
0..9999 and a zone offset under 100 hours is `YYYY-MM-DDThh:mm:ss` followed by the zone
offset as `Z` or a sign and `hh:mm`.  The patient John Doe born on 2000-01-01 is
encoded, decoded, and the decoded `BirthDate` is formatted back to `2000-01-01`. -/
theorem C11_temporal_encode (sc : Strconv) (p : Struct) (bytes : Bytes)
    (hp : Patient.hasType sc p) (h : Patient.MarshalJSON sc p = .ok bytes) :
    (∃ ms, bytes = .text (.obj ms)
      ∧ (∀ t, timeField p "BirthDate" = some t →
          membersFor "birthDate" ms = [.str (t.Format .dateOnly)]
            ∧ (0 ≤ t.year → t.year ≤ 9999 →
                isDateOf t (t.Format .dateOnly) ∧ (t.Format .dateOnly).length = 10))
      ∧ (∀ t, timeField p "DeceasedAt" = some t →
          membersFor "deceasedDateTime" ms = [.str (t.Format .RFC3339)]
            ∧ (0 ≤ t.year → t.year ≤ 9999 → t.offset.natAbs < 360000 →
                isTimestampOf t (t.Format .RFC3339))))
      ∧ ∃ data p' t, Patient.MarshalJSON sc (doePatient sc) = .ok data
          ∧ Patient.UnmarshalJSON sc (zeroStruct (Patient.goFields sc)) data = (p', none)
          ∧ timeField p' "BirthDate" = some t
          ∧ t.Format .dateOnly = "2000-01-01" := by
  obtain ⟨ms, hb, -, hB, -, hD⟩ := Patient_encoded_times sc p bytes hp h
  refine ⟨⟨ms, hb, ?_, ?_⟩, ?_⟩
  · intro t ht
    have hv := (timeField_valid sc p hp t).1 ht
    refine ⟨hB t ht, fun h0 h1 => ?_⟩
    have hd := format_dateOnly_isDateOf t hv h0 h1
    exact ⟨hd, isDateOf_length t _ hd⟩
  · intro t ht
    have hv := (timeField_valid sc p hp t).2 ht
    exact ⟨hD t ht, fun h0 h1 hz => format_RFC3339_isTimestampOf t hv h0 h1 hz⟩
  · exact ⟨_, _, _, rfl, rfl, rfl, rfl⟩

theorem C11_temporal_encode_witness :
    Patient.hasType Strconv.zeroOnly (doePatient Strconv.zeroOnly)
      ∧ Patient.MarshalJSON Strconv.zeroOnly (doePatient Strconv.zeroOnly)
          = .ok (.text (.obj [("resourceType", .str "Patient"),
              ("name", .arr [.obj [("family", .str "Doe"), ("given", .arr [.str "John"])]]),
              ("gender", .str "male"), ("birthDate", .str "2000-01-01")]))
      ∧ ((∃ ms, Bytes.text (.obj [("resourceType", .str "Patient"),
              ("name", .arr [.obj [("family", .str "Doe"), ("given", .arr [.str "John"])]]),
              ("gender", .str "male"), ("birthDate", .str "2000-01-01")])
            = .text (.obj ms)
          ∧ (∀ t, timeField (doePatient Strconv.zeroOnly) "BirthDate" = some t →
              membersFor "birthDate" ms = [.str (t.Format .dateOnly)]
                ∧ (0 ≤ t.year → t.year ≤ 9999 →
                    isDateOf t (t.Format .dateOnly) ∧ (t.Format .dateOnly).length = 10))
          ∧ (∀ t, timeField (doePatient Strconv.zeroOnly) "DeceasedAt" = some t →
              membersFor "deceasedDateTime" ms = [.str (t.Format .RFC3339)]
                ∧ (0 ≤ t.year → t.year ≤ 9999 → t.offset.natAbs < 360000 →
                    isTimestampOf t (t.Format .RFC3339))))
        ∧ ∃ data p' t, Patient.MarshalJSON Strconv.zeroOnly (doePatient Strconv.zeroOnly)
              = .ok data
            ∧ Patient.UnmarshalJSON Strconv.zeroOnly
                (zeroStruct (Patient.goFields Strconv.zeroOnly)) data = (p', none)
            ∧ timeField p' "BirthDate" = some t
            ∧ t.Format .dateOnly = "2000-01-01") :=
  ⟨rfl, rfl, C11_temporal_encode Strconv.zeroOnly (doePatient Strconv.zeroOnly) _ rfl rfl⟩

/-- C12: in the object that `MarshalJSON` returns for a Patient, there is no
`birthDate` member when `BirthDate` is nil and no `deceasedDateTime` member when
`DeceasedAt` is nil, and no member of either key is ever `null` or the empty
string. -/
theorem C12_absent_temporal_omitted (sc : Strconv) (p : Struct) (bytes : Bytes)
    (hp : Patient.hasType sc p) (h : Patient.MarshalJSON sc p = .ok bytes) :
    ∃ ms, bytes = .text (.obj ms)
      ∧ (p.lookup "BirthDate" = some .nilPtr → membersFor "birthDate" ms = [])
      ∧ (p.lookup "DeceasedAt" = some .nilPtr → membersFor "deceasedDateTime" ms = [])
      ∧ (∀ j ∈ membersFor "birthDate" ms, j ≠ .null ∧ j ≠ .str "")
      ∧ (∀ j ∈ membersFor "deceasedDateTime" ms, j ≠ .null ∧ j ≠ .str "") := by
  obtain ⟨ms, hb, hB0, hB, hD0, hD⟩ := Patient_encoded_times sc p bytes hp h
  have key : ∀ (t : time.Time) (l : time.Layout) (j : JSON), j ∈ [JSON.str (t.Format l)] →
      j ≠ .null ∧ j ≠ .str "" := by
    intro t l j hj
    rw [List.mem_singleton] at hj
    subst hj
    exact ⟨fun e => (by cases e), fun e => format_ne_empty t l (JSON.str.inj e)⟩
  refine ⟨ms, hb, ?_, ?_, ?_, ?_⟩
  · intro hn
    exact hB0 (by simp [timeField, hn])
  · intro hn
    exact hD0 (by simp [timeField, hn])
  · intro j hj
    cases ht : timeField p "BirthDate" with
    | none =>
      rw [hB0 ht] at hj
      cases hj
    | some t =>
      rw [hB t ht] at hj
      exact key t _ j hj
  · intro j hj
    cases ht : timeField p "DeceasedAt" with
    | none =>
      rw [hD0 ht] at hj
      cases hj
    | some t =>
      rw [hD t ht] at hj
      exact key t _ j hj

theorem C12_absent_temporal_omitted_witness :
    Patient.hasType Strconv.zeroOnly (NewPatient Strconv.zeroOnly)
      ∧ Patient.MarshalJSON Strconv.zeroOnly (NewPatient Strconv.zeroOnly)
          = .ok (.text (.obj [("resourceType", .str "Patient")]))
      ∧ ∃ ms, Bytes.text (.obj [("resourceType", .str "Patient")]) = .text (.obj ms)
          ∧ ((NewPatient Strconv.zeroOnly).lookup "BirthDate" = some .nilPtr →
              membersFor "birthDate" ms = [])
          ∧ ((NewPatient Strconv.zeroOnly).lookup "DeceasedAt" = some .nilPtr →
              membersFor "deceasedDateTime" ms = [])
          ∧ (∀ j ∈ membersFor "birthDate" ms, j ≠ .null ∧ j ≠ .str "")
          ∧ (∀ j ∈ membersFor "deceasedDateTime" ms, j ≠ .null ∧ j ≠ .str "") :=
  ⟨rfl, rfl, C12_absent_temporal_omitted Strconv.zeroOnly (NewPatient Strconv.zeroOnly) _
    rfl rfl⟩

/-- C18: when the request body (if any) is encoded, the request is created and the
client answers it with the status code `c` and a body `b` that is read without error,
`doRequest` returns `b` unchanged and no error if `200 <= c < 300`, and otherwise no
body and the error `server returned error status c: b`, with `c` in decimal and `b`
verbatim. -/
theorem C18_status_classification (lib : GoLib) (o : HTTPOperation) (method url : String)
    (body : Option (Except Err Bytes)) (c : Int) (b : String)
    (hbody : ∀ e, body ≠ some (.error e))
    (hreq : lib.newRequest method url = none)
    (hdo : o.client.Do (o.newRequest method url body) = .ok ⟨c, .ok b⟩) :
    (200 ≤ c ∧ c < 300 → o.doRequest lib method url body = (some b, none))
      ∧ (¬ (200 ≤ c ∧ c < 300) → o.doRequest lib method url body
          = (none, some (.errorf ("server returned error status " ++ toString c ++ ": "
              ++ b)))) := by
  have hunf : o.doRequest lib method url body
      = if c < 200 || c >= 300 then
          (none, some (.errorf ("server returned error status " ++ toString c ++ ": " ++ b)))
        else (some b, none) := by
    unfold HTTPOperation.doRequest
    cases body with
    | none => simp only [hreq, hdo]
    | some r =>
      cases r with
      | error e => exact absurd rfl (hbody e)
      | ok d => simp only [hreq, hdo]
  rw [hunf]
  constructor
  · rintro ⟨h1, h2⟩
    have : (decide (c < 200) || decide (c ≥ 300)) = false := by
      simp only [Bool.or_eq_false_iff, decide_eq_false_iff_not, not_lt, ge_iff_le, not_le]
      exact ⟨h1, h2⟩
    rw [this]
    rfl
  · intro h
    have : (decide (c < 200) || decide (c ≥ 300)) = true := by
      simp only [Bool.or_eq_true, decide_eq_true_eq, ge_iff_le]
      by_contra hc
      simp only [not_or, not_lt, not_le] at hc
      exact h hc
    rw [this]
    rfl

theorem C18_status_classification_witness :
    (¬ (200 ≤ (404 : Int) ∧ (404 : Int) < 300)
      ∧ (stubOperation 404 "\x7b\"issue\":[]\x7d").doRequest stubLib "GET"
          "http://fhir.example/Patient/1" none
        = (none, some (.errorf "server returned error status 404: \x7b\"issue\":[]\x7d")))
    ∧ ((200 ≤ (201 : Int) ∧ (201 : Int) < 300)
      ∧ (stubOperation 201 "\x7b\"resourceType\":\"Patient\",\"id\":\"1\"\x7d").doRequest
          stubLib "POST" "http://fhir.example/Patient" (some (.ok (.text (.obj []))))
        = (some "\x7b\"resourceType\":\"Patient\",\"id\":\"1\"\x7d", none)) :=
  ⟨⟨by decide, (C18_status_classification stubLib (stubOperation 404 "\x7b\"issue\":[]\x7d")
      "GET" "http://fhir.example/Patient/1" none 404 "\x7b\"issue\":[]\x7d"
      (fun _ h => Option.noConfusion h) rfl rfl).2 (by decide)⟩,
    ⟨by decide, (C18_status_classification stubLib
      (stubOperation 201 "\x7b\"resourceType\":\"Patient\",\"id\":\"1\"\x7d") "POST"
      "http://fhir.example/Patient" (some (.ok (.text (.obj [])))) 201
      "\x7b\"resourceType\":\"Patient\",\"id\":\"1\"\x7d"
      (fun _ h => Except.noConfusion (Option.some.inj h)) rfl rfl).1 (by decide)⟩⟩

/-- C19: for every base URL and segments that are all non-empty, `buildURL` returns the
base URL followed by a slash and the segment for each segment in order, nothing
escaped; so, for non-empty arguments, Read, Update, Patch and Delete send their request
to `base/type/id`, Vread to `base/type/id/_history/version`, History to
`base/type/id/_history`, Create and Search to `base/type` (Search and History append
`?` and the encoded parameters when they are given), Transaction to the base URL and
the custom operation `n` to `base/$n`.  The request that is sent is fixed by its answer:
whenever the client answers the request with the method of the operation to this URL,
with the encoded body (if any) and the headers of the handler, with a status in
200..299 and the body `b`, the operation returns what its mapper decodes from `b`, and
Delete returns no error, whatever the client answers to any other request. -/
theorem C19_url_shape (sc : Strconv) (lib : GoLib) (o : HTTPOperation)
    (parts : List String) (rt id vid n : String) (body : Option (Except Err Bytes))
    (params : Option Parameters) (jsonData : Option Bytes) (b : String)
    (hparts : ∀ s ∈ parts, s ≠ "") (hrt : rt ≠ "") (hid : id ≠ "") (hvid : vid ≠ "") :
    o.buildURL parts = o.baseURL ++ String.join (parts.map (fun s => "/" ++ s))
      ∧ o.Read sc lib rt id
          = o.toResource sc lib (o.doRequest lib "GET" (o.baseURL ++ "/" ++ rt ++ "/" ++ id)
              none)
      ∧ o.Update sc lib rt id body
          = o.toResource sc lib (o.doRequest lib "PUT" (o.baseURL ++ "/" ++ rt ++ "/" ++ id)
              body)
      ∧ o.Patch sc lib rt id body
          = o.toResource sc lib (o.doRequest lib "PATCH"
              (o.baseURL ++ "/" ++ rt ++ "/" ++ id) body)
      ∧ o.Delete lib rt id
          = (o.doRequest lib "DELETE" (o.baseURL ++ "/" ++ rt ++ "/" ++ id) none).2
      ∧ o.Vread sc lib rt id vid
          = o.toResource sc lib (o.doRequest lib "GET"
              (o.baseURL ++ "/" ++ rt ++ "/" ++ id ++ "/" ++ "_history" ++ "/" ++ vid) none)
      ∧ o.History sc lib rt id params
          = o.toBundle sc lib (o.doRequest lib "GET" (HTTPOperation.withQuery
              (o.baseURL ++ "/" ++ rt ++ "/" ++ id ++ "/" ++ "_history") params) none)
      ∧ o.Create sc lib rt body
          = o.toResource sc lib (o.doRequest lib "POST" (o.baseURL ++ "/" ++ rt) body)
      ∧ o.Search sc lib rt params
          = o.toBundle sc lib (o.doRequest lib "GET"
              (HTTPOperation.withQuery (o.baseURL ++ "/" ++ rt) params) none)
      ∧ o.Transaction sc lib body = o.toBundle sc lib (o.doRequest lib "POST" o.baseURL body)
      ∧ o.Operation sc lib n body
          = o.toResource sc lib (o.doRequest lib "POST" (o.baseURL ++ "/" ++ "$" ++ n)
              body)
      ∧ (o.Answers lib "GET" (o.baseURL ++ "/" ++ rt ++ "/" ++ id) none b →
          o.Read sc lib rt id = o.mapper.UnmarshalResource sc (lib.scan b))
      ∧ (o.Answers lib "PUT" (o.baseURL ++ "/" ++ rt ++ "/" ++ id) jsonData b →
          o.Update sc lib rt id (jsonData.map .ok)
            = o.mapper.UnmarshalResource sc (lib.scan b))
      ∧ (o.Answers lib "PATCH" (o.baseURL ++ "/" ++ rt ++ "/" ++ id) jsonData b →
          o.Patch sc lib rt id (jsonData.map .ok)
            = o.mapper.UnmarshalResource sc (lib.scan b))
      ∧ (o.Answers lib "DELETE" (o.baseURL ++ "/" ++ rt ++ "/" ++ id) none b →
          o.Delete lib rt id = none)
      ∧ (o.Answers lib "GET"
            (o.baseURL ++ "/" ++ rt ++ "/" ++ id ++ "/" ++ "_history" ++ "/" ++ vid) none b →
          o.Vread sc lib rt id vid = o.mapper.UnmarshalResource sc (lib.scan b))
      ∧ (o.Answers lib "GET" (HTTPOperation.withQuery
            (o.baseURL ++ "/" ++ rt ++ "/" ++ id ++ "/" ++ "_history") params) none b →
          o.History sc lib rt id params = o.mapper.UnmarshalBundle sc (lib.scan b))
      ∧ (o.Answers lib "POST" (o.baseURL ++ "/" ++ rt) jsonData b →
          o.Create sc lib rt (jsonData.map .ok)
            = o.mapper.UnmarshalResource sc (lib.scan b))
      ∧ (o.Answers lib "GET" (HTTPOperation.withQuery (o.baseURL ++ "/" ++ rt) params)
            none b →
          o.Search sc lib rt params = o.mapper.UnmarshalBundle sc (lib.scan b))
      ∧ (o.Answers lib "POST" o.baseURL jsonData b →
          o.Transaction sc lib (jsonData.map .ok)
            = o.mapper.UnmarshalBundle sc (lib.scan b))
      ∧ (o.Answers lib "POST" (o.baseURL ++ "/" ++ "$" ++ n) jsonData b →
          o.Operation sc lib n (jsonData.map .ok)
            = o.mapper.UnmarshalResource sc (lib.scan b)) := by
  have h1 : o.buildURL [rt] = o.baseURL ++ "/" ++ rt := by
    simp [HTTPOperation.buildURL, hrt]
  have h2 : o.buildURL [rt, id] = o.baseURL ++ "/" ++ rt ++ "/" ++ id := by
    simp [HTTPOperation.buildURL, hrt, hid]
  have h3 : o.buildURL [rt, id, "_history"]
      = o.baseURL ++ "/" ++ rt ++ "/" ++ id ++ "/" ++ "_history" := by
    simp [HTTPOperation.buildURL, hrt, hid]
  have h4 : o.buildURL [rt, id, "_history", vid]
      = o.baseURL ++ "/" ++ rt ++ "/" ++ id ++ "/" ++ "_history" ++ "/" ++ vid := by
    simp [HTTPOperation.buildURL, hrt, hid, hvid]
  have h5 : o.buildURL ["$" ++ n] = o.baseURL ++ "/" ++ "$" ++ n := by
    have hne : ("$" ++ n != "") = true := by
      have : "$" ++ n ≠ "" := by
        intro e
        have := congrArg String.length e
        simp only [String.length_append] at this
        have h1 : "$".length = 1 := by decide
        have h0 : "".length = 0 := by decide
        omega
      simpa using this
    simp only [HTTPOperation.buildURL, List.foldl_cons, hne, if_true, List.foldl_nil]
    apply String.ext
    simp
  have hR : o.Read sc lib rt id
      = o.toResource sc lib (o.doRequest lib "GET" (o.baseURL ++ "/" ++ rt ++ "/" ++ id)
          none) := by
    simp only [HTTPOperation.Read, h2]
  have hU : ∀ x, o.Update sc lib rt id x
      = o.toResource sc lib (o.doRequest lib "PUT" (o.baseURL ++ "/" ++ rt ++ "/" ++ id)
          x) := by
    intro x
    simp only [HTTPOperation.Update, h2]
  have hP : ∀ x, o.Patch sc lib rt id x
      = o.toResource sc lib (o.doRequest lib "PATCH"
          (o.baseURL ++ "/" ++ rt ++ "/" ++ id) x) := by
    intro x
    simp only [HTTPOperation.Patch, h2]
  have hD : o.Delete lib rt id
      = (o.doRequest lib "DELETE" (o.baseURL ++ "/" ++ rt ++ "/" ++ id) none).2 := by
    simp only [HTTPOperation.Delete, h2]
  have hV : o.Vread sc lib rt id vid
      = o.toResource sc lib (o.doRequest lib "GET"
          (o.baseURL ++ "/" ++ rt ++ "/" ++ id ++ "/" ++ "_history" ++ "/" ++ vid) none) := by
    simp only [HTTPOperation.Vread, h4]
  have hH : o.History sc lib rt id params
      = o.toBundle sc lib (o.doRequest lib "GET" (HTTPOperation.withQuery
          (o.baseURL ++ "/" ++ rt ++ "/" ++ id ++ "/" ++ "_history") params) none) := by
    simp only [HTTPOperation.History, h3]
  have hC : ∀ x, o.Create sc lib rt x
      = o.toResource sc lib (o.doRequest lib "POST" (o.baseURL ++ "/" ++ rt) x) := by
    intro x
    simp only [HTTPOperation.Create, h1]
  have hS : o.Search sc lib rt params
      = o.toBundle sc lib (o.doRequest lib "GET"
          (HTTPOperation.withQuery (o.baseURL ++ "/" ++ rt) params) none) := by
    simp only [HTTPOperation.Search, h1]
  have hT : ∀ x, o.Transaction sc lib x
      = o.toBundle sc lib (o.doRequest lib "POST" o.baseURL x) := fun _ => rfl
  have hO : ∀ x, o.Operation sc lib n x
      = o.toResource sc lib (o.doRequest lib "POST" (o.baseURL ++ "/" ++ "$" ++ n)
          x) := by
    intro x
    simp only [HTTPOperation.Operation, h5]
  refine ⟨buildURL_nonempty o parts hparts, hR, hU body, hP body, hD, hV, hH, hC body, hS,
    hT body, hO body, ?_, ?_, ?_, ?_, ?_, ?_, ?_, ?_, ?_, ?_⟩
  · intro ha
    exact hR.trans (toResource_answers sc lib o _ _ none b ha)
  · intro ha
    exact (hU _).trans (toResource_answers sc lib o _ _ jsonData b ha)
  · intro ha
    exact (hP _).trans (toResource_answers sc lib o _ _ jsonData b ha)
  · intro ha
    exact hD.trans (congrArg Prod.snd (doRequest_answers lib o _ _ none b ha))
  · intro ha
    exact hV.trans (toResource_answers sc lib o _ _ none b ha)
  · intro ha
    exact hH.trans (toBundle_answers sc lib o _ _ none b ha)
  · intro ha
    exact (hC _).trans (toResource_answers sc lib o _ _ jsonData b ha)
  · intro ha
    exact hS.trans (toBundle_answers sc lib o _ _ none b ha)
  · intro ha
    exact (hT _).trans (toBundle_answers sc lib o _ _ jsonData b ha)
  · intro ha
    exact (hO _).trans (toResource_answers sc lib o _ _ jsonData b ha)

theorem C19_url_shape_witness :
    (∀ s ∈ ["Patient", "123"], s ≠ "") ∧ "Patient" ≠ "" ∧ "123" ≠ "" ∧ "2" ≠ ""
      ∧ (routedOperation "GET" "http://fhir.example/Patient/123" 200 patient123Body).Answers
          routedLib "GET" "http://fhir.example/Patient/123" none patient123Body
      ∧ (routedOperation "GET" "http://fhir.example/Patient/123" 200 patient123Body).buildURL
          ["Patient", "123"] = "http://fhir.example/Patient/123"
      ∧ (routedOperation "GET" "http://fhir.example/Patient/123" 200 patient123Body).Read
          Strconv.zeroOnly routedLib "Patient" "123"
          = (some (.patient (fieldSet (NewPatient Strconv.zeroOnly) "ID" (.string "123"))),
              none)
      ∧ (routedOperation "GET" "http://fhir.example/Patient/123" 200 patient123Body).Read
          Strconv.zeroOnly routedLib "Patient" "124"
          = (none, some (.errorf "server returned error status 404: ")) :=
  have ha : (routedOperation "GET" "http://fhir.example/Patient/123" 200
      patient123Body).Answers routedLib "GET" "http://fhir.example/Patient/123" none
      patient123Body := ⟨rfl, 200, by decide, by decide, rfl⟩
  have h := C19_url_shape Strconv.zeroOnly routedLib
    (routedOperation "GET" "http://fhir.example/Patient/123" 200 patient123Body)
    ["Patient", "123"] "Patient" "123" "2" "everything" none none none patient123Body
    (by decide) (by decide) (by decide) (by decide)
  ⟨by decide, by decide, by decide, by decide, ha, h.1.trans (by decide),
    (h.2.2.2.2.2.2.2.2.2.2.2.1 ha).trans rfl, rfl⟩

/-- C20: each helper of `Parameters` appends one value to the values of one key and
leaves the values of every other key as they were: `Contains`, `Exact`, `Missing` and
`Type` append the value as given (`true` or `false` for `Missing`) under the key
`field:modifier`, and the comparator helpers append the value after its two-letter
comparator under the key `field`. -/
theorem C20_search_grammar (p : Parameters) (field value k : String) (isMissing : Bool) :
    ((p.Contains field value).params.values k
        = if k = field ++ ":" ++ "contains" then p.params.values k ++ [value]
          else p.params.values k)
      ∧ ((p.Exact field value).params.values k
        = if k = field ++ ":" ++ "exact" then p.params.values k ++ [value]
          else p.params.values k)
      ∧ ((p.Missing field isMissing).params.values k
        = if k = field ++ ":" ++ "missing"
          then p.params.values k ++ [if isMissing then "true" else "false"]
          else p.params.values k)
      ∧ ((p.Type' field value).params.values k
        = if k = field ++ ":" ++ "type" then p.params.values k ++ [value]
          else p.params.values k)
      ∧ ((p.EqualTo field value).params.values k
        = if k = field then p.params.values k ++ ["eq" ++ value] else p.params.values k)
      ∧ ((p.NotEqualTo field value).params.values k
        = if k = field then p.params.values k ++ ["ne" ++ value] else p.params.values k)
      ∧ ((p.Above field value).params.values k
        = if k = field then p.params.values k ++ ["gt" ++ value] else p.params.values k)
      ∧ ((p.Below field value).params.values k
        = if k = field then p.params.values k ++ ["lt" ++ value] else p.params.values k)
      ∧ ((p.GreaterThanOrEqual field value).params.values k
        = if k = field then p.params.values k ++ ["ge" ++ value] else p.params.values k)
      ∧ ((p.LessThanOrEqual field value).params.values k
        = if k = field then p.params.values k ++ ["le" ++ value] else p.params.values k)
      ∧ ((p.StartsWith field value).params.values k
        = if k = field then p.params.values k ++ ["sw" ++ value] else p.params.values k)
      ∧ ((p.EndsWith field value).params.values k
        = if k = field then p.params.values k ++ ["ew" ++ value] else p.params.values k) := by
  refine ⟨?_, ?_, ?_, ?_, ?_, ?_, ?_, ?_, ?_, ?_, ?_, ?_⟩
  · exact values_Add _ _ _ _
  · exact values_Add _ _ _ _
  · exact values_Add _ _ _ _
  · exact values_Add _ _ _ _
  · exact values_Add _ _ _ _
  · exact values_Add _ _ _ _
  · exact values_Add _ _ _ _
  · exact values_Add _ _ _ _
  · exact values_Add _ _ _ _
  · exact values_Add _ _ _ _
  · exact values_Add _ _ _ _
  · exact values_Add _ _ _ _

/-- C13 fails as stated: the payload `{"resourceType":"Bundle","type":"searchset",
"entry":[{"resource":{"resourceType":"Observation","id":"o1"}}]}` is a well-formed
Bundle payload, which `json.Unmarshal` decodes into a `Bundle` without error, and yet
`UnmarshalBundle` of the default mapper returns no bundle and the error
`failed to unmarshal bundle entry 0: unsupported resource type: Observation`. -/
theorem C13_bundle_entry_types_counterexample :
    (decodeBundle Strconv.zeroOnly (.text (.obj observationBundleMembers))).2 = none
      ∧ (NewResourceMapper Strconv.zeroOnly).UnmarshalBundle Strconv.zeroOnly
          (.text (.obj observationBundleMembers))
        = (none, some (.wrap "failed to unmarshal bundle entry 0"
            (.errorf "unsupported resource type: Observation"))) :=
  ⟨rfl, rfl⟩

/-- C13, amended: `UnmarshalBundle` depends on the resource types of the entries. For every
Bundle payload whose one `entry` member is an array and which `json.Unmarshal` decodes
without error, an entry whose resource is an object with a discriminator `t` that has no
registered constructor makes `UnmarshalBundle` fail: it returns no bundle and an error,
and when every entry before it is resolved without error the error is `failed to
unmarshal bundle entry i: unsupported resource type: t`. -/
theorem C13_bundle_entry_types (sc : Strconv) (m : ResourceMapper)
    (bms : List (String × JSON)) (es : List JSON) (i : Nat)
    (ems pms : List (String × JSON)) (t : String)
    (hes : HasEntries bms es) (hclean : (decodeBundle sc (.text (.obj bms))).2 = none)
    (hi : es[i]? = some (.obj ems))
    (hres : (membersFor "resource" ems).getLast? = some (.obj pms))
    (hdisc : HasDiscriminator pms t) (hreg : m.typeRegistry t = none) :
    (m.UnmarshalBundle sc (.text (.obj bms))).1 = none
      ∧ (∃ err, (m.UnmarshalBundle sc (.text (.obj bms))).2 = some err)
      ∧ ((∀ k, k < i → ∀ j, es[k]? = some j →
            ∃ e1, m.resolveEntry sc k (decodeEntry sc j) = .ok e1) →
          m.UnmarshalBundle sc (.text (.obj bms))
            = (none, some (.wrap ("failed to unmarshal bundle entry " ++ toString i)
                (.errorf ("unsupported resource type: " ++ t))))) := by
  obtain ⟨fs, h1, h2, h3, h4⟩ := decodeBundle_entry sc bms es hes hclean i ems hi
  rw [hres] at h4
  have hnil : ((decodeEntry sc (.obj ems)).rawField "Resource").isNil = false := by
    rw [h4]
    rfl
  have herr := resolveEntry_error sc m i (decodeEntry sc (.obj ems)) _ hnil
    (by rw [h4]; exact UnmarshalResource_unsupported sc m pms t hdisc hreg)
  have herr0 : m.resolveEntry sc (0 + i) (decodeEntry sc (.obj ems))
      = .error (.wrap ("failed to unmarshal bundle entry " ++ toString i)
          (.errorf ("unsupported resource type: " ++ t))) := by
    rw [Nat.zero_add]
    exact herr
  rw [UnmarshalBundle_entries sc m _ fs _ h1 h2]
  obtain ⟨err', hf⟩ := resolveEntries_fails sc m _ 0 i _ _ h3 herr0
  refine ⟨by rw [hf], ⟨err', by rw [hf]⟩, ?_⟩
  intro hbefore
  rw [resolveEntries_error sc m _ 0 i _ _ h3 herr0 ?_]
  intro k hk e0 he0
  rw [List.getElem?_map] at he0
  cases hj : es[k]? with
  | none =>
    rw [hj] at he0
    cases he0
  | some j =>
    rw [hj] at he0
    cases he0
    rw [Nat.zero_add]
    exact hbefore k hk j hj

theorem C13_bundle_entry_types_witness :
    HasEntries observationBundleMembers
        [.obj [("resource", .obj [("resourceType", .str "Observation"), ("id", .str "o1")])]]
      ∧ (decodeBundle Strconv.zeroOnly (.text (.obj observationBundleMembers))).2 = none
      ∧ HasDiscriminator [("resourceType", .str "Observation"), ("id", .str "o1")]
          "Observation"
      ∧ (NewResourceMapper Strconv.zeroOnly).typeRegistry "Observation" = none
      ∧ ((NewResourceMapper Strconv.zeroOnly).UnmarshalBundle Strconv.zeroOnly
          (.text (.obj observationBundleMembers))).1 = none
      ∧ ∃ err, ((NewResourceMapper Strconv.zeroOnly).UnmarshalBundle Strconv.zeroOnly
          (.text (.obj observationBundleMembers))).2 = some err :=
  have hd : HasDiscriminator [("resourceType", .str "Observation"), ("id", .str "o1")]
      "Observation" := ⟨by decide, rfl⟩
  have h := C13_bundle_entry_types Strconv.zeroOnly (NewResourceMapper Strconv.zeroOnly)
    observationBundleMembers _ 0 _ _ "Observation" rfl rfl List.getElem?_cons_zero rfl hd rfl
  ⟨rfl, rfl, hd, rfl, h.1, h.2.1⟩

/-- C14 fails as stated: `UnmarshalBundle` of the default mapper decodes the payload
`{"resourceType":"Bundle","type":"searchset","entry":[{"resource":{"resourceType":
"Patient","identifier":[{"value":"x"}],"id":"1"}}]}` without error, and the `Resource`
of its entry is then `{"resourceType":"Patient","id":"1"}`: not the bytes of the
entry's `resource` member, whose `identifier` member is gone. -/
theorem C14_bundle_entries_reencoded_counterexample :
    ∃ fs entry, (NewResourceMapper Strconv.zeroOnly).UnmarshalBundle Strconv.zeroOnly
          (.text (.obj identifierBundleMembers)) = (some (.struct fs), none)
      ∧ fs.lookup "Entry" = some (.slice [entry])
      ∧ entry.rawField "Resource"
          = .text (.obj [("resourceType", .str "Patient"), ("id", .str "1")])
      ∧ entry.rawField "Resource" ≠ .text (.obj identifierPatientMembers) := by
  refine ⟨_, _, rfl, rfl, rfl, ?_⟩
  intro h
  have h1 : Bytes.text (.obj [("resourceType", .str "Patient"), ("id", .str "1")])
      = .text (.obj identifierPatientMembers) := h
  injection h1 with h2
  injection h2 with h3
  have := congrArg List.length h3
  revert this
  decide

/-- C14, amended: for every payload that `UnmarshalBundle` decodes without error, the
returned bundle is the bundle that `json.Unmarshal` decodes from the payload with its
entries resolved: an entry without a resource is as decoded, and the `Resource` of any
other entry is the encoding (`json.Marshal`) of the typed resource that
`UnmarshalResource` decodes from the raw bytes that were retained, not these bytes.
Every such encoding is a JSON object whose member names are names of the field table of
the resource (`Resource.keyOrder`), in the order of the table and none twice, so that a
member of the payload with any other name is dropped; for a Patient the table has the
fields of the struct in declaration order, except that `birthDate` and
`deceasedDateTime` are its last two. -/
theorem C14_bundle_entries_reencoded (sc : Strconv) (m : ResourceMapper) (data : Bytes)
    (h : (m.UnmarshalBundle sc data).2 = none) :
    (∃ b', m.UnmarshalBundle sc data = (some b', none)
      ∧ ((∃ fs es es', decodeBundle sc data = (.struct fs, none)
            ∧ fs.lookup "Entry" = some (.slice es)
            ∧ List.Forall₂ (Resolved sc m) es es'
            ∧ b' = .struct (fieldSet fs "Entry" (.slice es')))
          ∨ (decodeBundle sc data = (b', none)
              ∧ ∀ fs es, b' = .struct fs → fs.lookup "Entry" ≠ some (.slice es))))
      ∧ (∀ r typed, json.MarshalResource sc r = .ok typed →
          ∃ out, typed = .text (.obj out)
            ∧ (out.map Prod.fst).Sublist (Resource.keyOrder sc r)
            ∧ (out.map Prod.fst).Nodup)
      ∧ (∀ p, Resource.keyOrder sc (.patient p)
          = ["resourceType", "id", "meta", "language", "text", "extension", "contained",
              "active", "name", "telecom", "gender", "deceasedBoolean", "address",
              "maritalStatus", "multipleBirthBoolean", "multipleBirthInteger", "photo",
              "contact", "communication", "generalPractitioner", "managingOrganization",
              "link", "birthDate", "deceasedDateTime"])
      ∧ (∀ b, Resource.keyOrder sc (.bundle b)
          = ["resourceType", "id", "meta", "language", "text", "extension", "contained",
              "type", "total", "link", "entry"]) := by
  refine ⟨?_, MarshalResource_keyOrder sc, fun _ => aux.fields_keys sc,
    fun _ => Bundle_fields_keys sc⟩
  rcases UnmarshalBundle_result sc m data with ⟨b, hb⟩ | ⟨e, he⟩
  · exact ⟨b, hb, UnmarshalBundle_ok_inv sc m data b hb⟩
  · rw [he] at h
    cases h

theorem C14_bundle_entries_reencoded_witness :
    ((NewResourceMapper Strconv.zeroOnly).UnmarshalBundle Strconv.zeroOnly
        (.text (.obj identifierBundleMembers))).2 = none
      ∧ (∃ b', (NewResourceMapper Strconv.zeroOnly).UnmarshalBundle Strconv.zeroOnly
            (.text (.obj identifierBundleMembers)) = (some b', none)
          ∧ ((∃ fs es es', decodeBundle Strconv.zeroOnly
                  (.text (.obj identifierBundleMembers)) = (.struct fs, none)
                ∧ fs.lookup "Entry" = some (.slice es)
                ∧ List.Forall₂ (Resolved Strconv.zeroOnly (NewResourceMapper
                    Strconv.zeroOnly)) es es'
                ∧ b' = .struct (fieldSet fs "Entry" (.slice es')))
              ∨ (decodeBundle Strconv.zeroOnly (.text (.obj identifierBundleMembers))
                    = (b', none)
                  ∧ ∀ fs es, b' = .struct fs → fs.lookup "Entry" ≠ some (.slice es))))
      ∧ ∃ out, json.MarshalResource Strconv.zeroOnly
            (.patient (orderPatient Strconv.zeroOnly)) = .ok (.text (.obj out))
          ∧ out.map Prod.fst = ["resourceType", "id", "deceasedBoolean", "birthDate"]
          ∧ (out.map Prod.fst).Sublist (Resource.keyOrder Strconv.zeroOnly
              (.patient (orderPatient Strconv.zeroOnly))) :=
  have h := C14_bundle_entries_reencoded Strconv.zeroOnly
    (NewResourceMapper Strconv.zeroOnly) (.text (.obj identifierBundleMembers)) rfl
  have hm : json.MarshalResource Strconv.zeroOnly (.patient (orderPatient Strconv.zeroOnly))
      = .ok (.text (.obj [("resourceType", .str "Patient"), ("id", .str "1"),
          ("deceasedBoolean", .bool true), ("birthDate", .str "2000-01-01")])) := rfl
  ⟨rfl, h.1, _, hm, rfl, by
    obtain ⟨out, ho, hs, -⟩ := h.2.1 _ _ hm
    cases ho
    exact hs⟩

/-- C17, as the code has it: for every Bundle payload whose one `entry` member is an array
and which is decoded into a `Bundle` without error, an entry whose `resource` member is
the literal `null` is decoded to an entry whose `Resource` is not nil but the four bytes
`null`; `GetTypedResource` of the bundle and of a mapper without a constructor for the
empty type name return for it no resource and the error `unsupported resource type: `,
and `UnmarshalBundle` of such a mapper fails on the payload. -/
theorem C17_null_entry_resource (sc : Strconv) (m : ResourceMapper)
    (bms : List (String × JSON)) (es : List JSON) (i : Nat) (ems : List (String × JSON))
    (hes : HasEntries bms es) (hclean : (decodeBundle sc (.text (.obj bms))).2 = none)
    (hi : es[i]? = some (.obj ems))
    (hnull : (membersFor "resource" ems).getLast? = some .null)
    (hreg : m.typeRegistry "" = none) :
    ∃ fs entries entry, decodeBundle sc (.text (.obj bms)) = (.struct fs, none)
      ∧ fs.lookup "Entry" = some (.slice entries)
      ∧ entries[i]? = some entry
      ∧ entry.rawField "Resource" = .text .null
      ∧ (entry.rawField "Resource").isNil = false
      ∧ Bundle.GetTypedResource sc (.struct fs) (entry.rawField "Resource")
          = (none, some (.errorf "unsupported resource type: "))
      ∧ m.GetTypedResource sc (entry.rawField "Resource")
          = (none, some (.errorf "unsupported resource type: "))
      ∧ (m.UnmarshalBundle sc (.text (.obj bms))).1 = none
      ∧ ∃ err, (m.UnmarshalBundle sc (.text (.obj bms))).2 = some err := by
  obtain ⟨fs, h1, h2, h3, h4⟩ := decodeBundle_entry sc bms es hes hclean i ems hi
  rw [hnull] at h4
  have h4' : (decodeEntry sc (.obj ems)).rawField "Resource" = .text .null := h4
  have hu : m.UnmarshalResource sc (.text .null)
      = (none, some (.errorf "unsupported resource type: ")) := by
    have e : m.UnmarshalResource sc (.text .null)
        = match m.typeRegistry "" with
          | none => (none, some (Err.errorf ("unsupported resource type: " ++ "")))
          | some factory => decodeInto sc (.text .null) (factory ()) := rfl
    rw [e, hreg]
    rfl
  have herr := resolveEntry_error sc m (0 + i) (decodeEntry sc (.obj ems)) _
    (by rw [h4']; rfl) (by rw [h4']; exact hu)
  obtain ⟨err', hf⟩ := resolveEntries_fails sc m _ 0 i _ _ h3 herr
  refine ⟨fs, _, _, h1, h2, h3, h4', by rw [h4']; rfl, by rw [h4']; rfl, ?_, ?_, ?_⟩
  · rw [h4']
    exact hu
  · rw [UnmarshalBundle_entries sc m _ fs _ h1 h2, hf]
  · rw [UnmarshalBundle_entries sc m _ fs _ h1 h2, hf]
    exact ⟨_, rfl⟩

theorem C17_null_entry_resource_witness :
    HasEntries nullResourceBundleMembers
        [.obj [("fullUrl", .str "urn:uuid:1"), ("resource", .null)]]
      ∧ (decodeBundle Strconv.zeroOnly (.text (.obj nullResourceBundleMembers))).2 = none
      ∧ (NewResourceMapper Strconv.zeroOnly).typeRegistry "" = none
      ∧ ∃ fs entries entry,
          decodeBundle Strconv.zeroOnly (.text (.obj nullResourceBundleMembers))
            = (.struct fs, none)
          ∧ fs.lookup "Entry" = some (.slice entries)
          ∧ entries[0]? = some entry
          ∧ entry.rawField "Resource" = .text .null
          ∧ (entry.rawField "Resource").isNil = false
          ∧ Bundle.GetTypedResource Strconv.zeroOnly (.struct fs) (entry.rawField "Resource")
              = (none, some (.errorf "unsupported resource type: "))
          ∧ (NewResourceMapper Strconv.zeroOnly).GetTypedResource Strconv.zeroOnly
              (entry.rawField "Resource")
              = (none, some (.errorf "unsupported resource type: "))
          ∧ ((NewResourceMapper Strconv.zeroOnly).UnmarshalBundle Strconv.zeroOnly
              (.text (.obj nullResourceBundleMembers))).1 = none
          ∧ ∃ err, ((NewResourceMapper Strconv.zeroOnly).UnmarshalBundle Strconv.zeroOnly
              (.text (.obj nullResourceBundleMembers))).2 = some err :=
  ⟨rfl, rfl, rfl, C17_null_entry_resource Strconv.zeroOnly
    (NewResourceMapper Strconv.zeroOnly) nullResourceBundleMembers _ 0 _ rfl rfl
    List.getElem?_cons_zero rfl rfl⟩

/-! ## Query strings of one pair -/

theorem Encode_single (k v : String) :
    url.Values.Encode [(k, [v])] = url.QueryEscape k ++ "=" ++ url.QueryEscape v := by
  have h1 : List.eraseDups [k] = [k] := by
    simp [List.eraseDups, List.eraseDups.loop]
  have h2 : url.Values.values [(k, [v])] k = [v] := by
    simp [url.Values.values, List.lookup]
  simp only [url.Values.Encode, List.map_cons, List.map_nil, h1, url.sortKeys,
    List.foldr_cons, List.foldr_nil, url.insertKey, List.flatMap_cons, List.flatMap_nil,
    h2, List.append_nil]
  rfl

theorem QueryEscape_append (a b : String) :
    url.QueryEscape (a ++ b) = url.QueryEscape a ++ url.QueryEscape b := by
  apply String.ext
  simp [url.QueryEscape, String.data_append, List.flatMap_append]

theorem QueryEscape_colon : url.QueryEscape ":" = "%3A" := by decide

/-- The first value added to an empty `url.Values`. -/
theorem Add_empty (k v : String) : url.Values.Add [] k v = [(k, [v])] := rfl

/-- The key that `Where` uses for an operator other than the empty one and `eq`. -/
theorem Where_key (b : Builder) (param op value : String) (h1 : op ≠ "") (h2 : op ≠ "eq") :
    b.Where param op value = ⟨b.params.Add (param ++ ":" ++ op) value⟩ := by
  have h : (op != "" && op != "eq") = true := by simp [h1, h2]
  simp only [Builder.Where, h, if_true]

/-- A query string whose key ends in an escaped colon is not one whose key ends
there. -/
theorem escaped_colon_ne (a b c : String) : a ++ "%3A" ++ b ≠ a ++ "=" ++ c := by
  intro h
  have := congrArg String.data h
  simp only [String.data_append, List.append_assoc] at this
  have h2 := List.append_cancel_left this
  simp only [List.cons_append, List.nil_append, List.cons.injEq] at h2
  exact absurd h2.1 (by decide)

/-! ## `buildURL` and empty segments -/

theorem buildURL_filter (o : HTTPOperation) (parts : List String) :
    o.buildURL parts = o.buildURL (parts.filter (fun s => s != "")) := by
  unfold HTTPOperation.buildURL
  generalize o.baseURL = base
  induction parts generalizing base with
  | nil => rfl
  | cons s parts ih =>
    by_cases hs : s = ""
    · subst hs
      simp only [List.foldl_cons, List.filter_cons]
      exact ih base
    · have hb : (s != "") = true := by simpa using hs
      simp only [List.foldl_cons, List.filter_cons, hb, if_true]
      exact ih _

/-! ## The loop of `GetTypedResources` -/

theorem typedResourcesFrom_ok (sc : Strconv) (m : ResourceMapper) (data : List Bytes) :
    ∀ (i : Nat) (acc : List Resource),
      (∀ d ∈ nonNil data, (m.UnmarshalResource sc d).2 = none) →
      ∃ rs, m.typedResourcesFrom sc i data acc = (some (acc ++ rs), none)
        ∧ List.Forall₂ (fun d r => m.UnmarshalResource sc d = (some r, none))
            (nonNil data) rs := by
  induction data with
  | nil =>
    intro i acc _
    exact ⟨[], by simp [ResourceMapper.typedResourcesFrom], List.Forall₂.nil⟩
  | cons d data ih =>
    intro i acc h
    cases hn : d.isNil with
    | true =>
      have hnn : nonNil (d :: data) = nonNil data := by
        simp [nonNil, List.filter_cons, hn]
      rw [hnn] at h ⊢
      obtain ⟨rs, h1, h2⟩ := ih (i + 1) acc h
      refine ⟨rs, ?_, h2⟩
      simp only [ResourceMapper.typedResourcesFrom, ResourceMapper.GetTypedResource, hn,
        if_true]
      exact h1
    | false =>
      have hnn : nonNil (d :: data) = d :: nonNil data := by
        simp [nonNil, List.filter_cons, hn]
      rw [hnn] at h ⊢
      have hd := h d (List.mem_cons_self _ _)
      rcases UnmarshalResource_result sc m d with ⟨r, hr⟩ | ⟨e, he⟩
      · obtain ⟨rs, h1, h2⟩ := ih (i + 1) (acc ++ [r])
          (fun x hx => h x (List.mem_cons_of_mem _ hx))
        refine ⟨r :: rs, ?_, List.Forall₂.cons hr h2⟩
        simp only [ResourceMapper.typedResourcesFrom, ResourceMapper.GetTypedResource, hn,
          Bool.false_eq_true, if_false, hr]
        rw [h1, List.append_assoc]
        rfl
      · rw [he] at hd
        cases hd

theorem typedResourcesFrom_error (sc : Strconv) (m : ResourceMapper) (data : List Bytes) :
    ∀ (i k : Nat) (acc : List Resource) (d : Bytes) (e : Err),
      data[k]? = some d → d.isNil = false → m.UnmarshalResource sc d = (none, some e) →
      (∀ j d', j < k → data[j]? = some d' → d'.isNil = false →
        (m.UnmarshalResource sc d').2 = none) →
      m.typedResourcesFrom sc i data acc
        = (none, some (.wrap ("failed to convert resource " ++ toString (i + k)) e)) := by
  induction data with
  | nil =>
    intro i k acc d e hk
    simp at hk
  | cons x data ih =>
    intro i k acc d e hk hn he hbefore
    cases k with
    | zero =>
      rw [List.getElem?_cons_zero] at hk
      cases hk
      simp only [ResourceMapper.typedResourcesFrom, ResourceMapper.GetTypedResource, hn,
        Bool.false_eq_true, if_false, he, Nat.add_zero]
    | succ k =>
      rw [List.getElem?_cons_succ] at hk
      have hrest := ih (i + 1) k
      have hb' : ∀ j d', j < k → data[j]? = some d' → d'.isNil = false →
          (m.UnmarshalResource sc d').2 = none := by
        intro j d' hj hd' hnil
        exact hbefore (j + 1) d' (by omega) (by rw [List.getElem?_cons_succ]; exact hd') hnil
      have hidx : i + 1 + k = i + (k + 1) := by omega
      cases hxn : x.isNil with
      | true =>
        simp only [ResourceMapper.typedResourcesFrom, ResourceMapper.GetTypedResource, hxn,
          if_true]
        rw [hrest acc d e hk hn he hb', hidx]
      | false =>
        have hx := hbefore 0 x (by omega) List.getElem?_cons_zero hxn
        rcases UnmarshalResource_result sc m x with ⟨r, hr⟩ | ⟨e', he'⟩
        · simp only [ResourceMapper.typedResourcesFrom, ResourceMapper.GetTypedResource,
            hxn, Bool.false_eq_true, if_false, hr]
          rw [hrest (acc ++ [r]) d e hk hn he hb', hidx]
        · rw [he'] at hx
          cases hx

/-! ## The discriminator of a decoded bundle -/

theorem Bundle_resourceType_mem (sc : Strconv) :
    fld "ResourceType" "resourceType" (.string "models.ResourceType") ∈ Bundle.fields sc := by
  simp [Bundle.fields, Base.fields]

/-- What `json.Unmarshal` decodes into a `Bundle` without error is `null`, which leaves
the `ResourceType` empty, or an object, which leaves in `ResourceType` the last string
among its `resourceType` members. -/
theorem decodeBundle_resourceType (sc : Strconv) (data : Bytes) (v : Val)
    (h : decodeBundle sc data = (v, none)) :
    (data = .text .null ∧ v.str "ResourceType" = "")
      ∨ ∃ bms, data = .text (.obj bms)
          ∧ v.str "ResourceType" = lastString (membersFor "resourceType" bms) "" := by
  cases data with
  | text j =>
    cases j with
    | null =>
      left
      have e : decodeBundle sc (.text .null) = ((Bundle.type sc).zero, none) := rfl
      rw [e] at h
      cases h
      exact ⟨rfl, rfl⟩
    | obj bms =>
      right
      refine ⟨bms, rfl, ?_⟩
      have e : decodeBundle sc (.text (.obj bms))
          = (.struct (decodeMembers (Bundle.fields sc) bms
                (zeroStruct (Bundle.fields sc))).val,
              (decodeMembers (Bundle.fields sc) bms (zeroStruct (Bundle.fields sc))).err) :=
        rfl
      rw [e] at h
      have h1 := congrArg Prod.fst h
      have h2 := congrArg Prod.snd h
      simp only at h1 h2
      have hab := ((Dec.err_eq_none_iff _).mp h2).2
      have hl := decodeMembers_string_field (Bundle.fields sc) (Bundle_foldOK sc)
        (Bundle_fieldsOK sc).names _ (Bundle_resourceType_mem sc) "models.ResourceType" rfl
        bms (zeroStruct (Bundle.fields sc)) "" rfl hab
      have hl' : (decodeMembers (Bundle.fields sc) bms
          (zeroStruct (Bundle.fields sc))).val.lookup "ResourceType"
          = some (.string (lastString (membersFor "resourceType" bms) "")) := hl
      rw [← h1]
      simp only [Val.str, hl']
    | bool b => exact absurd (congrArg Prod.snd h) (by simp [decodeBundle, json.Unmarshal,
        Bundle.type, GoType.struct, mismatch, Dec.err])
    | num n => exact absurd (congrArg Prod.snd h) (by simp [decodeBundle, json.Unmarshal,
        Bundle.type, GoType.struct, mismatch, Dec.err])
    | str s => exact absurd (congrArg Prod.snd h) (by simp [decodeBundle, json.Unmarshal,
        Bundle.type, GoType.struct, mismatch, Dec.err])
    | arr xs => exact absurd (congrArg Prod.snd h) (by simp [decodeBundle, json.Unmarshal,
        Bundle.type, GoType.struct, mismatch, Dec.err])
  | null => exact absurd (congrArg Prod.snd h) (by simp [decodeBundle, json.Unmarshal])
  | empty => exact absurd (congrArg Prod.snd h) (by simp [decodeBundle, json.Unmarshal])
  | invalid => exact absurd (congrArg Prod.snd h) (by simp [decodeBundle, json.Unmarshal])

/-- The bundle that `UnmarshalBundle` returns has the `ResourceType` that
`json.Unmarshal` left: the loop over the entries does not touch it. -/
theorem UnmarshalBundle_resourceType (sc : Strconv) (m : ResourceMapper) (data : Bytes)
    (b' : Val) (h : m.UnmarshalBundle sc data = (some b', none)) :
    (data = .text .null ∧ b'.str "ResourceType" = "")
      ∨ ∃ bms, data = .text (.obj bms)
          ∧ b'.str "ResourceType" = lastString (membersFor "resourceType" bms) "" := by
  rcases UnmarshalBundle_ok_inv sc m data b' h with ⟨fs, es, es', hd, -, -, hb⟩ | ⟨hd, -⟩
  · have hs : b'.str "ResourceType" = (Val.struct fs).str "ResourceType" := by
      rw [hb]
      simp only [Val.str]
      rw [lookup_fieldSet_ne _ _ _ _ (by decide)]
    rw [hs]
    exact decodeBundle_resourceType sc data _ hd
  · exact decodeBundle_resourceType sc data b' hd

/-! ## Members that select no field -/

/-- The member loop skips the members whose keys select no field. -/
theorem decodeMembers_filter (all : List Field) (ms : List (String × JSON)) :
    ∀ st : Struct, decodeMembers all ms st
      = decodeMembers all (ms.filter (fun kv => (resolve all kv.1).isSome)) st := by
  induction ms with
  | nil => intro st; rfl
  | cons kv ms ih =>
    obtain ⟨k, j⟩ := kv
    intro st
    cases hr : resolve all k with
    | none =>
      have hf : ((k, j) :: ms).filter (fun kv => (resolve all kv.1).isSome)
          = ms.filter (fun kv => (resolve all kv.1).isSome) := by
        simp [List.filter_cons, hr]
      rw [hf, decodeMembers_cons_none all k j ms st hr]
      exact ih st
    | some g =>
      have hf : ((k, j) :: ms).filter (fun kv => (resolve all kv.1).isSome)
          = (k, j) :: ms.filter (fun kv => (resolve all kv.1).isSome) := by
        simp [List.filter_cons, hr]
      rw [hf]
      cases hl : st.lookup g.name with
      | none =>
        rw [decodeMembers_cons_skip all k j ms st g hr hl,
          decodeMembers_cons_skip all k j _ st g hr hl]
        exact ih st
      | some cur =>
        cases hd : (g.type.unmarshal j cur).abort with
        | some e =>
          rw [decodeMembers_cons_abort all k j ms st g hr cur hl e hd,
            decodeMembers_cons_abort all k j _ st g hr cur hl e hd]
        | none =>
          rw [decodeMembers_cons_step all k j ms st g hr cur hl hd,
            decodeMembers_cons_step all k j _ st g hr cur hl hd, ih]

theorem resolve_none_iff_keys (all : List Field) (k : String) :
    resolve all k = none ↔ ∀ key ∈ all.map (·.key), keyMatches key k = false := by
  rw [resolve_eq_none_iff]
  constructor
  · intro h key hk
    obtain ⟨g, hg, rfl⟩ := List.mem_map.mp hk
    exact h g hg
  · intro h g hg
    exact h g.key (List.mem_map.mpr ⟨g, hg, rfl⟩)

theorem Patient.goFields_keys (sc : Strconv) :
    (Patient.goFields sc).map (·.key)
      = ["resourceType", "id", "meta", "language", "text", "extension", "contained",
          "active", "name", "telecom", "gender", "birthDate", "deceasedBoolean",
          "deceasedDateTime", "address", "maritalStatus", "multipleBirthBoolean",
          "multipleBirthInteger", "photo", "contact", "communication",
          "generalPractitioner", "managingOrganization", "link"] := rfl

/-- The struct `aux` has the JSON keys of `Patient`. -/
theorem aux_keys_iff (sc : Strconv) (key : String) :
    key ∈ (aux.fields sc).map (·.key) ↔ key ∈ (Patient.goFields sc).map (·.key) := by
  rw [aux.fields_keys, Patient.goFields_keys]
  constructor
  · revert key
    decide
  · revert key
    decide

/-- A member key selects a field of `aux` exactly when it selects a field of
`Patient`. -/
theorem modelled_aux (sc : Strconv) (k : String) :
    (resolve (aux.fields sc) k).isSome = Patient.modelled sc k := by
  have h : resolve (aux.fields sc) k = none ↔ resolve (Patient.goFields sc) k = none := by
    rw [resolve_none_iff_keys, resolve_none_iff_keys]
    constructor
    · intro h key hk
      exact h key ((aux_keys_iff sc key).mpr hk)
    · intro h key hk
      exact h key ((aux_keys_iff sc key).mp hk)
  unfold Patient.modelled
  cases h1 : resolve (aux.fields sc) k with
  | none => rw [h.mp h1]
  | some g =>
    cases h2 : resolve (Patient.goFields sc) k with
    | none =>
      rw [h.mpr h2] at h1
      cases h1
    | some g' => rfl

theorem aux_decode_modelled (sc : Strconv) (ms : List (String × JSON)) (p : Struct) :
    aux.decode sc ms p = aux.decode sc (Patient.modelledMembers sc ms) p := by
  unfold aux.decode Patient.modelledMembers
  rw [decodeMembers_filter]
  have : (fun kv : String × JSON => (resolve (aux.fields sc) kv.1).isSome)
      = (fun kv => Patient.modelled sc kv.1) := funext (fun kv => modelled_aux sc kv.1)
  rw [this]

theorem modelled_of_keyMatches (sc : Strconv) (f : Field) (hf : f ∈ Patient.goFields sc)
    (k : String) (h : keyMatches f.key k = true) : Patient.modelled sc k = true := by
  unfold Patient.modelled
  cases hr : resolve (Patient.goFields sc) k with
  | some g => rfl
  | none =>
    have := (resolve_eq_none_iff _ _).mp hr f hf
    rw [h] at this
    cases this

theorem membersFor_modelled (sc : Strconv) (ms : List (String × JSON)) :
    membersFor "resourceType" (Patient.modelledMembers sc ms)
      = membersFor "resourceType" ms := by
  unfold membersFor Patient.modelledMembers
  rw [List.filter_filter]
  congr 1
  apply List.filter_congr
  intro kv _
  cases hk : keyMatches "resourceType" kv.1 with
  | false => simp
  | true =>
    have hm := modelled_of_keyMatches sc
      (fld "ResourceType" "resourceType" (.string "models.ResourceType"))
      (by simp [Patient.goFields, Base.fields]) kv.1 hk
    simp [hm]

theorem Patient_UnmarshalJSON_modelled (sc : Strconv) (p : Struct)
    (ms : List (String × JSON)) :
    Patient.UnmarshalJSON sc p (.text (.obj ms))
      = Patient.UnmarshalJSON sc p (.text (.obj (Patient.modelledMembers sc ms))) := by
  rw [Patient_UnmarshalJSON_obj, Patient_UnmarshalJSON_obj, ← aux_decode_modelled]

/-- A mapper whose constructors make patients decodes an object as it decodes the
object without the members that select no field of `Patient`. -/
theorem UnmarshalResource_modelled (sc : Strconv) (m : ResourceMapper)
    (hm : m.PatientsOnly) (ms : List (String × JSON)) :
    m.UnmarshalResource sc (.text (.obj ms))
      = m.UnmarshalResource sc (.text (.obj (Patient.modelledMembers sc ms))) := by
  rw [UnmarshalResource_obj, UnmarshalResource_obj, membersFor_modelled]
  cases (stringErrors "models.ResourceType" (membersFor "resourceType" ms)).head? with
  | some e => rfl
  | none =>
    cases hreg : m.typeRegistry (lastString (membersFor "resourceType" ms) "") with
    | none => rfl
    | some factory =>
      obtain ⟨p, hp⟩ := hm _ _ hreg
      show decodeInto sc (.text (.obj ms)) (factory ())
        = decodeInto sc (.text (.obj (Patient.modelledMembers sc ms))) (factory ())
      rw [hp]
      have key := Patient_UnmarshalJSON_modelled sc p ms
      simp only [decodeInto, json.UnmarshalResource, key]

/-- What a mapper whose constructors make patients decodes from an object is a
patient. -/
theorem UnmarshalResource_patientsOnly (sc : Strconv) (m : ResourceMapper)
    (hm : m.PatientsOnly) (ms : List (String × JSON)) (r : Resource)
    (h : m.UnmarshalResource sc (.text (.obj ms)) = (some r, none)) :
    ∃ p, r = .patient p := by
  rw [UnmarshalResource_obj] at h
  cases he : (stringErrors "models.ResourceType" (membersFor "resourceType" ms)).head? with
  | some e =>
    rw [he] at h
    cases h
  | none =>
    rw [he] at h
    cases hreg : m.typeRegistry (lastString (membersFor "resourceType" ms) "") with
    | none =>
      rw [hreg] at h
      cases h
    | some factory =>
      rw [hreg] at h
      obtain ⟨p, hp⟩ := hm _ _ hreg
      have h' : decodeInto sc (.text (.obj ms)) (factory ()) = (some r, none) := h
      rw [hp] at h'
      cases hu : (Patient.UnmarshalJSON sc p (.text (.obj ms))).2 with
      | none =>
        rw [decodeInto_patient_ok sc p ms hu] at h'
        cases h'
        exact ⟨_, rfl⟩
      | some e =>
        have : decodeInto sc (.text (.obj ms)) (.patient p)
            = (none, some (.wrap "failed to unmarshal resource" e)) := by
          simp only [decodeInto, json.UnmarshalResource, hu]
        rw [this] at h'
        cases h'

/-- Every member of the object that `MarshalJSON` returns for a patient has the JSON
key of a field of `Patient`. -/
theorem Patient_MarshalJSON_keys (sc : Strconv) (p : Struct) (bytes : Bytes)
    (h : Patient.MarshalJSON sc p = .ok bytes) :
    ∃ out, bytes = .text (.obj out)
      ∧ ∀ kv ∈ out, kv.1 ∈ (Patient.goFields sc).map (·.key)
          ∧ Patient.modelled sc kv.1 = true := by
  obtain ⟨out, b, d, hb, he, -⟩ := Patient_MarshalJSON_inv sc p bytes h
  refine ⟨out, hb, ?_⟩
  intro kv hkv
  obtain ⟨f, hf, hk⟩ := encodeFields_keys _ _ out he kv hkv
  have hmem : kv.1 ∈ (aux.fields sc).map (·.key) := List.mem_map.mpr ⟨f, hf, hk⟩
  refine ⟨(aux_keys_iff sc _).mp hmem, ?_⟩
  rw [← modelled_aux, ← hk, resolve_key (aux.fields sc) (aux_fieldsOK sc).keys f hf]
  rfl

/-! ## Members that decode into one field without an error -/

/-- Frame property of the member loop: the members that go to one field, when each of
them is decoded into the field without an error whatever the field holds, can be
dropped from the object without changing the errors of the loop or the other fields. -/
theorem decodeMembers_frame_clean (all : List Field) (hfo : FoldOK all)
    (hn : (all.map (·.name)).Nodup) (f : Field) (hf : f ∈ all)
    (ms : List (String × JSON)) (st st' : Struct)
    (hj : ∀ j ∈ membersFor f.key ms, ∀ cur,
      (f.type.unmarshal j cur).saved = [] ∧ (f.type.unmarshal j cur).abort = none)
    (hrel : ∀ n, n ≠ f.name → st.lookup n = st'.lookup n) :
    (decodeMembers all ms st).saved = (decodeMembers all (membersNotFor f.key ms) st').saved
      ∧ (decodeMembers all ms st).abort
          = (decodeMembers all (membersNotFor f.key ms) st').abort
      ∧ ∀ n, n ≠ f.name → (decodeMembers all ms st).val.lookup n
          = (decodeMembers all (membersNotFor f.key ms) st').val.lookup n := by
  induction ms generalizing st st' with
  | nil => exact ⟨rfl, rfl, hrel⟩
  | cons m ms ih =>
    obtain ⟨key, j⟩ := m
    cases hr : resolve all key with
    | none =>
      have hk := (resolve_eq_none_iff all key).mp hr f hf
      rw [membersFor_cons_of_not f.key key j ms hk] at hj
      rw [membersNotFor_cons_of_not f.key key j ms hk,
        decodeMembers_cons_none all key j ms st hr,
        decodeMembers_cons_none all key j _ st' hr]
      exact ih st st' hj hrel
    | some g =>
      obtain ⟨hg, hgm⟩ := (resolve_eq_some_iff all hfo key g).mp hr
      by_cases hfg : g = f
      · subst hfg
        rw [membersFor_cons_of_match g.key key j ms hgm] at hj
        rw [membersNotFor_cons_of_match g.key key j ms hgm]
        have hj' : ∀ x ∈ membersFor g.key ms, ∀ cur,
            (g.type.unmarshal x cur).saved = [] ∧ (g.type.unmarshal x cur).abort = none :=
          fun x hx => hj x (by simp [hx])
        cases hl : st.lookup g.name with
        | none =>
          rw [decodeMembers_cons_skip all key j ms st g hr hl]
          exact ih st st' hj' hrel
        | some cur =>
          have hc := hj j (by simp) cur
          rw [decodeMembers_cons_step all key j ms st g hr cur hl hc.2, hc.1]
          simp only [List.nil_append]
          apply ih _ st' hj'
          intro n hne
          rw [lookup_fieldSet_ne _ _ _ _ hne]
          exact hrel n hne
      · have hkm : keyMatches f.key key = false := by
          by_contra hc
          simp only [Bool.not_eq_false] at hc
          exact hfg (field_eq_of_keyMatches all hfo g f hg hf key hgm hc)
        have hname : g.name ≠ f.name := fun e =>
          hfg (field_eq_of_name all hn g f hg hf e)
        rw [membersFor_cons_of_not f.key key j ms hkm] at hj
        rw [membersNotFor_cons_of_not f.key key j ms hkm]
        have hlk := hrel g.name hname
        have hrel' : ∀ v n, n ≠ f.name →
            (fieldSet st g.name v).lookup n = (fieldSet st' g.name v).lookup n := by
          intro v n hne
          rw [lookup_fieldSet, lookup_fieldSet, hlk, hrel n hne]
        cases hl : st.lookup g.name with
        | none =>
          rw [decodeMembers_cons_skip all key j ms st g hr hl,
            decodeMembers_cons_skip all key j _ st' g hr (by rw [← hlk, hl])]
          exact ih st st' hj hrel
        | some cur =>
          have hl' : st'.lookup g.name = some cur := by rw [← hlk, hl]
          cases hd : (g.type.unmarshal j cur).abort with
          | some e =>
            rw [decodeMembers_cons_abort all key j ms st g hr cur hl e hd,
              decodeMembers_cons_abort all key j _ st' g hr cur hl' e hd]
            exact ⟨rfl, rfl, hrel' _⟩
          | none =>
            rw [decodeMembers_cons_step all key j ms st g hr cur hl hd,
              decodeMembers_cons_step all key j _ st' g hr cur hl' hd]
            obtain ⟨h1, h2, h3⟩ := ih (fieldSet st g.name (g.type.unmarshal j cur).val)
              (fieldSet st' g.name (g.type.unmarshal j cur).val) hj (hrel' _)
            exact ⟨by simp only [h1], h2, h3⟩

/-- Dropping the members of one key keeps the members of a key that no member key
matches together with it. -/
theorem membersFor_membersNotFor_ne (k k' : String) (ms : List (String × JSON))
    (h : foldName k ≠ foldName k') :
    membersFor k (membersNotFor k' ms) = membersFor k ms := by
  unfold membersFor membersNotFor
  rw [List.filter_filter]
  congr 1
  apply List.filter_congr
  intro kv _
  cases hk : keyMatches k kv.1 with
  | false => simp
  | true =>
    have h1 : foldName kv.1 = foldName k := by
      simpa [keyMatches] using hk
    have h2 : keyMatches k' kv.1 = false := by
      simp only [keyMatches, beq_eq_false_iff_ne, ne_eq]
      intro e
      exact h (h1.symm.trans e)
    simp [h2]

theorem fieldAfter_append (f : Field) (js : List JSON) (j : JSON) (cur : Val) :
    fieldAfter f (js ++ [j]) cur = (f.type.unmarshal j (fieldAfter f js cur)).val := by
  simp [fieldAfter, List.foldl_append]

/-- The `*bool` that a bool member is decoded into, whatever the field holds. -/
theorem ptr_bool_unmarshal (b : Bool) (cur : Val) :
    (GoType.ptr GoType.bool).unmarshal (.bool b) cur = ⟨.ptr (.bool b), [], none⟩ := rfl

theorem fieldAfter_ptr_bool (n k : String) (js : List JSON) (b : Bool) (cur : Val)
    (h : js.getLast? = some (.bool b)) :
    fieldAfter (opt n k (.ptr .bool)) js cur = .ptr (.bool b) := by
  rcases List.eq_nil_or_concat js with rfl | ⟨init, j, rfl⟩
  · simp at h
  · rw [List.concat_eq_append] at h ⊢
    simp at h
    subst h
    rw [fieldAfter_append]
    rfl

theorem deceased_mem (sc : Strconv) :
    opt "Deceased" "deceasedBoolean" (.ptr .bool) ∈ aux.promoted sc :=
  List.mem_filter.mpr ⟨by simp [Patient.goFields, Base.fields], rfl⟩

/-- Dropping from a Patient payload `deceasedDateTime` members that are strings and
`deceasedBoolean` members that are bools does not change the error of the member
loop. -/
theorem aux_decode_deceased_err (sc : Strconv) (p : Struct) (ms : List (String × JSON))
    (hbs : ∀ j ∈ membersFor "deceasedBoolean" ms, j.isBool = true)
    (hds : ∀ j ∈ membersFor "deceasedDateTime" ms, j.isString = true) :
    (aux.decode sc ms p).err
      = (aux.decode sc (membersNotFor "deceasedBoolean"
          (membersNotFor "deceasedDateTime" ms)) p).err := by
  have hsn : ∀ j ∈ membersFor "deceasedDateTime" ms, j.isStringOrNull = true := by
    intro j hj
    have := hds j hj
    cases j <;> simp_all [JSON.isString, JSON.isStringOrNull]
  obtain ⟨f1, f2, -⟩ := decodeMembers_frame (aux.fields sc) (aux_foldOK sc)
    (aux_names_nodup sc) _ (aux_deceased_mem sc) "string" rfl ms (aux.state p "" "")
    (aux.state p "" "") hsn (fun _ _ => rfl)
  have hbs' : ∀ j ∈ membersFor "deceasedBoolean" (membersNotFor "deceasedDateTime" ms),
      ∀ cur, ((GoType.ptr GoType.bool).unmarshal j cur).saved = []
        ∧ ((GoType.ptr GoType.bool).unmarshal j cur).abort = none := by
    intro j hj cur
    rw [membersFor_membersNotFor_ne _ _ _ (by decide)] at hj
    have := hbs j hj
    cases j with
    | bool b => exact ⟨rfl, rfl⟩
    | _ => exact Bool.noConfusion this
  obtain ⟨g1, g2, -⟩ := decodeMembers_frame_clean (aux.fields sc) (aux_foldOK sc)
    (aux_names_nodup sc) _ (aux_promoted_mem_fields sc _ (deceased_mem sc))
    (membersNotFor "deceasedDateTime" ms) (aux.state p "" "") (aux.state p "" "") hbs'
    (fun _ _ => rfl)
  have e1 : (aux.decode sc ms p).saved
      = (aux.decode sc (membersNotFor "deceasedBoolean"
          (membersNotFor "deceasedDateTime" ms)) p).saved := f1.trans g1
  have e2 : (aux.decode sc ms p).abort
      = (aux.decode sc (membersNotFor "deceasedBoolean"
          (membersNotFor "deceasedDateTime" ms)) p).abort := f2.trans g2
  unfold Dec.err
  rw [e1, e2]

/-- C21, as the code has it: for every parameter name, value and operator other than
the empty one and `eq` (the comparators `ne`, `gt`, `lt`, `ge`, `le`, `sw` and `ew`
among them), `Where` on a new builder stores the value as given under the key
`param:op`, so that `Build` returns what `AddModifier(param, op, value)` encodes to,
`param%3Aop=value` with its parts escaped; `AddPrefix(param, op, value)` stores the
value after the operator under the key `param` and encodes to `param=opvalue`, which
`Build` never returns. -/
theorem C21_where_comparator (param op value : String) (h1 : op ≠ "") (h2 : op ≠ "eq") :
    (NewBuilder.Where param op value).params = [(param ++ ":" ++ op, [value])]
      ∧ (NewParameters.AddPrefix param op value).params = [(param, [op ++ value])]
      ∧ (NewBuilder.Where param op value).Build
          = (NewParameters.AddModifier param op value).Encode
      ∧ (NewBuilder.Where param op value).Build
          = url.QueryEscape param ++ "%3A" ++ url.QueryEscape op ++ "="
              ++ url.QueryEscape value
      ∧ (NewParameters.AddPrefix param op value).Encode
          = url.QueryEscape param ++ "=" ++ url.QueryEscape (op ++ value)
      ∧ (NewBuilder.Where param op value).Build
          ≠ (NewParameters.AddPrefix param op value).Encode := by
  have hw : (NewBuilder.Where param op value).params = [(param ++ ":" ++ op, [value])] := by
    rw [Where_key _ _ _ _ h1 h2]
    rfl
  have hb : (NewBuilder.Where param op value).Build
      = url.QueryEscape param ++ "%3A" ++ url.QueryEscape op ++ "="
          ++ url.QueryEscape value := by
    unfold Builder.Build
    rw [hw, Encode_single, QueryEscape_append, QueryEscape_append, QueryEscape_colon]
  have hp : (NewParameters.AddPrefix param op value).Encode
      = url.QueryEscape param ++ "=" ++ url.QueryEscape (op ++ value) :=
    Encode_single _ _
  refine ⟨hw, rfl, ?_, hb, hp, ?_⟩
  · unfold Builder.Build
    rw [hw]
    rfl
  · rw [hb, hp]
    have e : url.QueryEscape param ++ "%3A" ++ url.QueryEscape op ++ "="
          ++ url.QueryEscape value
        = url.QueryEscape param ++ "%3A" ++ (url.QueryEscape op ++ "="
          ++ url.QueryEscape value) := by
      apply String.ext
      simp only [String.data_append, List.append_assoc]
    rw [e]
    exact escaped_colon_ne _ _ _

theorem C21_where_comparator_witness :
    "gt" ≠ "" ∧ "gt" ≠ "eq"
      ∧ (NewBuilder.Where "birthdate" "gt" "2000-01-01").Build
          = "birthdate%3Agt=2000-01-01"
      ∧ (NewParameters.AddPrefix "birthdate" "gt" "2000-01-01").Encode
          = "birthdate=gt2000-01-01"
      ∧ (NewBuilder.Where "birthdate" "gt" "2000-01-01").Build
          ≠ (NewParameters.AddPrefix "birthdate" "gt" "2000-01-01").Encode :=
  have h := C21_where_comparator "birthdate" "gt" "2000-01-01" (by decide) (by decide)
  ⟨by decide, by decide, h.2.2.2.1.trans (by decide), h.2.2.2.2.1.trans (by decide),
    h.2.2.2.2.2⟩

/-- C22 fails as stated: the mapper that `NewMapper` makes has no manager for the
version `R3`, so `CanMap` returns false for the resource type `Patient` from `R3` to
`R3`, and yet `MapResource` returns its resource and no error from `R3` to `R3`. -/
theorem C22_canMap_agrees_counterexample :
    NewMapper.CanMap "Patient" "R3" "R3" = some false
      ∧ NewMapper.MapResource "resource" "R3" "R3" = (some "resource", none)
      ∧ ¬ (NewMapper.CanMap "Patient" "R3" "R3" = some true
            ↔ (NewMapper.MapResource "resource" "R3" "R3").2 = none) := by
  have h1 : NewMapper.CanMap "Patient" "R3" "R3" = some false := by decide
  have h2 : NewMapper.MapResource "resource" "R3" "R3" = (some "resource", none) := by
    decide
  refine ⟨h1, h2, ?_⟩
  rw [h1, h2]
  intro h
  exact absurd (h.mpr rfl) (by decide)

/-- C22, amended: on the mapper that `NewMapper` makes, `CanMap` returns true exactly
when both versions are among `R4` and `R5`, whatever the resource type, and
`MapResource` returns without error exactly when `CanMap` returns true or the two
versions are equal; so `CanMap` returning true implies that `MapResource` returns the
resource without error, and the converse fails only for two equal versions other than
`R4` and `R5`. -/
theorem C22_canMap_agrees {α : Type} (resource : α) (resourceType : String)
    (fromVersion toVersion : version.Version) :
    (NewMapper.CanMap resourceType fromVersion toVersion
        = some (decide ((fromVersion = version.R4 ∨ fromVersion = version.R5)
            ∧ (toVersion = version.R4 ∨ toVersion = version.R5))))
      ∧ ((NewMapper.MapResource resource fromVersion toVersion).2 = none
          ↔ (NewMapper.CanMap resourceType fromVersion toVersion = some true
              ∨ fromVersion = toVersion))
      ∧ (NewMapper.CanMap resourceType fromVersion toVersion = some true →
          NewMapper.MapResource resource fromVersion toVersion = (some resource, none)) := by
  have hv : ∀ v : version.Version, NewMapper.versionManagers v
      = if v = version.R5 then some (some version.newR5Manager)
        else if v = version.R4 then some (some version.newR4Manager) else none := by
    intro v
    rfl
  have h45 : version.R4 ≠ version.R5 := by decide
  have hman : ∀ v : version.Version,
      (∃ mgr, NewMapper.versionManagers v = some (some mgr)
          ∧ mgr.IsSupported resourceType = true ∧ (v = version.R4 ∨ v = version.R5))
        ∨ (NewMapper.versionManagers v = none ∧ ¬ (v = version.R4 ∨ v = version.R5)) := by
    intro v
    rw [hv v]
    by_cases v5 : v = version.R5
    · exact Or.inl ⟨_, by rw [if_pos v5], rfl, Or.inr v5⟩
    · by_cases v4 : v = version.R4
      · exact Or.inl ⟨_, by rw [if_neg v5, if_pos v4], rfl, Or.inl v4⟩
      · exact Or.inr ⟨by rw [if_neg v5, if_neg v4], fun h => h.elim v4 v5⟩
  have hcan : NewMapper.CanMap resourceType fromVersion toVersion
      = some (decide ((fromVersion = version.R4 ∨ fromVersion = version.R5)
          ∧ (toVersion = version.R4 ∨ toVersion = version.R5))) := by
    unfold DefaultMapper.CanMap
    rcases hman fromVersion with ⟨fm, hf, hfs, hfv⟩ | ⟨hf, hfv⟩
    · rcases hman toVersion with ⟨tm, ht, hts, htv⟩ | ⟨ht, htv⟩
      · rw [hf, ht]
        simp only [hfs, hts, if_true, hfv, htv, and_self, decide_True]
      · rw [hf, ht]
        simp only [htv, and_false, decide_False]
    · rw [hf]
      simp only [hfv, false_and, decide_False]
  have hmap : ∀ (a b : version.Version), a ≠ b →
      NewMapper.MapResource resource a b
        = if a = version.R4 ∧ b = version.R5 then (some resource, none)
          else if a = version.R5 ∧ b = version.R4 then (some resource, none)
          else (none, some (.errorf ("no mapping path available from " ++ a ++ " to "
            ++ b))) := by
    intro a b hab
    unfold DefaultMapper.MapResource DefaultMapper.GetMappingPath
    simp only [hab, if_false]
    by_cases c1 : a = version.R4 ∧ b = version.R5
    · rw [if_pos c1, if_pos c1]
      rfl
    · by_cases c2 : a = version.R5 ∧ b = version.R4
      · rw [if_neg c1, if_pos c2, if_neg c1, if_pos c2]
        rfl
      · rw [if_neg c1, if_neg c2, if_neg c1, if_neg c2]
  have hiff : (NewMapper.MapResource resource fromVersion toVersion).2 = none
      ↔ (NewMapper.CanMap resourceType fromVersion toVersion = some true
          ∨ fromVersion = toVersion) := by
    rw [hcan]
    by_cases he : fromVersion = toVersion
    · subst he
      simp [DefaultMapper.MapResource]
    · rw [hmap _ _ he]
      by_cases f5 : fromVersion = version.R5 <;> by_cases f4 : fromVersion = version.R4
        <;> by_cases t5 : toVersion = version.R5 <;> by_cases t4 : toVersion = version.R4
        <;> simp_all
  refine ⟨hcan, hiff, ?_⟩
  intro hc
  by_cases he : fromVersion = toVersion
  · subst he
    simp [DefaultMapper.MapResource]
  · have hn := hiff.mpr (Or.inl hc)
    rw [hmap _ _ he] at hn ⊢
    by_cases c1 : fromVersion = version.R4 ∧ toVersion = version.R5
    · rw [if_pos c1]
    · by_cases c2 : fromVersion = version.R5 ∧ toVersion = version.R4
      · rw [if_neg c1, if_pos c2]
      · rw [if_neg c1, if_neg c2] at hn
        cases hn

theorem C22_canMap_agrees_witness :
    NewMapper.CanMap "Patient" "R4" "R5" = some true
      ∧ NewMapper.MapResource "resource" "R4" "R5" = (some "resource", none)
      ∧ ((NewMapper.MapResource "resource" "R3" "R4").2 = none
          ↔ (NewMapper.CanMap "Patient" "R3" "R4" = some true ∨ "R3" = "R4")) :=
  have h : NewMapper.CanMap "Patient" "R4" "R5" = some true := by decide
  ⟨h, (C22_canMap_agrees "resource" "Patient" "R4" "R5").2.2 h,
    (C22_canMap_agrees "resource" "Patient" "R3" "R4").2.1⟩

/-- C23: whenever `MapResource` returns without error, what it returns is the
resource it was given, unchanged; and whenever `GetMappingPath` returns without error,
it returns a path, which starts with the from-version and ends with the
to-version. -/
theorem C23_mapping_passthrough {α : Type} (m : DefaultMapper) (resource : α)
    (fromVersion toVersion : version.Version) :
    ((m.MapResource resource fromVersion toVersion).2 = none →
        m.MapResource resource fromVersion toVersion = (some resource, none))
      ∧ ((m.GetMappingPath fromVersion toVersion).2 = none →
          ∃ path, m.GetMappingPath fromVersion toVersion = (some path, none)
            ∧ path.head? = some fromVersion ∧ path.getLast? = some toVersion) := by
  constructor
  · intro h
    unfold DefaultMapper.MapResource at h ⊢
    by_cases he : fromVersion = toVersion
    · simp only [he, if_true]
    · simp only [he, if_false] at h ⊢
      unfold DefaultMapper.GetMappingPath at h ⊢
      simp only [he, if_false] at h ⊢
      by_cases c1 : fromVersion = version.R4 ∧ toVersion = version.R5
      · rw [if_pos c1]
        rfl
      · by_cases c2 : fromVersion = version.R5 ∧ toVersion = version.R4
        · rw [if_neg c1, if_pos c2]
          rfl
        · rw [if_neg c1, if_neg c2] at h
          cases h
  · intro h
    unfold DefaultMapper.GetMappingPath at h ⊢
    by_cases he : fromVersion = toVersion
    · subst he
      exact ⟨[fromVersion], by simp, rfl, rfl⟩
    · simp only [he, if_false] at h ⊢
      by_cases c1 : fromVersion = version.R4 ∧ toVersion = version.R5
      · refine ⟨[version.R4, version.R5], by rw [if_pos c1], ?_, ?_⟩
        · rw [c1.1]
          rfl
        · rw [c1.2]
          rfl
      · by_cases c2 : fromVersion = version.R5 ∧ toVersion = version.R4
        · refine ⟨[version.R5, version.R4], by rw [if_neg c1, if_pos c2], ?_, ?_⟩
          · rw [c2.1]
            rfl
          · rw [c2.2]
            rfl
        · rw [if_neg c1, if_neg c2] at h
          cases h

theorem C23_mapping_passthrough_witness :
    (NewMapper.MapResource (Resource.patient (NewPatient Strconv.zeroOnly)) "R4" "R5").2
        = none
      ∧ NewMapper.MapResource (Resource.patient (NewPatient Strconv.zeroOnly)) "R4" "R5"
          = (some (Resource.patient (NewPatient Strconv.zeroOnly)), none)
      ∧ (NewMapper.GetMappingPath "R4" "R5").2 = none
      ∧ ∃ path, NewMapper.GetMappingPath "R4" "R5" = (some path, none)
          ∧ path.head? = some "R4" ∧ path.getLast? = some "R5" :=
  have h := C23_mapping_passthrough NewMapper (Resource.patient (NewPatient Strconv.zeroOnly))
    "R4" "R5"
  ⟨rfl, h.1 rfl, rfl, h.2 rfl⟩

/-- C26: for every bundle and every raw payload, `GetTypedResource` of the bundle
returns what `GetTypedResource` of a new default mapper returns, whatever the bundle
holds and whichever mapper decoded it; so an object payload whose discriminator is a
string other than `Patient` resolves through the bundle to the error `unsupported
resource type: t`, also when a custom mapper has a constructor for it: the mapper on
which `Observation` is registered too decodes the Observation payload and the bundle
that holds it as an entry without error, and the bundle that it returns resolves the
payload to the error `unsupported resource type: Observation`. -/
theorem C26_bundle_default_mapper (sc : Strconv) (b : Val) (data : Bytes) :
    Bundle.GetTypedResource sc b data = (NewResourceMapper sc).GetTypedResource sc data
      ∧ (∀ ms t, HasDiscriminator ms t → t ≠ "Patient" →
          Bundle.GetTypedResource sc b (.text (.obj ms))
            = (none, some (.errorf ("unsupported resource type: " ++ t))))
      ∧ ∃ r b', (observationMapper sc).UnmarshalResource sc (.text (.obj observationMembers))
            = (some r, none)
          ∧ (observationMapper sc).UnmarshalBundle sc (.text (.obj observationBundleMembers))
            = (some b', none)
          ∧ Bundle.GetTypedResource sc b' (.text (.obj observationMembers))
            = (none, some (.errorf "unsupported resource type: Observation")) := by
  refine ⟨rfl, ?_, ?_⟩
  · intro ms t hd ht
    have hreg : (NewResourceMapper sc).typeRegistry t = none := by
      rw [NewResourceMapper_registry, if_neg ht]
    exact UnmarshalResource_unsupported sc (NewResourceMapper sc) ms t hd hreg
  · exact ⟨_, _, rfl, rfl, rfl⟩

theorem C26_bundle_default_mapper_witness :
    HasDiscriminator observationMembers "Observation" ∧ "Observation" ≠ "Patient"
      ∧ Bundle.GetTypedResource Strconv.zeroOnly (Bundle.type Strconv.zeroOnly).zero
          (.text (.obj observationMembers))
        = (none, some (.errorf ("unsupported resource type: " ++ "Observation"))) :=
  have hd : HasDiscriminator observationMembers "Observation" := ⟨by decide, rfl⟩
  ⟨hd, by decide, (C26_bundle_default_mapper Strconv.zeroOnly (Bundle.type Strconv.zeroOnly).zero
    .null).2.1 observationMembers "Observation" hd (by decide)⟩

/-- C27: on the payload `{"resourceType":"Patient","id":"unit-3","birthDate":
"not-a-date"}` of `TestPatient_InvalidBirthDate`, `Patient.UnmarshalJSON` called on
the patient that `NewPatient` makes, whose `ID` is empty, returns the error of
`time.Parse` and leaves the receiver with the `ID` `unit-3`: not as it was before the
call. -/
theorem C27_decode_not_atomic (sc : Strconv) :
    (NewPatient sc).lookup "ID" = some (.string "")
      ∧ (Patient.UnmarshalJSON sc (NewPatient sc) invalidBirthDatePayload).2
          = some (.timeParse "2006-01-02" "not-a-date")
      ∧ (Patient.UnmarshalJSON sc (NewPatient sc) invalidBirthDatePayload).1.lookup "ID"
          = some (.string "unit-3")
      ∧ (Patient.UnmarshalJSON sc (NewPatient sc) invalidBirthDatePayload).1
          ≠ NewPatient sc := by
  refine ⟨rfl, rfl, rfl, ?_⟩
  intro h
  have h2 := congrArg (fun p => Val.str (.struct p) "ID") h
  have h3 : Val.str (.struct (Patient.UnmarshalJSON sc (NewPatient sc)
      invalidBirthDatePayload).1) "ID" = "unit-3" := rfl
  have h4 : Val.str (.struct (NewPatient sc)) "ID" = "" := rfl
  simp only [h3, h4] at h2
  exact absurd h2 (by decide)

/-- C29: when `UnmarshalResource` decodes every element of the list that is not nil,
`GetTypedResources` returns no error and the list of the resources that the non-nil
elements decode to, in their order, as many as there are non-nil elements; for the
empty list it returns the empty list, which is not nil; and when an element that is
not nil fails to decode and every non-nil element before it decodes, it returns no
list and the error `failed to convert resource i` with the index `i` of the element,
wrapping the error of `UnmarshalResource`. -/
theorem C29_typed_resources (sc : Strconv) (m : ResourceMapper) (data : List Bytes) :
    ((∀ d ∈ nonNil data, (m.UnmarshalResource sc d).2 = none) →
        ∃ rs, m.GetTypedResources sc data = (some rs, none)
          ∧ List.Forall₂ (fun d r => m.UnmarshalResource sc d = (some r, none))
              (nonNil data) rs
          ∧ rs.length = (nonNil data).length)
      ∧ m.GetTypedResources sc [] = (some [], none)
      ∧ ∀ (i : Nat) (d : Bytes), data[i]? = some d → d.isNil = false →
          (m.UnmarshalResource sc d).2 ≠ none →
          (∀ (j : Nat) (d' : Bytes), j < i → data[j]? = some d' → d'.isNil = false →
            (m.UnmarshalResource sc d').2 = none) →
          ∃ e, m.UnmarshalResource sc d = (none, some e)
            ∧ m.GetTypedResources sc data
              = (none, some (.wrap ("failed to convert resource " ++ toString i) e)) := by
  refine ⟨?_, rfl, ?_⟩
  · intro h
    obtain ⟨rs, h1, h2⟩ := typedResourcesFrom_ok sc m data 0 [] h
    exact ⟨rs, h1, h2, h2.length_eq.symm⟩
  · intro i d hi hn hfail hbefore
    rcases UnmarshalResource_result sc m d with ⟨r, hr⟩ | ⟨e, he⟩
    · rw [hr] at hfail
      exact absurd rfl hfail
    · refine ⟨e, he, ?_⟩
      have := typedResourcesFrom_error sc m data 0 i [] d e hi hn he hbefore
      rw [Nat.zero_add] at this
      exact this

theorem C29_typed_resources_witness :
    (∀ d ∈ nonNil [Bytes.null, .text (.obj patientOneMembers)],
        ((NewResourceMapper Strconv.zeroOnly).UnmarshalResource Strconv.zeroOnly d).2 = none)
      ∧ (∃ rs, (NewResourceMapper Strconv.zeroOnly).GetTypedResources Strconv.zeroOnly
            [Bytes.null, .text (.obj patientOneMembers)] = (some rs, none)
          ∧ List.Forall₂ (fun d r => (NewResourceMapper Strconv.zeroOnly).UnmarshalResource
              Strconv.zeroOnly d = (some r, none))
              (nonNil [Bytes.null, .text (.obj patientOneMembers)]) rs
          ∧ rs.length = (nonNil [Bytes.null, .text (.obj patientOneMembers)]).length)
      ∧ (nonNil [Bytes.null, .text (.obj patientOneMembers)]).length = 1
      ∧ ∃ e, (NewResourceMapper Strconv.zeroOnly).UnmarshalResource Strconv.zeroOnly
            (.text (.obj observationMembers)) = (none, some e)
          ∧ (NewResourceMapper Strconv.zeroOnly).GetTypedResources Strconv.zeroOnly
              [.text (.obj patientOneMembers), .null, .text (.obj observationMembers),
                .invalid]
            = (none, some (.wrap ("failed to convert resource " ++ toString 2) e)) := by
  have hall : ∀ d ∈ nonNil [Bytes.null, .text (.obj patientOneMembers)],
      ((NewResourceMapper Strconv.zeroOnly).UnmarshalResource Strconv.zeroOnly d).2
        = none := by
    intro d hd
    have : nonNil [Bytes.null, .text (.obj patientOneMembers)]
        = [.text (.obj patientOneMembers)] := rfl
    rw [this, List.mem_singleton] at hd
    subst hd
    rfl
  refine ⟨hall, (C29_typed_resources Strconv.zeroOnly (NewResourceMapper Strconv.zeroOnly)
    [Bytes.null, .text (.obj patientOneMembers)]).1 hall, rfl, ?_⟩
  refine (C29_typed_resources Strconv.zeroOnly (NewResourceMapper Strconv.zeroOnly)
    [.text (.obj patientOneMembers), .null, .text (.obj observationMembers),
      .invalid]).2.2 2 (.text (.obj observationMembers)) rfl rfl (by
        intro h
        cases h) ?_
  intro j d' hj hd' hn
  match j, hj with
  | 0, _ =>
    cases hd'
    rfl
  | 1, _ =>
    cases hd'
    cases hn

/-- C30: for every base URL and list of segments, `buildURL` returns what it returns
for the segments that are not empty; so, for a resource type and a version that are
not empty, Read, Update, Patch and Delete called with an empty id send their request
to `base/type`, the URL to which Create and Search send theirs, and Vread called with
an empty id sends its request to `base/type/_history/version`: each returns what the
request to that URL gives, and no error comes from the empty id.  The request that is
sent is fixed by its answer: whenever the client answers the request with the method of
the operation to this URL, with the encoded body (if any) and the headers of the
handler, with a status in 200..299 and the body `b`, the operation called with the
empty id returns what its mapper decodes from `b`, and Delete returns no error,
whatever the client answers to any other request. -/
theorem C30_empty_segments (sc : Strconv) (lib : GoLib) (o : HTTPOperation)
    (parts : List String) (rt vid : String) (body : Option (Except Err Bytes))
    (params : Option Parameters) (jsonData : Option Bytes) (b : String)
    (hrt : rt ≠ "") (hvid : vid ≠ "") :
    o.buildURL parts = o.buildURL (parts.filter (fun s => s != ""))
      ∧ o.buildURL [rt, ""] = o.baseURL ++ "/" ++ rt
      ∧ o.buildURL [rt, "", "_history", vid]
          = o.baseURL ++ "/" ++ rt ++ "/" ++ "_history" ++ "/" ++ vid
      ∧ o.Read sc lib rt ""
          = o.toResource sc lib (o.doRequest lib "GET" (o.baseURL ++ "/" ++ rt) none)
      ∧ o.Update sc lib rt "" body
          = o.toResource sc lib (o.doRequest lib "PUT" (o.baseURL ++ "/" ++ rt) body)
      ∧ o.Patch sc lib rt "" body
          = o.toResource sc lib (o.doRequest lib "PATCH" (o.baseURL ++ "/" ++ rt) body)
      ∧ o.Delete lib rt "" = (o.doRequest lib "DELETE" (o.baseURL ++ "/" ++ rt) none).2
      ∧ o.Create sc lib rt body
          = o.toResource sc lib (o.doRequest lib "POST" (o.baseURL ++ "/" ++ rt) body)
      ∧ o.Search sc lib rt params
          = o.toBundle sc lib (o.doRequest lib "GET"
              (HTTPOperation.withQuery (o.baseURL ++ "/" ++ rt) params) none)
      ∧ o.Vread sc lib rt "" vid
          = o.toResource sc lib (o.doRequest lib "GET"
              (o.baseURL ++ "/" ++ rt ++ "/" ++ "_history" ++ "/" ++ vid) none)
      ∧ (o.Answers lib "GET" (o.baseURL ++ "/" ++ rt) none b →
          o.Read sc lib rt "" = o.mapper.UnmarshalResource sc (lib.scan b))
      ∧ (o.Answers lib "PUT" (o.baseURL ++ "/" ++ rt) jsonData b →
          o.Update sc lib rt "" (jsonData.map .ok)
            = o.mapper.UnmarshalResource sc (lib.scan b))
      ∧ (o.Answers lib "PATCH" (o.baseURL ++ "/" ++ rt) jsonData b →
          o.Patch sc lib rt "" (jsonData.map .ok)
            = o.mapper.UnmarshalResource sc (lib.scan b))
      ∧ (o.Answers lib "DELETE" (o.baseURL ++ "/" ++ rt) none b →
          o.Delete lib rt "" = none)
      ∧ (o.Answers lib "POST" (o.baseURL ++ "/" ++ rt) jsonData b →
          o.Create sc lib rt (jsonData.map .ok)
            = o.mapper.UnmarshalResource sc (lib.scan b))
      ∧ (o.Answers lib "GET" (HTTPOperation.withQuery (o.baseURL ++ "/" ++ rt) params)
            none b →
          o.Search sc lib rt params = o.mapper.UnmarshalBundle sc (lib.scan b))
      ∧ (o.Answers lib "GET"
            (o.baseURL ++ "/" ++ rt ++ "/" ++ "_history" ++ "/" ++ vid) none b →
          o.Vread sc lib rt "" vid = o.mapper.UnmarshalResource sc (lib.scan b)) := by
  have h1 : o.buildURL [rt] = o.baseURL ++ "/" ++ rt := by
    simp [HTTPOperation.buildURL, hrt]
  have h2 : o.buildURL [rt, ""] = o.baseURL ++ "/" ++ rt := by
    simp [HTTPOperation.buildURL, hrt]
  have h4 : o.buildURL [rt, "", "_history", vid]
      = o.baseURL ++ "/" ++ rt ++ "/" ++ "_history" ++ "/" ++ vid := by
    simp [HTTPOperation.buildURL, hrt, hvid]
  have hR : o.Read sc lib rt ""
      = o.toResource sc lib (o.doRequest lib "GET" (o.baseURL ++ "/" ++ rt) none) := by
    simp only [HTTPOperation.Read, h2]
  have hU : ∀ x, o.Update sc lib rt "" x
      = o.toResource sc lib (o.doRequest lib "PUT" (o.baseURL ++ "/" ++ rt) x) := by
    intro x
    simp only [HTTPOperation.Update, h2]
  have hP : ∀ x, o.Patch sc lib rt "" x
      = o.toResource sc lib (o.doRequest lib "PATCH" (o.baseURL ++ "/" ++ rt) x) := by
    intro x
    simp only [HTTPOperation.Patch, h2]
  have hD : o.Delete lib rt ""
      = (o.doRequest lib "DELETE" (o.baseURL ++ "/" ++ rt) none).2 := by
    simp only [HTTPOperation.Delete, h2]
  have hC : ∀ x, o.Create sc lib rt x
      = o.toResource sc lib (o.doRequest lib "POST" (o.baseURL ++ "/" ++ rt) x) := by
    intro x
    simp only [HTTPOperation.Create, h1]
  have hS : o.Search sc lib rt params
      = o.toBundle sc lib (o.doRequest lib "GET"
          (HTTPOperation.withQuery (o.baseURL ++ "/" ++ rt) params) none) := by
    simp only [HTTPOperation.Search, h1]
  have hV : o.Vread sc lib rt "" vid
      = o.toResource sc lib (o.doRequest lib "GET"
          (o.baseURL ++ "/" ++ rt ++ "/" ++ "_history" ++ "/" ++ vid) none) := by
    simp only [HTTPOperation.Vread, h4]
  refine ⟨buildURL_filter o parts, h2, h4, hR, hU body, hP body, hD, hC body, hS, hV,
    ?_, ?_, ?_, ?_, ?_, ?_, ?_⟩
  · intro ha
    exact hR.trans (toResource_answers sc lib o _ _ none b ha)
  · intro ha
    exact (hU _).trans (toResource_answers sc lib o _ _ jsonData b ha)
  · intro ha
    exact (hP _).trans (toResource_answers sc lib o _ _ jsonData b ha)
  · intro ha
    exact hD.trans (congrArg Prod.snd (doRequest_answers lib o _ _ none b ha))
  · intro ha
    exact (hC _).trans (toResource_answers sc lib o _ _ jsonData b ha)
  · intro ha
    exact hS.trans (toBundle_answers sc lib o _ _ none b ha)
  · intro ha
    exact hV.trans (toResource_answers sc lib o _ _ none b ha)

theorem C30_empty_segments_witness :
    "Patient" ≠ "" ∧ "2" ≠ ""
      ∧ (routedOperation "GET" "http://fhir.example/Patient" 200 patient123Body).Answers
          routedLib "GET" "http://fhir.example/Patient" none patient123Body
      ∧ (routedOperation "GET" "http://fhir.example/Patient" 200 patient123Body).buildURL
          ["Patient", ""] = "http://fhir.example/Patient"
      ∧ (routedOperation "GET" "http://fhir.example/Patient" 200 patient123Body).buildURL
          ["Patient", "", "_history", "2"] = "http://fhir.example/Patient/_history/2"
      ∧ (routedOperation "GET" "http://fhir.example/Patient" 200 patient123Body).Read
          Strconv.zeroOnly routedLib "Patient" ""
          = (some (.patient (fieldSet (NewPatient Strconv.zeroOnly) "ID" (.string "123"))),
              none)
      ∧ (routedOperation "GET" "http://fhir.example/Patient" 200 patient123Body).Read
          Strconv.zeroOnly routedLib "Patient" "123"
          = (none, some (.errorf "server returned error status 404: "))
      ∧ (routedOperation "DELETE" "http://fhir.example/Patient" 204 "").Delete
          routedLib "Patient" "" = none :=
  have ha : (routedOperation "GET" "http://fhir.example/Patient" 200
      patient123Body).Answers routedLib "GET" "http://fhir.example/Patient" none
      patient123Body := ⟨rfl, 200, by decide, by decide, rfl⟩
  have hd : (routedOperation "DELETE" "http://fhir.example/Patient" 204 "").Answers
      routedLib "DELETE" "http://fhir.example/Patient" none "" :=
    ⟨rfl, 204, by decide, by decide, rfl⟩
  have h := C30_empty_segments Strconv.zeroOnly routedLib
    (routedOperation "GET" "http://fhir.example/Patient" 200 patient123Body)
    ["Patient", ""] "Patient" "2" none none none patient123Body (by decide) (by decide)
  have h' := C30_empty_segments Strconv.zeroOnly routedLib
    (routedOperation "DELETE" "http://fhir.example/Patient" 204 "")
    ["Patient", ""] "Patient" "2" none none none "" (by decide) (by decide)
  ⟨by decide, by decide, ha, h.2.1.trans (by decide), h.2.2.1.trans (by decide),
    (h.2.2.2.2.2.2.2.2.2.2.1 ha).trans rfl, rfl,
    h'.2.2.2.2.2.2.2.2.2.2.2.2.2.1 hd⟩

/-- C25 fails as stated: `UnmarshalBundle` of the default mapper decodes the Patient
payload `{"resourceType":"Patient","id":"1"}` without error and returns it as a
`Bundle` whose `ResourceType` is `Patient`, not `Bundle`. -/
theorem C25_bundle_discriminator_counterexample :
    ∃ fs, (NewResourceMapper Strconv.zeroOnly).UnmarshalBundle Strconv.zeroOnly
          (.text (.obj patientOneMembers)) = (some (.struct fs), none)
      ∧ Base.GetResourceType fs = "Patient"
      ∧ Base.GetResourceType fs ≠ "Bundle" :=
  ⟨_, rfl, rfl, by decide⟩

/-- C25, amended: `UnmarshalBundle` does not look at the discriminator.  Every Bundle
value that it returns without error comes from a payload that is `null` or an object,
and its `ResourceType` is what the payload says: empty for `null` and for an object
without a string `resourceType` member, else the last such string; so an object
payload whose discriminator is a string `t`, when `UnmarshalBundle` returns without
error, is returned as a Bundle with the `ResourceType` `t`, whether `t` is `Bundle` or
the name of another type. -/
theorem C25_bundle_discriminator (sc : Strconv) (m : ResourceMapper) (data : Bytes)
    (b' : Val) (h : m.UnmarshalBundle sc data = (some b', none)) :
    ((data = .text .null ∧ b'.str "ResourceType" = "")
        ∨ ∃ bms, data = .text (.obj bms)
            ∧ b'.str "ResourceType" = lastString (membersFor "resourceType" bms) "")
      ∧ ∀ bms t, data = .text (.obj bms) → HasDiscriminator bms t →
          b'.str "ResourceType" = t := by
  have hr := UnmarshalBundle_resourceType sc m data b' h
  refine ⟨hr, ?_⟩
  intro bms t hd hdisc
  rcases hr with ⟨hn, -⟩ | ⟨bms', hd', hs⟩
  · rw [hd] at hn
    cases hn
  · rw [hd] at hd'
    cases hd'
    rw [hs]
    exact lastString_of_getLast _ _ _ hdisc.2

theorem C25_bundle_discriminator_witness :
    (NewResourceMapper Strconv.zeroOnly).UnmarshalBundle Strconv.zeroOnly
        (.text (.obj patientOneMembers))
      = (some (.struct (fieldSet (fieldSet (zeroStruct (Bundle.fields Strconv.zeroOnly))
          "ResourceType" (.string "Patient")) "ID" (.string "1"))), none)
      ∧ HasDiscriminator patientOneMembers "Patient"
      ∧ (Val.struct (fieldSet (fieldSet (zeroStruct (Bundle.fields Strconv.zeroOnly))
          "ResourceType" (.string "Patient")) "ID" (.string "1"))).str "ResourceType"
        = "Patient" :=
  have hd : HasDiscriminator patientOneMembers "Patient" := ⟨by decide, rfl⟩
  ⟨rfl, hd, (C25_bundle_discriminator Strconv.zeroOnly (NewResourceMapper Strconv.zeroOnly)
    (.text (.obj patientOneMembers)) _ rfl).2 patientOneMembers "Patient" rfl hd⟩

/-- C28: for a mapper whose constructors make patients, as the default mapper is, and
every two object payloads that differ only in members whose keys select no field of
`Patient` (the members whose keys do are the same, in the same order),
`UnmarshalResource` returns the same for both: the same error, or no error and equal
resources; and every member of the object that `MarshalResource` returns for a decoded
resource has the JSON key of a field of `Patient`, so no member of the other kind
appears in it. -/
theorem C28_unmodelled_members (sc : Strconv) (m : ResourceMapper)
    (ms1 ms2 : List (String × JSON)) (hm : m.PatientsOnly)
    (h : Patient.modelledMembers sc ms1 = Patient.modelledMembers sc ms2) :
    m.UnmarshalResource sc (.text (.obj ms1)) = m.UnmarshalResource sc (.text (.obj ms2))
      ∧ ∀ r bytes, m.UnmarshalResource sc (.text (.obj ms1)) = (some r, none) →
          m.MarshalResource sc r = .ok bytes →
          ∃ out, bytes = .text (.obj out)
            ∧ ∀ kv ∈ out, kv.1 ∈ (Patient.goFields sc).map (·.key)
                ∧ Patient.modelled sc kv.1 = true := by
  constructor
  · rw [UnmarshalResource_modelled sc m hm ms1, UnmarshalResource_modelled sc m hm ms2, h]
  · intro r bytes hr hb
    obtain ⟨p, rfl⟩ := UnmarshalResource_patientsOnly sc m hm ms1 r hr
    exact Patient_MarshalJSON_keys sc p bytes hb

theorem C28_unmodelled_members_witness :
    (NewResourceMapper Strconv.zeroOnly).PatientsOnly
      ∧ Patient.modelled Strconv.zeroOnly "identifier" = false
      ∧ Patient.modelledMembers Strconv.zeroOnly identifierPatientMembers
          = Patient.modelledMembers Strconv.zeroOnly patientOneMembers
      ∧ (NewResourceMapper Strconv.zeroOnly).UnmarshalResource Strconv.zeroOnly
            (.text (.obj identifierPatientMembers))
          = (NewResourceMapper Strconv.zeroOnly).UnmarshalResource Strconv.zeroOnly
            (.text (.obj patientOneMembers)) := by
  have hm : (NewResourceMapper Strconv.zeroOnly).PatientsOnly := by
    intro t factory ht
    rw [NewResourceMapper_registry] at ht
    by_cases hp : t = "Patient"
    · rw [if_pos hp] at ht
      cases ht
      exact ⟨_, rfl⟩
    · rw [if_neg hp] at ht
      cases ht
  have hmod : Patient.modelledMembers Strconv.zeroOnly identifierPatientMembers
      = Patient.modelledMembers Strconv.zeroOnly patientOneMembers := rfl
  exact ⟨hm, by decide, hmod, (C28_unmodelled_members Strconv.zeroOnly
    (NewResourceMapper Strconv.zeroOnly) identifierPatientMembers patientOneMembers hm
    hmod).1⟩

/-- C24: for every Patient payload whose `deceasedBoolean` members are bools, the last
of them `b`, whose `deceasedDateTime` members are strings, the last of them a string
that `time.Parse` accepts as RFC 3339 and reads as `t`, and whose other members decode
without error, `Patient.UnmarshalJSON` returns no error and leaves `Deceased`
pointing to `b` and `DeceasedAt` pointing to `t`; and the object that `MarshalJSON`
returns for a Patient with both fields set has one `deceasedBoolean` member, the bool,
and one `deceasedDateTime` member, the time in RFC 3339. -/
theorem C24_deceased_pair (sc : Strconv) (p : Struct) (ms : List (String × JSON))
    (b : Bool) (s : String) (t : time.Time) (hp : Patient.hasType sc p)
    (hbs : ∀ j ∈ membersFor "deceasedBoolean" ms, j.isBool = true)
    (hbl : (membersFor "deceasedBoolean" ms).getLast? = some (.bool b))
    (hds : ∀ j ∈ membersFor "deceasedDateTime" ms, j.isString = true)
    (hdl : (membersFor "deceasedDateTime" ms).getLast? = some (.str s))
    (hparse : time.Parse .RFC3339 s = .ok t)
    (hother : (Patient.UnmarshalJSON sc p (.text (.obj (membersNotFor "deceasedBoolean"
      (membersNotFor "deceasedDateTime" ms))))).2 = none) :
    ((Patient.UnmarshalJSON sc p (.text (.obj ms))).2 = none
        ∧ (Patient.UnmarshalJSON sc p (.text (.obj ms))).1.lookup "Deceased"
            = some (.ptr (.bool b))
        ∧ timeField (Patient.UnmarshalJSON sc p (.text (.obj ms))).1 "DeceasedAt" = some t)
      ∧ ∀ (q : Struct) (bytes : Bytes) (b' : Bool) (t' : time.Time),
          Patient.hasType sc q → q.lookup "Deceased" = some (.ptr (.bool b')) →
          timeField q "DeceasedAt" = some t' → Patient.MarshalJSON sc q = .ok bytes →
          ∃ out, bytes = .text (.obj out)
            ∧ membersFor "deceasedBoolean" out = [.bool b']
            ∧ membersFor "deceasedDateTime" out = [.str (t'.Format .RFC3339)] := by
  constructor
  · -- the member loop has the errors it has without the two kinds of members
    obtain ⟨herr', hB', -⟩ := Patient_UnmarshalJSON_ok_inv sc p hp _ hother
    have herr : (aux.decode sc ms p).err = none := by
      rw [aux_decode_deceased_err sc p ms hbs hds]
      exact herr'
    have hclean := (Dec.err_eq_none_iff _).mp herr
    have hclean' := (Dec.err_eq_none_iff _).mp herr'
    obtain ⟨hb1, hd1⟩ := aux_decode_strings sc p hp ms hclean.2
    obtain ⟨hb2, -⟩ := aux_decode_strings sc p hp _ hclean'.2
    rw [membersFor_membersNotFor_ne _ _ _ (by decide),
      membersFor_membersNotFor_ne _ _ _ (by decide), ← hb1] at hb2
    rw [lastString_of_getLast _ _ _ hdl] at hd1
    have hsne : s ≠ "" := by
      intro e
      rw [e] at hparse
      cases hparse
    -- the birth date is parsed as it is without them
    have hB : ∃ vb, ((Val.struct (aux.decode sc ms p).val).str "aux.BirthDate" = ""
          ∧ vb = (aux.decode sc ms p).val.lookup "BirthDate")
        ∨ ((Val.struct (aux.decode sc ms p).val).str "aux.BirthDate" ≠ ""
          ∧ ∃ t, time.Parse .dateOnly
                ((Val.struct (aux.decode sc ms p).val).str "aux.BirthDate") = .ok t
              ∧ vb = some (.ptr (.time t))) := by
      rw [hb2] at hB'
      rcases hB' with ⟨he, -⟩ | ⟨hne, tb, hpb, -⟩
      · exact ⟨_, Or.inl ⟨he, rfl⟩⟩
      · exact ⟨_, Or.inr ⟨hne, tb, hpb, rfl⟩⟩
    obtain ⟨vb, hvb⟩ := hB
    obtain ⟨hok, -, -, hD⟩ := Patient_UnmarshalJSON_times sc p hp ms _ s vb
      (some (.ptr (.time t))) herr rfl hd1 hvb (Or.inr ⟨hsne, t, hparse, rfl⟩)
    refine ⟨hok, ?_, ?_⟩
    · obtain ⟨cur, hcur, -⟩ := structHasType_lookup (Patient.goFields sc)
        (Patient_fieldsOK sc).names p hp _ (aux_promoted_mem sc _ (deceased_mem sc))
      have := Patient_decode_field sc p hp ms hok _ (deceased_mem sc) cur hcur
      have hn : (opt "Deceased" "deceasedBoolean" (GoType.ptr GoType.bool)).name
          = "Deceased" := rfl
      have hk : (opt "Deceased" "deceasedBoolean" (GoType.ptr GoType.bool)).key
          = "deceasedBoolean" := rfl
      rw [hn, hk] at this
      rw [this, fieldAfter_ptr_bool _ _ _ b cur hbl]
    · simp only [timeField, hD]
  · intro q bytes b' t' hq hdec hat hm
    obtain ⟨out, hb, -, -, -, hD⟩ := Patient_encoded_times sc q bytes hq hm
    obtain ⟨out', bs, ds, hb', he, -⟩ := Patient_MarshalJSON_inv sc q bytes hm
    rw [hb] at hb'
    cases hb'
    refine ⟨out, hb, ?_, hD t' hat⟩
    have hl : (aux.state q bs ds).lookup "Deceased" = some (.ptr (.bool b')) := by
      rw [(aux_state_lookup sc q hq bs ds).2.2 "Deceased" (by decide) (by decide)]
      exact hdec
    obtain ⟨-, hemit⟩ := encodeFields_member (aux.fields sc) (aux.state q bs ds)
      (aux_foldOK sc) out he _ (aux_promoted_mem_fields sc _ (deceased_mem sc)) _ hl
    obtain ⟨j, hj, hmem⟩ := hemit rfl
    have hj' : j = .bool b' := by
      have e : (opt "Deceased" "deceasedBoolean" (GoType.ptr GoType.bool)).type.marshal
          (.ptr (.bool b')) = .ok (.bool b') := rfl
      rw [e] at hj
      cases hj
      rfl
    rw [← hj']
    exact hmem

theorem C24_deceased_pair_witness :
    Patient.hasType Strconv.zeroOnly (NewPatient Strconv.zeroOnly)
      ∧ membersFor "deceasedBoolean" bothDeceasedMembers = [.bool true]
      ∧ membersFor "deceasedDateTime" bothDeceasedMembers = [.str "2023-01-01T12:00:00Z"]
      ∧ time.Parse .RFC3339 "2023-01-01T12:00:00Z" = .ok ⟨2023, 1, 1, 12, 0, 0, 0, 0⟩
      ∧ membersNotFor "deceasedBoolean" (membersNotFor "deceasedDateTime" bothDeceasedMembers)
          = [("resourceType", .str "Patient")]
      ∧ ((Patient.UnmarshalJSON Strconv.zeroOnly (NewPatient Strconv.zeroOnly)
            (.text (.obj bothDeceasedMembers))).2 = none
          ∧ (Patient.UnmarshalJSON Strconv.zeroOnly (NewPatient Strconv.zeroOnly)
              (.text (.obj bothDeceasedMembers))).1.lookup "Deceased"
              = some (.ptr (.bool true))
          ∧ timeField (Patient.UnmarshalJSON Strconv.zeroOnly (NewPatient Strconv.zeroOnly)
              (.text (.obj bothDeceasedMembers))).1 "DeceasedAt"
              = some ⟨2023, 1, 1, 12, 0, 0, 0, 0⟩)
      ∧ ∃ out, Patient.MarshalJSON Strconv.zeroOnly (bothDeceasedPatient Strconv.zeroOnly)
            = .ok (.text (.obj out))
          ∧ membersFor "deceasedBoolean" out = [.bool true]
          ∧ membersFor "deceasedDateTime" out = [.str "2023-01-01T12:00:00Z"] := by
  have hbs : ∀ j ∈ membersFor "deceasedBoolean" bothDeceasedMembers, j.isBool = true := by
    intro j hj
    have e : membersFor "deceasedBoolean" bothDeceasedMembers = [.bool true] := rfl
    rw [e] at hj
    rw [List.mem_singleton.mp hj]
    rfl
  have hds : ∀ j ∈ membersFor "deceasedDateTime" bothDeceasedMembers,
      j.isString = true := by
    intro j hj
    have e : membersFor "deceasedDateTime" bothDeceasedMembers
        = [.str "2023-01-01T12:00:00Z"] := rfl
    rw [e] at hj
    rw [List.mem_singleton.mp hj]
    rfl
  have h := C24_deceased_pair Strconv.zeroOnly (NewPatient Strconv.zeroOnly)
    bothDeceasedMembers true "2023-01-01T12:00:00Z" ⟨2023, 1, 1, 12, 0, 0, 0, 0⟩
    (NewPatient_hasType _) hbs rfl hds rfl rfl rfl
  have hm : Patient.MarshalJSON Strconv.zeroOnly (bothDeceasedPatient Strconv.zeroOnly)
      = .ok (.text (.obj [("resourceType", .str "Patient"), ("deceasedBoolean", .bool true),
          ("deceasedDateTime", .str "2023-01-01T12:00:00Z")])) := rfl
  obtain ⟨out, ho, h1, h2⟩ := h.2 (bothDeceasedPatient Strconv.zeroOnly) _ true
    ⟨2023, 1, 1, 12, 0, 0, 0, 0⟩ rfl rfl rfl hm
  cases ho
  exact ⟨NewPatient_hasType _, rfl, rfl, rfl, rfl, h.1, _, hm, h1, h2⟩

end FhirClient
